import Mathlib

/-!
# VMTranslator: a verification development

A shallow embedding of `src/Main.cpp` (the `Parser`, the `CodeWriter` and the driver loop of
`main`) together with a model of the Hack target machine on which the emitted assembly runs.

Conventions of the embedding.

* The output stream of the `CodeWriter` is the list of the lines written so far; every element
  stands for the text of one line followed by `"\n"`.  A statement such as
  `output << "@SP\nAM=M-1\nD=M\n"` therefore appends the three lines `"@SP"`, `"AM=M-1"`, `"D=M"`.
* A C++ `int` is an `Int`.  `std::stoi` checks the 32-bit range itself; the label counter and
  `numArgs + 5` are not reduced modulo `2 ^ 32` (signed overflow is undefined in C++).  The
  theorems on the values of the label counter and on the distinctness of the synthesized labels
  therefore assume that the counter stays within the range of `int`, where `Int` and `int` agree.
* A module is the list of its text lines, in the order `std::getline` returns them.
-/

namespace VMTranslator

/-! ## Text helpers of the C++ standard library -/

/-- Decimal digits of a natural number, most significant first; `fuel` bounds the recursion. -/
def decimalDigits : Nat → Nat → List Char
  | 0, _ => []
  | fuel + 1, n =>
    if n < 10 then [Nat.digitChar n]
    else decimalDigits fuel (n / 10) ++ [Nat.digitChar (n % 10)]

/-- Decimal text of a natural number. -/
def natDecimal (n : Nat) : List Char := decimalDigits (n + 1) n

/-- Decimal text of an `int`, as `operator<<(int)` and `std::to_string(int)` produce it. -/
def decimal (i : Int) : String :=
  match i with
  | Int.ofNat n => String.mk (natDecimal n)
  | Int.negSucc n => String.mk ('-' :: natDecimal (n + 1))

/-- Whitespace in the sense of `std::isspace` in the "C" locale. -/
def isSpace (c : Char) : Bool :=
  c = ' ' || c = '\t' || c = '\n' || c = '\x0b' || c = '\x0c' || c = '\r'

/-- Value of a decimal digit character. -/
def digitValue (c : Char) : Nat := c.toNat - 48

/-- Value of a list of decimal digits, most significant first. -/
def digitsValue (cs : List Char) : Nat := cs.foldl (fun acc c => 10 * acc + digitValue c) 0

/-- Result of `std::stoi`: the value, or one of the two exceptions it throws. -/
inductive StoiResult where
  | value (i : Int)
  | invalidArgument
  | outOfRange
  deriving DecidableEq, Repr

/-- The optional sign read by `std::stoi`: whether the number is negative, and the text after
the sign. -/
def stoiSign : List Char → Bool × List Char
  | '-' :: r => (true, r)
  | '+' :: r => (false, r)
  | r => (false, r)

/-- The function `std::stoi(str)` with base 10: skip leading whitespace, read an optional sign and the
longest run of digits, ignore whatever follows; no digit is `std::invalid_argument`, a value
outside the 32-bit range is `std::out_of_range`. -/
def stoi (s : String) : StoiResult :=
  let signed := stoiSign (s.data.dropWhile isSpace)
  let ds := signed.2.takeWhile Char.isDigit
  if ds = [] then StoiResult.invalidArgument
  else
    let v : Int := if signed.1 then - (digitsValue ds : Int) else (digitsValue ds : Int)
    if v < -2147483648 ∨ 2147483647 < v then StoiResult.outOfRange else StoiResult.value v

/-- Position-free form of `std::string::find(needle) != npos`: `needle` occurs in `hay`. -/
def containsSub (needle : List Char) : List Char → Bool
  | [] => needle.isEmpty
  | c :: cs => needle.isPrefixOf (c :: cs) || containsSub needle cs

/-- The text before the first occurrence of `//`, as `line.substr(0, line.find("//"))`. -/
def stripComment : List Char → List Char
  | [] => []
  | '/' :: '/' :: _ => []
  | c :: cs => c :: stripComment cs

/-! ## Parser -/

/-- The enumeration `CommandType`. -/
inductive CommandType where
  | C_ARITHMETIC | C_PUSH | C_POP | C_LABEL | C_GOTO | C_IF | C_FUNCTION | C_RETURN | C_CALL
  | C_ERROR
  deriving DecidableEq, Repr

open CommandType

/-- The function `Parser::trim`: drop blanks and tabs at both ends. -/
def trim (s : List Char) : List Char :=
  let blank : Char → Bool := fun c => c = ' ' || c = '\t'
  ((s.dropWhile blank).reverse.dropWhile blank).reverse

/-- Worker of `split`: `cur` is the token being read, reversed. -/
def splitAux : List Char → List Char → List String
  | [], cur => if cur = [] then [] else [String.mk cur.reverse]
  | c :: cs, cur =>
    if isSpace c then
      (if cur = [] then splitAux cs [] else String.mk cur.reverse :: splitAux cs [])
    else splitAux cs (c :: cur)

/-- The function `Parser::split`: the whitespace-separated tokens that `ss >> token` yields. -/
def split (s : List Char) : List String := splitAux s []

/-- The function `Parser::isArithmetic`. -/
def isArithmetic (cmd : String) : Bool :=
  cmd = "add" || cmd = "sub" || cmd = "neg" || cmd = "eq" || cmd = "gt" || cmd = "lt" ||
  cmd = "and" || cmd = "or" || cmd = "not"

/-- The function `Parser::commandType`, on the token vector of the current command. -/
def commandType (tokens : List String) : CommandType :=
  match tokens with
  | [] => C_ERROR
  | cmd :: _ =>
    if cmd = "push" then C_PUSH
    else if cmd = "pop" then C_POP
    else if cmd = "label" then C_LABEL
    else if cmd = "goto" then C_GOTO
    else if cmd = "if-goto" then C_IF
    else if cmd = "function" then C_FUNCTION
    else if cmd = "call" then C_CALL
    else if cmd = "return" then C_RETURN
    else if isArithmetic cmd then C_ARITHMETIC
    else C_ERROR

/-- The function `Parser::arg1`. -/
def arg1 (tokens : List String) : String :=
  if commandType tokens = C_ARITHMETIC then tokens.headD ""
  else match tokens with
    | _ :: t :: _ => t
    | _ => ""

/-- The function `Parser::arg2`: `std::stoi` of the third token, `-1` when there is none. -/
def arg2 (tokens : List String) : StoiResult :=
  match tokens with
  | _ :: _ :: t :: _ => stoi t
  | _ => StoiResult.value (-1)

/-- Cleaning of one input line in `Parser::advance` and `Parser::hasSysInit`: cut the comment,
then trim. -/
def cleanLine (line : String) : List Char := trim (stripComment line.data)

/-- The function `Parser::hasSysInit` over the modules' lines: some cleaned line contains the text
`function Sys.init`. -/
def hasSysInit (vmFiles : List (String × List String)) : Bool :=
  vmFiles.any fun file =>
    file.2.any fun line => containsSub "function Sys.init".data (cleanLine line)

/-! ## CodeWriter -/

/-- The fields of `CodeWriter`; `output` is the list of lines written so far. -/
structure CodeWriter where
  output : List String
  currentFunction : String
  filename : String
  labelCounter : Int
  deriving DecidableEq, Repr

/-- A freshly constructed `CodeWriter`. -/
def CodeWriter.init : CodeWriter :=
  { output := [], currentFunction := "", filename := "", labelCounter := 0 }

/-- Append lines to the output stream. -/
def CodeWriter.emit (w : CodeWriter) (ls : List String) : CodeWriter :=
  { w with output := w.output ++ ls }

/-- The lines an operation appends to the output of `w`. -/
def emitted (op : CodeWriter → CodeWriter) (w : CodeWriter) : List String :=
  (op w).output.drop w.output.length

/-- The function `fs::path(name).stem().string()`: the last path component without its last extension. -/
def stem (name : String) : String :=
  let comp := ((name.data.reverse.takeWhile fun c => c ≠ '/').reverse)
  if comp = ['.'] ∨ comp = ['.', '.'] then String.mk comp
  else
    let ext := comp.reverse.takeWhile fun c => c ≠ '.'
    if ext.length = comp.length then String.mk comp
    else if ext.length + 1 = comp.length then String.mk comp
    else String.mk (comp.take (comp.length - ext.length - 1))

/-- The function `CodeWriter::setFileName`. -/
def setFileName (name : String) (w : CodeWriter) : CodeWriter :=
  { w with filename := stem name }

/-- The function `CodeWriter::pushValue`. -/
def pushValue (value : String) (w : CodeWriter) : CodeWriter :=
  w.emit ["@" ++ value, "D=A", "@SP", "A=M", "M=D", "@SP", "M=M+1"]

/-- The function `CodeWriter::pushSegment`. -/
def pushSegment (segment : String) (w : CodeWriter) : CodeWriter :=
  w.emit ["@" ++ segment, "D=M", "@SP", "A=M", "M=D", "@SP", "M=M+1"]

/-- The function `CodeWriter::restoreSegment`. -/
def restoreSegment (segment : String) (offset : Int) (w : CodeWriter) : CodeWriter :=
  w.emit ["@R13", "D=M", "@" ++ decimal offset, "A=D-A", "D=M", "@" ++ segment, "M=D"]

/-- The table `segmentMap` of `resolveSegmentAddress`; `operator[]` yields the empty string for a
segment that is not in the table. -/
def segmentMap (segment : String) : String :=
  if segment = "local" then "LCL"
  else if segment = "argument" then "ARG"
  else if segment = "this" then "THIS"
  else if segment = "that" then "THAT"
  else if segment = "temp" then "5"
  else if segment = "pointer" then "3"
  else ""

/-- The function `CodeWriter::resolveSegmentAddress`. -/
def resolveSegmentAddress (segment : String) (index : Int) (w : CodeWriter) : CodeWriter :=
  let base := segmentMap segment
  if segment = "temp" ∨ segment = "pointer" then
    w.emit ["@" ++ base, "D=A", "@" ++ decimal index, "A=D+A"]
  else
    w.emit ["@" ++ base, "D=M", "@" ++ decimal index, "A=D+A"]

/-- The function `CodeWriter::push`. -/
def push (segment : String) (index : Int) (w : CodeWriter) : CodeWriter :=
  let w1 :=
    if segment = "constant" then w.emit ["@" ++ decimal index, "D=A"]
    else if segment = "static" then w.emit ["@" ++ w.filename ++ "." ++ decimal index, "D=M"]
    else if segment = "pointer" then
      w.emit ["@" ++ (if index = 0 then "THIS" else "THAT"), "D=M"]
    else (resolveSegmentAddress segment index w).emit ["D=M"]
  w1.emit ["@SP", "A=M", "M=D", "@SP", "M=M+1"]

/-- The function `CodeWriter::pop`. -/
def pop (segment : String) (index : Int) (w : CodeWriter) : CodeWriter :=
  if segment = "static" then
    w.emit ["@SP", "AM=M-1", "D=M", "@" ++ w.filename ++ "." ++ decimal index, "M=D"]
  else if segment = "pointer" then
    w.emit ["@SP", "AM=M-1", "D=M", "@" ++ (if index = 0 then "THIS" else "THAT"), "M=D"]
  else
    (resolveSegmentAddress segment index w).emit
      ["D=A", "@R13", "M=D", "@SP", "AM=M-1", "D=M", "@R13", "A=M", "M=D"]

/-- The function `CodeWriter::binaryOp`. -/
def binaryOp (op : String) (w : CodeWriter) : CodeWriter :=
  let w1 := w.emit ["@SP", "AM=M-1", "D=M", "A=A-1"]
  if op = "add" then w1.emit ["M=D+M"]
  else if op = "sub" then w1.emit ["M=M-D"]
  else if op = "and" then w1.emit ["M=D&M"]
  else if op = "or" then w1.emit ["M=D|M"]
  else w1

/-- The function `CodeWriter::unaryOp`. -/
def unaryOp (op : String) (w : CodeWriter) : CodeWriter :=
  let w1 := w.emit ["@SP", "A=M-1"]
  if op = "neg" then w1.emit ["M=-M"]
  else if op = "not" then w1.emit ["M=!M"]
  else w1

/-- The function `CodeWriter::getJumpCondition`. -/
def getJumpCondition (op : String) : String :=
  if op = "eq" then "EQ"
  else if op = "gt" then "GT"
  else if op = "lt" then "LT"
  else ""

/-- The function `CodeWriter::compareOp`.  The counter is incremented in `Int`; it is the `int` of the
source as long as it stays below `2147483647`. -/
def compareOp (op : String) (w : CodeWriter) : CodeWriter :=
  let label := "COMP_" ++ decimal w.labelCounter
  let w1 : CodeWriter := { w with labelCounter := w.labelCounter + 1 }
  w1.emit
    ["@SP", "AM=M-1", "D=M", "A=A-1", "D=M-D",
     "@" ++ label ++ "_TRUE",
     "D;J" ++ getJumpCondition op,
     "@SP", "A=M-1", "M=0", "@" ++ label ++ "_END", "0;JMP",
     "(" ++ label ++ "_TRUE)", "@SP", "A=M-1", "M=-1",
     "(" ++ label ++ "_END)"]

/-- The function `CodeWriter::writeArithmetic`. -/
def writeArithmetic (command : String) (w : CodeWriter) : CodeWriter :=
  let w1 := w.emit ["// " ++ command]
  if command = "add" ∨ command = "sub" ∨ command = "and" ∨ command = "or" then binaryOp command w1
  else if command = "neg" ∨ command = "not" then unaryOp command w1
  else compareOp command w1

/-- The function `CodeWriter::writePushPop`. -/
def writePushPop (type : CommandType) (segment : String) (index : Int) (w : CodeWriter) :
    CodeWriter :=
  let w1 := w.emit
    ["// " ++ (if type = C_PUSH then "push" else "pop") ++ " " ++ segment ++ " " ++ decimal index]
  if type = C_PUSH then push segment index w1 else pop segment index w1

/-- The function `CodeWriter::writeLabel`. -/
def writeLabel (label : String) (w : CodeWriter) : CodeWriter :=
  let w1 := w.emit ["// label " ++ label]
  if w.currentFunction = "" then w1.emit ["(" ++ label ++ ")"]
  else w1.emit ["(" ++ w.currentFunction ++ "$" ++ label ++ ")"]

/-- The function `CodeWriter::writeGoto`. -/
def writeGoto (label : String) (w : CodeWriter) : CodeWriter :=
  let w1 := w.emit ["// goto " ++ label]
  if w.currentFunction = "" then w1.emit ["@" ++ label, "0;JMP"]
  else w1.emit ["@" ++ w.currentFunction ++ "$" ++ label, "0;JMP"]

/-- The function `CodeWriter::writeIf`. -/
def writeIf (label : String) (w : CodeWriter) : CodeWriter :=
  let w1 := w.emit ["// if-goto " ++ label, "@SP", "AM=M-1", "D=M"]
  if w.currentFunction = "" then w1.emit ["@" ++ label, "D;JNE"]
  else w1.emit ["@" ++ w.currentFunction ++ "$" ++ label, "D;JNE"]

/-- The function `CodeWriter::writeFunction`. -/
def writeFunction (functionName : String) (numVars : Int) (w : CodeWriter) : CodeWriter :=
  let w1 := w.emit ["// function " ++ functionName ++ " " ++ decimal numVars]
  let w2 : CodeWriter := { w1 with currentFunction := functionName }
  let w3 := w2.emit ["(" ++ functionName ++ ")"]
  Nat.iterate (push "constant" 0) numVars.toNat w3

/-- The function `CodeWriter::writeCall`.  The counter is incremented and `numArgs + 5` is formed in
`Int`; they are the `int` values of the source as long as they stay within `2147483647`. -/
def writeCall (functionName : String) (numArgs : Int) (w : CodeWriter) : CodeWriter :=
  let w1 := w.emit ["// call " ++ functionName ++ " " ++ decimal numArgs]
  let returnLabel := w1.currentFunction ++ "$ret." ++ decimal w1.labelCounter
  let w2 : CodeWriter := { w1 with labelCounter := w1.labelCounter + 1 }
  let w3 := pushValue returnLabel w2
  let w4 := pushSegment "LCL" w3
  let w5 := pushSegment "ARG" w4
  let w6 := pushSegment "THIS" w5
  let w7 := pushSegment "THAT" w6
  let w8 := w7.emit ["@SP", "D=M", "@" ++ decimal (numArgs + 5), "D=D-A", "@ARG", "M=D"]
  let w9 := w8.emit ["@SP", "D=M", "@LCL", "M=D"]
  let w10 := w9.emit ["@" ++ functionName, "0;JMP"]
  w10.emit ["(" ++ returnLabel ++ ")"]

/-- The function `CodeWriter::writeReturn`. -/
def writeReturn (w : CodeWriter) : CodeWriter :=
  let w1 := w.emit ["// return"]
  let w2 := w1.emit ["@LCL", "D=M", "@R13", "M=D"]
  let w3 := w2.emit ["@5", "D=D-A", "A=D", "D=M", "@R14", "M=D"]
  let w4 := w3.emit ["@SP", "AM=M-1", "D=M", "@ARG", "A=M", "M=D"]
  let w5 := w4.emit ["@ARG", "D=M+1", "@SP", "M=D"]
  let w6 := restoreSegment "THAT" 1 w5
  let w7 := restoreSegment "THIS" 2 w6
  let w8 := restoreSegment "ARG" 3 w7
  let w9 := restoreSegment "LCL" 4 w8
  w9.emit ["@R14", "A=M", "0;JMP"]

/-- The function `CodeWriter::writeInit`. -/
def writeInit (w : CodeWriter) : CodeWriter :=
  let w1 := w.emit ["// Bootstrap initialization"]
  let w2 := w1.emit ["@256", "D=A", "@SP", "M=D"]
  writeCall "Sys.init" 0 w2

/-! ## Driver -/

/-- One iteration of the body of the `while` loop of `main` for a command with the given tokens;
`none` is the uncaught exception of `std::stoi`, which terminates the run. -/
def dispatch (tokens : List String) (w : CodeWriter) : Option CodeWriter :=
  match commandType tokens with
  | C_ERROR => some w
  | C_ARITHMETIC => some (writeArithmetic (arg1 tokens) w)
  | C_PUSH =>
    match arg2 tokens with
    | StoiResult.value i => some (writePushPop C_PUSH (arg1 tokens) i w)
    | _ => none
  | C_POP =>
    match arg2 tokens with
    | StoiResult.value i => some (writePushPop C_POP (arg1 tokens) i w)
    | _ => none
  | C_LABEL => some (writeLabel (arg1 tokens) w)
  | C_GOTO => some (writeGoto (arg1 tokens) w)
  | C_IF => some (writeIf (arg1 tokens) w)
  | C_FUNCTION =>
    match arg2 tokens with
    | StoiResult.value i => some (writeFunction (arg1 tokens) i w)
    | _ => none
  | C_CALL =>
    match arg2 tokens with
    | StoiResult.value i => some (writeCall (arg1 tokens) i w)
    | _ => none
  | C_RETURN => some (writeReturn w)

/-- The function `Parser::advance` followed by the dispatch, for one line of the module: a line that is empty
after cleaning is passed over by the `do ... while` loop of `advance`. -/
def translateLine (line : String) (w : CodeWriter) : Option CodeWriter :=
  let cleaned := cleanLine line
  if cleaned = [] then some w else dispatch (split cleaned) w

/-- The inner `while (parser.hasMoreCommands())` loop of `main` over the lines of one module. -/
def translateLines : List String → CodeWriter → Option CodeWriter
  | [], w => some w
  | line :: rest, w =>
    match translateLine line w with
    | some w1 => translateLines rest w1
    | none => none

/-- The `for (const auto& file : vmFiles)` loop of `main`; a module is its path and its lines. -/
def translateFiles : List (String × List String) → CodeWriter → Option CodeWriter
  | [], w => some w
  | file :: rest, w =>
    match translateLines file.2 (setFileName file.1 w) with
    | some w1 => translateFiles rest w1
    | none => none

/-- The translation part of `main` (from the construction of the `CodeWriter` on): the bootstrap decision and
the loop over the modules.  The result is the final writer, `none` when the run is terminated by
an exception. -/
def translate (vmFiles : List (String × List String)) : Option CodeWriter :=
  let writer := CodeWriter.init
  let writer1 := if hasSysInit vmFiles then writeInit writer else writer
  translateFiles vmFiles writer1

/-! ## The Hack target machine

The emitted text is Hack assembly.  The machine below is the Hack computer of the platform the
translator targets: a 16-bit `A` and `D` register, a program counter, a RAM addressed by the low
15 bits of `A`, and a ROM holding the assembled program.  Words are natural numbers below `2 ^ 16`;
a signed reading is taken where the hardware takes one (the jump conditions). -/

namespace Hack

/-- The 28 computations of a C-instruction. -/
inductive Comp where
  | zero | one | negOne | d | a | m | notD | notA | notM | negD | negA | negM
  | dPlus1 | aPlus1 | mPlus1 | dMinus1 | aMinus1 | mMinus1
  | dPlusA | dPlusM | dMinusA | dMinusM | aMinusD | mMinusD | dAndA | dAndM | dOrA | dOrM
  deriving DecidableEq, Repr

/-- The jump field of a C-instruction. -/
inductive Jump where
  | null | JGT | JEQ | JGE | JLT | JNE | JLE | JMP
  deriving DecidableEq, Repr

/-- The destination field of a C-instruction: which of `A`, `D`, `M` receive the result. -/
structure Dest where
  a : Bool
  d : Bool
  m : Bool
  deriving DecidableEq, Repr

/-- An instruction in ROM.  The operand of an A-instruction is kept as written; it is resolved
against the symbol table when the instruction executes. -/
inductive Instr where
  | A (sym : String)
  | C (dest : Dest) (comp : Comp) (jump : Jump)
  | invalid
  deriving DecidableEq, Repr

/-- A line of assembly text after parsing. -/
inductive Line where
  | comment
  | label (name : String)
  | instr (i : Instr)
  deriving DecidableEq, Repr

/-- The mnemonics of the computation field. -/
def parseComp (s : String) : Option Comp :=
  if s = "0" then some Comp.zero
  else if s = "1" then some Comp.one
  else if s = "-1" then some Comp.negOne
  else if s = "D" then some Comp.d
  else if s = "A" then some Comp.a
  else if s = "M" then some Comp.m
  else if s = "!D" then some Comp.notD
  else if s = "!A" then some Comp.notA
  else if s = "!M" then some Comp.notM
  else if s = "-D" then some Comp.negD
  else if s = "-A" then some Comp.negA
  else if s = "-M" then some Comp.negM
  else if s = "D+1" then some Comp.dPlus1
  else if s = "A+1" then some Comp.aPlus1
  else if s = "M+1" then some Comp.mPlus1
  else if s = "D-1" then some Comp.dMinus1
  else if s = "A-1" then some Comp.aMinus1
  else if s = "M-1" then some Comp.mMinus1
  else if s = "D+A" then some Comp.dPlusA
  else if s = "D+M" then some Comp.dPlusM
  else if s = "D-A" then some Comp.dMinusA
  else if s = "D-M" then some Comp.dMinusM
  else if s = "A-D" then some Comp.aMinusD
  else if s = "M-D" then some Comp.mMinusD
  else if s = "D&A" then some Comp.dAndA
  else if s = "D&M" then some Comp.dAndM
  else if s = "D|A" then some Comp.dOrA
  else if s = "D|M" then some Comp.dOrM
  else none

/-- The mnemonics of the destination field; the empty text stores nowhere. -/
def parseDest (s : String) : Option Dest :=
  if s = "" then some ⟨false, false, false⟩
  else if s = "M" then some ⟨false, false, true⟩
  else if s = "D" then some ⟨false, true, false⟩
  else if s = "MD" then some ⟨false, true, true⟩
  else if s = "A" then some ⟨true, false, false⟩
  else if s = "AM" then some ⟨true, false, true⟩
  else if s = "AD" then some ⟨true, true, false⟩
  else if s = "AMD" then some ⟨true, true, true⟩
  else none

/-- The mnemonics of the jump field; the empty text does not jump. -/
def parseJump (s : String) : Option Jump :=
  if s = "" then some Jump.null
  else if s = "JGT" then some Jump.JGT
  else if s = "JEQ" then some Jump.JEQ
  else if s = "JGE" then some Jump.JGE
  else if s = "JLT" then some Jump.JLT
  else if s = "JNE" then some Jump.JNE
  else if s = "JLE" then some Jump.JLE
  else if s = "JMP" then some Jump.JMP
  else none

/-- A C-instruction `dest=comp;jump`, both `dest=` and `;jump` optional. -/
def parseC (cs : List Char) : Instr :=
  let dr : List Char × List Char :=
    if '=' ∈ cs then (cs.takeWhile (fun c => c ≠ '='), (cs.dropWhile (fun c => c ≠ '=')).drop 1)
    else ([], cs)
  let c := dr.2.takeWhile (fun c => c ≠ ';')
  let j := (dr.2.dropWhile (fun c => c ≠ ';')).drop 1
  match parseDest (String.mk dr.1), parseComp (String.mk c), parseJump (String.mk j) with
  | some d, some c, some j => Instr.C d c j
  | _, _, _ => Instr.invalid

/-- One line of assembly text: a comment, a label definition `(name)`, an A-instruction `@operand`
or a C-instruction. -/
def parseLine (s : String) : Line :=
  match s.data with
  | [] => Line.comment
  | '/' :: '/' :: _ => Line.comment
  | '(' :: rest => Line.label (String.mk rest.dropLast)
  | '@' :: rest => Line.instr (Instr.A (String.mk rest))
  | cs => Line.instr (parseC cs)

/-- The instructions of a parsed text, in ROM order. -/
def romOf : List Line → List Instr
  | [] => []
  | Line.instr i :: rest => i :: romOf rest
  | _ :: rest => romOf rest

/-- First pass of the assembler: every label with the ROM address of the next instruction; `pc` is the
address of the next instruction to be placed. -/
def labelTable : List Line → Nat → List (String × Nat)
  | [], _ => []
  | Line.label n :: rest, pc => (n, pc) :: labelTable rest pc
  | Line.instr _ :: rest, pc => labelTable rest (pc + 1)
  | Line.comment :: rest, pc => labelTable rest pc

/-- The predefined symbols of the Hack assembly language. -/
def predefined : List (String × Nat) :=
  [("SP", 0), ("LCL", 1), ("ARG", 2), ("THIS", 3), ("THAT", 4),
   ("R0", 0), ("R1", 1), ("R2", 2), ("R3", 3), ("R4", 4), ("R5", 5), ("R6", 6), ("R7", 7),
   ("R8", 8), ("R9", 9), ("R10", 10), ("R11", 11), ("R12", 12), ("R13", 13), ("R14", 14),
   ("R15", 15), ("SCREEN", 16384), ("KBD", 24576)]

/-- An operand made of decimal digits only is a constant. -/
def isNumeral (s : String) : Bool := !s.data.isEmpty && s.data.all Char.isDigit

/-- An assembled program: the ROM and the label table. -/
structure Program where
  rom : List Instr
  labels : List (String × Nat)
  deriving Repr

/-- The assembler: parse every line, place the instructions, record the labels. -/
def assemble (text : List String) : Program :=
  let ls := text.map parseLine
  { rom := romOf ls, labels := labelTable ls 0 }

/-- An operand that is neither a constant nor predefined nor a label is a variable. -/
def Program.isVariable (p : Program) (sym : String) : Bool :=
  !isNumeral sym && (predefined.lookup sym).isNone && (p.labels.lookup sym).isNone

/-- The variables of a program in the order of their first use. -/
def Program.variables (p : Program) : List String :=
  p.rom.foldl
    (fun vars i =>
      match i with
      | Instr.A sym => if p.isVariable sym && !vars.contains sym then vars ++ [sym] else vars
      | _ => vars)
    []

/-- Value of the operand of an A-instruction: a constant below `2 ^ 15`, a predefined symbol, a label,
or a variable, allocated from RAM address 16 on in the order of first use. -/
def Program.resolve (p : Program) (sym : String) : Option Nat :=
  if isNumeral sym then
    (if digitsValue sym.data < 32768 then some (digitsValue sym.data) else none)
  else
    match predefined.lookup sym with
    | some v => some v
    | none =>
      match p.labels.lookup sym with
      | some v => some v
      | none => some (16 + p.variables.indexOf sym)

/-- The registers, the program counter and the RAM. -/
structure State where
  a : Nat
  d : Nat
  pc : Nat
  ram : Nat → Nat

/-- The RAM with the cell at `addr` set to `v`. -/
def store (ram : Nat → Nat) (addr v : Nat) : Nat → Nat :=
  fun k => if k = addr then v else ram k

/-- The ALU: the 16-bit result of a computation on the words `a`, `d` and `m`. -/
def compute (c : Comp) (a d m : Nat) : Nat :=
  match c with
  | Comp.zero => 0
  | Comp.one => 1
  | Comp.negOne => 65535
  | Comp.d => d
  | Comp.a => a
  | Comp.m => m
  | Comp.notD => 65535 - d
  | Comp.notA => 65535 - a
  | Comp.notM => 65535 - m
  | Comp.negD => (65536 - d) % 65536
  | Comp.negA => (65536 - a) % 65536
  | Comp.negM => (65536 - m) % 65536
  | Comp.dPlus1 => (d + 1) % 65536
  | Comp.aPlus1 => (a + 1) % 65536
  | Comp.mPlus1 => (m + 1) % 65536
  | Comp.dMinus1 => if d = 0 then 65535 else d - 1
  | Comp.aMinus1 => if a = 0 then 65535 else a - 1
  | Comp.mMinus1 => if m = 0 then 65535 else m - 1
  | Comp.dPlusA => (d + a) % 65536
  | Comp.dPlusM => (d + m) % 65536
  | Comp.dMinusA => (d + 65536 - a) % 65536
  | Comp.dMinusM => (d + 65536 - m) % 65536
  | Comp.aMinusD => (a + 65536 - d) % 65536
  | Comp.mMinusD => (m + 65536 - d) % 65536
  | Comp.dAndA => d &&& a
  | Comp.dAndM => d &&& m
  | Comp.dOrA => d ||| a
  | Comp.dOrM => d ||| m

/-- The two's-complement reading of a 16-bit word. -/
def toSigned (v : Nat) : Int := if v < 32768 then (v : Int) else (v : Int) - 65536

/-- Whether the jump is taken for the ALU result `v`, read as a signed 16-bit word. -/
def jumps (j : Jump) (v : Nat) : Bool :=
  match j with
  | Jump.null => false
  | Jump.JGT => decide (0 < toSigned v)
  | Jump.JEQ => decide (toSigned v = 0)
  | Jump.JGE => decide (0 ≤ toSigned v)
  | Jump.JLT => decide (toSigned v < 0)
  | Jump.JNE => decide (toSigned v ≠ 0)
  | Jump.JLE => decide (toSigned v ≤ 0)
  | Jump.JMP => true

/-- Execution of one fetched instruction.  `M` is the RAM cell addressed by the low 15 bits of `A`
before the instruction; a jump goes to the ROM address in `A`. -/
def execInstr (p : Program) (i : Instr) (s : State) : Option State :=
  match i with
  | Instr.A sym =>
    match p.resolve sym with
    | some v => some { s with a := v, pc := s.pc + 1 }
    | none => none
  | Instr.C dest comp jump =>
    let v := compute comp s.a s.d (s.ram (s.a % 32768))
    some
      { a := if dest.a then v else s.a
        d := if dest.d then v else s.d
        pc := if jumps jump v then s.a else s.pc + 1
        ram := if dest.m then store s.ram (s.a % 32768) v else s.ram }
  | Instr.invalid => none

/-- One machine cycle: fetch the instruction at `pc` and execute it; `none` when there is none. -/
def step (p : Program) (s : State) : Option State :=
  match p.rom.get? s.pc with
  | some i => execInstr p i s
  | none => none

/-- Run `n` machine cycles. -/
def runN (p : Program) : Nat → State → Option State
  | 0, s => some s
  | n + 1, s =>
    match step p s with
    | some s1 => runN p n s1
    | none => none

end Hack

end VMTranslator

namespace VMTranslator

namespace Hack

/-- Execute a list of instructions one after the other, without fetching. -/
def execSeq (p : Program) : List Instr → State → Option State
  | [], s => some s
  | i :: is, s =>
    match execInstr p i s with
    | some s1 => execSeq p is s1
    | none => none

/-- An instruction that always continues with the next one. -/
def noJump : Instr → Bool
  | Instr.A _ => true
  | Instr.C _ _ Jump.null => true
  | _ => false

/-- The fragment `frag` sits in `rom` from address `pc` on. -/
def CodeAt (rom : List Instr) (pc : Nat) (frag : List Instr) : Prop :=
  ∃ pre post, rom = pre ++ frag ++ post ∧ pre.length = pc

end Hack

end VMTranslator

namespace VMTranslator

/-- The effective address that the segment table of the specification (§4.2) assigns to `segment index`
in a machine whose RAM is `ram`: base pointer plus index for `local`, `argument`, `this`, `that`
(base pointers in `RAM[1..4]`), `5 + index` for `temp`, the `THIS` cell (3) for `pointer 0` and the
`THAT` cell (4) for the other `pointer` index.  Addresses are taken in the 15-bit address space
of the RAM. -/
def segmentTableAddress (ram : Nat → Nat) (segment : String) (index : Nat) : Nat :=
  if segment = "local" then (ram 1 + index) % 32768
  else if segment = "argument" then (ram 2 + index) % 32768
  else if segment = "this" then (ram 3 + index) % 32768
  else if segment = "that" then (ram 4 + index) % 32768
  else if segment = "temp" then (5 + index) % 32768
  else if index = 0 then 3 else 4

end VMTranslator

namespace VMTranslator

namespace Hack

/-- A name that the assembler treats as a label or a variable: neither a constant nor a predefined
symbol. -/
def isUserSymbol (s : String) : Bool := !isNumeral s && (predefined.lookup s).isNone

end Hack

end VMTranslator

namespace VMTranslator

/-- A well-formed decimal integer in the sense of claim C9: an optional sign followed by one or
more decimal digits and nothing else. -/
def isDecimalInteger (s : String) : Bool :=
  match s.data with
  | '-' :: ds => !ds.isEmpty && ds.all Char.isDigit
  | '+' :: ds => !ds.isEmpty && ds.all Char.isDigit
  | ds => !ds.isEmpty && ds.all Char.isDigit

end VMTranslator

namespace VMTranslator

open CommandType

/-- The names defined by the label lines `(name)` among the lines of an assembly text. -/
def labelDefs (lines : List String) : List String :=
  (Hack.labelTable (lines.map Hack.parseLine) 0).map Prod.fst

/-- A command for which the generator synthesizes labels of its own: a call, or an arithmetic command
that `writeArithmetic` hands to `compareOp`. -/
def synthesizes (tokens : List String) : Bool :=
  commandType tokens = C_CALL ||
    (commandType tokens = C_ARITHMETIC &&
      !(arg1 tokens = "add" || arg1 tokens = "sub" || arg1 tokens = "and" ||
        arg1 tokens = "or" || arg1 tokens = "neg" || arg1 tokens = "not"))

/-- The labels defined in the code emitted for the comparison and call commands among the lines of one
module, in the order of emission; the traversal is that of `translateLines`. -/
def synthLabelsLines : List String → CodeWriter → List String
  | [], _ => []
  | line :: rest, w =>
    match translateLine line w with
    | some w1 =>
      (if cleanLine line ≠ [] ∧ synthesizes (split (cleanLine line)) = true then
        labelDefs (w1.output.drop w.output.length) else []) ++ synthLabelsLines rest w1
    | none => []

/-- The labels defined in the code emitted for the comparison and call commands of the modules; the
traversal is that of `translateFiles`. -/
def synthLabelsFiles : List (String × List String) → CodeWriter → List String
  | [], _ => []
  | file :: rest, w =>
    match translateLines file.2 (setFileName file.1 w) with
    | some w1 => synthLabelsLines file.2 (setFileName file.1 w) ++ synthLabelsFiles rest w1
    | none => synthLabelsLines file.2 (setFileName file.1 w)

/-- All labels synthesized in one run of `translate`: the return label of the bootstrap call, when
there is one, then those of the modules. -/
def synthLabels (vmFiles : List (String × List String)) : List String :=
  if hasSysInit vmFiles then
    labelDefs (writeInit CodeWriter.init).output ++
      synthLabelsFiles vmFiles (writeInit CodeWriter.init)
  else synthLabelsFiles vmFiles CodeWriter.init

/-- The label `l` is one of the three synthesized names built from the counter value `n`. -/
def Indexed (l : String) (n : Int) : Prop :=
  l = "COMP_" ++ decimal n ++ "_TRUE" ∨ l = "COMP_" ++ decimal n ++ "_END" ∨
    ∃ cf : String, l = cf ++ "$ret." ++ decimal n

/-- The labels `ls` are pairwise distinct and each is built from a counter value in `lo .. hi - 1`. -/
def FreshBetween (ls : List String) (lo hi : Int) : Prop :=
  ls.Nodup ∧ ∀ l ∈ ls, ∃ n, lo ≤ n ∧ n < hi ∧ Indexed l n

end VMTranslator
namespace VMTranslator
open CommandType

/-- A stack instruction of the VM language: an arithmetic command, a push or a pop. -/
inductive StackCommand where
  | arithmetic (command : String)
  | push (segment : String) (index : Int)
  | pop (segment : String) (index : Int)
  deriving DecidableEq, Repr

/-- What the `switch` of `main` calls for a stack instruction (the cases `C_ARITHMETIC`, `C_PUSH`
and `C_POP`). -/
def StackCommand.write : StackCommand → CodeWriter → CodeWriter
  | StackCommand.arithmetic command, w => writeArithmetic command w
  | StackCommand.push segment index, w => writePushPop C_PUSH segment index w
  | StackCommand.pop segment index, w => writePushPop C_POP segment index w

/-- The writer after a sequence of stack instructions, translated one after the other. -/
def writeAll : List StackCommand → CodeWriter → CodeWriter
  | [], w => w
  | c :: cs, w => writeAll cs (c.write w)

/-- The declared net stack-depth delta of an instruction (specification, §8): `+1` for a push,
`-1` for a pop, `-1` for a binary or comparison command, `0` for `neg` and `not`. -/
def declaredDelta : StackCommand → Int
  | StackCommand.push _ _ => 1
  | StackCommand.pop _ _ => -1
  | StackCommand.arithmetic command => if command = "neg" ∨ command = "not" then 0 else -1

/-- The number of operands an instruction takes from the stack. -/
def operandCount : StackCommand → Nat
  | StackCommand.push _ _ => 0
  | StackCommand.pop _ _ => 1
  | StackCommand.arithmetic command => if command = "neg" ∨ command = "not" then 1 else 2

/-- The number of cells by which an instruction lets the stack grow beyond its present top. -/
def growth : StackCommand → Nat
  | StackCommand.push _ _ => 1
  | _ => 0

/-- A stack instruction of the VM language proper: one of the nine arithmetic commands, a push
from one of the eight segments, or a pop to one of the seven segments that can be written, with
an index in `0..32767`. -/
def StackCommand.wellFormed : StackCommand → Bool
  | StackCommand.arithmetic command =>
    decide (command ∈ ["add", "sub", "neg", "eq", "gt", "lt", "and", "or", "not"])
  | StackCommand.push segment index =>
    decide (segment ∈
      ["constant", "local", "argument", "this", "that", "temp", "pointer", "static"]) &&
      decide (0 ≤ index) && decide (index ≤ 32767)
  | StackCommand.pop segment index =>
    decide (segment ∈ ["local", "argument", "this", "that", "temp", "pointer", "static"]) &&
      decide (0 ≤ index) && decide (index ≤ 32767)

/-- Enough operands and enough room: started with stack pointer `sp`, every instruction of the
sequence finds its operands on the stack, which begins at `base`, and the stack stays within the
RAM. -/
def stackFits (base : Nat) : List StackCommand → Int → Bool
  | [], _ => true
  | c :: cs, sp =>
    decide ((base : Int) + operandCount c ≤ sp) && decide (sp + growth c ≤ 32768) &&
      stackFits base cs (sp + declaredDelta c)

/-- The RAM address into which the code of `pop segment index` stores: the address the assembler
gives the symbol `filename.index` for `static`, the address of the segment table otherwise. -/
def popAddress (p : Hack.Program) (w : CodeWriter) (ram : Nat → Nat) (segment : String)
    (index : Int) : Nat :=
  if segment = "static" then
    match p.resolve (w.filename ++ "." ++ decimal index) with
    | some v => v % 32768
    | none => 0
  else segmentTableAddress ram segment index.toNat

end VMTranslator
namespace VMTranslator
open CommandType

/-- A command that draws a value from the label counter, in the words of the specification: a
comparison (`eq`, `gt`, `lt`) or a `call`, recognised by its first token. -/
def usesCounter (tokens : List String) : Bool :=
  match tokens with
  | [] => false
  | cmd :: _ => cmd = "eq" || cmd = "gt" || cmd = "lt" || cmd = "call"

/-- Number of comparison and call instructions among the lines of the modules. -/
def countCounterUses (vmFiles : List (String × List String)) : Nat :=
  (vmFiles.map fun file => file.2.countP fun line => usesCounter (split (cleanLine line))).sum

/-- The number of values that a run of `translate` draws from the label counter when it translates
every line: one for the bootstrap call, when there is one, and one for every comparison and call
instruction of the modules.  While this number is at most `2147483647` (`INT_MAX`), no
`labelCounter++` of the run overflows, and the counter of the embedding is the `int` of the
source. -/
def counterDraws (vmFiles : List (String × List String)) : Nat :=
  (if hasSysInit vmFiles then 1 else 0) + countCounterUses vmFiles

end VMTranslator
namespace VMTranslator
open CommandType

/-- The classification table of the specification (§4.1, §6): the instruction kind that a first
token announces, by exact match; a token that is not in the table announces a malformed
instruction. -/
def keywordKind (token : String) : CommandType :=
  match [("push", C_PUSH), ("pop", C_POP), ("label", C_LABEL), ("goto", C_GOTO),
      ("if-goto", C_IF), ("function", C_FUNCTION), ("call", C_CALL), ("return", C_RETURN),
      ("add", C_ARITHMETIC), ("sub", C_ARITHMETIC), ("neg", C_ARITHMETIC),
      ("eq", C_ARITHMETIC), ("gt", C_ARITHMETIC), ("lt", C_ARITHMETIC),
      ("and", C_ARITHMETIC), ("or", C_ARITHMETIC), ("not", C_ARITHMETIC)].lookup token with
  | some kind => kind
  | none => C_ERROR

end VMTranslator
namespace VMTranslator
open CommandType

/-- A command that defines a label of the program text: `label` or `function`. -/
def definesLabel (tokens : List String) : Bool :=
  commandType tokens = C_LABEL || commandType tokens = C_FUNCTION

/-- The labels defined in the code emitted for the `label` and `function` commands among the lines
of one module, in the order of emission; the traversal is that of `translateLines`. -/
def userLabelsLines : List String → CodeWriter → List String
  | [], _ => []
  | line :: rest, w =>
    match translateLine line w with
    | some w1 =>
      (if cleanLine line ≠ [] ∧ definesLabel (split (cleanLine line)) = true then
        labelDefs (w1.output.drop w.output.length) else []) ++ userLabelsLines rest w1
    | none => []

/-- The labels defined in the code emitted for the `label` and `function` commands of the modules;
the traversal is that of `translateFiles`. -/
def userLabelsFiles : List (String × List String) → CodeWriter → List String
  | [], _ => []
  | file :: rest, w =>
    match translateLines file.2 (setFileName file.1 w) with
    | some w1 => userLabelsLines file.2 (setFileName file.1 w) ++ userLabelsFiles rest w1
    | none => userLabelsLines file.2 (setFileName file.1 w)

/-- All labels that the `label` and `function` commands define in one run of `translate`. -/
def userLabels (vmFiles : List (String × List String)) : List String :=
  if hasSysInit vmFiles then userLabelsFiles vmFiles (writeInit CodeWriter.init)
  else userLabelsFiles vmFiles CodeWriter.init

/-- A label or function name that keeps clear of the names the generator synthesizes: it contains
no `$` and begins neither with `COMP_` nor with `ret.`. -/
def isPlainName (name : String) : Bool :=
  !name.data.contains '$' && !"COMP_".data.isPrefixOf name.data &&
    !"ret.".data.isPrefixOf name.data

/-- Every `label` and `function` command of the modules names a plain name. -/
def namesArePlain (vmFiles : List (String × List String)) : Bool :=
  vmFiles.all fun file => file.2.all fun line =>
    !definesLabel (split (cleanLine line)) || isPlainName (arg1 (split (cleanLine line)))

/-- The form of a name defined by a `label` or `function` command with a plain name: the plain
name itself, or a plain label name scoped by a function name without `$`. -/
def UserShaped (l : String) : Prop :=
  isPlainName l = true ∨
    ∃ cf L : String, '$' ∉ cf.data ∧ isPlainName L = true ∧ l = cf ++ "$" ++ L

/-- The form of a synthesized name: a comparison label, or a return label scoped by a function
name without `$`. -/
def SynthShaped (l : String) : Prop :=
  (∃ n : Int, l = "COMP_" ++ decimal n ++ "_TRUE" ∨ l = "COMP_" ++ decimal n ++ "_END") ∨
    ∃ (cf : String) (n : Int), '$' ∉ cf.data ∧ l = cf ++ "$ret." ++ decimal n

end VMTranslator
namespace VMTranslator

/-- A character allowed in a symbol of the Hack assembly language: a letter, a digit, `_`, `.`,
`$` or `:`. -/
def isSymbolChar (c : Char) : Bool :=
  c.isAlpha || c.isDigit || c = '_' || c = '.' || c = '$' || c = ':'

/-- A symbol of the Hack assembly language: a non-empty sequence of symbol characters that does not
begin with a digit. -/
def isSymbolName (s : String) : Bool :=
  match s.data with
  | [] => false
  | c :: cs => !c.isDigit && (c :: cs).all isSymbolChar

/-- A module name from which `filename.index` is a symbol: symbol characters only, not beginning
with a digit; the empty name is allowed. -/
def isSymbolPrefix (s : String) : Bool :=
  match s.data with
  | [] => true
  | c :: cs => !c.isDigit && (c :: cs).all isSymbolChar

/-- The operands of the A-instructions (the lines beginning with `@`) of an assembly text. -/
def addressOperands (lines : List String) : List String :=
  lines.filterMap fun line =>
    match line.data with
    | '@' :: rest => some (String.mk rest)
    | _ => none

end VMTranslator
namespace VMTranslator

/-! ## Decimal text -/

theorem decimalDigits_fuel : ∀ fuel n, n < fuel → decimalDigits fuel n = decimalDigits (n + 1) n := by
  intro fuel
  induction fuel using Nat.strong_induction_on with
  | _ fuel ih =>
    intro n hn
    cases fuel with
    | zero => omega
    | succ fuel =>
      by_cases h10 : n < 10
      · simp [decimalDigits, h10]
      · have hdiv : n / 10 < n := Nat.div_lt_self (by omega) (by omega)
        simp only [decimalDigits, h10, if_false]
        rw [ih fuel (by omega) (n / 10) (by omega), ih n (by omega) (n / 10) hdiv]

theorem natDecimal_eq (n : Nat) :
    natDecimal n =
      if n < 10 then [Nat.digitChar n] else natDecimal (n / 10) ++ [Nat.digitChar (n % 10)] := by
  have hdef : ∀ k, natDecimal k = decimalDigits (k + 1) k := fun _ => rfl
  by_cases h10 : n < 10
  · simp [hdef, decimalDigits, h10]
  · have hdiv : n / 10 < n := Nat.div_lt_self (by omega) (by omega)
    rw [hdef n]
    simp only [decimalDigits, h10, if_false]
    rw [decimalDigits_fuel n (n / 10) hdiv, hdef (n / 10)]

theorem digitChar_isDigit (d : Nat) (h : d < 10) : (Nat.digitChar d).isDigit = true := by
  interval_cases d <;> rfl

theorem digitValue_digitChar (d : Nat) (h : d < 10) : digitValue (Nat.digitChar d) = d := by
  interval_cases d <;> rfl

theorem natDecimal_ne_nil (n : Nat) : natDecimal n ≠ [] := by
  rw [natDecimal_eq]
  split <;> simp

theorem natDecimal_isDigit (n : Nat) : ∀ c ∈ natDecimal n, c.isDigit = true := by
  induction n using Nat.strong_induction_on with
  | _ n ih =>
    intro c hc
    rw [natDecimal_eq] at hc
    by_cases h10 : n < 10
    · simp only [h10, if_true, List.mem_singleton] at hc
      subst hc
      exact digitChar_isDigit n h10
    · simp only [h10, if_false, List.mem_append, List.mem_singleton] at hc
      rcases hc with hc | hc
      · exact ih (n / 10) (Nat.div_lt_self (by omega) (by omega)) c hc
      · subst hc
        exact digitChar_isDigit _ (Nat.mod_lt _ (by omega))

theorem digitsValue_append (cs : List Char) (c : Char) :
    digitsValue (cs ++ [c]) = 10 * digitsValue cs + digitValue c := by
  simp [digitsValue, List.foldl_append]

theorem digitsValue_natDecimal (n : Nat) : digitsValue (natDecimal n) = n := by
  induction n using Nat.strong_induction_on with
  | _ n ih =>
    rw [natDecimal_eq]
    by_cases h10 : n < 10
    · simp only [h10, if_true]
      simp [digitsValue, digitValue_digitChar n h10]
    · simp only [h10, if_false]
      rw [digitsValue_append, ih (n / 10) (Nat.div_lt_self (by omega) (by omega)),
        digitValue_digitChar _ (Nat.mod_lt _ (by omega))]
      omega

theorem natDecimal_injective {m n : Nat} (h : natDecimal m = natDecimal n) : m = n := by
  have := congrArg digitsValue h
  rwa [digitsValue_natDecimal, digitsValue_natDecimal] at this

theorem decimal_ofNat (n : Nat) : decimal (n : Int) = String.mk (natDecimal n) := rfl

theorem decimal_data_ne_nil (i : Int) : (decimal i).data ≠ [] := by
  cases i with
  | ofNat n => exact natDecimal_ne_nil n
  | negSucc n => simp [decimal]

theorem decimal_injective {i j : Int} (h : decimal i = decimal j) : i = j := by
  have hd : ∀ n, ∀ c ∈ natDecimal n, c ≠ '-' := by
    intro n c hc hce
    have := natDecimal_isDigit n c hc
    subst hce
    exact absurd this (by decide)
  cases i with
  | ofNat m =>
    cases j with
    | ofNat n =>
      have h := congrArg String.data h
      simp only [decimal] at h
      rw [natDecimal_injective h]
    | negSucc n =>
      have h := congrArg String.data h
      simp only [decimal] at h
      have hm := hd m '-' (by rw [h]; simp)
      exact absurd rfl hm
  | negSucc m =>
    cases j with
    | ofNat n =>
      have h := congrArg String.data h
      simp only [decimal] at h
      have hm := hd n '-' (by rw [← h]; simp)
      exact absurd rfl hm
    | negSucc n =>
      have h := congrArg String.data h
      simp only [decimal, List.cons.injEq, true_and] at h
      have := natDecimal_injective h
      rw [show m = n by omega]

/-- Every character of the decimal text of an `int` is a digit or the sign. -/
theorem decimal_chars (i : Int) : ∀ c ∈ (decimal i).data, c.isDigit = true ∨ c = '-' := by
  intro c hc
  cases i with
  | ofNat n => exact Or.inl (natDecimal_isDigit n c hc)
  | negSucc n =>
    simp only [decimal, List.mem_cons] at hc
    rcases hc with hc | hc
    · exact Or.inr hc
    · exact Or.inl (natDecimal_isDigit _ c hc)

end VMTranslator
namespace VMTranslator
open CommandType
namespace Hack

/-! ## Assembler and execution lemmas -/

theorem romOf_append (l1 l2 : List Line) : romOf (l1 ++ l2) = romOf l1 ++ romOf l2 := by
  induction l1 with
  | nil => rfl
  | cons x xs ih => cases x <;> simp [romOf, ih]

theorem labelTable_append (l1 l2 : List Line) (pc : Nat) :
    labelTable (l1 ++ l2) pc = labelTable l1 pc ++ labelTable l2 (pc + (romOf l1).length) := by
  induction l1 generalizing pc with
  | nil => simp [labelTable, romOf]
  | cons x xs ih =>
    cases x with
    | comment => simp [labelTable, romOf, ih]
    | label n => simp [labelTable, romOf, ih]
    | instr i => simp [labelTable, romOf, ih, Nat.add_assoc, Nat.add_comm 1]

theorem parseLine_at (x : String) : parseLine ("@" ++ x) = Line.instr (Instr.A x) := by
  simp [parseLine]

theorem parseLine_label (x : String) : parseLine ("(" ++ x ++ ")") = Line.label x := by
  simp [parseLine]

theorem parseLine_comment (x : String) : parseLine ("// " ++ x) = Line.comment := by
  simp [parseLine]

theorem codeAt_head {rom : List Instr} {pc : Nat} {i : Instr} {frag : List Instr}
    (h : CodeAt rom pc (i :: frag)) : rom.get? pc = some i := by
  obtain ⟨pre, post, rfl, rfl⟩ := h
  rw [List.append_assoc, List.get?_eq_getElem?, List.getElem?_append_right (Nat.le_refl _)]
  simp

theorem codeAt_tail {rom : List Instr} {pc : Nat} {i : Instr} {frag : List Instr}
    (h : CodeAt rom pc (i :: frag)) : CodeAt rom (pc + 1) frag := by
  obtain ⟨pre, post, rfl, rfl⟩ := h
  exact ⟨pre ++ [i], post, by simp, by simp⟩

theorem codeAt_left {rom : List Instr} {pc : Nat} {f1 f2 : List Instr}
    (h : CodeAt rom pc (f1 ++ f2)) : CodeAt rom pc f1 := by
  obtain ⟨pre, post, rfl, rfl⟩ := h
  exact ⟨pre, f2 ++ post, by simp, rfl⟩

theorem codeAt_right {rom : List Instr} {pc : Nat} {f1 f2 : List Instr}
    (h : CodeAt rom pc (f1 ++ f2)) : CodeAt rom (pc + f1.length) f2 := by
  obtain ⟨pre, post, rfl, rfl⟩ := h
  exact ⟨pre ++ f1, post, by simp, by simp⟩

theorem codeAt_zero (frag post : List Instr) : CodeAt (frag ++ post) 0 frag :=
  ⟨[], post, by simp, rfl⟩

theorem execInstr_pc {p : Program} {i : Instr} {s s1 : State} (hi : noJump i = true)
    (h : execInstr p i s = some s1) : s1.pc = s.pc + 1 := by
  cases i with
  | A sym =>
    simp only [execInstr] at h
    split at h
    · simp only [Option.some.injEq] at h; rw [← h]
    · exact absurd h (by simp)
  | C dest comp jump =>
    cases jump <;> simp [noJump] at hi
    simp only [execInstr, jumps, Option.some.injEq] at h
    rw [← h]; simp
  | invalid => simp [noJump] at hi

theorem runN_add (p : Program) (m n : Nat) (s : State) :
    runN p (m + n) s = (runN p m s).bind (runN p n) := by
  induction m generalizing s with
  | zero => simp [runN]
  | succ m ih =>
    rw [Nat.add_right_comm]
    simp only [runN]
    cases step p s with
    | none => rfl
    | some s1 => exact ih s1

theorem runN_execSeq (p : Program) (frag : List Instr) :
    ∀ (s : State), CodeAt p.rom s.pc frag → (∀ i ∈ frag, noJump i = true) →
      runN p frag.length s = execSeq p frag s := by
  induction frag with
  | nil => intro s _ _; rfl
  | cons i frag ih =>
    intro s hc hj
    simp only [List.length_cons, runN, step, codeAt_head hc, execSeq]
    cases h : execInstr p i s with
    | none => rfl
    | some s1 =>
      have hpc := execInstr_pc (hj i (List.mem_cons_self _ _)) h
      exact ih s1 (by rw [hpc]; exact codeAt_tail hc) (fun j hjm => hj j (List.mem_cons_of_mem _ hjm))

end Hack
end VMTranslator
namespace VMTranslator
open CommandType
namespace Hack

theorem isNumeral_decimal (n : Nat) : isNumeral (decimal (n : Int)) = true := by
  have h1 := natDecimal_ne_nil n
  have h2 := natDecimal_isDigit n
  simp only [isNumeral, decimal_ofNat, Bool.and_eq_true, Bool.not_eq_true', List.isEmpty_eq_false,
    List.all_eq_true]
  exact ⟨h1, h2⟩

theorem resolve_decimal (p : Program) (n : Nat) (h : n < 32768) :
    p.resolve (decimal (n : Int)) = some n := by
  have hn := isNumeral_decimal n
  rw [decimal_ofNat] at hn
  simp only [Program.resolve, hn, if_true, decimal_ofNat, digitsValue_natDecimal, h]

theorem resolve_SP (p : Program) : p.resolve "SP" = some 0 := rfl
theorem resolve_LCL (p : Program) : p.resolve "LCL" = some 1 := rfl
theorem resolve_ARG (p : Program) : p.resolve "ARG" = some 2 := rfl
theorem resolve_THIS (p : Program) : p.resolve "THIS" = some 3 := rfl
theorem resolve_THAT (p : Program) : p.resolve "THAT" = some 4 := rfl
theorem resolve_R13 (p : Program) : p.resolve "R13" = some 13 := rfl
theorem parseLine_D_eq_A : parseLine "D=A" = Line.instr (Instr.C ⟨false, true, false⟩ Comp.a Jump.null) := by
  simp [parseLine, parseC, parseDest, parseComp, parseJump]
theorem parseLine_A_eq_M : parseLine "A=M" = Line.instr (Instr.C ⟨true, false, false⟩ Comp.m Jump.null) := by
  simp [parseLine, parseC, parseDest, parseComp, parseJump]
theorem parseLine_M_eq_D : parseLine "M=D" = Line.instr (Instr.C ⟨false, false, true⟩ Comp.d Jump.null) := by
  simp [parseLine, parseC, parseDest, parseComp, parseJump]
theorem parseLine_M_eq_M_plus_1 : parseLine "M=M+1" = Line.instr (Instr.C ⟨false, false, true⟩ Comp.mPlus1 Jump.null) := by
  simp [parseLine, parseC, parseDest, parseComp, parseJump]
theorem parseLine_AM_eq_M_minus_1 : parseLine "AM=M-1" = Line.instr (Instr.C ⟨true, false, true⟩ Comp.mMinus1 Jump.null) := by
  simp [parseLine, parseC, parseDest, parseComp, parseJump]
theorem parseLine_D_eq_M : parseLine "D=M" = Line.instr (Instr.C ⟨false, true, false⟩ Comp.m Jump.null) := by
  simp [parseLine, parseC, parseDest, parseComp, parseJump]
theorem parseLine_A_eq_A_minus_1 : parseLine "A=A-1" = Line.instr (Instr.C ⟨true, false, false⟩ Comp.aMinus1 Jump.null) := by
  simp [parseLine, parseC, parseDest, parseComp, parseJump]
theorem parseLine_M_eq_D_plus_M : parseLine "M=D+M" = Line.instr (Instr.C ⟨false, false, true⟩ Comp.dPlusM Jump.null) := by
  simp [parseLine, parseC, parseDest, parseComp, parseJump]
theorem parseLine_M_eq_M_minus_D : parseLine "M=M-D" = Line.instr (Instr.C ⟨false, false, true⟩ Comp.mMinusD Jump.null) := by
  simp [parseLine, parseC, parseDest, parseComp, parseJump]
theorem parseLine_M_eq_D_and_M : parseLine "M=D&M" = Line.instr (Instr.C ⟨false, false, true⟩ Comp.dAndM Jump.null) := by
  simp [parseLine, parseC, parseDest, parseComp, parseJump]
theorem parseLine_M_eq_D_or_M : parseLine "M=D|M" = Line.instr (Instr.C ⟨false, false, true⟩ Comp.dOrM Jump.null) := by
  simp [parseLine, parseC, parseDest, parseComp, parseJump]
theorem parseLine_A_eq_M_minus_1 : parseLine "A=M-1" = Line.instr (Instr.C ⟨true, false, false⟩ Comp.mMinus1 Jump.null) := by
  simp [parseLine, parseC, parseDest, parseComp, parseJump]
theorem parseLine_M_eq_minus_M : parseLine "M=-M" = Line.instr (Instr.C ⟨false, false, true⟩ Comp.negM Jump.null) := by
  simp [parseLine, parseC, parseDest, parseComp, parseJump]
theorem parseLine_M_eq_not_M : parseLine "M=!M" = Line.instr (Instr.C ⟨false, false, true⟩ Comp.notM Jump.null) := by
  simp [parseLine, parseC, parseDest, parseComp, parseJump]
theorem parseLine_D_eq_M_minus_D : parseLine "D=M-D" = Line.instr (Instr.C ⟨false, true, false⟩ Comp.mMinusD Jump.null) := by
  simp [parseLine, parseC, parseDest, parseComp, parseJump]
theorem parseLine_D_JEQ : parseLine "D;JEQ" = Line.instr (Instr.C ⟨false, false, false⟩ Comp.d Jump.JEQ) := by
  simp [parseLine, parseC, parseDest, parseComp, parseJump]
theorem parseLine_D_JGT : parseLine "D;JGT" = Line.instr (Instr.C ⟨false, false, false⟩ Comp.d Jump.JGT) := by
  simp [parseLine, parseC, parseDest, parseComp, parseJump]
theorem parseLine_D_JLT : parseLine "D;JLT" = Line.instr (Instr.C ⟨false, false, false⟩ Comp.d Jump.JLT) := by
  simp [parseLine, parseC, parseDest, parseComp, parseJump]
theorem parseLine_M_eq_0 : parseLine "M=0" = Line.instr (Instr.C ⟨false, false, true⟩ Comp.zero Jump.null) := by
  simp [parseLine, parseC, parseDest, parseComp, parseJump]
theorem parseLine_0_JMP : parseLine "0;JMP" = Line.instr (Instr.C ⟨false, false, false⟩ Comp.zero Jump.JMP) := by
  simp [parseLine, parseC, parseDest, parseComp, parseJump]
theorem parseLine_M_eq_minus_1 : parseLine "M=-1" = Line.instr (Instr.C ⟨false, false, true⟩ Comp.negOne Jump.null) := by
  simp [parseLine, parseC, parseDest, parseComp, parseJump]
theorem parseLine_A_eq_D_plus_A : parseLine "A=D+A" = Line.instr (Instr.C ⟨true, false, false⟩ Comp.dPlusA Jump.null) := by
  simp [parseLine, parseC, parseDest, parseComp, parseJump]
theorem parseLine_D_eq_D_minus_A : parseLine "D=D-A" = Line.instr (Instr.C ⟨false, true, false⟩ Comp.dMinusA Jump.null) := by
  simp [parseLine, parseC, parseDest, parseComp, parseJump]
theorem parseLine_D_eq_M_plus_1 : parseLine "D=M+1" = Line.instr (Instr.C ⟨false, true, false⟩ Comp.mPlus1 Jump.null) := by
  simp [parseLine, parseC, parseDest, parseComp, parseJump]
theorem parseLine_A_eq_D : parseLine "A=D" = Line.instr (Instr.C ⟨true, false, false⟩ Comp.d Jump.null) := by
  simp [parseLine, parseC, parseDest, parseComp, parseJump]
theorem parseLine_A_eq_D_minus_A : parseLine "A=D-A" = Line.instr (Instr.C ⟨true, false, false⟩ Comp.dMinusA Jump.null) := by
  simp [parseLine, parseC, parseDest, parseComp, parseJump]
theorem parseLine_D_JNE : parseLine "D;JNE" = Line.instr (Instr.C ⟨false, false, false⟩ Comp.d Jump.JNE) := by
  simp [parseLine, parseC, parseDest, parseComp, parseJump]

theorem execSeq_A (p : Program) (sym : String) (v : Nat) (rest : List Instr) (a d pc : Nat) (ram : Nat → Nat)
    (h : p.resolve sym = some v) :
    execSeq p (Instr.A sym :: rest) ⟨a, d, pc, ram⟩ = execSeq p rest ⟨v, d, pc + 1, ram⟩ := by
  simp [execSeq, execInstr, h]

theorem execSeq_D_eq_A (p : Program) (rest : List Instr) (a d pc : Nat) (ram : Nat → Nat) :
    execSeq p (Instr.C ⟨false, true, false⟩ Comp.a Jump.null :: rest) ⟨a, d, pc, ram⟩ =
      execSeq p rest ⟨a, a, pc + 1, ram⟩ := by
  simp [execSeq, execInstr, jumps, compute]

theorem execSeq_A_eq_M (p : Program) (rest : List Instr) (a d pc : Nat) (ram : Nat → Nat) :
    execSeq p (Instr.C ⟨true, false, false⟩ Comp.m Jump.null :: rest) ⟨a, d, pc, ram⟩ =
      execSeq p rest ⟨ram (a % 32768), d, pc + 1, ram⟩ := by
  simp [execSeq, execInstr, jumps, compute]

theorem execSeq_M_eq_D (p : Program) (rest : List Instr) (a d pc : Nat) (ram : Nat → Nat) :
    execSeq p (Instr.C ⟨false, false, true⟩ Comp.d Jump.null :: rest) ⟨a, d, pc, ram⟩ =
      execSeq p rest ⟨a, d, pc + 1, store ram (a % 32768) d⟩ := by
  simp [execSeq, execInstr, jumps, compute]

theorem execSeq_M_eq_M_plus_1 (p : Program) (rest : List Instr) (a d pc : Nat) (ram : Nat → Nat) :
    execSeq p (Instr.C ⟨false, false, true⟩ Comp.mPlus1 Jump.null :: rest) ⟨a, d, pc, ram⟩ =
      execSeq p rest ⟨a, d, pc + 1, store ram (a % 32768) ((ram (a % 32768) + 1) % 65536)⟩ := by
  simp [execSeq, execInstr, jumps, compute]

theorem execSeq_AM_eq_M_minus_1 (p : Program) (rest : List Instr) (a d pc : Nat) (ram : Nat → Nat) :
    execSeq p (Instr.C ⟨true, false, true⟩ Comp.mMinus1 Jump.null :: rest) ⟨a, d, pc, ram⟩ =
      execSeq p rest ⟨(if ram (a % 32768) = 0 then 65535 else ram (a % 32768) - 1), d, pc + 1, store ram (a % 32768) (if ram (a % 32768) = 0 then 65535 else ram (a % 32768) - 1)⟩ := by
  simp [execSeq, execInstr, jumps, compute]

theorem execSeq_D_eq_M (p : Program) (rest : List Instr) (a d pc : Nat) (ram : Nat → Nat) :
    execSeq p (Instr.C ⟨false, true, false⟩ Comp.m Jump.null :: rest) ⟨a, d, pc, ram⟩ =
      execSeq p rest ⟨a, ram (a % 32768), pc + 1, ram⟩ := by
  simp [execSeq, execInstr, jumps, compute]

theorem execSeq_A_eq_A_minus_1 (p : Program) (rest : List Instr) (a d pc : Nat) (ram : Nat → Nat) :
    execSeq p (Instr.C ⟨true, false, false⟩ Comp.aMinus1 Jump.null :: rest) ⟨a, d, pc, ram⟩ =
      execSeq p rest ⟨(if a = 0 then 65535 else a - 1), d, pc + 1, ram⟩ := by
  simp [execSeq, execInstr, jumps, compute]

theorem execSeq_M_eq_D_plus_M (p : Program) (rest : List Instr) (a d pc : Nat) (ram : Nat → Nat) :
    execSeq p (Instr.C ⟨false, false, true⟩ Comp.dPlusM Jump.null :: rest) ⟨a, d, pc, ram⟩ =
      execSeq p rest ⟨a, d, pc + 1, store ram (a % 32768) ((d + ram (a % 32768)) % 65536)⟩ := by
  simp [execSeq, execInstr, jumps, compute]

theorem execSeq_M_eq_M_minus_D (p : Program) (rest : List Instr) (a d pc : Nat) (ram : Nat → Nat) :
    execSeq p (Instr.C ⟨false, false, true⟩ Comp.mMinusD Jump.null :: rest) ⟨a, d, pc, ram⟩ =
      execSeq p rest ⟨a, d, pc + 1, store ram (a % 32768) ((ram (a % 32768) + 65536 - d) % 65536)⟩ := by
  simp [execSeq, execInstr, jumps, compute]

theorem execSeq_M_eq_D_and_M (p : Program) (rest : List Instr) (a d pc : Nat) (ram : Nat → Nat) :
    execSeq p (Instr.C ⟨false, false, true⟩ Comp.dAndM Jump.null :: rest) ⟨a, d, pc, ram⟩ =
      execSeq p rest ⟨a, d, pc + 1, store ram (a % 32768) (d &&& ram (a % 32768))⟩ := by
  simp [execSeq, execInstr, jumps, compute]

theorem execSeq_M_eq_D_or_M (p : Program) (rest : List Instr) (a d pc : Nat) (ram : Nat → Nat) :
    execSeq p (Instr.C ⟨false, false, true⟩ Comp.dOrM Jump.null :: rest) ⟨a, d, pc, ram⟩ =
      execSeq p rest ⟨a, d, pc + 1, store ram (a % 32768) (d ||| ram (a % 32768))⟩ := by
  simp [execSeq, execInstr, jumps, compute]

theorem execSeq_A_eq_M_minus_1 (p : Program) (rest : List Instr) (a d pc : Nat) (ram : Nat → Nat) :
    execSeq p (Instr.C ⟨true, false, false⟩ Comp.mMinus1 Jump.null :: rest) ⟨a, d, pc, ram⟩ =
      execSeq p rest ⟨(if ram (a % 32768) = 0 then 65535 else ram (a % 32768) - 1), d, pc + 1, ram⟩ := by
  simp [execSeq, execInstr, jumps, compute]

theorem execSeq_M_eq_minus_M (p : Program) (rest : List Instr) (a d pc : Nat) (ram : Nat → Nat) :
    execSeq p (Instr.C ⟨false, false, true⟩ Comp.negM Jump.null :: rest) ⟨a, d, pc, ram⟩ =
      execSeq p rest ⟨a, d, pc + 1, store ram (a % 32768) ((65536 - ram (a % 32768)) % 65536)⟩ := by
  simp [execSeq, execInstr, jumps, compute]

theorem execSeq_M_eq_not_M (p : Program) (rest : List Instr) (a d pc : Nat) (ram : Nat → Nat) :
    execSeq p (Instr.C ⟨false, false, true⟩ Comp.notM Jump.null :: rest) ⟨a, d, pc, ram⟩ =
      execSeq p rest ⟨a, d, pc + 1, store ram (a % 32768) (65535 - ram (a % 32768))⟩ := by
  simp [execSeq, execInstr, jumps, compute]

theorem execSeq_D_eq_M_minus_D (p : Program) (rest : List Instr) (a d pc : Nat) (ram : Nat → Nat) :
    execSeq p (Instr.C ⟨false, true, false⟩ Comp.mMinusD Jump.null :: rest) ⟨a, d, pc, ram⟩ =
      execSeq p rest ⟨a, ((ram (a % 32768) + 65536 - d) % 65536), pc + 1, ram⟩ := by
  simp [execSeq, execInstr, jumps, compute]

theorem execSeq_M_eq_0 (p : Program) (rest : List Instr) (a d pc : Nat) (ram : Nat → Nat) :
    execSeq p (Instr.C ⟨false, false, true⟩ Comp.zero Jump.null :: rest) ⟨a, d, pc, ram⟩ =
      execSeq p rest ⟨a, d, pc + 1, store ram (a % 32768) 0⟩ := by
  simp [execSeq, execInstr, jumps, compute]

theorem execSeq_M_eq_minus_1 (p : Program) (rest : List Instr) (a d pc : Nat) (ram : Nat → Nat) :
    execSeq p (Instr.C ⟨false, false, true⟩ Comp.negOne Jump.null :: rest) ⟨a, d, pc, ram⟩ =
      execSeq p rest ⟨a, d, pc + 1, store ram (a % 32768) 65535⟩ := by
  simp [execSeq, execInstr, jumps, compute]

theorem execSeq_A_eq_D_plus_A (p : Program) (rest : List Instr) (a d pc : Nat) (ram : Nat → Nat) :
    execSeq p (Instr.C ⟨true, false, false⟩ Comp.dPlusA Jump.null :: rest) ⟨a, d, pc, ram⟩ =
      execSeq p rest ⟨((d + a) % 65536), d, pc + 1, ram⟩ := by
  simp [execSeq, execInstr, jumps, compute]

theorem execSeq_D_eq_D_minus_A (p : Program) (rest : List Instr) (a d pc : Nat) (ram : Nat → Nat) :
    execSeq p (Instr.C ⟨false, true, false⟩ Comp.dMinusA Jump.null :: rest) ⟨a, d, pc, ram⟩ =
      execSeq p rest ⟨a, ((d + 65536 - a) % 65536), pc + 1, ram⟩ := by
  simp [execSeq, execInstr, jumps, compute]

theorem execSeq_D_eq_M_plus_1 (p : Program) (rest : List Instr) (a d pc : Nat) (ram : Nat → Nat) :
    execSeq p (Instr.C ⟨false, true, false⟩ Comp.mPlus1 Jump.null :: rest) ⟨a, d, pc, ram⟩ =
      execSeq p rest ⟨a, ((ram (a % 32768) + 1) % 65536), pc + 1, ram⟩ := by
  simp [execSeq, execInstr, jumps, compute]

theorem execSeq_A_eq_D (p : Program) (rest : List Instr) (a d pc : Nat) (ram : Nat → Nat) :
    execSeq p (Instr.C ⟨true, false, false⟩ Comp.d Jump.null :: rest) ⟨a, d, pc, ram⟩ =
      execSeq p rest ⟨d, d, pc + 1, ram⟩ := by
  simp [execSeq, execInstr, jumps, compute]

theorem execSeq_A_eq_D_minus_A (p : Program) (rest : List Instr) (a d pc : Nat) (ram : Nat → Nat) :
    execSeq p (Instr.C ⟨true, false, false⟩ Comp.dMinusA Jump.null :: rest) ⟨a, d, pc, ram⟩ =
      execSeq p rest ⟨((d + 65536 - a) % 65536), d, pc + 1, ram⟩ := by
  simp [execSeq, execInstr, jumps, compute]

theorem execSeq_nil (p : Program) (s : State) : execSeq p [] s = some s := rfl

theorem store_same (ram : Nat → Nat) (addr v : Nat) : store ram addr v addr = v := by
  simp [store]

theorem store_ne (ram : Nat → Nat) (addr v k : Nat) (h : k ≠ addr) : store ram addr v k = ram k := by
  simp [store, h]

theorem runN_whole (p : Program) (s : State) (hpc : s.pc = 0)
    (hj : ∀ i ∈ p.rom, noJump i = true) : runN p p.rom.length s = execSeq p p.rom s :=
  runN_execSeq p p.rom s (by rw [hpc]; simpa using codeAt_zero p.rom []) hj

end Hack
end VMTranslator
namespace VMTranslator
open CommandType
namespace Hack

theorem codeAt_slice (rom : List Instr) (pc n : Nat) (h : pc + n ≤ rom.length) :
    CodeAt rom pc ((rom.drop pc).take n) := by
  refine ⟨rom.take pc, rom.drop (pc + n), ?_, ?_⟩
  · have h1 : (rom.drop pc).take n ++ rom.drop (pc + n) = rom.drop pc := by
      rw [← List.drop_drop, List.take_append_drop]
    rw [List.append_assoc, h1, List.take_append_drop]
  · rw [List.length_take]; omega

theorem runN_slice (p : Program) (s : State) (n : Nat) (hn : s.pc + n ≤ p.rom.length)
    (hj : ∀ i ∈ (p.rom.drop s.pc).take n, noJump i = true) :
    runN p n s = execSeq p ((p.rom.drop s.pc).take n) s := by
  have h := runN_execSeq p ((p.rom.drop s.pc).take n) s (codeAt_slice p.rom s.pc n hn) hj
  rwa [List.length_take, List.length_drop, Nat.min_eq_left (by omega)] at h

theorem runN_one (p : Program) (s : State) (i : Instr) (h : p.rom.get? s.pc = some i) :
    runN p 1 s = execInstr p i s := by
  simp only [runN, step, h]
  cases execInstr p i s <;> rfl

theorem lookup_eq_none {l : List (String × Nat)} {s : String} (h : ∀ kv ∈ l, kv.1 ≠ s) :
    l.lookup s = none := by
  induction l with
  | nil => rfl
  | cons kv l ih =>
    obtain ⟨k, v⟩ := kv
    have hk : k ≠ s := h (k, v) (List.mem_cons_self _ _)
    have hb : (s == k) = false := by simpa using fun e => hk e.symm
    simp only [List.lookup, hb]
    exact ih fun kv hkv => h kv (List.mem_cons_of_mem _ hkv)

/-- No predefined symbol contains a character outside the capital letters and digits they use. -/
theorem predefined_lookup_none (s : String) (c : Char) (hc : c ∈ s.data)
    (h : c.isUpper = false ∧ c.isDigit = false) : predefined.lookup s = none := by
  apply lookup_eq_none
  intro kv hkv hs
  have hall : ∀ kv ∈ predefined, ∀ c ∈ kv.1.data, c.isUpper = true ∨ c.isDigit = true := by decide
  have := hall kv hkv c (by rw [hs]; exact hc)
  rcases this with h1 | h1
  · rw [h.1] at h1; exact absurd h1 (by decide)
  · rw [h.2] at h1; exact absurd h1 (by decide)

theorem isNumeral_false (s : String) (c : Char) (hc : c ∈ s.data) (h : c.isDigit = false) :
    isNumeral s = false := by
  simp only [isNumeral, Bool.and_eq_false_iff]
  right
  rw [List.all_eq_false]
  exact ⟨c, hc, by simp [h]⟩

theorem resolve_label (p : Program) (s : String) (v : Nat) (c : Char) (hc : c ∈ s.data)
    (h : c.isUpper = false ∧ c.isDigit = false) (hl : p.labels.lookup s = some v) :
    p.resolve s = some v := by
  simp only [Program.resolve, isNumeral_false s c hc h.2, predefined_lookup_none s c hc h, hl]
  simp

end Hack
end VMTranslator
namespace VMTranslator
open CommandType
namespace Hack

theorem parseLine_label_true (l : String) :
    parseLine ("(" ++ l ++ "_TRUE)") = Line.label (l ++ "_TRUE") := by
  have h : ("(" ++ l ++ "_TRUE)").data = '(' :: ((l ++ "_TRUE").data ++ [')']) := by simp
  simp only [parseLine, h, List.dropLast_concat]

theorem parseLine_label_end (l : String) :
    parseLine ("(" ++ l ++ "_END)") = Line.label (l ++ "_END") := by
  have h : ("(" ++ l ++ "_END)").data = '(' :: ((l ++ "_END").data ++ [')']) := by simp
  simp only [parseLine, h, List.dropLast_concat]

theorem parseLine_at_append (l sfx : String) :
    parseLine ("@" ++ l ++ sfx) = Line.instr (Instr.A (l ++ sfx)) := by
  rw [String.append_assoc]; exact parseLine_at _

theorem append_left_ne (l a b : String) (h : a ≠ b) : l ++ a ≠ l ++ b := by
  intro e
  have e1 := congrArg String.data e
  simp only [String.data_append, List.append_cancel_left_eq] at e1
  exact h (String.ext e1)

theorem end_ne_true (l : String) : (l ++ "_END" == l ++ "_TRUE") = false := by
  simpa using append_left_ne l "_END" "_TRUE" (by decide)

theorem mk_SP : String.mk ['S', 'P'] = "SP" := rfl
theorem mk_LCL : String.mk ['L', 'C', 'L'] = "LCL" := rfl
theorem mk_ARG : String.mk ['A', 'R', 'G'] = "ARG" := rfl
theorem mk_THIS : String.mk ['T', 'H', 'I', 'S'] = "THIS" := rfl
theorem mk_THAT : String.mk ['T', 'H', 'A', 'T'] = "THAT" := rfl
theorem mk_R13 : String.mk ['R', '1', '3'] = "R13" := rfl
theorem runN_trans {p : Program} {m n : Nat} {s s1 s2 : State} (h1 : runN p m s = some s1)
    (h2 : runN p n s1 = some s2) : runN p (m + n) s = some s2 := by
  rw [runN_add, h1]; exact h2

theorem execInstr_C (p : Program) (dest : Dest) (comp : Comp) (jump : Jump) (s : State) :
    execInstr p (Instr.C dest comp jump) s =
      some
        { a := if dest.a then compute comp s.a s.d (s.ram (s.a % 32768)) else s.a
          d := if dest.d then compute comp s.a s.d (s.ram (s.a % 32768)) else s.d
          pc := if jumps jump (compute comp s.a s.d (s.ram (s.a % 32768))) then s.a else s.pc + 1
          ram := if dest.m then store s.ram (s.a % 32768) (compute comp s.a s.d (s.ram (s.a % 32768)))
            else s.ram } := rfl

/-- Execution of the code of `compareOp`: the result is decided by the sign of the 16-bit
difference `x - y`. -/
theorem compareOp_exec (op : String) (hop : op ∈ ["eq", "gt", "lt"]) (w : CodeWriter)
    (t x y : Nat) (st : State) (hpc : st.pc = 0) (hsp : st.ram 0 = t + 2) (ht : 0 < t)
    (ht1 : t + 1 < 32768) (hx : st.ram t = x) (hy : st.ram (t + 1) = y) :
    (assemble (emitted (compareOp op) w)).rom.length = 15 ∧
    ∃ n st1, runN (assemble (emitted (compareOp op) w)) n st = some st1 ∧
      st1.pc = 15 ∧ st1.ram 0 = t + 1 ∧
      (op = "eq" → st1.ram t = if toSigned ((x + 65536 - y) % 65536) = 0 then 65535 else 0) ∧
      (op = "gt" → st1.ram t = if 0 < toSigned ((x + 65536 - y) % 65536) then 65535 else 0) ∧
      (op = "lt" → st1.ram t = if toSigned ((x + 65536 - y) % 65536) < 0 then 65535 else 0) ∧
      (∀ k, k ≠ 0 → k ≠ t → st1.ram k = st.ram k) := by
  generalize hp : assemble (emitted (compareOp op) w) = p
  have hrom : p.rom = romOf ((emitted (compareOp op) w).map parseLine) := by rw [← hp]; rfl
  have hlab : p.labels = labelTable ((emitted (compareOp op) w).map parseLine) 0 := by
    rw [← hp]; rfl
  clear hp
  obtain ⟨a0, d0, pc0, ram⟩ := st
  simp only [] at hpc hsp hx hy
  subst hpc
  have hSP := resolve_SP p
  simp only [List.mem_cons, List.mem_singleton, List.not_mem_nil, or_false] at hop
  rcases hop with rfl | rfl | rfl
  all_goals
    simp only [emitted, compareOp, getJumpCondition, CodeWriter.emit, parseLine_at, parseLine_at_append, List.map, List.drop_left, List.append_assoc, List.cons_append, List.nil_append, String.reduceAppend, String.reduceEq, if_true, if_false, mk_SP, Nat.zero_add, Nat.reduceAdd,
      parseLine_label_true, parseLine_label_end, parseLine_comment, romOf, labelTable,
      parseLine_D_eq_A, parseLine_A_eq_M, parseLine_M_eq_D, parseLine_M_eq_M_plus_1, parseLine_AM_eq_M_minus_1, parseLine_D_eq_M, parseLine_A_eq_A_minus_1, parseLine_M_eq_D_plus_M, parseLine_M_eq_M_minus_D, parseLine_M_eq_D_and_M, parseLine_M_eq_D_or_M, parseLine_A_eq_M_minus_1, parseLine_M_eq_minus_M, parseLine_M_eq_not_M, parseLine_D_eq_M_minus_D, parseLine_D_JEQ, parseLine_D_JGT, parseLine_D_JLT, parseLine_M_eq_0, parseLine_0_JMP, parseLine_M_eq_minus_1, parseLine_A_eq_D_plus_A, parseLine_D_eq_D_minus_A, parseLine_D_eq_M_plus_1, parseLine_A_eq_D, parseLine_A_eq_D_minus_A, parseLine_D_JNE] at hrom hlab
    have hT : p.resolve ("COMP_" ++ decimal w.labelCounter ++ "_TRUE") = some 12 :=
      resolve_label p _ 12 '_' (by simp) (by decide) (by rw [hlab]; simp [List.lookup])
    have hE : p.resolve ("COMP_" ++ decimal w.labelCounter ++ "_END") = some 15 :=
      resolve_label p _ 15 '_' (by simp) (by decide) (by rw [hlab]; simp [List.lookup, end_ne_true])
    have a1 : t + 2 - 1 = t + 1 := by omega
    have a2 : t + 1 - 1 = t := by omega
    have a3 : ¬ (t + 1 = 0) := by omega
    have h6 := runN_slice p ⟨a0, d0, 0, ram⟩ 6 (by rw [hrom]; simp) (by rw [hrom]; simp [noJump])
    rw [hrom] at h6
    simp (disch := omega) only [List.drop_zero, List.take_succ_cons, List.take_zero,
      execSeq_A _ _ _ _ _ _ _ _ hSP, execSeq_A _ _ _ _ _ _ _ _ hT, execSeq_D_eq_A, execSeq_A_eq_M, execSeq_M_eq_D, execSeq_M_eq_M_plus_1, execSeq_AM_eq_M_minus_1, execSeq_D_eq_M, execSeq_A_eq_A_minus_1, execSeq_M_eq_D_plus_M, execSeq_M_eq_M_minus_D, execSeq_M_eq_D_and_M, execSeq_M_eq_D_or_M, execSeq_A_eq_M_minus_1, execSeq_M_eq_minus_M, execSeq_M_eq_not_M, execSeq_D_eq_M_minus_D, execSeq_M_eq_0, execSeq_M_eq_minus_1, execSeq_A_eq_D_plus_A, execSeq_D_eq_D_minus_A, execSeq_D_eq_M_plus_1, execSeq_A_eq_D, execSeq_A_eq_D_minus_A, execSeq_nil, Nat.zero_mod, hsp, store_same,
      store_ne, Nat.mod_eq_of_lt, ne_eq, not_false_eq_true, Nat.add_sub_cancel,
      Nat.add_eq_zero, one_ne_zero, and_false, if_false, OfNat.ofNat_ne_zero, hx, hy, a1, a2, a3,
      Nat.zero_add, Nat.reduceAdd] at h6
    have h7 := runN_one p ⟨12, (x + 65536 - y) % 65536, 6, store ram 0 (t + 1)⟩ _
      (by rw [hrom]; rfl)
    rw [execInstr_C] at h7
    simp only [compute, Bool.false_eq_true, if_false] at h7
    have h67 := runN_trans h6 h7
    clear h6 h7
    generalize hjv : jumps _ ((x + 65536 - y) % 65536) = jv at h67
    simp only [jumps, decide_eq_true_eq, decide_eq_false_iff_not] at hjv
    cases jv with
    | true =>
      simp only [decide_eq_true_eq] at hjv
      simp only [if_true] at h67
      have h3 := runN_slice p ⟨12, (x + 65536 - y) % 65536, 12, store ram 0 (t + 1)⟩ 3
        (by rw [hrom]; simp) (by rw [hrom]; simp [noJump])
      rw [hrom] at h3
      simp (disch := omega) only [List.drop_succ_cons, List.drop_zero, List.take_succ_cons, List.take_zero,
        execSeq_A _ _ _ _ _ _ _ _ hSP, execSeq_D_eq_A, execSeq_A_eq_M, execSeq_M_eq_D, execSeq_M_eq_M_plus_1, execSeq_AM_eq_M_minus_1, execSeq_D_eq_M, execSeq_A_eq_A_minus_1, execSeq_M_eq_D_plus_M, execSeq_M_eq_M_minus_D, execSeq_M_eq_D_and_M, execSeq_M_eq_D_or_M, execSeq_A_eq_M_minus_1, execSeq_M_eq_minus_M, execSeq_M_eq_not_M, execSeq_D_eq_M_minus_D, execSeq_M_eq_0, execSeq_M_eq_minus_1, execSeq_A_eq_D_plus_A, execSeq_D_eq_D_minus_A, execSeq_D_eq_M_plus_1, execSeq_A_eq_D, execSeq_A_eq_D_minus_A, execSeq_nil, Nat.zero_mod, store_same,
        store_ne, Nat.mod_eq_of_lt, a2, a3, if_false, Nat.reduceAdd] at h3
      refine ⟨by rw [hrom]; rfl, _, _, runN_trans h67 h3, rfl, ?_, ?_, ?_, ?_, ?_⟩
      · simp (disch := omega) only [store_ne, store_same]
      · intro h
        first | exact absurd h (by decide) | simp (disch := omega) only [store_same, hjv, if_true]
      · intro h
        first | exact absurd h (by decide) | simp (disch := omega) only [store_same, hjv, if_true]
      · intro h
        first | exact absurd h (by decide) | simp (disch := omega) only [store_same, hjv, if_true]
      · intro k hk0 hkt
        simp (disch := omega) only [store_ne]
    | false =>
      simp only [decide_eq_false_iff_not] at hjv
      simp only [Bool.false_eq_true, if_false, Nat.reduceAdd] at h67
      have h4 := runN_slice p ⟨12, (x + 65536 - y) % 65536, 7, store ram 0 (t + 1)⟩ 4
        (by rw [hrom]; simp) (by rw [hrom]; simp [noJump])
      rw [hrom] at h4
      simp (disch := omega) only [List.drop_succ_cons, List.drop_zero, List.take_succ_cons, List.take_zero,
        execSeq_A _ _ _ _ _ _ _ _ hSP, execSeq_A _ _ _ _ _ _ _ _ hE, execSeq_D_eq_A, execSeq_A_eq_M, execSeq_M_eq_D, execSeq_M_eq_M_plus_1, execSeq_AM_eq_M_minus_1, execSeq_D_eq_M, execSeq_A_eq_A_minus_1, execSeq_M_eq_D_plus_M, execSeq_M_eq_M_minus_D, execSeq_M_eq_D_and_M, execSeq_M_eq_D_or_M, execSeq_A_eq_M_minus_1, execSeq_M_eq_minus_M, execSeq_M_eq_not_M, execSeq_D_eq_M_minus_D, execSeq_M_eq_0, execSeq_M_eq_minus_1, execSeq_A_eq_D_plus_A, execSeq_D_eq_D_minus_A, execSeq_D_eq_M_plus_1, execSeq_A_eq_D, execSeq_A_eq_D_minus_A, execSeq_nil, Nat.zero_mod, store_same,
        store_ne, Nat.mod_eq_of_lt, a2, a3, if_false, Nat.reduceAdd] at h4
      have h5 := runN_one p ⟨15, (x + 65536 - y) % 65536, 11, store (store ram 0 (t + 1)) t 0⟩ _
        (by rw [hrom]; rfl)
      rw [execInstr_C] at h5
      simp only [compute, jumps, Bool.false_eq_true, if_false, if_true] at h5
      refine ⟨by rw [hrom]; rfl, _, _, runN_trans (runN_trans h67 h4) h5, rfl, ?_, ?_, ?_, ?_, ?_⟩
      · simp (disch := omega) only [store_ne, store_same]
      · intro h
        first | exact absurd h (by decide) | simp (disch := omega) only [store_same, hjv, if_false]
      · intro h
        first | exact absurd h (by decide) | simp (disch := omega) only [store_same, hjv, if_false]
      · intro h
        first | exact absurd h (by decide) | simp (disch := omega) only [store_same, hjv, if_false]
      · intro k hk0 hkt
        simp (disch := omega) only [store_ne]

end Hack
end VMTranslator
namespace VMTranslator
open CommandType
namespace Hack

theorem resolve_5 (p : Program) : p.resolve "5" = some 5 := rfl

theorem run_straight (text : List String) (rom : List Instr)
    (hrom : romOf (text.map parseLine) = rom) (hj : ∀ i ∈ rom, noJump i = true) (st : State)
    (hpc : st.pc = 0) :
    (assemble text).rom.length = rom.length ∧
      runN (assemble text) (assemble text).rom.length st = execSeq (assemble text) rom st := by
  have h : (assemble text).rom = rom := hrom
  refine ⟨by rw [h], ?_⟩
  have := runN_whole (assemble text) st hpc (by rw [h]; exact hj)
  rw [this, h]

theorem push_segment_exec (seg : String)
    (hseg : seg ∈ ["local", "argument", "this", "that", "temp", "pointer"])
    (i s : Nat) (w : CodeWriter) (st : State) (hi : i ≤ 32767) (hpc : st.pc = 0)
    (hsp : st.ram 0 = s) (hs0 : 0 < s) (hs1 : s < 32768) :
    ∃ st1, runN (assemble (emitted (writePushPop C_PUSH seg i) w))
        (assemble (emitted (writePushPop C_PUSH seg i) w)).rom.length st = some st1 ∧
      st1.pc = (assemble (emitted (writePushPop C_PUSH seg i) w)).rom.length ∧
      st1.ram 0 = s + 1 ∧
      st1.ram s = st.ram
        (if seg = "local" then (st.ram 1 + i) % 32768
         else if seg = "argument" then (st.ram 2 + i) % 32768
         else if seg = "this" then (st.ram 3 + i) % 32768
         else if seg = "that" then (st.ram 4 + i) % 32768
         else if seg = "temp" then (5 + i) % 32768
         else if i = 0 then 3 else 4) ∧
      (∀ k, k ≠ 0 → k ≠ s → st1.ram k = st.ram k) := by
  obtain ⟨a0, d0, pc0, ram⟩ := st
  simp only [] at hpc hsp
  subst hpc
  simp only [List.mem_cons, List.mem_singleton, List.not_mem_nil, or_false] at hseg
  rcases hseg with rfl | rfl | rfl | rfl | rfl | rfl
  · have hr := run_straight (emitted (writePushPop C_PUSH "local" i) w) _
      (by simp only [emitted, writePushPop, push, pop, resolveSegmentAddress, segmentMap, CodeWriter.emit, parseLine_at, parseLine_comment, List.map, List.drop_left, List.append_assoc, List.cons_append, List.nil_append, String.reduceAppend, String.reduceEq, if_true, if_false, mk_SP, mk_LCL, mk_ARG, mk_THIS, mk_THAT, mk_R13, romOf, or_false, or_true, false_or, reduceCtorEq, Int.natCast_eq_zero,  parseLine_D_eq_A, parseLine_A_eq_M, parseLine_M_eq_D, parseLine_M_eq_M_plus_1, parseLine_AM_eq_M_minus_1, parseLine_D_eq_M, parseLine_A_eq_A_minus_1, parseLine_M_eq_D_plus_M, parseLine_M_eq_M_minus_D, parseLine_M_eq_D_and_M, parseLine_M_eq_D_or_M, parseLine_A_eq_M_minus_1, parseLine_M_eq_minus_M, parseLine_M_eq_not_M, parseLine_D_eq_M_minus_D, parseLine_D_JEQ, parseLine_D_JGT, parseLine_D_JLT, parseLine_M_eq_0, parseLine_0_JMP, parseLine_M_eq_minus_1, parseLine_A_eq_D_plus_A, parseLine_D_eq_D_minus_A, parseLine_D_eq_M_plus_1, parseLine_A_eq_D, parseLine_A_eq_D_minus_A, parseLine_D_JNE]; rfl) (by simp [noJump]) ⟨a0, d0, 0, ram⟩ rfl
    obtain ⟨hlen, hrun⟩ := hr
    generalize assemble (emitted (writePushPop C_PUSH "local" i) w) = p at hlen hrun ⊢
    have hI := resolve_decimal p i (by omega)
    simp (disch := omega) only [execSeq_A _ _ _ _ _ _ _ _ (resolve_SP p),
        execSeq_A _ _ _ _ _ _ _ _ (resolve_LCL p), execSeq_A _ _ _ _ _ _ _ _ (resolve_ARG p),
        execSeq_A _ _ _ _ _ _ _ _ (resolve_THIS p), execSeq_A _ _ _ _ _ _ _ _ (resolve_THAT p),
        execSeq_A _ _ _ _ _ _ _ _ (resolve_5 p), execSeq_A _ _ _ _ _ _ _ _ (resolve_R13 p),
        execSeq_A _ _ _ _ _ _ _ _ hI, execSeq_D_eq_A, execSeq_A_eq_M, execSeq_M_eq_D, execSeq_M_eq_M_plus_1, execSeq_AM_eq_M_minus_1, execSeq_D_eq_M, execSeq_A_eq_A_minus_1, execSeq_M_eq_D_plus_M, execSeq_M_eq_M_minus_D, execSeq_M_eq_D_and_M, execSeq_M_eq_D_or_M, execSeq_A_eq_M_minus_1, execSeq_M_eq_minus_M, execSeq_M_eq_not_M, execSeq_D_eq_M_minus_D, execSeq_M_eq_0, execSeq_M_eq_minus_1, execSeq_A_eq_D_plus_A, execSeq_D_eq_D_minus_A, execSeq_D_eq_M_plus_1, execSeq_A_eq_D, execSeq_A_eq_D_minus_A, execSeq_nil, Nat.zero_mod, Nat.one_mod, Nat.reduceMod, hsp, store_same,
        store_ne, Nat.mod_eq_of_lt, Nat.zero_add, Nat.reduceAdd, Nat.add_sub_cancel] at hrun
    rw [hrun, hlen]
    refine ⟨_, rfl, rfl, ?_, ?_, ?_⟩
    · simp (disch := omega) only [store_ne, store_same]
    · simp (disch := omega) [store_ne, store_same]
    · intro k hk0 hks
      simp (disch := omega) only [store_ne]
  · have hr := run_straight (emitted (writePushPop C_PUSH "argument" i) w) _
      (by simp only [emitted, writePushPop, push, pop, resolveSegmentAddress, segmentMap, CodeWriter.emit, parseLine_at, parseLine_comment, List.map, List.drop_left, List.append_assoc, List.cons_append, List.nil_append, String.reduceAppend, String.reduceEq, if_true, if_false, mk_SP, mk_LCL, mk_ARG, mk_THIS, mk_THAT, mk_R13, romOf, or_false, or_true, false_or, reduceCtorEq, Int.natCast_eq_zero,  parseLine_D_eq_A, parseLine_A_eq_M, parseLine_M_eq_D, parseLine_M_eq_M_plus_1, parseLine_AM_eq_M_minus_1, parseLine_D_eq_M, parseLine_A_eq_A_minus_1, parseLine_M_eq_D_plus_M, parseLine_M_eq_M_minus_D, parseLine_M_eq_D_and_M, parseLine_M_eq_D_or_M, parseLine_A_eq_M_minus_1, parseLine_M_eq_minus_M, parseLine_M_eq_not_M, parseLine_D_eq_M_minus_D, parseLine_D_JEQ, parseLine_D_JGT, parseLine_D_JLT, parseLine_M_eq_0, parseLine_0_JMP, parseLine_M_eq_minus_1, parseLine_A_eq_D_plus_A, parseLine_D_eq_D_minus_A, parseLine_D_eq_M_plus_1, parseLine_A_eq_D, parseLine_A_eq_D_minus_A, parseLine_D_JNE]; rfl) (by simp [noJump]) ⟨a0, d0, 0, ram⟩ rfl
    obtain ⟨hlen, hrun⟩ := hr
    generalize assemble (emitted (writePushPop C_PUSH "argument" i) w) = p at hlen hrun ⊢
    have hI := resolve_decimal p i (by omega)
    simp (disch := omega) only [execSeq_A _ _ _ _ _ _ _ _ (resolve_SP p),
        execSeq_A _ _ _ _ _ _ _ _ (resolve_LCL p), execSeq_A _ _ _ _ _ _ _ _ (resolve_ARG p),
        execSeq_A _ _ _ _ _ _ _ _ (resolve_THIS p), execSeq_A _ _ _ _ _ _ _ _ (resolve_THAT p),
        execSeq_A _ _ _ _ _ _ _ _ (resolve_5 p), execSeq_A _ _ _ _ _ _ _ _ (resolve_R13 p),
        execSeq_A _ _ _ _ _ _ _ _ hI, execSeq_D_eq_A, execSeq_A_eq_M, execSeq_M_eq_D, execSeq_M_eq_M_plus_1, execSeq_AM_eq_M_minus_1, execSeq_D_eq_M, execSeq_A_eq_A_minus_1, execSeq_M_eq_D_plus_M, execSeq_M_eq_M_minus_D, execSeq_M_eq_D_and_M, execSeq_M_eq_D_or_M, execSeq_A_eq_M_minus_1, execSeq_M_eq_minus_M, execSeq_M_eq_not_M, execSeq_D_eq_M_minus_D, execSeq_M_eq_0, execSeq_M_eq_minus_1, execSeq_A_eq_D_plus_A, execSeq_D_eq_D_minus_A, execSeq_D_eq_M_plus_1, execSeq_A_eq_D, execSeq_A_eq_D_minus_A, execSeq_nil, Nat.zero_mod, Nat.one_mod, Nat.reduceMod, hsp, store_same,
        store_ne, Nat.mod_eq_of_lt, Nat.zero_add, Nat.reduceAdd, Nat.add_sub_cancel] at hrun
    rw [hrun, hlen]
    refine ⟨_, rfl, rfl, ?_, ?_, ?_⟩
    · simp (disch := omega) only [store_ne, store_same]
    · simp (disch := omega) [store_ne, store_same]
    · intro k hk0 hks
      simp (disch := omega) only [store_ne]
  · have hr := run_straight (emitted (writePushPop C_PUSH "this" i) w) _
      (by simp only [emitted, writePushPop, push, pop, resolveSegmentAddress, segmentMap, CodeWriter.emit, parseLine_at, parseLine_comment, List.map, List.drop_left, List.append_assoc, List.cons_append, List.nil_append, String.reduceAppend, String.reduceEq, if_true, if_false, mk_SP, mk_LCL, mk_ARG, mk_THIS, mk_THAT, mk_R13, romOf, or_false, or_true, false_or, reduceCtorEq, Int.natCast_eq_zero,  parseLine_D_eq_A, parseLine_A_eq_M, parseLine_M_eq_D, parseLine_M_eq_M_plus_1, parseLine_AM_eq_M_minus_1, parseLine_D_eq_M, parseLine_A_eq_A_minus_1, parseLine_M_eq_D_plus_M, parseLine_M_eq_M_minus_D, parseLine_M_eq_D_and_M, parseLine_M_eq_D_or_M, parseLine_A_eq_M_minus_1, parseLine_M_eq_minus_M, parseLine_M_eq_not_M, parseLine_D_eq_M_minus_D, parseLine_D_JEQ, parseLine_D_JGT, parseLine_D_JLT, parseLine_M_eq_0, parseLine_0_JMP, parseLine_M_eq_minus_1, parseLine_A_eq_D_plus_A, parseLine_D_eq_D_minus_A, parseLine_D_eq_M_plus_1, parseLine_A_eq_D, parseLine_A_eq_D_minus_A, parseLine_D_JNE]; rfl) (by simp [noJump]) ⟨a0, d0, 0, ram⟩ rfl
    obtain ⟨hlen, hrun⟩ := hr
    generalize assemble (emitted (writePushPop C_PUSH "this" i) w) = p at hlen hrun ⊢
    have hI := resolve_decimal p i (by omega)
    simp (disch := omega) only [execSeq_A _ _ _ _ _ _ _ _ (resolve_SP p),
        execSeq_A _ _ _ _ _ _ _ _ (resolve_LCL p), execSeq_A _ _ _ _ _ _ _ _ (resolve_ARG p),
        execSeq_A _ _ _ _ _ _ _ _ (resolve_THIS p), execSeq_A _ _ _ _ _ _ _ _ (resolve_THAT p),
        execSeq_A _ _ _ _ _ _ _ _ (resolve_5 p), execSeq_A _ _ _ _ _ _ _ _ (resolve_R13 p),
        execSeq_A _ _ _ _ _ _ _ _ hI, execSeq_D_eq_A, execSeq_A_eq_M, execSeq_M_eq_D, execSeq_M_eq_M_plus_1, execSeq_AM_eq_M_minus_1, execSeq_D_eq_M, execSeq_A_eq_A_minus_1, execSeq_M_eq_D_plus_M, execSeq_M_eq_M_minus_D, execSeq_M_eq_D_and_M, execSeq_M_eq_D_or_M, execSeq_A_eq_M_minus_1, execSeq_M_eq_minus_M, execSeq_M_eq_not_M, execSeq_D_eq_M_minus_D, execSeq_M_eq_0, execSeq_M_eq_minus_1, execSeq_A_eq_D_plus_A, execSeq_D_eq_D_minus_A, execSeq_D_eq_M_plus_1, execSeq_A_eq_D, execSeq_A_eq_D_minus_A, execSeq_nil, Nat.zero_mod, Nat.one_mod, Nat.reduceMod, hsp, store_same,
        store_ne, Nat.mod_eq_of_lt, Nat.zero_add, Nat.reduceAdd, Nat.add_sub_cancel] at hrun
    rw [hrun, hlen]
    refine ⟨_, rfl, rfl, ?_, ?_, ?_⟩
    · simp (disch := omega) only [store_ne, store_same]
    · simp (disch := omega) [store_ne, store_same]
    · intro k hk0 hks
      simp (disch := omega) only [store_ne]
  · have hr := run_straight (emitted (writePushPop C_PUSH "that" i) w) _
      (by simp only [emitted, writePushPop, push, pop, resolveSegmentAddress, segmentMap, CodeWriter.emit, parseLine_at, parseLine_comment, List.map, List.drop_left, List.append_assoc, List.cons_append, List.nil_append, String.reduceAppend, String.reduceEq, if_true, if_false, mk_SP, mk_LCL, mk_ARG, mk_THIS, mk_THAT, mk_R13, romOf, or_false, or_true, false_or, reduceCtorEq, Int.natCast_eq_zero,  parseLine_D_eq_A, parseLine_A_eq_M, parseLine_M_eq_D, parseLine_M_eq_M_plus_1, parseLine_AM_eq_M_minus_1, parseLine_D_eq_M, parseLine_A_eq_A_minus_1, parseLine_M_eq_D_plus_M, parseLine_M_eq_M_minus_D, parseLine_M_eq_D_and_M, parseLine_M_eq_D_or_M, parseLine_A_eq_M_minus_1, parseLine_M_eq_minus_M, parseLine_M_eq_not_M, parseLine_D_eq_M_minus_D, parseLine_D_JEQ, parseLine_D_JGT, parseLine_D_JLT, parseLine_M_eq_0, parseLine_0_JMP, parseLine_M_eq_minus_1, parseLine_A_eq_D_plus_A, parseLine_D_eq_D_minus_A, parseLine_D_eq_M_plus_1, parseLine_A_eq_D, parseLine_A_eq_D_minus_A, parseLine_D_JNE]; rfl) (by simp [noJump]) ⟨a0, d0, 0, ram⟩ rfl
    obtain ⟨hlen, hrun⟩ := hr
    generalize assemble (emitted (writePushPop C_PUSH "that" i) w) = p at hlen hrun ⊢
    have hI := resolve_decimal p i (by omega)
    simp (disch := omega) only [execSeq_A _ _ _ _ _ _ _ _ (resolve_SP p),
        execSeq_A _ _ _ _ _ _ _ _ (resolve_LCL p), execSeq_A _ _ _ _ _ _ _ _ (resolve_ARG p),
        execSeq_A _ _ _ _ _ _ _ _ (resolve_THIS p), execSeq_A _ _ _ _ _ _ _ _ (resolve_THAT p),
        execSeq_A _ _ _ _ _ _ _ _ (resolve_5 p), execSeq_A _ _ _ _ _ _ _ _ (resolve_R13 p),
        execSeq_A _ _ _ _ _ _ _ _ hI, execSeq_D_eq_A, execSeq_A_eq_M, execSeq_M_eq_D, execSeq_M_eq_M_plus_1, execSeq_AM_eq_M_minus_1, execSeq_D_eq_M, execSeq_A_eq_A_minus_1, execSeq_M_eq_D_plus_M, execSeq_M_eq_M_minus_D, execSeq_M_eq_D_and_M, execSeq_M_eq_D_or_M, execSeq_A_eq_M_minus_1, execSeq_M_eq_minus_M, execSeq_M_eq_not_M, execSeq_D_eq_M_minus_D, execSeq_M_eq_0, execSeq_M_eq_minus_1, execSeq_A_eq_D_plus_A, execSeq_D_eq_D_minus_A, execSeq_D_eq_M_plus_1, execSeq_A_eq_D, execSeq_A_eq_D_minus_A, execSeq_nil, Nat.zero_mod, Nat.one_mod, Nat.reduceMod, hsp, store_same,
        store_ne, Nat.mod_eq_of_lt, Nat.zero_add, Nat.reduceAdd, Nat.add_sub_cancel] at hrun
    rw [hrun, hlen]
    refine ⟨_, rfl, rfl, ?_, ?_, ?_⟩
    · simp (disch := omega) only [store_ne, store_same]
    · simp (disch := omega) [store_ne, store_same]
    · intro k hk0 hks
      simp (disch := omega) only [store_ne]
  · have hr := run_straight (emitted (writePushPop C_PUSH "temp" i) w) _
      (by simp only [emitted, writePushPop, push, pop, resolveSegmentAddress, segmentMap, CodeWriter.emit, parseLine_at, parseLine_comment, List.map, List.drop_left, List.append_assoc, List.cons_append, List.nil_append, String.reduceAppend, String.reduceEq, if_true, if_false, mk_SP, mk_LCL, mk_ARG, mk_THIS, mk_THAT, mk_R13, romOf, or_false, or_true, false_or, reduceCtorEq, Int.natCast_eq_zero,  parseLine_D_eq_A, parseLine_A_eq_M, parseLine_M_eq_D, parseLine_M_eq_M_plus_1, parseLine_AM_eq_M_minus_1, parseLine_D_eq_M, parseLine_A_eq_A_minus_1, parseLine_M_eq_D_plus_M, parseLine_M_eq_M_minus_D, parseLine_M_eq_D_and_M, parseLine_M_eq_D_or_M, parseLine_A_eq_M_minus_1, parseLine_M_eq_minus_M, parseLine_M_eq_not_M, parseLine_D_eq_M_minus_D, parseLine_D_JEQ, parseLine_D_JGT, parseLine_D_JLT, parseLine_M_eq_0, parseLine_0_JMP, parseLine_M_eq_minus_1, parseLine_A_eq_D_plus_A, parseLine_D_eq_D_minus_A, parseLine_D_eq_M_plus_1, parseLine_A_eq_D, parseLine_A_eq_D_minus_A, parseLine_D_JNE]; rfl) (by simp [noJump]) ⟨a0, d0, 0, ram⟩ rfl
    obtain ⟨hlen, hrun⟩ := hr
    generalize assemble (emitted (writePushPop C_PUSH "temp" i) w) = p at hlen hrun ⊢
    have hI := resolve_decimal p i (by omega)
    simp (disch := omega) only [execSeq_A _ _ _ _ _ _ _ _ (resolve_SP p),
        execSeq_A _ _ _ _ _ _ _ _ (resolve_LCL p), execSeq_A _ _ _ _ _ _ _ _ (resolve_ARG p),
        execSeq_A _ _ _ _ _ _ _ _ (resolve_THIS p), execSeq_A _ _ _ _ _ _ _ _ (resolve_THAT p),
        execSeq_A _ _ _ _ _ _ _ _ (resolve_5 p), execSeq_A _ _ _ _ _ _ _ _ (resolve_R13 p),
        execSeq_A _ _ _ _ _ _ _ _ hI, execSeq_D_eq_A, execSeq_A_eq_M, execSeq_M_eq_D, execSeq_M_eq_M_plus_1, execSeq_AM_eq_M_minus_1, execSeq_D_eq_M, execSeq_A_eq_A_minus_1, execSeq_M_eq_D_plus_M, execSeq_M_eq_M_minus_D, execSeq_M_eq_D_and_M, execSeq_M_eq_D_or_M, execSeq_A_eq_M_minus_1, execSeq_M_eq_minus_M, execSeq_M_eq_not_M, execSeq_D_eq_M_minus_D, execSeq_M_eq_0, execSeq_M_eq_minus_1, execSeq_A_eq_D_plus_A, execSeq_D_eq_D_minus_A, execSeq_D_eq_M_plus_1, execSeq_A_eq_D, execSeq_A_eq_D_minus_A, execSeq_nil, Nat.zero_mod, Nat.one_mod, Nat.reduceMod, hsp, store_same,
        store_ne, Nat.mod_eq_of_lt, Nat.zero_add, Nat.reduceAdd, Nat.add_sub_cancel] at hrun
    rw [hrun, hlen]
    refine ⟨_, rfl, rfl, ?_, ?_, ?_⟩
    · simp (disch := omega) only [store_ne, store_same]
    · simp (disch := omega) [store_ne, store_same]
    · intro k hk0 hks
      simp (disch := omega) only [store_ne]
  · by_cases hi0 : i = 0
    · have hr := run_straight (emitted (writePushPop C_PUSH "pointer" i) w) _
        (by simp only [emitted, writePushPop, push, pop, resolveSegmentAddress, segmentMap, CodeWriter.emit, parseLine_at, parseLine_comment, List.map, List.drop_left, List.append_assoc, List.cons_append, List.nil_append, String.reduceAppend, String.reduceEq, if_true, if_false, mk_SP, mk_LCL, mk_ARG, mk_THIS, mk_THAT, mk_R13, romOf, or_false, or_true, false_or, reduceCtorEq, Int.natCast_eq_zero, hi0, parseLine_D_eq_A, parseLine_A_eq_M, parseLine_M_eq_D, parseLine_M_eq_M_plus_1, parseLine_AM_eq_M_minus_1, parseLine_D_eq_M, parseLine_A_eq_A_minus_1, parseLine_M_eq_D_plus_M, parseLine_M_eq_M_minus_D, parseLine_M_eq_D_and_M, parseLine_M_eq_D_or_M, parseLine_A_eq_M_minus_1, parseLine_M_eq_minus_M, parseLine_M_eq_not_M, parseLine_D_eq_M_minus_D, parseLine_D_JEQ, parseLine_D_JGT, parseLine_D_JLT, parseLine_M_eq_0, parseLine_0_JMP, parseLine_M_eq_minus_1, parseLine_A_eq_D_plus_A, parseLine_D_eq_D_minus_A, parseLine_D_eq_M_plus_1, parseLine_A_eq_D, parseLine_A_eq_D_minus_A, parseLine_D_JNE]; rfl) (by simp [noJump]) ⟨a0, d0, 0, ram⟩ rfl
      obtain ⟨hlen, hrun⟩ := hr
      generalize assemble (emitted (writePushPop C_PUSH "pointer" i) w) = p at hlen hrun ⊢
      have hI := resolve_decimal p i (by omega)
      simp (disch := omega) only [execSeq_A _ _ _ _ _ _ _ _ (resolve_SP p),
          execSeq_A _ _ _ _ _ _ _ _ (resolve_LCL p), execSeq_A _ _ _ _ _ _ _ _ (resolve_ARG p),
          execSeq_A _ _ _ _ _ _ _ _ (resolve_THIS p), execSeq_A _ _ _ _ _ _ _ _ (resolve_THAT p),
          execSeq_A _ _ _ _ _ _ _ _ (resolve_5 p), execSeq_A _ _ _ _ _ _ _ _ (resolve_R13 p),
          execSeq_A _ _ _ _ _ _ _ _ hI, execSeq_D_eq_A, execSeq_A_eq_M, execSeq_M_eq_D, execSeq_M_eq_M_plus_1, execSeq_AM_eq_M_minus_1, execSeq_D_eq_M, execSeq_A_eq_A_minus_1, execSeq_M_eq_D_plus_M, execSeq_M_eq_M_minus_D, execSeq_M_eq_D_and_M, execSeq_M_eq_D_or_M, execSeq_A_eq_M_minus_1, execSeq_M_eq_minus_M, execSeq_M_eq_not_M, execSeq_D_eq_M_minus_D, execSeq_M_eq_0, execSeq_M_eq_minus_1, execSeq_A_eq_D_plus_A, execSeq_D_eq_D_minus_A, execSeq_D_eq_M_plus_1, execSeq_A_eq_D, execSeq_A_eq_D_minus_A, execSeq_nil, Nat.zero_mod, Nat.one_mod, Nat.reduceMod, hsp, store_same,
          store_ne, Nat.mod_eq_of_lt, Nat.zero_add, Nat.reduceAdd, Nat.add_sub_cancel] at hrun
      rw [hrun, hlen]
      refine ⟨_, rfl, rfl, ?_, ?_, ?_⟩
      · simp (disch := omega) only [store_ne, store_same]
      · simp (disch := omega) [store_ne, store_same, hi0]
      · intro k hk0 hks
        simp (disch := omega) only [store_ne]
    · have hr := run_straight (emitted (writePushPop C_PUSH "pointer" i) w) _
        (by simp only [emitted, writePushPop, push, pop, resolveSegmentAddress, segmentMap, CodeWriter.emit, parseLine_at, parseLine_comment, List.map, List.drop_left, List.append_assoc, List.cons_append, List.nil_append, String.reduceAppend, String.reduceEq, if_true, if_false, mk_SP, mk_LCL, mk_ARG, mk_THIS, mk_THAT, mk_R13, romOf, or_false, or_true, false_or, reduceCtorEq, Int.natCast_eq_zero, hi0, parseLine_D_eq_A, parseLine_A_eq_M, parseLine_M_eq_D, parseLine_M_eq_M_plus_1, parseLine_AM_eq_M_minus_1, parseLine_D_eq_M, parseLine_A_eq_A_minus_1, parseLine_M_eq_D_plus_M, parseLine_M_eq_M_minus_D, parseLine_M_eq_D_and_M, parseLine_M_eq_D_or_M, parseLine_A_eq_M_minus_1, parseLine_M_eq_minus_M, parseLine_M_eq_not_M, parseLine_D_eq_M_minus_D, parseLine_D_JEQ, parseLine_D_JGT, parseLine_D_JLT, parseLine_M_eq_0, parseLine_0_JMP, parseLine_M_eq_minus_1, parseLine_A_eq_D_plus_A, parseLine_D_eq_D_minus_A, parseLine_D_eq_M_plus_1, parseLine_A_eq_D, parseLine_A_eq_D_minus_A, parseLine_D_JNE]; rfl) (by simp [noJump]) ⟨a0, d0, 0, ram⟩ rfl
      obtain ⟨hlen, hrun⟩ := hr
      generalize assemble (emitted (writePushPop C_PUSH "pointer" i) w) = p at hlen hrun ⊢
      have hI := resolve_decimal p i (by omega)
      simp (disch := omega) only [execSeq_A _ _ _ _ _ _ _ _ (resolve_SP p),
          execSeq_A _ _ _ _ _ _ _ _ (resolve_LCL p), execSeq_A _ _ _ _ _ _ _ _ (resolve_ARG p),
          execSeq_A _ _ _ _ _ _ _ _ (resolve_THIS p), execSeq_A _ _ _ _ _ _ _ _ (resolve_THAT p),
          execSeq_A _ _ _ _ _ _ _ _ (resolve_5 p), execSeq_A _ _ _ _ _ _ _ _ (resolve_R13 p),
          execSeq_A _ _ _ _ _ _ _ _ hI, execSeq_D_eq_A, execSeq_A_eq_M, execSeq_M_eq_D, execSeq_M_eq_M_plus_1, execSeq_AM_eq_M_minus_1, execSeq_D_eq_M, execSeq_A_eq_A_minus_1, execSeq_M_eq_D_plus_M, execSeq_M_eq_M_minus_D, execSeq_M_eq_D_and_M, execSeq_M_eq_D_or_M, execSeq_A_eq_M_minus_1, execSeq_M_eq_minus_M, execSeq_M_eq_not_M, execSeq_D_eq_M_minus_D, execSeq_M_eq_0, execSeq_M_eq_minus_1, execSeq_A_eq_D_plus_A, execSeq_D_eq_D_minus_A, execSeq_D_eq_M_plus_1, execSeq_A_eq_D, execSeq_A_eq_D_minus_A, execSeq_nil, Nat.zero_mod, Nat.one_mod, Nat.reduceMod, hsp, store_same,
          store_ne, Nat.mod_eq_of_lt, Nat.zero_add, Nat.reduceAdd, Nat.add_sub_cancel] at hrun
      rw [hrun, hlen]
      refine ⟨_, rfl, rfl, ?_, ?_, ?_⟩
      · simp (disch := omega) only [store_ne, store_same]
      · simp (disch := omega) [store_ne, store_same, hi0]
      · intro k hk0 hks
        simp (disch := omega) only [store_ne]

theorem pop_segment_exec (seg : String)
    (hseg : seg ∈ ["local", "argument", "this", "that", "temp", "pointer"])
    (i s : Nat) (w : CodeWriter) (st : State) (hi : i ≤ 32767) (hpc : st.pc = 0)
    (hsp : st.ram 0 = s) (hs0 : 2 ≤ s) (hs13 : s ≠ 14) (hs1 : s ≤ 32768) :
    ∃ st1, runN (assemble (emitted (writePushPop C_POP seg i) w))
        (assemble (emitted (writePushPop C_POP seg i) w)).rom.length st = some st1 ∧
      st1.pc = (assemble (emitted (writePushPop C_POP seg i) w)).rom.length ∧
      st1.ram
        (if seg = "local" then (st.ram 1 + i) % 32768
         else if seg = "argument" then (st.ram 2 + i) % 32768
         else if seg = "this" then (st.ram 3 + i) % 32768
         else if seg = "that" then (st.ram 4 + i) % 32768
         else if seg = "temp" then (5 + i) % 32768
         else if i = 0 then 3 else 4) = st.ram (s - 1) ∧
      ((if seg = "local" then (st.ram 1 + i) % 32768
         else if seg = "argument" then (st.ram 2 + i) % 32768
         else if seg = "this" then (st.ram 3 + i) % 32768
         else if seg = "that" then (st.ram 4 + i) % 32768
         else if seg = "temp" then (5 + i) % 32768
         else if i = 0 then 3 else 4) ≠ 0 → st1.ram 0 = s - 1) ∧
      (∀ k, k ≠ 0 → k ≠ 13 → k ≠
        (if seg = "local" then (st.ram 1 + i) % 32768
         else if seg = "argument" then (st.ram 2 + i) % 32768
         else if seg = "this" then (st.ram 3 + i) % 32768
         else if seg = "that" then (st.ram 4 + i) % 32768
         else if seg = "temp" then (5 + i) % 32768
         else if i = 0 then 3 else 4) → st1.ram k = st.ram k) := by
  obtain ⟨a0, d0, pc0, ram⟩ := st
  simp only [] at hpc hsp
  subst hpc
  have a1 : ¬ (s = 0) := by omega
  have a2 : (s - 1) % 32768 = s - 1 := Nat.mod_eq_of_lt (by omega)
  simp only [List.mem_cons, List.mem_singleton, List.not_mem_nil, or_false] at hseg
  rcases hseg with rfl | rfl | rfl | rfl | rfl | rfl
  · have hr := run_straight (emitted (writePushPop C_POP "local" i) w) _
      (by simp only [emitted, writePushPop, push, pop, resolveSegmentAddress, segmentMap, CodeWriter.emit, parseLine_at, parseLine_comment, List.map, List.drop_left, List.append_assoc, List.cons_append, List.nil_append, String.reduceAppend, String.reduceEq, if_true, if_false, mk_SP, mk_LCL, mk_ARG, mk_THIS, mk_THAT, mk_R13, romOf, or_false, or_true, false_or, reduceCtorEq, Int.natCast_eq_zero,  parseLine_D_eq_A, parseLine_A_eq_M, parseLine_M_eq_D, parseLine_M_eq_M_plus_1, parseLine_AM_eq_M_minus_1, parseLine_D_eq_M, parseLine_A_eq_A_minus_1, parseLine_M_eq_D_plus_M, parseLine_M_eq_M_minus_D, parseLine_M_eq_D_and_M, parseLine_M_eq_D_or_M, parseLine_A_eq_M_minus_1, parseLine_M_eq_minus_M, parseLine_M_eq_not_M, parseLine_D_eq_M_minus_D, parseLine_D_JEQ, parseLine_D_JGT, parseLine_D_JLT, parseLine_M_eq_0, parseLine_0_JMP, parseLine_M_eq_minus_1, parseLine_A_eq_D_plus_A, parseLine_D_eq_D_minus_A, parseLine_D_eq_M_plus_1, parseLine_A_eq_D, parseLine_A_eq_D_minus_A, parseLine_D_JNE]; rfl) (by simp [noJump]) ⟨a0, d0, 0, ram⟩ rfl
    obtain ⟨hlen, hrun⟩ := hr
    generalize assemble (emitted (writePushPop C_POP "local" i) w) = p at hlen hrun ⊢
    have hI := resolve_decimal p i (by omega)
    simp (disch := omega) only [execSeq_A _ _ _ _ _ _ _ _ (resolve_SP p),
        execSeq_A _ _ _ _ _ _ _ _ (resolve_LCL p), execSeq_A _ _ _ _ _ _ _ _ (resolve_ARG p),
        execSeq_A _ _ _ _ _ _ _ _ (resolve_THIS p), execSeq_A _ _ _ _ _ _ _ _ (resolve_THAT p),
        execSeq_A _ _ _ _ _ _ _ _ (resolve_5 p), execSeq_A _ _ _ _ _ _ _ _ (resolve_R13 p),
        execSeq_A _ _ _ _ _ _ _ _ hI, execSeq_D_eq_A, execSeq_A_eq_M, execSeq_M_eq_D, execSeq_M_eq_M_plus_1, execSeq_AM_eq_M_minus_1, execSeq_D_eq_M, execSeq_A_eq_A_minus_1, execSeq_M_eq_D_plus_M, execSeq_M_eq_M_minus_D, execSeq_M_eq_D_and_M, execSeq_M_eq_D_or_M, execSeq_A_eq_M_minus_1, execSeq_M_eq_minus_M, execSeq_M_eq_not_M, execSeq_D_eq_M_minus_D, execSeq_M_eq_0, execSeq_M_eq_minus_1, execSeq_A_eq_D_plus_A, execSeq_D_eq_D_minus_A, execSeq_D_eq_M_plus_1, execSeq_A_eq_D, execSeq_A_eq_D_minus_A, execSeq_nil, Nat.zero_mod, Nat.one_mod, Nat.reduceMod, hsp, store_same,
        store_ne, Nat.mod_eq_of_lt, Nat.zero_add, Nat.reduceAdd, a1, a2, if_false] at hrun
    rw [hrun, hlen]
    refine ⟨_, rfl, rfl, ?_, ?_, ?_⟩
    · simp (disch := omega) [store_ne, store_same]
    · intro h0
      simp (disch := omega) [store_ne, store_same] at h0 ⊢
      try simp (disch := omega) [store_ne, store_same]
    · intro k hk0 hk13 hka
      simp (disch := omega) [store_ne, store_same] at hka ⊢
      try simp (disch := omega) [store_ne, store_same]
  · have hr := run_straight (emitted (writePushPop C_POP "argument" i) w) _
      (by simp only [emitted, writePushPop, push, pop, resolveSegmentAddress, segmentMap, CodeWriter.emit, parseLine_at, parseLine_comment, List.map, List.drop_left, List.append_assoc, List.cons_append, List.nil_append, String.reduceAppend, String.reduceEq, if_true, if_false, mk_SP, mk_LCL, mk_ARG, mk_THIS, mk_THAT, mk_R13, romOf, or_false, or_true, false_or, reduceCtorEq, Int.natCast_eq_zero,  parseLine_D_eq_A, parseLine_A_eq_M, parseLine_M_eq_D, parseLine_M_eq_M_plus_1, parseLine_AM_eq_M_minus_1, parseLine_D_eq_M, parseLine_A_eq_A_minus_1, parseLine_M_eq_D_plus_M, parseLine_M_eq_M_minus_D, parseLine_M_eq_D_and_M, parseLine_M_eq_D_or_M, parseLine_A_eq_M_minus_1, parseLine_M_eq_minus_M, parseLine_M_eq_not_M, parseLine_D_eq_M_minus_D, parseLine_D_JEQ, parseLine_D_JGT, parseLine_D_JLT, parseLine_M_eq_0, parseLine_0_JMP, parseLine_M_eq_minus_1, parseLine_A_eq_D_plus_A, parseLine_D_eq_D_minus_A, parseLine_D_eq_M_plus_1, parseLine_A_eq_D, parseLine_A_eq_D_minus_A, parseLine_D_JNE]; rfl) (by simp [noJump]) ⟨a0, d0, 0, ram⟩ rfl
    obtain ⟨hlen, hrun⟩ := hr
    generalize assemble (emitted (writePushPop C_POP "argument" i) w) = p at hlen hrun ⊢
    have hI := resolve_decimal p i (by omega)
    simp (disch := omega) only [execSeq_A _ _ _ _ _ _ _ _ (resolve_SP p),
        execSeq_A _ _ _ _ _ _ _ _ (resolve_LCL p), execSeq_A _ _ _ _ _ _ _ _ (resolve_ARG p),
        execSeq_A _ _ _ _ _ _ _ _ (resolve_THIS p), execSeq_A _ _ _ _ _ _ _ _ (resolve_THAT p),
        execSeq_A _ _ _ _ _ _ _ _ (resolve_5 p), execSeq_A _ _ _ _ _ _ _ _ (resolve_R13 p),
        execSeq_A _ _ _ _ _ _ _ _ hI, execSeq_D_eq_A, execSeq_A_eq_M, execSeq_M_eq_D, execSeq_M_eq_M_plus_1, execSeq_AM_eq_M_minus_1, execSeq_D_eq_M, execSeq_A_eq_A_minus_1, execSeq_M_eq_D_plus_M, execSeq_M_eq_M_minus_D, execSeq_M_eq_D_and_M, execSeq_M_eq_D_or_M, execSeq_A_eq_M_minus_1, execSeq_M_eq_minus_M, execSeq_M_eq_not_M, execSeq_D_eq_M_minus_D, execSeq_M_eq_0, execSeq_M_eq_minus_1, execSeq_A_eq_D_plus_A, execSeq_D_eq_D_minus_A, execSeq_D_eq_M_plus_1, execSeq_A_eq_D, execSeq_A_eq_D_minus_A, execSeq_nil, Nat.zero_mod, Nat.one_mod, Nat.reduceMod, hsp, store_same,
        store_ne, Nat.mod_eq_of_lt, Nat.zero_add, Nat.reduceAdd, a1, a2, if_false] at hrun
    rw [hrun, hlen]
    refine ⟨_, rfl, rfl, ?_, ?_, ?_⟩
    · simp (disch := omega) [store_ne, store_same]
    · intro h0
      simp (disch := omega) [store_ne, store_same] at h0 ⊢
      try simp (disch := omega) [store_ne, store_same]
    · intro k hk0 hk13 hka
      simp (disch := omega) [store_ne, store_same] at hka ⊢
      try simp (disch := omega) [store_ne, store_same]
  · have hr := run_straight (emitted (writePushPop C_POP "this" i) w) _
      (by simp only [emitted, writePushPop, push, pop, resolveSegmentAddress, segmentMap, CodeWriter.emit, parseLine_at, parseLine_comment, List.map, List.drop_left, List.append_assoc, List.cons_append, List.nil_append, String.reduceAppend, String.reduceEq, if_true, if_false, mk_SP, mk_LCL, mk_ARG, mk_THIS, mk_THAT, mk_R13, romOf, or_false, or_true, false_or, reduceCtorEq, Int.natCast_eq_zero,  parseLine_D_eq_A, parseLine_A_eq_M, parseLine_M_eq_D, parseLine_M_eq_M_plus_1, parseLine_AM_eq_M_minus_1, parseLine_D_eq_M, parseLine_A_eq_A_minus_1, parseLine_M_eq_D_plus_M, parseLine_M_eq_M_minus_D, parseLine_M_eq_D_and_M, parseLine_M_eq_D_or_M, parseLine_A_eq_M_minus_1, parseLine_M_eq_minus_M, parseLine_M_eq_not_M, parseLine_D_eq_M_minus_D, parseLine_D_JEQ, parseLine_D_JGT, parseLine_D_JLT, parseLine_M_eq_0, parseLine_0_JMP, parseLine_M_eq_minus_1, parseLine_A_eq_D_plus_A, parseLine_D_eq_D_minus_A, parseLine_D_eq_M_plus_1, parseLine_A_eq_D, parseLine_A_eq_D_minus_A, parseLine_D_JNE]; rfl) (by simp [noJump]) ⟨a0, d0, 0, ram⟩ rfl
    obtain ⟨hlen, hrun⟩ := hr
    generalize assemble (emitted (writePushPop C_POP "this" i) w) = p at hlen hrun ⊢
    have hI := resolve_decimal p i (by omega)
    simp (disch := omega) only [execSeq_A _ _ _ _ _ _ _ _ (resolve_SP p),
        execSeq_A _ _ _ _ _ _ _ _ (resolve_LCL p), execSeq_A _ _ _ _ _ _ _ _ (resolve_ARG p),
        execSeq_A _ _ _ _ _ _ _ _ (resolve_THIS p), execSeq_A _ _ _ _ _ _ _ _ (resolve_THAT p),
        execSeq_A _ _ _ _ _ _ _ _ (resolve_5 p), execSeq_A _ _ _ _ _ _ _ _ (resolve_R13 p),
        execSeq_A _ _ _ _ _ _ _ _ hI, execSeq_D_eq_A, execSeq_A_eq_M, execSeq_M_eq_D, execSeq_M_eq_M_plus_1, execSeq_AM_eq_M_minus_1, execSeq_D_eq_M, execSeq_A_eq_A_minus_1, execSeq_M_eq_D_plus_M, execSeq_M_eq_M_minus_D, execSeq_M_eq_D_and_M, execSeq_M_eq_D_or_M, execSeq_A_eq_M_minus_1, execSeq_M_eq_minus_M, execSeq_M_eq_not_M, execSeq_D_eq_M_minus_D, execSeq_M_eq_0, execSeq_M_eq_minus_1, execSeq_A_eq_D_plus_A, execSeq_D_eq_D_minus_A, execSeq_D_eq_M_plus_1, execSeq_A_eq_D, execSeq_A_eq_D_minus_A, execSeq_nil, Nat.zero_mod, Nat.one_mod, Nat.reduceMod, hsp, store_same,
        store_ne, Nat.mod_eq_of_lt, Nat.zero_add, Nat.reduceAdd, a1, a2, if_false] at hrun
    rw [hrun, hlen]
    refine ⟨_, rfl, rfl, ?_, ?_, ?_⟩
    · simp (disch := omega) [store_ne, store_same]
    · intro h0
      simp (disch := omega) [store_ne, store_same] at h0 ⊢
      try simp (disch := omega) [store_ne, store_same]
    · intro k hk0 hk13 hka
      simp (disch := omega) [store_ne, store_same] at hka ⊢
      try simp (disch := omega) [store_ne, store_same]
  · have hr := run_straight (emitted (writePushPop C_POP "that" i) w) _
      (by simp only [emitted, writePushPop, push, pop, resolveSegmentAddress, segmentMap, CodeWriter.emit, parseLine_at, parseLine_comment, List.map, List.drop_left, List.append_assoc, List.cons_append, List.nil_append, String.reduceAppend, String.reduceEq, if_true, if_false, mk_SP, mk_LCL, mk_ARG, mk_THIS, mk_THAT, mk_R13, romOf, or_false, or_true, false_or, reduceCtorEq, Int.natCast_eq_zero,  parseLine_D_eq_A, parseLine_A_eq_M, parseLine_M_eq_D, parseLine_M_eq_M_plus_1, parseLine_AM_eq_M_minus_1, parseLine_D_eq_M, parseLine_A_eq_A_minus_1, parseLine_M_eq_D_plus_M, parseLine_M_eq_M_minus_D, parseLine_M_eq_D_and_M, parseLine_M_eq_D_or_M, parseLine_A_eq_M_minus_1, parseLine_M_eq_minus_M, parseLine_M_eq_not_M, parseLine_D_eq_M_minus_D, parseLine_D_JEQ, parseLine_D_JGT, parseLine_D_JLT, parseLine_M_eq_0, parseLine_0_JMP, parseLine_M_eq_minus_1, parseLine_A_eq_D_plus_A, parseLine_D_eq_D_minus_A, parseLine_D_eq_M_plus_1, parseLine_A_eq_D, parseLine_A_eq_D_minus_A, parseLine_D_JNE]; rfl) (by simp [noJump]) ⟨a0, d0, 0, ram⟩ rfl
    obtain ⟨hlen, hrun⟩ := hr
    generalize assemble (emitted (writePushPop C_POP "that" i) w) = p at hlen hrun ⊢
    have hI := resolve_decimal p i (by omega)
    simp (disch := omega) only [execSeq_A _ _ _ _ _ _ _ _ (resolve_SP p),
        execSeq_A _ _ _ _ _ _ _ _ (resolve_LCL p), execSeq_A _ _ _ _ _ _ _ _ (resolve_ARG p),
        execSeq_A _ _ _ _ _ _ _ _ (resolve_THIS p), execSeq_A _ _ _ _ _ _ _ _ (resolve_THAT p),
        execSeq_A _ _ _ _ _ _ _ _ (resolve_5 p), execSeq_A _ _ _ _ _ _ _ _ (resolve_R13 p),
        execSeq_A _ _ _ _ _ _ _ _ hI, execSeq_D_eq_A, execSeq_A_eq_M, execSeq_M_eq_D, execSeq_M_eq_M_plus_1, execSeq_AM_eq_M_minus_1, execSeq_D_eq_M, execSeq_A_eq_A_minus_1, execSeq_M_eq_D_plus_M, execSeq_M_eq_M_minus_D, execSeq_M_eq_D_and_M, execSeq_M_eq_D_or_M, execSeq_A_eq_M_minus_1, execSeq_M_eq_minus_M, execSeq_M_eq_not_M, execSeq_D_eq_M_minus_D, execSeq_M_eq_0, execSeq_M_eq_minus_1, execSeq_A_eq_D_plus_A, execSeq_D_eq_D_minus_A, execSeq_D_eq_M_plus_1, execSeq_A_eq_D, execSeq_A_eq_D_minus_A, execSeq_nil, Nat.zero_mod, Nat.one_mod, Nat.reduceMod, hsp, store_same,
        store_ne, Nat.mod_eq_of_lt, Nat.zero_add, Nat.reduceAdd, a1, a2, if_false] at hrun
    rw [hrun, hlen]
    refine ⟨_, rfl, rfl, ?_, ?_, ?_⟩
    · simp (disch := omega) [store_ne, store_same]
    · intro h0
      simp (disch := omega) [store_ne, store_same] at h0 ⊢
      try simp (disch := omega) [store_ne, store_same]
    · intro k hk0 hk13 hka
      simp (disch := omega) [store_ne, store_same] at hka ⊢
      try simp (disch := omega) [store_ne, store_same]
  · have hr := run_straight (emitted (writePushPop C_POP "temp" i) w) _
      (by simp only [emitted, writePushPop, push, pop, resolveSegmentAddress, segmentMap, CodeWriter.emit, parseLine_at, parseLine_comment, List.map, List.drop_left, List.append_assoc, List.cons_append, List.nil_append, String.reduceAppend, String.reduceEq, if_true, if_false, mk_SP, mk_LCL, mk_ARG, mk_THIS, mk_THAT, mk_R13, romOf, or_false, or_true, false_or, reduceCtorEq, Int.natCast_eq_zero,  parseLine_D_eq_A, parseLine_A_eq_M, parseLine_M_eq_D, parseLine_M_eq_M_plus_1, parseLine_AM_eq_M_minus_1, parseLine_D_eq_M, parseLine_A_eq_A_minus_1, parseLine_M_eq_D_plus_M, parseLine_M_eq_M_minus_D, parseLine_M_eq_D_and_M, parseLine_M_eq_D_or_M, parseLine_A_eq_M_minus_1, parseLine_M_eq_minus_M, parseLine_M_eq_not_M, parseLine_D_eq_M_minus_D, parseLine_D_JEQ, parseLine_D_JGT, parseLine_D_JLT, parseLine_M_eq_0, parseLine_0_JMP, parseLine_M_eq_minus_1, parseLine_A_eq_D_plus_A, parseLine_D_eq_D_minus_A, parseLine_D_eq_M_plus_1, parseLine_A_eq_D, parseLine_A_eq_D_minus_A, parseLine_D_JNE]; rfl) (by simp [noJump]) ⟨a0, d0, 0, ram⟩ rfl
    obtain ⟨hlen, hrun⟩ := hr
    generalize assemble (emitted (writePushPop C_POP "temp" i) w) = p at hlen hrun ⊢
    have hI := resolve_decimal p i (by omega)
    simp (disch := omega) only [execSeq_A _ _ _ _ _ _ _ _ (resolve_SP p),
        execSeq_A _ _ _ _ _ _ _ _ (resolve_LCL p), execSeq_A _ _ _ _ _ _ _ _ (resolve_ARG p),
        execSeq_A _ _ _ _ _ _ _ _ (resolve_THIS p), execSeq_A _ _ _ _ _ _ _ _ (resolve_THAT p),
        execSeq_A _ _ _ _ _ _ _ _ (resolve_5 p), execSeq_A _ _ _ _ _ _ _ _ (resolve_R13 p),
        execSeq_A _ _ _ _ _ _ _ _ hI, execSeq_D_eq_A, execSeq_A_eq_M, execSeq_M_eq_D, execSeq_M_eq_M_plus_1, execSeq_AM_eq_M_minus_1, execSeq_D_eq_M, execSeq_A_eq_A_minus_1, execSeq_M_eq_D_plus_M, execSeq_M_eq_M_minus_D, execSeq_M_eq_D_and_M, execSeq_M_eq_D_or_M, execSeq_A_eq_M_minus_1, execSeq_M_eq_minus_M, execSeq_M_eq_not_M, execSeq_D_eq_M_minus_D, execSeq_M_eq_0, execSeq_M_eq_minus_1, execSeq_A_eq_D_plus_A, execSeq_D_eq_D_minus_A, execSeq_D_eq_M_plus_1, execSeq_A_eq_D, execSeq_A_eq_D_minus_A, execSeq_nil, Nat.zero_mod, Nat.one_mod, Nat.reduceMod, hsp, store_same,
        store_ne, Nat.mod_eq_of_lt, Nat.zero_add, Nat.reduceAdd, a1, a2, if_false] at hrun
    rw [hrun, hlen]
    refine ⟨_, rfl, rfl, ?_, ?_, ?_⟩
    · simp (disch := omega) [store_ne, store_same]
    · intro h0
      simp (disch := omega) [store_ne, store_same] at h0 ⊢
      try simp (disch := omega) [store_ne, store_same]
    · intro k hk0 hk13 hka
      simp (disch := omega) [store_ne, store_same] at hka ⊢
      try simp (disch := omega) [store_ne, store_same]
  · by_cases hi0 : i = 0
    · have hr := run_straight (emitted (writePushPop C_POP "pointer" i) w) _
        (by simp only [emitted, writePushPop, push, pop, resolveSegmentAddress, segmentMap, CodeWriter.emit, parseLine_at, parseLine_comment, List.map, List.drop_left, List.append_assoc, List.cons_append, List.nil_append, String.reduceAppend, String.reduceEq, if_true, if_false, mk_SP, mk_LCL, mk_ARG, mk_THIS, mk_THAT, mk_R13, romOf, or_false, or_true, false_or, reduceCtorEq, Int.natCast_eq_zero, hi0, parseLine_D_eq_A, parseLine_A_eq_M, parseLine_M_eq_D, parseLine_M_eq_M_plus_1, parseLine_AM_eq_M_minus_1, parseLine_D_eq_M, parseLine_A_eq_A_minus_1, parseLine_M_eq_D_plus_M, parseLine_M_eq_M_minus_D, parseLine_M_eq_D_and_M, parseLine_M_eq_D_or_M, parseLine_A_eq_M_minus_1, parseLine_M_eq_minus_M, parseLine_M_eq_not_M, parseLine_D_eq_M_minus_D, parseLine_D_JEQ, parseLine_D_JGT, parseLine_D_JLT, parseLine_M_eq_0, parseLine_0_JMP, parseLine_M_eq_minus_1, parseLine_A_eq_D_plus_A, parseLine_D_eq_D_minus_A, parseLine_D_eq_M_plus_1, parseLine_A_eq_D, parseLine_A_eq_D_minus_A, parseLine_D_JNE]; rfl) (by simp [noJump]) ⟨a0, d0, 0, ram⟩ rfl
      obtain ⟨hlen, hrun⟩ := hr
      generalize assemble (emitted (writePushPop C_POP "pointer" i) w) = p at hlen hrun ⊢
      have hI := resolve_decimal p i (by omega)
      simp (disch := omega) only [execSeq_A _ _ _ _ _ _ _ _ (resolve_SP p),
          execSeq_A _ _ _ _ _ _ _ _ (resolve_LCL p), execSeq_A _ _ _ _ _ _ _ _ (resolve_ARG p),
          execSeq_A _ _ _ _ _ _ _ _ (resolve_THIS p), execSeq_A _ _ _ _ _ _ _ _ (resolve_THAT p),
          execSeq_A _ _ _ _ _ _ _ _ (resolve_5 p), execSeq_A _ _ _ _ _ _ _ _ (resolve_R13 p),
          execSeq_A _ _ _ _ _ _ _ _ hI, execSeq_D_eq_A, execSeq_A_eq_M, execSeq_M_eq_D, execSeq_M_eq_M_plus_1, execSeq_AM_eq_M_minus_1, execSeq_D_eq_M, execSeq_A_eq_A_minus_1, execSeq_M_eq_D_plus_M, execSeq_M_eq_M_minus_D, execSeq_M_eq_D_and_M, execSeq_M_eq_D_or_M, execSeq_A_eq_M_minus_1, execSeq_M_eq_minus_M, execSeq_M_eq_not_M, execSeq_D_eq_M_minus_D, execSeq_M_eq_0, execSeq_M_eq_minus_1, execSeq_A_eq_D_plus_A, execSeq_D_eq_D_minus_A, execSeq_D_eq_M_plus_1, execSeq_A_eq_D, execSeq_A_eq_D_minus_A, execSeq_nil, Nat.zero_mod, Nat.one_mod, Nat.reduceMod, hsp, store_same,
          store_ne, Nat.mod_eq_of_lt, Nat.zero_add, Nat.reduceAdd, a1, a2, if_false] at hrun
      rw [hrun, hlen]
      refine ⟨_, rfl, rfl, ?_, ?_, ?_⟩
      · simp (disch := omega) [store_ne, store_same, hi0]
      · intro h0
        simp (disch := omega) [store_ne, store_same, hi0] at h0 ⊢
        try simp (disch := omega) [store_ne, store_same]
      · intro k hk0 hk13 hka
        simp (disch := omega) [store_ne, store_same, hi0] at hka ⊢
        try simp (disch := omega) [store_ne, store_same]
    · have hr := run_straight (emitted (writePushPop C_POP "pointer" i) w) _
        (by simp only [emitted, writePushPop, push, pop, resolveSegmentAddress, segmentMap, CodeWriter.emit, parseLine_at, parseLine_comment, List.map, List.drop_left, List.append_assoc, List.cons_append, List.nil_append, String.reduceAppend, String.reduceEq, if_true, if_false, mk_SP, mk_LCL, mk_ARG, mk_THIS, mk_THAT, mk_R13, romOf, or_false, or_true, false_or, reduceCtorEq, Int.natCast_eq_zero, hi0, parseLine_D_eq_A, parseLine_A_eq_M, parseLine_M_eq_D, parseLine_M_eq_M_plus_1, parseLine_AM_eq_M_minus_1, parseLine_D_eq_M, parseLine_A_eq_A_minus_1, parseLine_M_eq_D_plus_M, parseLine_M_eq_M_minus_D, parseLine_M_eq_D_and_M, parseLine_M_eq_D_or_M, parseLine_A_eq_M_minus_1, parseLine_M_eq_minus_M, parseLine_M_eq_not_M, parseLine_D_eq_M_minus_D, parseLine_D_JEQ, parseLine_D_JGT, parseLine_D_JLT, parseLine_M_eq_0, parseLine_0_JMP, parseLine_M_eq_minus_1, parseLine_A_eq_D_plus_A, parseLine_D_eq_D_minus_A, parseLine_D_eq_M_plus_1, parseLine_A_eq_D, parseLine_A_eq_D_minus_A, parseLine_D_JNE]; rfl) (by simp [noJump]) ⟨a0, d0, 0, ram⟩ rfl
      obtain ⟨hlen, hrun⟩ := hr
      generalize assemble (emitted (writePushPop C_POP "pointer" i) w) = p at hlen hrun ⊢
      have hI := resolve_decimal p i (by omega)
      simp (disch := omega) only [execSeq_A _ _ _ _ _ _ _ _ (resolve_SP p),
          execSeq_A _ _ _ _ _ _ _ _ (resolve_LCL p), execSeq_A _ _ _ _ _ _ _ _ (resolve_ARG p),
          execSeq_A _ _ _ _ _ _ _ _ (resolve_THIS p), execSeq_A _ _ _ _ _ _ _ _ (resolve_THAT p),
          execSeq_A _ _ _ _ _ _ _ _ (resolve_5 p), execSeq_A _ _ _ _ _ _ _ _ (resolve_R13 p),
          execSeq_A _ _ _ _ _ _ _ _ hI, execSeq_D_eq_A, execSeq_A_eq_M, execSeq_M_eq_D, execSeq_M_eq_M_plus_1, execSeq_AM_eq_M_minus_1, execSeq_D_eq_M, execSeq_A_eq_A_minus_1, execSeq_M_eq_D_plus_M, execSeq_M_eq_M_minus_D, execSeq_M_eq_D_and_M, execSeq_M_eq_D_or_M, execSeq_A_eq_M_minus_1, execSeq_M_eq_minus_M, execSeq_M_eq_not_M, execSeq_D_eq_M_minus_D, execSeq_M_eq_0, execSeq_M_eq_minus_1, execSeq_A_eq_D_plus_A, execSeq_D_eq_D_minus_A, execSeq_D_eq_M_plus_1, execSeq_A_eq_D, execSeq_A_eq_D_minus_A, execSeq_nil, Nat.zero_mod, Nat.one_mod, Nat.reduceMod, hsp, store_same,
          store_ne, Nat.mod_eq_of_lt, Nat.zero_add, Nat.reduceAdd, a1, a2, if_false] at hrun
      rw [hrun, hlen]
      refine ⟨_, rfl, rfl, ?_, ?_, ?_⟩
      · simp (disch := omega) [store_ne, store_same, hi0]
      · intro h0
        simp (disch := omega) [store_ne, store_same, hi0] at h0 ⊢
        try simp (disch := omega) [store_ne, store_same]
      · intro k hk0 hk13 hka
        simp (disch := omega) [store_ne, store_same, hi0] at hka ⊢
        try simp (disch := omega) [store_ne, store_same]

end Hack
end VMTranslator
namespace VMTranslator
open CommandType
namespace Hack


/-- C5: for `op` in `add`, `sub`, `and`, `or` and constants `a`, `b` in `0..32767`, running the 19
instructions emitted for `push constant a; push constant b; op` from stack pointer `s` leaves
`SP = s + 1` and `RAM[s]` equal to `a + b`, `a - b` (both modulo `2 ^ 16`), `a AND b`, `a OR b`;
no cell other than `SP`, `RAM[s]` and `RAM[s + 1]` changes. -/
theorem C5_binary_arithmetic (op : String) (hop : op ∈ ["add", "sub", "and", "or"])
    (a b s : Nat) (w : CodeWriter) (st : State)
    (ha : a ≤ 32767) (hb : b ≤ 32767) (hpc : st.pc = 0) (hsp : st.ram 0 = s)
    (hs0 : 0 < s) (hs1 : s + 1 < 32768) :
    (assemble (emitted (fun w0 => writeArithmetic op
        (writePushPop C_PUSH "constant" b (writePushPop C_PUSH "constant" a w0))) w)).rom.length = 19 ∧
    ∃ st1, runN (assemble (emitted (fun w0 => writeArithmetic op
        (writePushPop C_PUSH "constant" b (writePushPop C_PUSH "constant" a w0))) w)) 19 st = some st1 ∧
      st1.pc = 19 ∧ st1.ram 0 = s + 1 ∧
      (op = "add" → (st1.ram s : Int) = ((a : Int) + b) % 65536) ∧
      (op = "sub" → (st1.ram s : Int) = ((a : Int) - b) % 65536) ∧
      (op = "and" → st1.ram s = a &&& b) ∧
      (op = "or" → st1.ram s = a ||| b) ∧
      (∀ k, k ≠ 0 → k ≠ s → k ≠ s + 1 → st1.ram k = st.ram k) := by
  generalize hp : assemble (emitted (fun w0 => writeArithmetic op
        (writePushPop C_PUSH "constant" b (writePushPop C_PUSH "constant" a w0))) w) = p
  have hrom : p.rom = romOf ((emitted (fun w0 => writeArithmetic op
        (writePushPop C_PUSH "constant" b (writePushPop C_PUSH "constant" a w0))) w).map parseLine) := by
    rw [← hp]; rfl
  clear hp
  obtain ⟨a0, d0, pc0, ram⟩ := st
  simp only [] at hpc hsp
  subst hpc
  have hSP := resolve_SP p
  have hA := resolve_decimal p a (by omega)
  have hB := resolve_decimal p b (by omega)
  simp only [List.mem_cons, List.mem_singleton, List.not_mem_nil, or_false] at hop
  rcases hop with rfl | rfl | rfl | rfl
  all_goals
    simp [emitted, writeArithmetic, writePushPop, push, binaryOp, CodeWriter.emit, parseLine_at,
      parseLine_comment, romOf, parseLine_D_eq_A, parseLine_A_eq_M, parseLine_M_eq_D, parseLine_M_eq_M_plus_1, parseLine_AM_eq_M_minus_1, parseLine_D_eq_M, parseLine_A_eq_A_minus_1, parseLine_M_eq_D_plus_M, parseLine_M_eq_M_minus_D, parseLine_M_eq_D_and_M, parseLine_M_eq_D_or_M, parseLine_A_eq_M_minus_1, parseLine_M_eq_minus_M, parseLine_M_eq_not_M, parseLine_D_eq_M_minus_D, parseLine_D_JEQ, parseLine_D_JGT, parseLine_D_JLT, parseLine_M_eq_0, parseLine_0_JMP, parseLine_M_eq_minus_1, parseLine_A_eq_D_plus_A, parseLine_D_eq_D_minus_A, parseLine_D_eq_M_plus_1, parseLine_A_eq_D, parseLine_A_eq_D_minus_A, parseLine_D_JNE] at hrom
    have hlen : p.rom.length = 19 := by rw [hrom]; rfl
    have hrun := runN_whole p ⟨a0, d0, 0, ram⟩ rfl (by rw [hrom]; simp [noJump])
    rw [hlen, hrom] at hrun
    rw [hrun]
    clear hrun hrom
    simp (disch := omega) only [execSeq_A _ _ _ _ _ _ _ _ hSP, execSeq_A _ _ _ _ _ _ _ _ hA,
      execSeq_A _ _ _ _ _ _ _ _ hB, execSeq_D_eq_A, execSeq_A_eq_M, execSeq_M_eq_D, execSeq_M_eq_M_plus_1, execSeq_AM_eq_M_minus_1, execSeq_D_eq_M, execSeq_A_eq_A_minus_1, execSeq_M_eq_D_plus_M, execSeq_M_eq_M_minus_D, execSeq_M_eq_D_and_M, execSeq_M_eq_D_or_M, execSeq_A_eq_M_minus_1, execSeq_M_eq_minus_M, execSeq_M_eq_not_M, execSeq_D_eq_M_minus_D, execSeq_M_eq_0, execSeq_M_eq_minus_1, execSeq_A_eq_D_plus_A, execSeq_D_eq_D_minus_A, execSeq_D_eq_M_plus_1, execSeq_A_eq_D, execSeq_A_eq_D_minus_A, execSeq_nil, Nat.zero_mod, hsp, store_same,
      store_ne, Nat.mod_eq_of_lt, ne_eq, not_false_eq_true, Nat.add_sub_cancel,
      Nat.add_eq_zero, one_ne_zero, and_false, if_false]
    have e1 : (s + 1) % 32768 = s + 1 := Nat.mod_eq_of_lt (by omega)
    have e2 : s % 32768 = s := Nat.mod_eq_of_lt (by omega)
    have n1 : s + 1 ≠ s := by omega
    have n2 : s ≠ 0 := by omega
    refine ⟨hlen, _, rfl, rfl, ?_, ?_, ?_, ?_, ?_, ?_⟩
    · simp (disch := omega) [store_ne, store_same]
    · intro h
      first
        | exact absurd h (by decide)
        | (simp (disch := omega) [store_ne, store_same, e1, e2]; omega)
    · intro h
      first
        | exact absurd h (by decide)
        | (simp (disch := omega) [store_ne, store_same, e1, e2]; omega)
    · intro h
      first
        | exact absurd h (by decide)
        | (simp (disch := omega) [store_ne, store_same, e1, e2]; exact Nat.land_comm _ _)
    · intro h
      first
        | exact absurd h (by decide)
        | (simp (disch := omega) [store_ne, store_same, e1, e2]; exact Nat.lor_comm _ _)
    · intro k hk0 hks hks1
      simp [store_ne, hk0, hks, hks1]

theorem C5_binary_arithmetic_witness :
    "add" ∈ ["add", "sub", "and", "or"] ∧ 7 ≤ 32767 ∧ 8 ≤ 32767 ∧ 0 < 256 ∧ 256 + 1 < 32768 ∧
    ∃ st1, runN (assemble (emitted (fun w0 => writeArithmetic "add"
        (writePushPop C_PUSH "constant" 8 (writePushPop C_PUSH "constant" 7 w0))) CodeWriter.init))
          19 ⟨0, 0, 0, fun k => if k = 0 then 256 else 0⟩ = some st1 ∧
      st1.ram 0 = 257 ∧ st1.ram 256 = 15 := by
  refine ⟨by simp, by decide, by decide, by decide, by decide, ?_⟩
  obtain ⟨_, st1, hrun, _, hsp, hadd, _, _, _, _⟩ :=
    C5_binary_arithmetic "add" (by simp) 7 8 256 CodeWriter.init
      ⟨0, 0, 0, fun k => if k = 0 then 256 else 0⟩ (by decide) (by decide) rfl rfl
      (by decide) (by decide)
  refine ⟨st1, hrun, hsp, ?_⟩
  have h := hadd rfl
  omega

end Hack
end VMTranslator
namespace VMTranslator
open CommandType
namespace Hack

/-! ## Call, function entry and return -/

theorem emitted_comp (f g : CodeWriter → CodeWriter) (w : CodeWriter)
    (hf : ∃ l, (f w).output = w.output ++ l) (hg : ∃ l, (g (f w)).output = (f w).output ++ l) :
    emitted (fun w0 => g (f w0)) w = emitted f w ++ emitted g (f w) := by
  obtain ⟨lf, hlf⟩ := hf
  obtain ⟨lg, hlg⟩ := hg
  simp only [emitted, hlg, hlf, List.append_assoc, List.drop_left, List.length_append]
  rw [← List.append_assoc, List.drop_left' (by simp)]

theorem emit_output (w : CodeWriter) (l : List String) : (w.emit l).output = w.output ++ l := rfl

theorem push_appends (seg : String) (i : Int) (w : CodeWriter) :
    ∃ l, (push seg i w).output = w.output ++ l := by
  simp only [push, resolveSegmentAddress]
  split_ifs <;> exact ⟨_, by simp only [emit_output, List.append_assoc]; rfl⟩

theorem push_fields (seg : String) (i : Int) (w : CodeWriter) :
    (push seg i w).currentFunction = w.currentFunction ∧ (push seg i w).filename = w.filename ∧
      (push seg i w).labelCounter = w.labelCounter := by
  simp only [push, resolveSegmentAddress]
  split_ifs <;> exact ⟨rfl, rfl, rfl⟩

theorem push_constant_output (i : Int) (w : CodeWriter) :
    (push "constant" i w).output =
      w.output ++ ["@" ++ decimal i, "D=A", "@SP", "A=M", "M=D", "@SP", "M=M+1"] := by
  simp [push, CodeWriter.emit]

theorem iterate_push_output (k : Nat) : ∀ w : CodeWriter,
    ((push "constant" 0)^[k] w).output =
      w.output ++ (List.replicate k ["@0", "D=A", "@SP", "A=M", "M=D", "@SP", "M=M+1"]).flatten := by
  induction k with
  | zero => intro w; simp
  | succ k ih =>
    intro w
    rw [Function.iterate_succ_apply, ih, push_constant_output, List.replicate_succ,
      List.flatten_cons, List.append_assoc]
    rfl

theorem writeCall_appends (f : String) (n : Int) (w : CodeWriter) :
    ∃ l, (writeCall f n w).output = w.output ++ l :=
  ⟨_, by simp only [writeCall, pushValue, pushSegment, emit_output, List.append_assoc]; rfl⟩

theorem writeReturn_appends (w : CodeWriter) : ∃ l, (writeReturn w).output = w.output ++ l :=
  ⟨_, by simp only [writeReturn, restoreSegment, emit_output, List.append_assoc]; rfl⟩

theorem writeFunction_appends (f : String) (n : Int) (w : CodeWriter) :
    ∃ l, (writeFunction f n w).output = w.output ++ l :=
  ⟨_, by simp only [writeFunction, iterate_push_output, emit_output, List.append_assoc]; rfl⟩

end Hack
end VMTranslator
namespace VMTranslator
open CommandType
namespace Hack

theorem replicate_push_labels (k : Nat) (pc : Nat) :
    labelTable ((List.replicate k ["@0", "D=A", "@SP", "A=M", "M=D", "@SP", "M=M+1"]).flatten.map
        parseLine) pc = [] := by
  induction k generalizing pc with
  | zero => rfl
  | succ k ih =>
    rw [List.replicate_succ, List.flatten_cons, List.map_append, labelTable_append, ih]
    simp only [List.map, parseLine_at, labelTable, parseLine_D_eq_A, parseLine_A_eq_M, parseLine_M_eq_D, parseLine_M_eq_M_plus_1, parseLine_AM_eq_M_minus_1, parseLine_D_eq_M, parseLine_A_eq_A_minus_1, parseLine_M_eq_D_plus_M, parseLine_M_eq_M_minus_D, parseLine_M_eq_D_and_M, parseLine_M_eq_D_or_M, parseLine_A_eq_M_minus_1, parseLine_M_eq_minus_M, parseLine_M_eq_not_M, parseLine_D_eq_M_minus_D, parseLine_D_JEQ, parseLine_D_JGT, parseLine_D_JLT, parseLine_M_eq_0, parseLine_0_JMP, parseLine_M_eq_minus_1, parseLine_A_eq_D_plus_A, parseLine_D_eq_D_minus_A, parseLine_D_eq_M_plus_1, parseLine_A_eq_D, parseLine_A_eq_D_minus_A, parseLine_D_JNE]
    rfl

end Hack
end VMTranslator
namespace VMTranslator
open CommandType
namespace Hack

theorem parseLine_label2 (a b : String) : parseLine ("(" ++ (a ++ b) ++ ")") = Line.label (a ++ b) :=
  parseLine_label _

theorem codeAt_split {rom : List Instr} {pc : Nat} {frag : List Instr} (n : Nat)
    (h : CodeAt rom pc frag) (hn : n ≤ frag.length) :
    CodeAt rom pc (frag.take n) ∧ CodeAt rom (pc + n) (frag.drop n) := by
  have h1 : CodeAt rom pc (frag.take n ++ frag.drop n) := by rwa [List.take_append_drop]
  refine ⟨codeAt_left h1, ?_⟩
  have h2 := codeAt_right h1
  rwa [List.length_take, Nat.min_eq_left hn] at h2

theorem runN_then (p : Program) {n : Nat} {st : State} {a d pc : Nat} {ram : Nat → Nat}
    {i : Instr} (h1 : runN p n st = some ⟨a, d, pc, ram⟩) (h : p.rom.get? pc = some i) :
    runN p (n + 1) st = execInstr p i ⟨a, d, pc, ram⟩ := by
  rw [runN_add, h1]
  exact runN_one p ⟨a, d, pc, ram⟩ i h

/-- Continue a run with a straight-line fragment found at the current program counter. -/
theorem runN_then_seq (p : Program) {n : Nat} {st : State} {a d pc : Nat} {ram : Nat → Nat}
    (h1 : runN p n st = some ⟨a, d, pc, ram⟩) (frag : List Instr) (hc : CodeAt p.rom pc frag)
    (hj : ∀ i ∈ frag, noJump i = true) :
    runN p (n + frag.length) st = execSeq p frag ⟨a, d, pc, ram⟩ := by
  rw [runN_add, h1]
  exact runN_execSeq p frag ⟨a, d, pc, ram⟩ hc hj

/-- The seven instructions that push the value of a symbol (`pushValue`). -/
theorem pushA_then (p : Program) {n : Nat} {st : State} {a d pc : Nat} {ram : Nat → Nat}
    (h1 : runN p n st = some ⟨a, d, pc, ram⟩) (sym : String) (v s : Nat)
    (hres : p.resolve sym = some v)
    (hc : CodeAt p.rom pc [Instr.A sym, Instr.C ⟨false, true, false⟩ Comp.a Jump.null,
      Instr.A "SP", Instr.C ⟨true, false, false⟩ Comp.m Jump.null,
      Instr.C ⟨false, false, true⟩ Comp.d Jump.null, Instr.A "SP",
      Instr.C ⟨false, false, true⟩ Comp.mPlus1 Jump.null])
    (hsp : ram 0 = s) (hs0 : 0 < s) (hs1 : s < 32768) :
    runN p (n + 7) st = some ⟨0, v, pc + 7, store (store ram s v) 0 (s + 1)⟩ := by
  have h := runN_then_seq p h1 _ hc (by simp [noJump])
  simp (disch := omega) only [List.length_cons, List.length_nil, Nat.zero_add, Nat.reduceAdd,
    execSeq_A _ _ _ _ _ _ _ _ (resolve_SP p), execSeq_A _ _ _ _ _ _ _ _ hres, execSeq_D_eq_A, execSeq_A_eq_M, execSeq_M_eq_D, execSeq_M_eq_M_plus_1, execSeq_AM_eq_M_minus_1, execSeq_D_eq_M, execSeq_A_eq_A_minus_1, execSeq_M_eq_D_plus_M, execSeq_M_eq_M_minus_D, execSeq_M_eq_D_and_M, execSeq_M_eq_D_or_M, execSeq_A_eq_M_minus_1, execSeq_M_eq_minus_M, execSeq_M_eq_not_M, execSeq_D_eq_M_minus_D, execSeq_M_eq_0, execSeq_M_eq_minus_1, execSeq_A_eq_D_plus_A, execSeq_D_eq_D_minus_A, execSeq_D_eq_M_plus_1, execSeq_A_eq_D, execSeq_A_eq_D_minus_A, execSeq_nil,
    Nat.zero_mod, hsp, store_same, store_ne, Nat.mod_eq_of_lt, Nat.add_assoc] at h
  exact h

/-- The seven instructions that push the content of a cell (`pushSegment`). -/
theorem pushM_then (p : Program) {n : Nat} {st : State} {a d pc : Nat} {ram : Nat → Nat}
    (h1 : runN p n st = some ⟨a, d, pc, ram⟩) (sym : String) (addr s : Nat)
    (hres : p.resolve sym = some addr) (haddr : addr < 32768)
    (hc : CodeAt p.rom pc [Instr.A sym, Instr.C ⟨false, true, false⟩ Comp.m Jump.null,
      Instr.A "SP", Instr.C ⟨true, false, false⟩ Comp.m Jump.null,
      Instr.C ⟨false, false, true⟩ Comp.d Jump.null, Instr.A "SP",
      Instr.C ⟨false, false, true⟩ Comp.mPlus1 Jump.null])
    (hsp : ram 0 = s) (hs0 : 0 < s) (hs1 : s < 32768) :
    runN p (n + 7) st = some ⟨0, ram addr, pc + 7, store (store ram s (ram addr)) 0 (s + 1)⟩ := by
  have h := runN_then_seq p h1 _ hc (by simp [noJump])
  simp (disch := omega) only [List.length_cons, List.length_nil, Nat.zero_add, Nat.reduceAdd,
    execSeq_A _ _ _ _ _ _ _ _ (resolve_SP p), execSeq_A _ _ _ _ _ _ _ _ hres, execSeq_D_eq_A, execSeq_A_eq_M, execSeq_M_eq_D, execSeq_M_eq_M_plus_1, execSeq_AM_eq_M_minus_1, execSeq_D_eq_M, execSeq_A_eq_A_minus_1, execSeq_M_eq_D_plus_M, execSeq_M_eq_M_minus_D, execSeq_M_eq_D_and_M, execSeq_M_eq_D_or_M, execSeq_A_eq_M_minus_1, execSeq_M_eq_minus_M, execSeq_M_eq_not_M, execSeq_D_eq_M_minus_D, execSeq_M_eq_0, execSeq_M_eq_minus_1, execSeq_A_eq_D_plus_A, execSeq_D_eq_D_minus_A, execSeq_D_eq_M_plus_1, execSeq_A_eq_D, execSeq_A_eq_D_minus_A, execSeq_nil,
    Nat.zero_mod, hsp, store_same, store_ne, Nat.mod_eq_of_lt, Nat.add_assoc] at h
  exact h

end Hack
end VMTranslator
namespace VMTranslator
open CommandType
namespace Hack

/-- Execution of the code of `writeCall`: the return address and the four base pointers are
pushed, `ARG` and `LCL` are repositioned, and control goes to the callee. -/
theorem call_exec (p : Program) (f : String) (nArgs s fa r : Nat) (w : CodeWriter) (st : State)
    (hcode : CodeAt p.rom st.pc (romOf ((emitted (writeCall f nArgs) w).map parseLine)))
    (hret : p.resolve (w.currentFunction ++ "$ret." ++ decimal w.labelCounter) = some r)
    (hf : p.resolve f = some fa) (hn : nArgs + 5 ≤ 32767) (hsp : st.ram 0 = s)
    (hs0 : 5 ≤ s) (hsa : nArgs ≤ s) (hs1 : s + 5 ≤ 32768) :
    ∃ st1, runN p 47 st = some st1 ∧ st1.pc = fa ∧ st1.ram 0 = s + 5 ∧ st1.ram 1 = s + 5 ∧
      st1.ram 2 = s - nArgs ∧ st1.ram 3 = st.ram 3 ∧ st1.ram 4 = st.ram 4 ∧ st1.ram s = r ∧
      st1.ram (s + 1) = st.ram 1 ∧ st1.ram (s + 2) = st.ram 2 ∧ st1.ram (s + 3) = st.ram 3 ∧
      st1.ram (s + 4) = st.ram 4 ∧
      (∀ a, 2 < a → (a < s ∨ s + 5 ≤ a) → st1.ram a = st.ram a) := by
  simp only [emitted, writeCall, pushValue, pushSegment, CodeWriter.emit, parseLine_at,
    parseLine_at_append, parseLine_label, parseLine_label2, parseLine_comment, List.map,
    List.drop_left, List.append_assoc, List.cons_append, List.nil_append, String.append_assoc,
    mk_SP, mk_LCL, mk_ARG, mk_THIS, mk_THAT, romOf, parseLine_D_eq_A, parseLine_A_eq_M, parseLine_M_eq_D, parseLine_M_eq_M_plus_1, parseLine_AM_eq_M_minus_1, parseLine_D_eq_M, parseLine_A_eq_A_minus_1, parseLine_M_eq_D_plus_M, parseLine_M_eq_M_minus_D, parseLine_M_eq_D_and_M, parseLine_M_eq_D_or_M, parseLine_A_eq_M_minus_1, parseLine_M_eq_minus_M, parseLine_M_eq_not_M, parseLine_D_eq_M_minus_D, parseLine_D_JEQ, parseLine_D_JGT, parseLine_D_JLT, parseLine_M_eq_0, parseLine_0_JMP, parseLine_M_eq_minus_1, parseLine_A_eq_D_plus_A, parseLine_D_eq_D_minus_A, parseLine_D_eq_M_plus_1, parseLine_A_eq_D, parseLine_A_eq_D_minus_A, parseLine_D_JNE] at hcode
  simp only [String.append_assoc] at hret
  have hcast : ((nArgs : Int) + 5) = ((nArgs + 5 : Nat) : Int) := by push_cast; rfl
  rw [hcast] at hcode
  have hN := resolve_decimal p (nArgs + 5) (by omega)
  obtain ⟨a0, d0, pc0, ram⟩ := st
  simp only [] at hsp hcode
  obtain ⟨c1, hcode⟩ := codeAt_split 7 hcode (by simp)
  simp only [List.take_succ_cons, List.take_zero, List.drop_succ_cons, List.drop_zero] at c1 hcode
  obtain ⟨c2, hcode⟩ := codeAt_split 7 hcode (by simp)
  simp only [List.take_succ_cons, List.take_zero, List.drop_succ_cons, List.drop_zero] at c2 hcode
  obtain ⟨c3, hcode⟩ := codeAt_split 7 hcode (by simp)
  simp only [List.take_succ_cons, List.take_zero, List.drop_succ_cons, List.drop_zero] at c3 hcode
  obtain ⟨c4, hcode⟩ := codeAt_split 7 hcode (by simp)
  simp only [List.take_succ_cons, List.take_zero, List.drop_succ_cons, List.drop_zero] at c4 hcode
  obtain ⟨c5, hcode⟩ := codeAt_split 7 hcode (by simp)
  simp only [List.take_succ_cons, List.take_zero, List.drop_succ_cons, List.drop_zero] at c5 hcode
  obtain ⟨c6, c7⟩ := codeAt_split 11 hcode (by simp)
  simp only [List.take_succ_cons, List.take_zero, List.drop_succ_cons, List.drop_zero] at c6 c7
  have h0 : runN p 0 ⟨a0, d0, pc0, ram⟩ = some ⟨a0, d0, pc0, ram⟩ := rfl
  have h1 := pushA_then p h0 _ r s hret c1 hsp (by omega) (by omega)
  have h2 := pushM_then p h1 "LCL" 1 (s + 1) (resolve_LCL p) (by omega) c2
    (by simp (disch := omega) only [store_same]) (by omega) (by omega)
  have h3 := pushM_then p h2 "ARG" 2 (s + 2) (resolve_ARG p) (by omega) c3
    (by simp (disch := omega) only [store_same]) (by omega) (by omega)
  have h4 := pushM_then p h3 "THIS" 3 (s + 3) (resolve_THIS p) (by omega) c4
    (by simp (disch := omega) only [store_same]) (by omega) (by omega)
  have h5 := pushM_then p h4 "THAT" 4 (s + 4) (resolve_THAT p) (by omega) c5
    (by simp (disch := omega) only [store_same]) (by omega) (by omega)
  have h6 := runN_then_seq p h5 _ c6 (by simp [noJump])
  have harg : (s + 5 + 65536 - (nArgs + 5)) % 65536 = s - nArgs := by omega
  simp (disch := omega) only [List.length_cons, List.length_nil, Nat.zero_add, Nat.reduceAdd,
    execSeq_A _ _ _ _ _ _ _ _ (resolve_SP p), execSeq_A _ _ _ _ _ _ _ _ (resolve_LCL p),
    execSeq_A _ _ _ _ _ _ _ _ (resolve_ARG p), execSeq_A _ _ _ _ _ _ _ _ hf,
    execSeq_A _ _ _ _ _ _ _ _ hN, execSeq_D_eq_A, execSeq_A_eq_M, execSeq_M_eq_D, execSeq_M_eq_M_plus_1, execSeq_AM_eq_M_minus_1, execSeq_D_eq_M, execSeq_A_eq_A_minus_1, execSeq_M_eq_D_plus_M, execSeq_M_eq_M_minus_D, execSeq_M_eq_D_and_M, execSeq_M_eq_D_or_M, execSeq_A_eq_M_minus_1, execSeq_M_eq_minus_M, execSeq_M_eq_not_M, execSeq_D_eq_M_minus_D, execSeq_M_eq_0, execSeq_M_eq_minus_1, execSeq_A_eq_D_plus_A, execSeq_D_eq_D_minus_A, execSeq_D_eq_M_plus_1, execSeq_A_eq_D, execSeq_A_eq_D_minus_A, execSeq_nil,
    Nat.zero_mod, Nat.one_mod, Nat.reduceMod, store_same, store_ne, Nat.mod_eq_of_lt, harg] at h6
  have h7 := runN_then p h6 (codeAt_head c7)
  rw [execInstr_C] at h7
  simp only [compute, jumps, if_true, Bool.false_eq_true, if_false] at h7
  refine ⟨_, h7, rfl, ?_, ?_, ?_, ?_, ?_, ?_, ?_, ?_, ?_, ?_, ?_⟩
  all_goals first
    | (intro a ha1 ha2; simp (disch := omega) only [store_ne])
    | simp (disch := omega) only [store_ne, store_same]

end Hack
end VMTranslator
namespace VMTranslator
open CommandType
namespace Hack

end Hack
end VMTranslator
namespace VMTranslator
open CommandType
namespace Hack

theorem parseLine_label_r1 (a : String) : parseLine ("(" ++ (a ++ ")")) = Line.label a := by
  rw [← String.append_assoc]; exact parseLine_label a

theorem parseLine_label_r3 (a b c : String) :
    parseLine ("(" ++ (a ++ (b ++ (c ++ ")")))) = Line.label (a ++ (b ++ c)) := by
  rw [← String.append_assoc b, ← String.append_assoc a]; exact parseLine_label_r1 _

theorem writeCall_rom_length (f : String) (n : Int) (w : CodeWriter) :
    (romOf ((emitted (writeCall f n) w).map parseLine)).length = 47 := by
  simp only [emitted, writeCall, pushValue, pushSegment, CodeWriter.emit, parseLine_at,
    parseLine_at_append, parseLine_label, parseLine_label2, parseLine_comment, List.map,
    List.drop_left, List.append_assoc, List.cons_append, List.nil_append, String.append_assoc,
    romOf, parseLine_D_eq_A, parseLine_A_eq_M, parseLine_M_eq_D, parseLine_M_eq_M_plus_1, parseLine_AM_eq_M_minus_1, parseLine_D_eq_M, parseLine_A_eq_A_minus_1, parseLine_M_eq_D_plus_M, parseLine_M_eq_M_minus_D, parseLine_M_eq_D_and_M, parseLine_M_eq_D_or_M, parseLine_A_eq_M_minus_1, parseLine_M_eq_minus_M, parseLine_M_eq_not_M, parseLine_D_eq_M_minus_D, parseLine_D_JEQ, parseLine_D_JGT, parseLine_D_JLT, parseLine_M_eq_0, parseLine_0_JMP, parseLine_M_eq_minus_1, parseLine_A_eq_D_plus_A, parseLine_D_eq_D_minus_A, parseLine_D_eq_M_plus_1, parseLine_A_eq_D, parseLine_A_eq_D_minus_A, parseLine_D_JNE]
  rfl

theorem writeCall_labels (f : String) (n : Int) (w : CodeWriter) (pc : Nat) :
    labelTable ((emitted (writeCall f n) w).map parseLine) pc =
      [(w.currentFunction ++ "$ret." ++ decimal w.labelCounter, pc + 47)] := by
  simp only [emitted, writeCall, pushValue, pushSegment, CodeWriter.emit, parseLine_at,
    parseLine_at_append, parseLine_label_r1, parseLine_label_r3, parseLine_comment, List.map,
    List.drop_left, List.append_assoc, List.cons_append, List.nil_append, String.append_assoc,
    labelTable, Nat.add_assoc, Nat.reduceAdd, parseLine_D_eq_A, parseLine_A_eq_M, parseLine_M_eq_D, parseLine_M_eq_M_plus_1, parseLine_AM_eq_M_minus_1, parseLine_D_eq_M, parseLine_A_eq_A_minus_1, parseLine_M_eq_D_plus_M, parseLine_M_eq_M_minus_D, parseLine_M_eq_D_and_M, parseLine_M_eq_D_or_M, parseLine_A_eq_M_minus_1, parseLine_M_eq_minus_M, parseLine_M_eq_not_M, parseLine_D_eq_M_minus_D, parseLine_D_JEQ, parseLine_D_JGT, parseLine_D_JLT, parseLine_M_eq_0, parseLine_0_JMP, parseLine_M_eq_minus_1, parseLine_A_eq_D_plus_A, parseLine_D_eq_D_minus_A, parseLine_D_eq_M_plus_1, parseLine_A_eq_D, parseLine_A_eq_D_minus_A, parseLine_D_JNE]

theorem writeReturn_rom_length (w : CodeWriter) :
    (romOf ((emitted writeReturn w).map parseLine)).length = 51 := by
  simp only [emitted, writeReturn, restoreSegment, CodeWriter.emit, parseLine_at,
    parseLine_comment, List.map, List.drop_left, List.append_assoc, List.cons_append,
    List.nil_append, romOf, parseLine_D_eq_A, parseLine_A_eq_M, parseLine_M_eq_D, parseLine_M_eq_M_plus_1, parseLine_AM_eq_M_minus_1, parseLine_D_eq_M, parseLine_A_eq_A_minus_1, parseLine_M_eq_D_plus_M, parseLine_M_eq_M_minus_D, parseLine_M_eq_D_and_M, parseLine_M_eq_D_or_M, parseLine_A_eq_M_minus_1, parseLine_M_eq_minus_M, parseLine_M_eq_not_M, parseLine_D_eq_M_minus_D, parseLine_D_JEQ, parseLine_D_JGT, parseLine_D_JLT, parseLine_M_eq_0, parseLine_0_JMP, parseLine_M_eq_minus_1, parseLine_A_eq_D_plus_A, parseLine_D_eq_D_minus_A, parseLine_D_eq_M_plus_1, parseLine_A_eq_D, parseLine_A_eq_D_minus_A, parseLine_D_JNE]
  rfl

theorem writeReturn_labels (w : CodeWriter) (pc : Nat) :
    labelTable ((emitted writeReturn w).map parseLine) pc = [] := by
  simp only [emitted, writeReturn, restoreSegment, CodeWriter.emit, parseLine_at,
    parseLine_comment, List.map, List.drop_left, List.append_assoc, List.cons_append,
    List.nil_append, labelTable, parseLine_D_eq_A, parseLine_A_eq_M, parseLine_M_eq_D, parseLine_M_eq_M_plus_1, parseLine_AM_eq_M_minus_1, parseLine_D_eq_M, parseLine_A_eq_A_minus_1, parseLine_M_eq_D_plus_M, parseLine_M_eq_M_minus_D, parseLine_M_eq_D_and_M, parseLine_M_eq_D_or_M, parseLine_A_eq_M_minus_1, parseLine_M_eq_minus_M, parseLine_M_eq_not_M, parseLine_D_eq_M_minus_D, parseLine_D_JEQ, parseLine_D_JGT, parseLine_D_JLT, parseLine_M_eq_0, parseLine_0_JMP, parseLine_M_eq_minus_1, parseLine_A_eq_D_plus_A, parseLine_D_eq_D_minus_A, parseLine_D_eq_M_plus_1, parseLine_A_eq_D, parseLine_A_eq_D_minus_A, parseLine_D_JNE]

end Hack
end VMTranslator
namespace VMTranslator
open CommandType
namespace Hack

theorem toSigned_diff_eq_zero (x y : Nat) (hx : x < 65536) (hy : y < 65536) :
    toSigned ((x + 65536 - y) % 65536) = 0 ↔ toSigned x = toSigned y := by
  simp only [toSigned]
  split_ifs <;> omega

theorem toSigned_diff (x y : Nat) (hx : x < 65536) (hy : y < 65536)
    (h1 : -32768 ≤ toSigned x - toSigned y) (h2 : toSigned x - toSigned y ≤ 32767) :
    toSigned ((x + 65536 - y) % 65536) = toSigned x - toSigned y := by
  simp only [toSigned] at h1 h2 ⊢
  split_ifs at h1 h2 ⊢ <;> omega

/-- C4, as stated, fails: with `x = -32768` (the word 32768) second from the top and `y = 1` on
top, `x < y` holds as a signed comparison, yet the code emitted by `compareOp` for `lt` leaves
the word 0 (false) in `RAM[s - 2]`, because the 16-bit difference `x - y` wraps to `32767`. -/
theorem C4_compare_overflow_counterexample :
    (runN (assemble (emitted (compareOp "lt") CodeWriter.init)) 12
      ⟨0, 0, 0, fun k => if k = 0 then 258 else if k = 256 then 32768 else if k = 257 then 1 else 0⟩).map
        (fun s => (s.pc, s.ram 0, s.ram 256)) = some (15, 257, 0) ∧
    toSigned 32768 < toSigned 1 :=
  ⟨rfl, by decide⟩

/-- C4, amended: for `op` in `eq`, `gt`, `lt` and 16-bit words `x` (second from the top) and `y`
(top), running the code emitted by `compareOp` from stack pointer `s` ends at the end of the code
with `SP = s - 1`, every cell other than `SP` and `RAM[s - 2]` unchanged, and `RAM[s - 2]` equal to
`-1` (65535) or `0` according to whether the 16-bit wrapped difference `x - y`, read as a signed
word, is `= 0`, `> 0`, `< 0`.  For `eq` this is the signed comparison `x = y`; for `gt` and `lt` it
is the signed comparison `x > y`, `x < y` whenever `x - y` does not overflow 16 bits. -/
theorem C4_compare_semantics (op : String) (hop : op ∈ ["eq", "gt", "lt"]) (w : CodeWriter)
    (s x y : Nat) (st : State) (hpc : st.pc = 0) (hsp : st.ram 0 = s) (hs : 3 ≤ s)
    (hs1 : s ≤ 32768) (hx : st.ram (s - 2) = x) (hy : st.ram (s - 1) = y)
    (hx16 : x < 65536) (hy16 : y < 65536) :
    ∃ n st1, runN (assemble (emitted (compareOp op) w)) n st = some st1 ∧
      st1.pc = (assemble (emitted (compareOp op) w)).rom.length ∧ st1.ram 0 = s - 1 ∧
      (op = "eq" → st1.ram (s - 2) = if toSigned x = toSigned y then 65535 else 0) ∧
      (op = "gt" →
        st1.ram (s - 2) = if 0 < toSigned ((x + 65536 - y) % 65536) then 65535 else 0) ∧
      (op = "lt" →
        st1.ram (s - 2) = if toSigned ((x + 65536 - y) % 65536) < 0 then 65535 else 0) ∧
      (-32768 ≤ toSigned x - toSigned y → toSigned x - toSigned y ≤ 32767 →
        (op = "gt" → st1.ram (s - 2) = if toSigned x > toSigned y then 65535 else 0) ∧
        (op = "lt" → st1.ram (s - 2) = if toSigned x < toSigned y then 65535 else 0)) ∧
      (∀ k, k ≠ 0 → k ≠ s - 2 → st1.ram k = st.ram k) := by
  obtain ⟨t, rfl⟩ : ∃ t, s = t + 2 := ⟨s - 2, by omega⟩
  have e1 : t + 2 - 2 = t := by omega
  have e2 : t + 2 - 1 = t + 1 := by omega
  rw [e1] at hx ⊢
  rw [e2] at hy ⊢
  obtain ⟨hlen, n, st1, hrun, hpc1, hsp1, heq, hgt, hlt, hframe⟩ :=
    compareOp_exec op hop w t x y st hpc hsp (by omega) (by omega) hx hy
  refine ⟨n, st1, hrun, by rw [hlen]; exact hpc1, hsp1, ?_, hgt, hlt, ?_, by simpa [e1] using hframe⟩
  · intro h
    rw [heq h]
    simp only [toSigned_diff_eq_zero x y hx16 hy16]
  · intro h1 h2
    have hd := toSigned_diff x y hx16 hy16 h1 h2
    constructor
    · intro h
      rw [hgt h, hd]
      simp only [sub_pos, gt_iff_lt]
    · intro h
      rw [hlt h, hd]
      simp only [sub_neg]

theorem C4_compare_semantics_witness :
    "lt" ∈ ["eq", "gt", "lt"] ∧ 3 ≤ 258 ∧ 258 ≤ 32768 ∧ 2 < 65536 ∧ 3 < 65536 ∧
    ∃ n st1, runN (assemble (emitted (compareOp "lt") CodeWriter.init)) n
        ⟨0, 0, 0, fun k => if k = 0 then 258 else if k = 256 then 2 else if k = 257 then 3 else 0⟩
          = some st1 ∧
      st1.ram 0 = 257 ∧ st1.ram 256 = 65535 := by
  refine ⟨by simp, by decide, by decide, by decide, by decide, ?_⟩
  obtain ⟨n, st1, hrun, _, hsp, _, _, hlt, _, _⟩ :=
    C4_compare_semantics "lt" (by simp) CodeWriter.init 258 2 3
      ⟨0, 0, 0, fun k => if k = 0 then 258 else if k = 256 then 2 else if k = 257 then 3 else 0⟩
      rfl rfl (by decide) (by decide) rfl rfl (by decide) (by decide)
  exact ⟨n, st1, hrun, hsp, by rw [hlt rfl]; decide⟩

end Hack
end VMTranslator
namespace VMTranslator
open CommandType
namespace Hack

/-- C6: for each of the segments `local`, `argument`, `this`, `that`, `temp`, `pointer` and every index
`i` in `0..32767`, the code emitted for `push seg i` copies the content of the cell at the
effective address of the segment table onto the stack (`RAM[s]`, with `SP = s + 1` afterwards), and
the code emitted for `pop seg i` stores the popped top of the stack `RAM[s - 1]` into that cell
and changes no RAM cell other than `SP`, `R13` and that cell.  The stack cells involved lie in the
RAM outside `SP`, and for `pop` the top of the stack is not the scratch register `R13`. -/
theorem C6_segment_addressing (seg : String)
    (hseg : seg ∈ ["local", "argument", "this", "that", "temp", "pointer"])
    (i s : Nat) (w : CodeWriter) (st : State) (hi : i ≤ 32767) (hpc : st.pc = 0)
    (hsp : st.ram 0 = s) (hs0 : 2 ≤ s) (hs13 : s ≠ 14) (hs1 : s < 32768) :
    (∃ st1, runN (assemble (emitted (writePushPop C_PUSH seg i) w))
        (assemble (emitted (writePushPop C_PUSH seg i) w)).rom.length st = some st1 ∧
      st1.pc = (assemble (emitted (writePushPop C_PUSH seg i) w)).rom.length ∧
      st1.ram 0 = s + 1 ∧
      st1.ram s = st.ram (segmentTableAddress st.ram seg i) ∧
      (∀ k, k ≠ 0 → k ≠ s → st1.ram k = st.ram k)) ∧
    (∃ st1, runN (assemble (emitted (writePushPop C_POP seg i) w))
        (assemble (emitted (writePushPop C_POP seg i) w)).rom.length st = some st1 ∧
      st1.pc = (assemble (emitted (writePushPop C_POP seg i) w)).rom.length ∧
      st1.ram (segmentTableAddress st.ram seg i) = st.ram (s - 1) ∧
      (segmentTableAddress st.ram seg i ≠ 0 → st1.ram 0 = s - 1) ∧
      (∀ k, k ≠ 0 → k ≠ 13 → k ≠ segmentTableAddress st.ram seg i → st1.ram k = st.ram k)) :=
  ⟨push_segment_exec seg hseg i s w st hi hpc hsp (by omega) hs1,
    pop_segment_exec seg hseg i s w st hi hpc hsp hs0 hs13 (by omega)⟩

theorem C6_segment_addressing_witness :
    "local" ∈ ["local", "argument", "this", "that", "temp", "pointer"] ∧ 2 ≤ 32767 ∧
    2 ≤ 256 ∧ 256 ≠ 14 ∧ 256 < 32768 ∧
    (∃ st1, runN (assemble (emitted (writePushPop C_PUSH "local" 2) CodeWriter.init)) 10
        ⟨0, 0, 0, fun k => if k = 0 then 256 else if k = 1 then 300 else if k = 255 then 42
          else if k = 302 then 99 else 0⟩ = some st1 ∧
      st1.ram 0 = 257 ∧ st1.ram 256 = 99) ∧
    (∃ st1, runN (assemble (emitted (writePushPop C_POP "local" 2) CodeWriter.init)) 13
        ⟨0, 0, 0, fun k => if k = 0 then 256 else if k = 1 then 300 else if k = 255 then 42
          else if k = 302 then 99 else 0⟩ = some st1 ∧
      st1.ram 0 = 255 ∧ st1.ram 302 = 42) := by
  refine ⟨by simp, by decide, by decide, by decide, by decide, ?_⟩
  obtain ⟨⟨st1, hrun1, _, hsp1, hv1, _⟩, ⟨st2, hrun2, _, hv2, hsp2, _⟩⟩ :=
    C6_segment_addressing "local" (by simp) 2 256 CodeWriter.init
      ⟨0, 0, 0, fun k => if k = 0 then 256 else if k = 1 then 300 else if k = 255 then 42
          else if k = 302 then 99 else 0⟩ (by decide) rfl rfl (by decide) (by decide) (by decide)
  exact ⟨⟨st1, hrun1, hsp1, hv1⟩, ⟨st2, hrun2, hsp2 (by decide), hv2⟩⟩

end Hack
end VMTranslator
namespace VMTranslator
open CommandType
namespace Hack

theorem lookup_cons_same (k : String) (v : Nat) (l : List (String × Nat)) :
    List.lookup k ((k, v) :: l) = some v := by
  simp [List.lookup]

theorem resolve_user (p : Program) (s : String) (v : Nat) (h : isUserSymbol s = true)
    (hl : p.labels.lookup s = some v) : p.resolve s = some v := by
  simp only [isUserSymbol, Bool.and_eq_true, Bool.not_eq_true', Option.isNone_iff_eq_none] at h
  unfold Program.resolve
  rw [h.1, h.2, hl]
  rfl

end Hack
end VMTranslator
namespace VMTranslator
open CommandType

/-! ## Names: label scoping and static symbols -/

theorem string_append_right_cancel {a b c : String} (h : a ++ c = b ++ c) : a = b := by
  have h1 := congrArg String.data h
  simp only [String.data_append, List.append_cancel_right_eq] at h1
  exact String.ext h1

theorem string_length_append (a b : String) : (a ++ b).length = a.length + b.length :=
  String.length_append a b

theorem Hack.append_left_ne_imp {l a b : String} (h : l ++ a = l ++ b) : a = b := by
  by_contra hne
  exact Hack.append_left_ne l a b hne h

/-- The target symbol of a label in the scope of a function name (empty at global scope). -/
theorem scoped_ne (f g L : String) (h : f ≠ g) :
    (if f = "" then L else f ++ "$" ++ L) ≠ (if g = "" then L else g ++ "$" ++ L) := by
  by_cases hf : f = "" <;> by_cases hg : g = ""
  · exact absurd (hf.trans hg.symm) h
  · simp only [hf, hg, if_true, if_false]
    intro e
    have := congrArg String.length e
    simp only [string_length_append] at this
    have h1 : ("$" : String).length = 1 := rfl
    omega
  · simp only [hf, hg, if_true, if_false]
    intro e
    have := congrArg String.length e
    simp only [string_length_append] at this
    have h1 : ("$" : String).length = 1 := rfl
    omega
  · simp only [hf, hg, if_false]
    intro e
    exact h (string_append_right_cancel (string_append_right_cancel e))

/-- C2: for every label name `L`, `writeLabel`, `writeGoto` and `writeIf` emit the same target
symbol, `currentFunction + "$" + L` inside a function and the bare `L` at global scope: the label
line defines it and the A-instruction of the jump loads it.  In two writers whose current function
names differ the target symbols for the same `L` differ. -/
theorem C2_label_scoping (L : String) (w1 w2 : CodeWriter)
    (h : w1.currentFunction ≠ w2.currentFunction) :
    (∀ w : CodeWriter, ∃ target,
      target = (if w.currentFunction = "" then L else w.currentFunction ++ "$" ++ L) ∧
      emitted (writeLabel L) w = ["// label " ++ L, "(" ++ target ++ ")"] ∧
      emitted (writeGoto L) w = ["// goto " ++ L, "@" ++ target, "0;JMP"] ∧
      emitted (writeIf L) w =
        ["// if-goto " ++ L, "@SP", "AM=M-1", "D=M", "@" ++ target, "D;JNE"] ∧
      Hack.parseLine ("(" ++ target ++ ")") = Hack.Line.label target ∧
      Hack.parseLine ("@" ++ target) = Hack.Line.instr (Hack.Instr.A target)) ∧
    (if w1.currentFunction = "" then L else w1.currentFunction ++ "$" ++ L) ≠
      (if w2.currentFunction = "" then L else w2.currentFunction ++ "$" ++ L) ∧
    emitted (writeLabel L) w1 ≠ emitted (writeLabel L) w2 ∧
    emitted (writeGoto L) w1 ≠ emitted (writeGoto L) w2 := by
  have hemit : ∀ w : CodeWriter, ∃ target,
      target = (if w.currentFunction = "" then L else w.currentFunction ++ "$" ++ L) ∧
      emitted (writeLabel L) w = ["// label " ++ L, "(" ++ target ++ ")"] ∧
      emitted (writeGoto L) w = ["// goto " ++ L, "@" ++ target, "0;JMP"] ∧
      emitted (writeIf L) w =
        ["// if-goto " ++ L, "@SP", "AM=M-1", "D=M", "@" ++ target, "D;JNE"] ∧
      Hack.parseLine ("(" ++ target ++ ")") = Hack.Line.label target ∧
      Hack.parseLine ("@" ++ target) = Hack.Line.instr (Hack.Instr.A target) := by
    intro w
    refine ⟨_, rfl, ?_, ?_, ?_, Hack.parseLine_label _, Hack.parseLine_at _⟩
    · by_cases hc : w.currentFunction = "" <;>
        simp [emitted, writeLabel, CodeWriter.emit, hc, String.append_assoc]
    · by_cases hc : w.currentFunction = "" <;>
        simp [emitted, writeGoto, CodeWriter.emit, hc, String.append_assoc]
    · by_cases hc : w.currentFunction = "" <;>
        simp [emitted, writeIf, CodeWriter.emit, hc, String.append_assoc]
  have hne := scoped_ne w1.currentFunction w2.currentFunction L h
  refine ⟨hemit, hne, ?_, ?_⟩
  · obtain ⟨t1, ht1, hl1, _⟩ := hemit w1
    obtain ⟨t2, ht2, hl2, _⟩ := hemit w2
    rw [hl1, hl2, ht1, ht2]
    intro e
    simp only [List.cons.injEq, true_and, and_true] at e
    exact hne (Hack.append_left_ne_imp (string_append_right_cancel e))
  · obtain ⟨t1, ht1, _, hg1, _⟩ := hemit w1
    obtain ⟨t2, ht2, _, hg2, _⟩ := hemit w2
    rw [hg1, hg2, ht1, ht2]
    intro e
    simp only [List.cons.injEq, true_and, and_true] at e
    exact hne (Hack.append_left_ne_imp e)

theorem C2_label_scoping_witness :
    ("Foo.f" : String) ≠ "Foo.g" ∧
    emitted (writeLabel "LOOP") ⟨[], "Foo.f", "Foo", 0⟩ ≠
      emitted (writeLabel "LOOP") ⟨[], "Foo.g", "Foo", 0⟩ ∧
    emitted (writeLabel "LOOP") ⟨[], "Foo.f", "Foo", 0⟩ = ["// label LOOP", "(Foo.f$LOOP)"] ∧
    emitted (writeGoto "LOOP") ⟨[], "Foo.f", "Foo", 0⟩ = ["// goto LOOP", "@Foo.f$LOOP", "0;JMP"] :=
  ⟨by decide, (C2_label_scoping "LOOP" ⟨[], "Foo.f", "Foo", 0⟩ ⟨[], "Foo.g", "Foo", 0⟩
    (by decide)).2.2.1, by rfl, by rfl⟩

/-- Two texts `a ++ "." ++ d1` and `b ++ "." ++ d2` whose tails contain no dot are equal only if
both parts are. -/
theorem append_dot_inj : ∀ (a b d1 d2 : List Char), '.' ∉ d1 → '.' ∉ d2 →
    a ++ '.' :: d1 = b ++ '.' :: d2 → a = b ∧ d1 = d2
  | [], [], d1, d2, _, _, h => by
    simp only [List.nil_append, List.cons.injEq, true_and] at h
    exact ⟨rfl, h⟩
  | [], y :: b, d1, d2, h1, _, h => by
    simp only [List.nil_append, List.cons_append, List.cons.injEq] at h
    exact absurd (by rw [h.2]; simp) h1
  | x :: a, [], d1, d2, _, h2, h => by
    simp only [List.nil_append, List.cons_append, List.cons.injEq] at h
    exact absurd (by rw [← h.2]; simp) h2
  | x :: a, y :: b, d1, d2, h1, h2, h => by
    simp only [List.cons_append, List.cons.injEq] at h
    obtain ⟨hab, hd⟩ := append_dot_inj a b d1 d2 h1 h2 h.2
    exact ⟨by rw [h.1, hab], hd⟩

theorem dot_not_mem_decimal (i : Int) : '.' ∉ (decimal i).data := by
  intro h
  rcases decimal_chars i '.' h with h1 | h1
  · exact absurd h1 (by decide)
  · exact absurd h1 (by decide)

/-- The symbol of a static variable determines the module name and the index. -/
theorem static_symbol_inj {m1 m2 : String} {i1 i2 : Int}
    (h : m1 ++ "." ++ decimal i1 = m2 ++ "." ++ decimal i2) : m1 = m2 ∧ i1 = i2 := by
  have h1 := congrArg String.data h
  simp only [String.data_append] at h1
  have h2 : m1.data ++ '.' :: (decimal i1).data = m2.data ++ '.' :: (decimal i2).data := by
    simpa using h1
  obtain ⟨ha, hd⟩ := append_dot_inj _ _ _ _ (dot_not_mem_decimal i1) (dot_not_mem_decimal i2) h2
  exact ⟨String.ext ha, decimal_injective (String.ext hd)⟩

end VMTranslator
namespace VMTranslator
open CommandType

/-! ## The bootstrap decision -/

/-- C3 fails on the code in both directions.  `function  Sys.init 0` (two blanks) is a `function`
instruction whose name token is `Sys.init`, yet `hasSysInit` misses it and the output starts with
the function itself, without the prologue; `function Sys.initialize 0` defines no function named
`Sys.init`, yet `hasSysInit` matches the text and the output starts with the prologue. -/
theorem C3_bootstrap_scan_divergence :
    (commandType (split (cleanLine "function  Sys.init 0")) = C_FUNCTION ∧
      arg1 (split (cleanLine "function  Sys.init 0")) = "Sys.init" ∧
      hasSysInit [("Main.vm", ["function  Sys.init 0"])] = false ∧
      (translate [("Main.vm", ["function  Sys.init 0"])]).map (fun w => w.output) =
        some ["// function Sys.init 0", "(Sys.init)"]) ∧
    (commandType (split (cleanLine "function Sys.initialize 0")) = C_FUNCTION ∧
      arg1 (split (cleanLine "function Sys.initialize 0")) = "Sys.initialize" ∧
      hasSysInit [("Main.vm", ["function Sys.initialize 0"])] = true ∧
      (translate [("Main.vm", ["function Sys.initialize 0"])]).map (fun w => w.output.take 5) =
        some ["// Bootstrap initialization", "@256", "D=A", "@SP", "M=D"]) := by
  refine ⟨⟨by rfl, by rfl, by rfl, by rfl⟩, ⟨by rfl, by rfl, by rfl, by rfl⟩⟩

/-- C10 fails on the code: the line `x function Sys.init` has an unrecognised first token, so the
translation loop skips it, yet inserting it in front of `push constant 1` makes `hasSysInit` match
and the output grows a bootstrap prologue. -/
theorem C10_ignored_line_changes_output :
    commandType (split (cleanLine "x function Sys.init")) = C_ERROR ∧
    (translate [("Main.vm", ["push constant 1"])]).map (fun w => w.output) =
      some ["// push constant 1", "@1", "D=A", "@SP", "A=M", "M=D", "@SP", "M=M+1"] ∧
    (translate [("Main.vm", ["x function Sys.init", "push constant 1"])]).map
      (fun w => w.output.take 5) =
      some ["// Bootstrap initialization", "@256", "D=A", "@SP", "M=D"] ∧
    (translate [("Main.vm", ["x function Sys.init", "push constant 1"])]).map
      (fun w => w.output.length) = some 62 := by
  refine ⟨by rfl, by rfl, by rfl, by rfl⟩

/-- A line that is empty after cleaning, or whose first token is no keyword, is passed over by the
translation loop. -/
theorem translateLine_ignored (line : String) (w : CodeWriter)
    (h : cleanLine line = [] ∨ commandType (split (cleanLine line)) = C_ERROR) :
    translateLine line w = some w := by
  unfold translateLine
  by_cases hc : cleanLine line = []
  · simp [hc]
  · rcases h with h | h
    · exact absurd h hc
    · simp [hc, dispatch, h]

theorem translateLines_insert (line : String)
    (h : cleanLine line = [] ∨ commandType (split (cleanLine line)) = C_ERROR)
    (l1 l2 : List String) : ∀ w : CodeWriter,
    translateLines (l1 ++ line :: l2) w = translateLines (l1 ++ l2) w := by
  induction l1 with
  | nil => intro w; simp [translateLines, translateLine_ignored line w h]
  | cons x xs ih =>
    intro w
    simp only [List.cons_append, translateLines]
    cases translateLine x w with
    | none => rfl
    | some w1 => exact ih w1

theorem translateFiles_insert (line : String)
    (h : cleanLine line = [] ∨ commandType (split (cleanLine line)) = C_ERROR)
    (name : String) (l1 l2 : List String) (pre post : List (String × List String)) :
    ∀ w : CodeWriter,
    translateFiles (pre ++ (name, l1 ++ line :: l2) :: post) w =
      translateFiles (pre ++ (name, l1 ++ l2) :: post) w := by
  induction pre with
  | nil => intro w; simp [translateFiles, translateLines_insert line h]
  | cons x xs ih =>
    intro w
    simp only [List.cons_append, translateFiles]
    cases translateLines x.2 (setFileName x.1 w) with
    | none => rfl
    | some w1 => exact ih w1

/-- What holds of C10 on the code: inserting, anywhere in any module, a line that the translation loop
passes over (blank, comment-only or with an unrecognised first token) leaves the whole result of
the run unchanged, provided the cleaned line does not contain the text `function Sys.init` that
the bootstrap scan looks for.  A blank or comment-only line never contains it. -/
theorem translate_insert_ignored (line : String)
    (h : cleanLine line = [] ∨ commandType (split (cleanLine line)) = C_ERROR)
    (hscan : containsSub "function Sys.init".data (cleanLine line) = false)
    (name : String) (l1 l2 : List String) (pre post : List (String × List String)) :
    translate (pre ++ (name, l1 ++ line :: l2) :: post) =
      translate (pre ++ (name, l1 ++ l2) :: post) := by
  have hs : hasSysInit (pre ++ (name, l1 ++ line :: l2) :: post) =
      hasSysInit (pre ++ (name, l1 ++ l2) :: post) := by
    simp [hasSysInit, List.any_append, hscan]
  simp only [translate, hs, translateFiles_insert line h]

theorem containsSub_nil_false : containsSub "function Sys.init".data [] = false := by rfl

end VMTranslator
namespace VMTranslator
open CommandType

/-! ## Integer operands -/

theorem isDigit_not_space (c : Char) (h : c.isDigit = true) :
    isSpace c = false ∧ c ≠ '-' ∧ c ≠ '+' := by
  simp only [Char.isDigit, Bool.and_eq_true, decide_eq_true_eq] at h
  have h1 : 48 ≤ c.val.toNat := h.1
  refine ⟨?_, ?_, ?_⟩
  · simp only [isSpace, Bool.or_eq_false_iff, decide_eq_false_iff_not]
    refine ⟨⟨⟨⟨⟨?_, ?_⟩, ?_⟩, ?_⟩, ?_⟩, ?_⟩ <;> (intro e; subst e; revert h1; decide)
  · intro e; subst e; revert h1; decide
  · intro e; subst e; revert h1; decide

theorem takeWhile_digits_append (ds junk : List Char) (hds : ∀ c ∈ ds, c.isDigit = true)
    (hj : ∀ c, junk.head? = some c → c.isDigit = false) :
    (ds ++ junk).takeWhile Char.isDigit = ds := by
  induction ds with
  | nil =>
    cases junk with
    | nil => rfl
    | cons c cs => simp [List.takeWhile, hj c rfl]
  | cons d ds ih =>
    have h := ih fun c hc => hds c (List.mem_cons_of_mem _ hc)
    simp only [List.cons_append, List.takeWhile, hds d (List.mem_cons_self _ _)]
    exact congrArg (List.cons d) h

/-- A token that starts with the decimal digits of `n` and goes on with anything that is not a
digit is read by `std::stoi` as `n`. -/
theorem stoi_prefix (n : Nat) (junk : List Char) (hn : n ≤ 2147483647)
    (hj : ∀ c, junk.head? = some c → c.isDigit = false) :
    stoi (String.mk (natDecimal n ++ junk)) = StoiResult.value n := by
  have hne := natDecimal_ne_nil n
  have hdig := natDecimal_isDigit n
  obtain ⟨d, ds, hd⟩ : ∃ d ds, natDecimal n = d :: ds := by
    cases h : natDecimal n with
    | nil => exact absurd h hne
    | cons d ds => exact ⟨d, ds, rfl⟩
  have hdd : d.isDigit = true := hdig d (by rw [hd]; exact List.mem_cons_self _ _)
  obtain ⟨h1, h2, h3⟩ := isDigit_not_space d hdd
  have htw : (d :: (ds ++ junk)).takeWhile Char.isDigit = natDecimal n := by
    have := takeWhile_digits_append (natDecimal n) junk hdig hj
    rw [hd] at this ⊢
    exact this
  have hval : digitsValue (natDecimal n) = n := digitsValue_natDecimal n
  have hsign : stoiSign (d :: (ds ++ junk)) = (false, d :: (ds ++ junk)) := by
    unfold stoiSign
    split
    · rename_i heq
      simp only [List.cons.injEq] at heq
      exact absurd heq.1 h2
    · rename_i heq
      simp only [List.cons.injEq] at heq
      exact absurd heq.1 h3
    · rfl
  unfold stoi
  simp only [hd, List.cons_append, List.dropWhile, h1, hsign, htw, hne, if_false,
    Bool.false_eq_true, hval]
  rw [← hd, hval, if_neg hne, if_neg (by omega)]

theorem stoi_no_digit (t : String)
    (h : t.data = [] ∨ ∃ c cs, t.data = c :: cs ∧ c.isDigit = false ∧ c ≠ '-' ∧ c ≠ '+' ∧
      isSpace c = false) : stoi t = StoiResult.invalidArgument := by
  unfold stoi
  rcases h with h | ⟨c, cs, h, hd, h2, h3, h1⟩
  · simp [h, stoiSign]
  · have hsign : stoiSign (c :: cs) = (false, c :: cs) := by
      unfold stoiSign
      split
      · rename_i heq
        simp only [List.cons.injEq] at heq
        exact absurd heq.1 h2
      · rename_i heq
        simp only [List.cons.injEq] at heq
        exact absurd heq.1 h3
      · rfl
    simp [h, List.dropWhile, h1, hsign, List.takeWhile, hd]

theorem dispatch_operand (t0 t1 t2 : String) (rest : List String) (w : CodeWriter)
    (h0 : t0 ∈ ["push", "pop", "function", "call"]) :
    (dispatch (t0 :: t1 :: t2 :: rest) w = none ↔ ∀ i, stoi t2 ≠ StoiResult.value i) ∧
    (∀ t2', stoi t2' = stoi t2 →
      dispatch (t0 :: t1 :: t2' :: rest) w = dispatch (t0 :: t1 :: t2 :: rest) w) := by
  simp only [List.mem_cons, List.mem_singleton, List.not_mem_nil, or_false] at h0
  rcases h0 with rfl | rfl | rfl | rfl
  all_goals
    constructor
    · simp only [dispatch, commandType, String.reduceEq, if_true, if_false, arg2]
      cases stoi t2 <;> simp
    · intro t2' h
      simp only [dispatch, commandType, String.reduceEq, if_true, if_false, arg2, arg1, h,
        reduceCtorEq]

/-- C9, as stated, fails: `7x` and `2abc` are not well-formed decimal integers, yet
`push constant 7x` is translated exactly like `push constant 7` and `call f 2abc` is translated
too, because `std::stoi` reads the leading digits and ignores the rest. -/
theorem C9_trailing_text_counterexample :
    isDecimalInteger "7x" = false ∧
    split (cleanLine "push constant 7x") = ["push", "constant", "7x"] ∧
    (translateLine "push constant 7x" CodeWriter.init).map (fun w => w.output) =
      some ["// push constant 7", "@7", "D=A", "@SP", "A=M", "M=D", "@SP", "M=M+1"] ∧
    isDecimalInteger "2abc" = false ∧
    split (cleanLine "call f 2abc") = ["call", "f", "2abc"] ∧
    (translateLine "call f 2abc" CodeWriter.init).map (fun w => w.output.take 2) =
      some ["// call f 2", "@$ret.0"] := by
  refine ⟨by rfl, by rfl, by rfl, by rfl, by rfl, by rfl⟩

/-- C9, amended: for a command whose first token is `push`, `pop`, `function` or `call` and that has
a third token, the translation fails with the exception of `std::stoi` exactly when `std::stoi`
rejects the third token (no digit after the optional whitespace and sign, or a value outside the
`int` range).  A third token made of the decimal digits of an `int` followed by other characters
(`7x`, `2abc`) is translated like the digits alone; a third token that is empty or starts with a
character that is neither a digit, a sign nor whitespace makes the translation fail. -/
theorem C9_integer_operand (t0 t1 t2 : String) (rest : List String) (w : CodeWriter)
    (h0 : t0 ∈ ["push", "pop", "function", "call"]) :
    (dispatch (t0 :: t1 :: t2 :: rest) w = none ↔
      (stoi t2 = StoiResult.invalidArgument ∨ stoi t2 = StoiResult.outOfRange)) ∧
    (∀ (n : Nat) (junk : List Char), n ≤ 2147483647 →
      (∀ c, junk.head? = some c → c.isDigit = false) → t2 = String.mk (natDecimal n ++ junk) →
      dispatch (t0 :: t1 :: t2 :: rest) w = dispatch (t0 :: t1 :: decimal n :: rest) w ∧
        dispatch (t0 :: t1 :: t2 :: rest) w ≠ none) ∧
    ((t2.data = [] ∨ ∃ c cs, t2.data = c :: cs ∧ c.isDigit = false ∧ c ≠ '-' ∧ c ≠ '+' ∧
        isSpace c = false) →
      dispatch (t0 :: t1 :: t2 :: rest) w = none) := by
  obtain ⟨hnone, hsame⟩ := dispatch_operand t0 t1 t2 rest w h0
  have hiff : dispatch (t0 :: t1 :: t2 :: rest) w = none ↔
      (stoi t2 = StoiResult.invalidArgument ∨ stoi t2 = StoiResult.outOfRange) := by
    rw [hnone]
    cases h : stoi t2 with
    | value i => simp
    | invalidArgument => simp
    | outOfRange => simp
  refine ⟨hiff, ?_, ?_⟩
  · intro n junk hn hj ht
    have h1 : stoi t2 = StoiResult.value n := by rw [ht]; exact stoi_prefix n junk hn hj
    have h2 : stoi (decimal n) = StoiResult.value n := by
      have := stoi_prefix n [] hn (by simp)
      rwa [List.append_nil] at this
    refine ⟨(hsame (decimal n) (h2.trans h1.symm)).symm, ?_⟩
    rw [Ne, hiff, h1]
    simp
  · intro h
    rw [hiff]
    exact Or.inl (stoi_no_digit t2 h)

theorem C9_integer_operand_witness :
    "push" ∈ ["push", "pop", "function", "call"] ∧
    dispatch ["push", "constant", "7x"] CodeWriter.init =
      dispatch ["push", "constant", "7"] CodeWriter.init ∧
    dispatch ["push", "constant", "7x"] CodeWriter.init ≠ none ∧
    dispatch ["push", "constant", "x7"] CodeWriter.init = none := by
  have h := C9_integer_operand "push" "constant" "7x" [] CodeWriter.init (by simp)
  have h' := C9_integer_operand "push" "constant" "x7" [] CodeWriter.init (by simp)
  have h7 := h.2.1 7 ['x'] (by decide) (by simp) (by rfl)
  refine ⟨by simp, h7.1, h7.2, h'.2.2 (Or.inr ⟨'x', ['7'], rfl, by decide, by decide,
    by decide, by decide⟩)⟩

end VMTranslator
namespace VMTranslator
open CommandType

/-! ## Freshness of the synthesized labels -/

theorem natDecimal_getLast (n : Nat) : ∃ c, (natDecimal n).getLast? = some c ∧ c.isDigit = true := by
  rw [natDecimal_eq]
  by_cases h : n < 10
  · simp only [h, if_true]
    exact ⟨_, rfl, digitChar_isDigit n h⟩
  · simp only [h, if_false]
    exact ⟨Nat.digitChar (n % 10), by simp, digitChar_isDigit _ (Nat.mod_lt _ (by omega))⟩

theorem decimal_getLast (i : Int) :
    ∃ c, (decimal i).data.getLast? = some c ∧ c.isDigit = true := by
  cases i with
  | ofNat n => exact natDecimal_getLast n
  | negSucc n =>
    obtain ⟨c, hc, hd⟩ := natDecimal_getLast (n + 1)
    refine ⟨c, ?_, hd⟩
    show ('-' :: natDecimal (n + 1)).getLast? = some c
    cases hnd : natDecimal (n + 1) with
    | nil => exact absurd hnd (natDecimal_ne_nil _)
    | cons x xs =>
      rw [hnd] at hc
      rw [List.getLast?_cons_cons]
      exact hc

theorem getLast_append_decimal (a : List Char) (i : Int) :
    ∃ c, (a ++ (decimal i).data).getLast? = some c ∧ c.isDigit = true := by
  obtain ⟨c, hc, hd⟩ := decimal_getLast i
  refine ⟨c, ?_, hd⟩
  rw [List.getLast?_append, hc]
  rfl

theorem indexed_inj {l : String} {n m : Int} (hn : Indexed l n) (hm : Indexed l m) : n = m := by
  have key1 : ∀ (a b : Int) (x : List Char) (c : Char), c.isDigit = false →
      ¬ (∃ cf : String, "COMP_" ++ decimal a ++ String.mk (x ++ [c]) = cf ++ "$ret." ++ decimal b) := by
    rintro a b x c hc ⟨cf, h⟩
    have h1 := congrArg (fun s : String => s.data.getLast?) h
    simp only [String.data_append] at h1
    obtain ⟨d, hd, hdd⟩ := getLast_append_decimal (cf.data ++ "$ret.".data) b
    rw [hd, ← List.append_assoc, List.getLast?_concat] at h1
    simp only [Option.some.injEq] at h1
    rw [h1, hdd] at hc
    exact absurd hc (by decide)
  have hT : ("_TRUE" : String) = String.mk (['_', 'T', 'R', 'U'] ++ ['E']) := rfl
  have hE : ("_END" : String) = String.mk (['_', 'E', 'N'] ++ ['D']) := rfl
  rcases hn with hn | hn | ⟨cf, hn⟩ <;> rcases hm with hm | hm | ⟨cf', hm⟩
  · have h := hn.symm.trans hm
    exact decimal_injective (Hack.append_left_ne_imp (string_append_right_cancel h))
  · have h := hn.symm.trans hm
    rw [String.append_assoc, String.append_assoc] at h
    have h1 := congrArg (fun s : String => s.data.getLast?) (Hack.append_left_ne_imp h)
    rw [hT, hE] at h1
    simp only [String.data_append, ← List.append_assoc, List.getLast?_concat,
      Option.some.injEq] at h1
    exact absurd h1 (by decide)
  · exact absurd ⟨cf', by rw [← hT]; exact hn.symm.trans hm⟩ (key1 n m _ 'E' (by decide))
  · have h := hn.symm.trans hm
    rw [String.append_assoc, String.append_assoc] at h
    have h1 := congrArg (fun s : String => s.data.getLast?) (Hack.append_left_ne_imp h)
    rw [hT, hE] at h1
    simp only [String.data_append, ← List.append_assoc, List.getLast?_concat,
      Option.some.injEq] at h1
    exact absurd h1 (by decide)
  · have h := hn.symm.trans hm
    exact decimal_injective (Hack.append_left_ne_imp (string_append_right_cancel h))
  · exact absurd ⟨cf', by rw [← hE]; exact hn.symm.trans hm⟩ (key1 n m _ 'D' (by decide))
  · exact absurd ⟨cf, by rw [← hT]; exact hm.symm.trans hn⟩ (key1 m n _ 'E' (by decide))
  · exact absurd ⟨cf, by rw [← hE]; exact hm.symm.trans hn⟩ (key1 m n _ 'D' (by decide))
  · have h := hn.symm.trans hm
    have h1 := congrArg String.data h
    have h2 : (cf.data ++ "$ret".data) ++ '.' :: (decimal n).data =
        (cf'.data ++ "$ret".data) ++ '.' :: (decimal m).data := by
      simpa using h1
    exact decimal_injective (String.ext (append_dot_inj _ _ _ _ (dot_not_mem_decimal n)
      (dot_not_mem_decimal m) h2).2)

theorem freshBetween_nil (lo hi : Int) : FreshBetween [] lo hi :=
  ⟨List.nodup_nil, fun _ h => absurd h (List.not_mem_nil _)⟩

theorem freshBetween_append {a b : List String} {lo mid hi : Int} (ha : FreshBetween a lo mid)
    (hb : FreshBetween b mid hi) (h1 : lo ≤ mid) (h2 : mid ≤ hi) : FreshBetween (a ++ b) lo hi := by
  refine ⟨List.Nodup.append ha.1 hb.1 ?_, ?_⟩
  · intro l hla hlb
    obtain ⟨n, _, hn2, hn⟩ := ha.2 l hla
    obtain ⟨m, hm1, _, hm⟩ := hb.2 l hlb
    have := indexed_inj hn hm
    omega
  · intro l hl
    rcases List.mem_append.mp hl with hl | hl
    · obtain ⟨n, hn1, hn2, hn⟩ := ha.2 l hl
      exact ⟨n, hn1, by omega, hn⟩
    · obtain ⟨n, hn1, hn2, hn⟩ := hb.2 l hl
      exact ⟨n, by omega, hn2, hn⟩

theorem freshBetween_mono {a : List String} {lo hi hi' : Int} (ha : FreshBetween a lo hi)
    (h : hi ≤ hi') : FreshBetween a lo hi' :=
  ⟨ha.1, fun l hl => by
    obtain ⟨n, hn1, hn2, hn⟩ := ha.2 l hl
    exact ⟨n, hn1, by omega, hn⟩⟩

end VMTranslator
namespace VMTranslator
open CommandType

theorem parseLine_DJ (x : String) : ∃ i, Hack.parseLine ("D;J" ++ x) = Hack.Line.instr i := by
  have h : ("D;J" ++ x).data = 'D' :: ';' :: 'J' :: x.data := by simp
  simp only [Hack.parseLine, h]
  exact ⟨_, rfl⟩

theorem compareOp_labelDefs (cmd : String) (w : CodeWriter)
    (h : ¬ (cmd = "add" ∨ cmd = "sub" ∨ cmd = "and" ∨ cmd = "or"))
    (h' : ¬ (cmd = "neg" ∨ cmd = "not")) :
    labelDefs ((writeArithmetic cmd w).output.drop w.output.length) =
      ["COMP_" ++ decimal w.labelCounter ++ "_TRUE", "COMP_" ++ decimal w.labelCounter ++ "_END"] ∧
    (writeArithmetic cmd w).labelCounter = w.labelCounter + 1 := by
  obtain ⟨i, hi⟩ := parseLine_DJ (getJumpCondition cmd)
  refine ⟨?_, by simp [writeArithmetic, h, h', compareOp, CodeWriter.emit]⟩
  simp only [labelDefs, writeArithmetic, h, h', if_false, compareOp, CodeWriter.emit, Hack.labelTable,
    List.append_assoc, List.drop_left, List.cons_append, List.nil_append, List.map,
    Hack.parseLine_comment, Hack.parseLine_at, Hack.parseLine_at_append,
    Hack.parseLine_label_true, Hack.parseLine_label_end, hi, Hack.parseLine_D_eq_A, Hack.parseLine_A_eq_M, Hack.parseLine_M_eq_D, Hack.parseLine_M_eq_M_plus_1, Hack.parseLine_AM_eq_M_minus_1, Hack.parseLine_D_eq_M, Hack.parseLine_A_eq_A_minus_1, Hack.parseLine_M_eq_D_plus_M, Hack.parseLine_M_eq_M_minus_D, Hack.parseLine_M_eq_D_and_M, Hack.parseLine_M_eq_D_or_M, Hack.parseLine_A_eq_M_minus_1, Hack.parseLine_M_eq_minus_M, Hack.parseLine_M_eq_not_M, Hack.parseLine_D_eq_M_minus_D, Hack.parseLine_D_JEQ, Hack.parseLine_D_JGT, Hack.parseLine_D_JLT, Hack.parseLine_M_eq_0, Hack.parseLine_0_JMP, Hack.parseLine_M_eq_minus_1, Hack.parseLine_A_eq_D_plus_A, Hack.parseLine_D_eq_D_minus_A, Hack.parseLine_D_eq_M_plus_1, Hack.parseLine_A_eq_D, Hack.parseLine_A_eq_D_minus_A, Hack.parseLine_D_JNE]

theorem binaryOp_fields (op : String) (w : CodeWriter) :
    (binaryOp op w).labelCounter = w.labelCounter := by
  simp only [binaryOp]
  split_ifs <;> rfl

theorem unaryOp_fields (op : String) (w : CodeWriter) :
    (unaryOp op w).labelCounter = w.labelCounter := by
  simp only [unaryOp]
  split_ifs <;> rfl

theorem pop_fields (seg : String) (i : Int) (w : CodeWriter) :
    (pop seg i w).labelCounter = w.labelCounter := by
  simp only [pop, resolveSegmentAddress]
  split_ifs <;> rfl

theorem iterate_push_fields (k : Nat) : ∀ w : CodeWriter,
    ((push "constant" 0)^[k] w).labelCounter = w.labelCounter := by
  induction k with
  | zero => intro w; rfl
  | succ k ih =>
    intro w
    rw [Function.iterate_succ_apply, ih, (Hack.push_fields _ _ _).2.2]

theorem writeCall_labelDefs (f : String) (n : Int) (w : CodeWriter) :
    labelDefs ((writeCall f n w).output.drop w.output.length) =
      [w.currentFunction ++ "$ret." ++ decimal w.labelCounter] ∧
    (writeCall f n w).labelCounter = w.labelCounter + 1 := by
  refine ⟨?_, rfl⟩
  have h := Hack.writeCall_labels f n w 0
  simp only [emitted] at h
  simp only [labelDefs, h, List.map]

theorem freshBetween_compare (n : Int) :
    FreshBetween ["COMP_" ++ decimal n ++ "_TRUE", "COMP_" ++ decimal n ++ "_END"] n (n + 1) := by
  refine ⟨?_, ?_⟩
  · simp only [List.nodup_cons, List.mem_singleton, List.not_mem_nil, not_false_eq_true,
      List.nodup_nil, and_true]
    exact fun e => absurd e.symm (Hack.append_left_ne _ _ _ (by decide))
  · intro l hl
    simp only [List.mem_cons, List.mem_singleton, List.not_mem_nil, or_false] at hl
    rcases hl with rfl | rfl
    · exact ⟨n, le_refl _, by omega, Or.inl rfl⟩
    · exact ⟨n, le_refl _, by omega, Or.inr (Or.inl rfl)⟩

theorem freshBetween_call (cf : String) (n : Int) :
    FreshBetween [cf ++ "$ret." ++ decimal n] n (n + 1) := by
  refine ⟨List.nodup_singleton _, ?_⟩
  intro l hl
  simp only [List.mem_singleton] at hl
  exact ⟨n, le_refl _, by omega, Or.inr (Or.inr ⟨cf, hl⟩)⟩

/-- One command: the counter does not decrease, and the labels it synthesizes are built from the
counter values it consumes. -/
theorem dispatch_fresh (tokens : List String) (w w1 : CodeWriter)
    (h : dispatch tokens w = some w1) :
    w.labelCounter ≤ w1.labelCounter ∧
    FreshBetween
      (if synthesizes tokens = true then labelDefs (w1.output.drop w.output.length) else [])
      w.labelCounter w1.labelCounter := by
  unfold dispatch at h
  cases hct : commandType tokens <;> simp only [hct] at h
  case C_ARITHMETIC =>
    simp only [Option.some.injEq] at h
    subst h
    by_cases hb : arg1 tokens = "add" ∨ arg1 tokens = "sub" ∨ arg1 tokens = "and" ∨
        arg1 tokens = "or"
    · have hs : synthesizes tokens = false := by
        simp only [synthesizes, hct]
        rcases hb with hb | hb | hb | hb <;> simp [hb]
      have hlc : (writeArithmetic (arg1 tokens) w).labelCounter = w.labelCounter := by
        simp only [writeArithmetic, hb, if_true, binaryOp_fields]
        rfl
      rw [hs, hlc]
      exact ⟨le_refl _, freshBetween_nil _ _⟩
    · by_cases hu : arg1 tokens = "neg" ∨ arg1 tokens = "not"
      · have hs : synthesizes tokens = false := by
          simp only [synthesizes, hct]
          rcases hu with hu | hu <;> simp [hu]
        have hlc : (writeArithmetic (arg1 tokens) w).labelCounter = w.labelCounter := by
          simp only [writeArithmetic, hb, hu, if_true, if_false, unaryOp_fields]
          rfl
        rw [hs, hlc]
        exact ⟨le_refl _, freshBetween_nil _ _⟩
      · have hs : synthesizes tokens = true := by
          simp only [not_or] at hb hu
          simp [synthesizes, hct, hb, hu]
        obtain ⟨hl, hlc⟩ := compareOp_labelDefs (arg1 tokens) w hb hu
        rw [hs, hlc, hl]
        exact ⟨by omega, freshBetween_compare _⟩
  case C_PUSH =>
    cases ha : arg2 tokens <;> simp only [ha, Option.some.injEq, reduceCtorEq] at h
    rename_i i
    subst h
    have hs : synthesizes tokens = false := by simp [synthesizes, hct]
    have hlc : (writePushPop C_PUSH (arg1 tokens) i w).labelCounter = w.labelCounter := by
      simp only [writePushPop, if_true, (Hack.push_fields _ _ _).2.2]
      rfl
    rw [hs, hlc]
    exact ⟨le_refl _, freshBetween_nil _ _⟩
  case C_POP =>
    cases ha : arg2 tokens <;> simp only [ha, Option.some.injEq, reduceCtorEq] at h
    rename_i i
    subst h
    have hs : synthesizes tokens = false := by simp [synthesizes, hct]
    have hlc : (writePushPop C_POP (arg1 tokens) i w).labelCounter = w.labelCounter := by
      simp only [writePushPop, reduceCtorEq, if_false, pop_fields]
      rfl
    rw [hs, hlc]
    exact ⟨le_refl _, freshBetween_nil _ _⟩
  case C_LABEL =>
    simp only [Option.some.injEq] at h
    subst h
    have hs : synthesizes tokens = false := by simp [synthesizes, hct]
    have hlc : (writeLabel (arg1 tokens) w).labelCounter = w.labelCounter := by
      simp only [writeLabel]; split_ifs <;> rfl
    rw [hs, hlc]
    exact ⟨le_refl _, freshBetween_nil _ _⟩
  case C_GOTO =>
    simp only [Option.some.injEq] at h
    subst h
    have hs : synthesizes tokens = false := by simp [synthesizes, hct]
    have hlc : (writeGoto (arg1 tokens) w).labelCounter = w.labelCounter := by
      simp only [writeGoto]; split_ifs <;> rfl
    rw [hs, hlc]
    exact ⟨le_refl _, freshBetween_nil _ _⟩
  case C_IF =>
    simp only [Option.some.injEq] at h
    subst h
    have hs : synthesizes tokens = false := by simp [synthesizes, hct]
    have hlc : (writeIf (arg1 tokens) w).labelCounter = w.labelCounter := by
      simp only [writeIf]; split_ifs <;> rfl
    rw [hs, hlc]
    exact ⟨le_refl _, freshBetween_nil _ _⟩
  case C_FUNCTION =>
    cases ha : arg2 tokens <;> simp only [ha, Option.some.injEq, reduceCtorEq] at h
    rename_i i
    subst h
    have hs : synthesizes tokens = false := by simp [synthesizes, hct]
    have hlc : (writeFunction (arg1 tokens) i w).labelCounter = w.labelCounter := by
      simp only [writeFunction, iterate_push_fields]
      rfl
    rw [hs, hlc]
    exact ⟨le_refl _, freshBetween_nil _ _⟩
  case C_RETURN =>
    simp only [Option.some.injEq] at h
    subst h
    have hs : synthesizes tokens = false := by simp [synthesizes, hct]
    rw [hs]
    exact ⟨le_refl _, freshBetween_nil _ _⟩
  case C_CALL =>
    cases ha : arg2 tokens <;> simp only [ha, Option.some.injEq, reduceCtorEq] at h
    rename_i i
    subst h
    have hs : synthesizes tokens = true := by simp [synthesizes, hct]
    obtain ⟨hl, hlc⟩ := writeCall_labelDefs (arg1 tokens) i w
    rw [hs, hlc, hl]
    exact ⟨by omega, freshBetween_call _ _⟩
  case C_ERROR =>
    simp only [Option.some.injEq] at h
    subst h
    have hs : synthesizes tokens = false := by simp [synthesizes, hct]
    rw [hs]
    exact ⟨le_refl _, freshBetween_nil _ _⟩

end VMTranslator
namespace VMTranslator
open CommandType

theorem translateLine_fresh (line : String) (w w1 : CodeWriter)
    (h : translateLine line w = some w1) :
    w.labelCounter ≤ w1.labelCounter ∧
    FreshBetween
      (if cleanLine line ≠ [] ∧ synthesizes (split (cleanLine line)) = true then
        labelDefs (w1.output.drop w.output.length) else [])
      w.labelCounter w1.labelCounter := by
  unfold translateLine at h
  by_cases hc : cleanLine line = []
  · simp only [hc, if_true, Option.some.injEq] at h
    subst h
    simp only [hc, ne_eq, not_true_eq_false, false_and, if_false]
    exact ⟨le_refl _, freshBetween_nil _ _⟩
  · simp only [hc, if_false] at h
    have := dispatch_fresh _ _ _ h
    simpa only [ne_eq, hc, not_false_eq_true, true_and] using this

/-- The labels synthesized for the lines of one module are fresh, from the counter at the start
of the module up to the counter at its end. -/
theorem synthLabelsLines_fresh (lines : List String) : ∀ w : CodeWriter,
    ∃ hi, w.labelCounter ≤ hi ∧ FreshBetween (synthLabelsLines lines w) w.labelCounter hi ∧
      ∀ w1, translateLines lines w = some w1 → w1.labelCounter = hi := by
  induction lines with
  | nil =>
    intro w
    refine ⟨w.labelCounter, le_refl _, freshBetween_nil _ _, ?_⟩
    intro w1 h
    simp only [translateLines, Option.some.injEq] at h
    rw [h]
  | cons line rest ih =>
    intro w
    cases hl : translateLine line w with
    | none =>
      refine ⟨w.labelCounter, le_refl _, ?_, ?_⟩
      · simp only [synthLabelsLines, hl]
        exact freshBetween_nil _ _
      · intro w1 h
        simp [translateLines, hl] at h
    | some w1 =>
      obtain ⟨hle, hstep⟩ := translateLine_fresh line w w1 hl
      obtain ⟨hi, hhi, hrest, hfin⟩ := ih w1
      refine ⟨hi, by omega, ?_, ?_⟩
      · simp only [synthLabelsLines, hl]
        exact freshBetween_append hstep hrest hle hhi
      · intro w2 h
        simp only [translateLines, hl] at h
        exact hfin w2 h

theorem synthLabelsFiles_fresh (files : List (String × List String)) : ∀ w : CodeWriter,
    ∃ hi, w.labelCounter ≤ hi ∧ FreshBetween (synthLabelsFiles files w) w.labelCounter hi := by
  induction files with
  | nil =>
    intro w
    exact ⟨w.labelCounter, le_refl _, freshBetween_nil _ _⟩
  | cons file rest ih =>
    intro w
    obtain ⟨mid, hmid, hlines, hfin⟩ := synthLabelsLines_fresh file.2 (setFileName file.1 w)
    have hw : (setFileName file.1 w).labelCounter = w.labelCounter := rfl
    rw [hw] at hmid hlines
    cases hl : translateLines file.2 (setFileName file.1 w) with
    | none =>
      refine ⟨mid, hmid, ?_⟩
      simp only [synthLabelsFiles, hl]
      exact hlines
    | some w1 =>
      obtain ⟨hi, hhi, hrest⟩ := ih w1
      have hw1 := hfin w1 hl
      rw [hw1] at hhi hrest
      refine ⟨hi, by omega, ?_⟩
      simp only [synthLabelsFiles, hl]
      exact freshBetween_append hlines hrest hmid hhi

set_option maxRecDepth 100000 in
/-- An example of the list of the synthesized labels. -/
theorem synthLabels_example :
    synthLabels [("M.vm", ["eq", "function Sys.init 0", "call f 0"]), ("N.vm", ["lt"])] =
      ["$ret.0", "COMP_1_TRUE", "COMP_1_END", "Sys.init$ret.2", "COMP_3_TRUE", "COMP_3_END"] := by
  rfl

end VMTranslator
namespace VMTranslator
open CommandType

/-! ## The output only grows -/

theorem pop_appends (seg : String) (i : Int) (w : CodeWriter) :
    ∃ l, (pop seg i w).output = w.output ++ l := by
  simp only [pop, resolveSegmentAddress]
  split_ifs <;> exact ⟨_, by simp only [Hack.emit_output, List.append_assoc]; rfl⟩

theorem writePushPop_appends (t : CommandType) (seg : String) (i : Int) (w : CodeWriter) :
    ∃ l, (writePushPop t seg i w).output = w.output ++ l := by
  simp only [writePushPop]
  split_ifs
  · obtain ⟨l, hl⟩ := Hack.push_appends seg i
      (w.emit ["// " ++ "push" ++ " " ++ seg ++ " " ++ decimal i])
    exact ⟨_, by rw [hl, Hack.emit_output, List.append_assoc]⟩
  · obtain ⟨l, hl⟩ := pop_appends seg i
      (w.emit ["// " ++ "pop" ++ " " ++ seg ++ " " ++ decimal i])
    exact ⟨_, by rw [hl, Hack.emit_output, List.append_assoc]⟩

theorem writeArithmetic_appends (cmd : String) (w : CodeWriter) :
    ∃ l, (writeArithmetic cmd w).output = w.output ++ l := by
  simp only [writeArithmetic, binaryOp, unaryOp, compareOp]
  split_ifs <;> exact ⟨_, by simp only [Hack.emit_output, List.append_assoc]; rfl⟩

theorem writeLabel_appends (L : String) (w : CodeWriter) :
    ∃ l, (writeLabel L w).output = w.output ++ l := by
  simp only [writeLabel]
  split_ifs <;> exact ⟨_, by simp only [Hack.emit_output, List.append_assoc]; rfl⟩

theorem writeGoto_appends (L : String) (w : CodeWriter) :
    ∃ l, (writeGoto L w).output = w.output ++ l := by
  simp only [writeGoto]
  split_ifs <;> exact ⟨_, by simp only [Hack.emit_output, List.append_assoc]; rfl⟩

theorem writeIf_appends (L : String) (w : CodeWriter) :
    ∃ l, (writeIf L w).output = w.output ++ l := by
  simp only [writeIf]
  split_ifs <;> exact ⟨_, by simp only [Hack.emit_output, List.append_assoc]; rfl⟩

/-- A command appends to the output and never rewrites what was written. -/
theorem dispatch_appends (tokens : List String) (w w1 : CodeWriter)
    (h : dispatch tokens w = some w1) : ∃ l, w1.output = w.output ++ l := by
  unfold dispatch at h
  cases hct : commandType tokens <;> simp only [hct] at h
  case C_ARITHMETIC =>
    simp only [Option.some.injEq] at h
    rw [← h]; exact writeArithmetic_appends _ _
  case C_PUSH =>
    cases ha : arg2 tokens <;> simp only [ha, Option.some.injEq, reduceCtorEq] at h
    rw [← h]; exact writePushPop_appends _ _ _ _
  case C_POP =>
    cases ha : arg2 tokens <;> simp only [ha, Option.some.injEq, reduceCtorEq] at h
    rw [← h]; exact writePushPop_appends _ _ _ _
  case C_LABEL =>
    simp only [Option.some.injEq] at h
    rw [← h]; exact writeLabel_appends _ _
  case C_GOTO =>
    simp only [Option.some.injEq] at h
    rw [← h]; exact writeGoto_appends _ _
  case C_IF =>
    simp only [Option.some.injEq] at h
    rw [← h]; exact writeIf_appends _ _
  case C_FUNCTION =>
    cases ha : arg2 tokens <;> simp only [ha, Option.some.injEq, reduceCtorEq] at h
    rw [← h]; exact Hack.writeFunction_appends _ _ _
  case C_RETURN =>
    simp only [Option.some.injEq] at h
    rw [← h]; exact Hack.writeReturn_appends _
  case C_CALL =>
    cases ha : arg2 tokens <;> simp only [ha, Option.some.injEq, reduceCtorEq] at h
    rw [← h]; exact Hack.writeCall_appends _ _ _
  case C_ERROR =>
    simp only [Option.some.injEq] at h
    rw [← h]; exact ⟨[], by simp⟩

theorem translateLines_appends (lines : List String) : ∀ (w w1 : CodeWriter),
    translateLines lines w = some w1 → ∃ l, w1.output = w.output ++ l := by
  induction lines with
  | nil =>
    intro w w1 h
    simp only [translateLines, Option.some.injEq] at h
    exact ⟨[], by simp [h]⟩
  | cons line rest ih =>
    intro w w1 h
    simp only [translateLines] at h
    cases hs : translateLine line w with
    | none => simp [hs] at h
    | some w2 =>
      simp only [hs] at h
      obtain ⟨l2, hl2⟩ := ih w2 w1 h
      have h1 : ∃ l, w2.output = w.output ++ l := by
        unfold translateLine at hs
        by_cases hc : cleanLine line = []
        · simp only [hc, if_true, Option.some.injEq] at hs
          exact ⟨[], by simp [hs]⟩
        · simp only [hc, if_false] at hs
          exact dispatch_appends _ _ _ hs
      obtain ⟨l1, hl1⟩ := h1
      exact ⟨l1 ++ l2, by rw [hl2, hl1, List.append_assoc]⟩

theorem translateFiles_appends (files : List (String × List String)) : ∀ (w w1 : CodeWriter),
    translateFiles files w = some w1 → ∃ l, w1.output = w.output ++ l := by
  induction files with
  | nil =>
    intro w w1 h
    simp only [translateFiles, Option.some.injEq] at h
    exact ⟨[], by simp [h]⟩
  | cons file rest ih =>
    intro w w1 h
    simp only [translateFiles] at h
    cases hs : translateLines file.2 (setFileName file.1 w) with
    | none => simp [hs] at h
    | some w2 =>
      simp only [hs] at h
      obtain ⟨l2, hl2⟩ := ih w2 w1 h
      obtain ⟨l1, hl1⟩ := translateLines_appends file.2 _ w2 hs
      have hw : (setFileName file.1 w).output = w.output := rfl
      exact ⟨l1 ++ l2, by rw [hl2, hl1, hw, List.append_assoc]⟩

end VMTranslator

namespace VMTranslator
namespace Hack

/-- An operand that is not a constant always resolves: to a predefined symbol, a label or a
variable. -/
theorem resolve_some (p : Program) (s : String) (hn : isNumeral s = false) :
    ∃ v, p.resolve s = some v := by
  unfold Program.resolve
  rw [hn]
  simp only [Bool.false_eq_true, if_false]
  cases predefined.lookup s with
  | some v => exact ⟨v, rfl⟩
  | none =>
    cases p.labels.lookup s with
    | some v => exact ⟨v, rfl⟩
    | none => exact ⟨_, rfl⟩

end Hack
end VMTranslator
namespace VMTranslator
open CommandType

/-! ## Straight-line stack code -/

theorem StackCommand.write_appends (c : StackCommand) (w : CodeWriter) :
    ∃ l, (c.write w).output = w.output ++ l := by
  cases c with
  | arithmetic command => exact writeArithmetic_appends _ _
  | push segment index => exact writePushPop_appends _ _ _ _
  | pop segment index => exact writePushPop_appends _ _ _ _

theorem writeAll_appends (cmds : List StackCommand) : ∀ w : CodeWriter,
    ∃ l, (writeAll cmds w).output = w.output ++ l := by
  induction cmds with
  | nil => intro w; exact ⟨[], by simp [writeAll]⟩
  | cons c cs ih =>
    intro w
    obtain ⟨l1, h1⟩ := c.write_appends w
    obtain ⟨l2, h2⟩ := ih (c.write w)
    exact ⟨l1 ++ l2, by rw [writeAll, h2, h1, List.append_assoc]⟩

theorem emitted_writeAll_nil (w : CodeWriter) : emitted (writeAll []) w = [] := by
  show (writeAll [] w).output.drop w.output.length = []
  simp only [writeAll, List.drop_length]

theorem emitted_writeAll_cons (c : StackCommand) (cs : List StackCommand) (w : CodeWriter) :
    emitted (writeAll (c :: cs)) w = emitted c.write w ++ emitted (writeAll cs) (c.write w) :=
  Hack.emitted_comp c.write (writeAll cs) w (c.write_appends w) (writeAll_appends cs _)

theorem emitted_writeAll_append (pre post : List StackCommand) : ∀ w : CodeWriter,
    emitted (writeAll (pre ++ post)) w =
      emitted (writeAll pre) w ++ emitted (writeAll post) (writeAll pre w) := by
  induction pre with
  | nil => intro w; rw [List.nil_append, emitted_writeAll_nil, List.nil_append]; rfl
  | cons c cs ih =>
    intro w
    rw [List.cons_append, emitted_writeAll_cons, emitted_writeAll_cons, ih, List.append_assoc]
    rfl

end VMTranslator
namespace VMTranslator
open CommandType
namespace Hack

/-- A fragment of A-instructions that resolve and of C-instructions that neither store nor jump
leaves the RAM as it is. -/
theorem execSeq_pure (p : Program) (frag : List Instr)
    (h : ∀ i ∈ frag, (∃ sym v, i = Instr.A sym ∧ p.resolve sym = some v) ∨
      (∃ dest comp, i = Instr.C dest comp Jump.null ∧ dest.m = false)) :
    ∀ st : State, ∃ a d, execSeq p frag st = some ⟨a, d, st.pc + frag.length, st.ram⟩ := by
  induction frag with
  | nil => intro st; exact ⟨st.a, st.d, rfl⟩
  | cons i frag ih =>
    intro st
    rcases h i (List.mem_cons_self _ _) with ⟨sym, v, rfl, hv⟩ | ⟨dest, comp, rfl, hm⟩
    · obtain ⟨a, d, hx⟩ := ih (fun j hj => h j (List.mem_cons_of_mem _ hj))
        ⟨v, st.d, st.pc + 1, st.ram⟩
      refine ⟨a, d, ?_⟩
      simp only [execSeq, execInstr, hv, hx, List.length_cons]
      simp only [Nat.add_assoc, Nat.add_comm 1]
    · obtain ⟨a, d, hx⟩ := ih (fun j hj => h j (List.mem_cons_of_mem _ hj))
        ⟨if dest.a then compute comp st.a st.d (st.ram (st.a % 32768)) else st.a,
          if dest.d then compute comp st.a st.d (st.ram (st.a % 32768)) else st.d,
          st.pc + 1, st.ram⟩
      refine ⟨a, d, ?_⟩
      simp only [execSeq, execInstr, jumps, hm, Bool.false_eq_true, if_false, hx,
        List.length_cons]
      simp only [Nat.add_assoc, Nat.add_comm 1]

theorem pure_noJump (p : Program) (frag : List Instr)
    (h : ∀ i ∈ frag, (∃ sym v, i = Instr.A sym ∧ p.resolve sym = some v) ∨
      (∃ dest comp, i = Instr.C dest comp Jump.null ∧ dest.m = false)) :
    ∀ i ∈ frag, noJump i = true := by
  intro i hi
  rcases h i hi with ⟨sym, v, rfl, _⟩ | ⟨dest, comp, rfl, _⟩ <;> rfl

/-- Continue a run with a fragment that does not store. -/
theorem runN_then_pure (p : Program) {n : Nat} {st : State} {a d pc : Nat} {ram : Nat → Nat}
    (h1 : runN p n st = some ⟨a, d, pc, ram⟩) (frag : List Instr) (hc : CodeAt p.rom pc frag)
    (h : ∀ i ∈ frag, (∃ sym v, i = Instr.A sym ∧ p.resolve sym = some v) ∨
      (∃ dest comp, i = Instr.C dest comp Jump.null ∧ dest.m = false)) :
    ∃ a1 d1, runN p (n + frag.length) st = some ⟨a1, d1, pc + frag.length, ram⟩ := by
  obtain ⟨a1, d1, hx⟩ := execSeq_pure p frag h ⟨a, d, pc, ram⟩
  exact ⟨a1, d1, by rw [runN_then_seq p h1 frag hc (pure_noJump p frag h), hx]⟩

/-- The five instructions at the end of the code of a push: store `D` on the stack and advance
`SP`. -/
theorem pushTail_then (p : Program) {n : Nat} {st : State} {a d pc : Nat} {ram : Nat → Nat}
    (h1 : runN p n st = some ⟨a, d, pc, ram⟩) (s : Nat)
    (hc : CodeAt p.rom pc [Instr.A "SP", Instr.C ⟨true, false, false⟩ Comp.m Jump.null,
      Instr.C ⟨false, false, true⟩ Comp.d Jump.null, Instr.A "SP",
      Instr.C ⟨false, false, true⟩ Comp.mPlus1 Jump.null])
    (hsp : ram 0 = s) (hs0 : 0 < s) (hs1 : s < 32768) :
    runN p (n + 5) st = some ⟨0, d, pc + 5, store (store ram s d) 0 (s + 1)⟩ := by
  have h := runN_then_seq p h1 _ hc (by simp [noJump])
  simp (disch := omega) only [List.length_cons, List.length_nil, Nat.zero_add, Nat.reduceAdd,
    execSeq_A _ _ _ _ _ _ _ _ (resolve_SP p), execSeq_D_eq_A, execSeq_A_eq_M, execSeq_M_eq_D, execSeq_M_eq_M_plus_1, execSeq_AM_eq_M_minus_1, execSeq_D_eq_M, execSeq_A_eq_A_minus_1, execSeq_M_eq_D_plus_M, execSeq_M_eq_M_minus_D, execSeq_M_eq_D_and_M, execSeq_M_eq_D_or_M, execSeq_A_eq_M_minus_1, execSeq_M_eq_minus_M, execSeq_M_eq_not_M, execSeq_D_eq_M_minus_D, execSeq_M_eq_0, execSeq_M_eq_minus_1, execSeq_A_eq_D_plus_A, execSeq_D_eq_D_minus_A, execSeq_D_eq_M_plus_1, execSeq_A_eq_D, execSeq_A_eq_D_minus_A, execSeq_nil,
    Nat.zero_mod, hsp, store_same, store_ne, Nat.mod_eq_of_lt, Nat.add_assoc] at h
  exact h

/-- The code of a pop to a cell named by a symbol (`static`, `pointer`). -/
theorem popDirect_then (p : Program) {n : Nat} {st : State} {a d pc : Nat} {ram : Nat → Nat}
    (h1 : runN p n st = some ⟨a, d, pc, ram⟩) (sym : String) (v s : Nat)
    (hres : p.resolve sym = some v) (hv : v % 32768 ≠ 0)
    (hc : CodeAt p.rom pc [Instr.A "SP", Instr.C ⟨true, false, true⟩ Comp.mMinus1 Jump.null,
      Instr.C ⟨false, true, false⟩ Comp.m Jump.null, Instr.A sym,
      Instr.C ⟨false, false, true⟩ Comp.d Jump.null])
    (hsp : ram 0 = s) (hs0 : 0 < s) :
    ∃ st1, runN p (n + 5) st = some st1 ∧ st1.pc = pc + 5 ∧ st1.ram 0 = s - 1 := by
  have h := runN_then_seq p h1 _ hc (by simp [noJump])
  have e1 : ¬ (s = 0) := by omega
  have e2 : (0 : Nat) ≠ v % 32768 := fun e => hv e.symm
  simp (disch := omega) only [List.length_cons, List.length_nil, Nat.zero_add, Nat.reduceAdd,
    execSeq_A _ _ _ _ _ _ _ _ (resolve_SP p), execSeq_A _ _ _ _ _ _ _ _ hres,
    execSeq_D_eq_A, execSeq_A_eq_M, execSeq_M_eq_D, execSeq_M_eq_M_plus_1, execSeq_AM_eq_M_minus_1, execSeq_D_eq_M, execSeq_A_eq_A_minus_1, execSeq_M_eq_D_plus_M, execSeq_M_eq_M_minus_D, execSeq_M_eq_D_and_M, execSeq_M_eq_D_or_M, execSeq_A_eq_M_minus_1, execSeq_M_eq_minus_M, execSeq_M_eq_not_M, execSeq_D_eq_M_minus_D, execSeq_M_eq_0, execSeq_M_eq_minus_1, execSeq_A_eq_D_plus_A, execSeq_D_eq_D_minus_A, execSeq_D_eq_M_plus_1, execSeq_A_eq_D, execSeq_A_eq_D_minus_A, execSeq_nil, Nat.zero_mod, hsp, e1, if_false, Nat.add_assoc] at h
  exact ⟨_, h, rfl, by simp only [store_ne _ _ _ _ e2, store_same]⟩

/-- The code of a pop to a cell addressed through a base pointer (`local`, `argument`, `this`,
`that`). -/
theorem popIndirect_then (p : Program) {n : Nat} {st : State} {a d pc : Nat} {ram : Nat → Nat}
    (h1 : runN p n st = some ⟨a, d, pc, ram⟩) (base idx : String) (bA i s : Nat)
    (hbase : p.resolve base = some bA) (hbA : bA < 32768) (hidx : p.resolve idx = some i)
    (hc : CodeAt p.rom pc [Instr.A base, Instr.C ⟨false, true, false⟩ Comp.m Jump.null,
      Instr.A idx, Instr.C ⟨true, false, false⟩ Comp.dPlusA Jump.null,
      Instr.C ⟨false, true, false⟩ Comp.a Jump.null, Instr.A "R13",
      Instr.C ⟨false, false, true⟩ Comp.d Jump.null, Instr.A "SP",
      Instr.C ⟨true, false, true⟩ Comp.mMinus1 Jump.null,
      Instr.C ⟨false, true, false⟩ Comp.m Jump.null, Instr.A "R13",
      Instr.C ⟨true, false, false⟩ Comp.m Jump.null,
      Instr.C ⟨false, false, true⟩ Comp.d Jump.null])
    (hsp : ram 0 = s) (hs0 : 0 < s) (ht : (ram bA + i) % 32768 ≠ 0) :
    ∃ st1, runN p (n + 13) st = some st1 ∧ st1.pc = pc + 13 ∧ st1.ram 0 = s - 1 := by
  have h := runN_then_seq p h1 _ hc (by simp [noJump])
  have e1 : ¬ (s = 0) := by omega
  have e2 : (0 : Nat) ≠ (ram bA + i) % 65536 % 32768 := by omega
  have e3 : (0 : Nat) ≠ 13 := by decide
  have e4 : (13 : Nat) ≠ 0 := by decide
  simp (disch := omega) only [List.length_cons, List.length_nil, Nat.zero_add, Nat.reduceAdd,
    execSeq_A _ _ _ _ _ _ _ _ (resolve_SP p), execSeq_A _ _ _ _ _ _ _ _ (resolve_R13 p),
    execSeq_A _ _ _ _ _ _ _ _ hbase, execSeq_A _ _ _ _ _ _ _ _ hidx,
    execSeq_D_eq_A, execSeq_A_eq_M, execSeq_M_eq_D, execSeq_M_eq_M_plus_1, execSeq_AM_eq_M_minus_1, execSeq_D_eq_M, execSeq_A_eq_A_minus_1, execSeq_M_eq_D_plus_M, execSeq_M_eq_M_minus_D, execSeq_M_eq_D_and_M, execSeq_M_eq_D_or_M, execSeq_A_eq_M_minus_1, execSeq_M_eq_minus_M, execSeq_M_eq_not_M, execSeq_D_eq_M_minus_D, execSeq_M_eq_0, execSeq_M_eq_minus_1, execSeq_A_eq_D_plus_A, execSeq_D_eq_D_minus_A, execSeq_D_eq_M_plus_1, execSeq_A_eq_D, execSeq_A_eq_D_minus_A, execSeq_nil, Nat.zero_mod, Nat.reduceMod, Nat.mod_eq_of_lt hbA,
    store_ne _ _ _ _ e3, store_ne _ _ _ _ e4, store_same, hsp, e1, if_false,
    Nat.add_assoc] at h
  exact ⟨_, h, rfl, by simp only [store_ne _ _ _ _ e2, store_same]⟩

/-- The code of a pop to a cell at a fixed address plus the index (`temp`). -/
theorem popFixed_then (p : Program) {n : Nat} {st : State} {a d pc : Nat} {ram : Nat → Nat}
    (h1 : runN p n st = some ⟨a, d, pc, ram⟩) (base idx : String) (bA i s : Nat)
    (hbase : p.resolve base = some bA) (hidx : p.resolve idx = some i)
    (hc : CodeAt p.rom pc [Instr.A base, Instr.C ⟨false, true, false⟩ Comp.a Jump.null,
      Instr.A idx, Instr.C ⟨true, false, false⟩ Comp.dPlusA Jump.null,
      Instr.C ⟨false, true, false⟩ Comp.a Jump.null, Instr.A "R13",
      Instr.C ⟨false, false, true⟩ Comp.d Jump.null, Instr.A "SP",
      Instr.C ⟨true, false, true⟩ Comp.mMinus1 Jump.null,
      Instr.C ⟨false, true, false⟩ Comp.m Jump.null, Instr.A "R13",
      Instr.C ⟨true, false, false⟩ Comp.m Jump.null,
      Instr.C ⟨false, false, true⟩ Comp.d Jump.null])
    (hsp : ram 0 = s) (hs0 : 0 < s) (ht : (bA + i) % 32768 ≠ 0) :
    ∃ st1, runN p (n + 13) st = some st1 ∧ st1.pc = pc + 13 ∧ st1.ram 0 = s - 1 := by
  have h := runN_then_seq p h1 _ hc (by simp [noJump])
  have e1 : ¬ (s = 0) := by omega
  have e2 : (0 : Nat) ≠ (bA + i) % 65536 % 32768 := by omega
  have e3 : (0 : Nat) ≠ 13 := by decide
  have e4 : (13 : Nat) ≠ 0 := by decide
  simp (disch := omega) only [List.length_cons, List.length_nil, Nat.zero_add, Nat.reduceAdd,
    execSeq_A _ _ _ _ _ _ _ _ (resolve_SP p), execSeq_A _ _ _ _ _ _ _ _ (resolve_R13 p),
    execSeq_A _ _ _ _ _ _ _ _ hbase, execSeq_A _ _ _ _ _ _ _ _ hidx,
    execSeq_D_eq_A, execSeq_A_eq_M, execSeq_M_eq_D, execSeq_M_eq_M_plus_1, execSeq_AM_eq_M_minus_1, execSeq_D_eq_M, execSeq_A_eq_A_minus_1, execSeq_M_eq_D_plus_M, execSeq_M_eq_M_minus_D, execSeq_M_eq_D_and_M, execSeq_M_eq_D_or_M, execSeq_A_eq_M_minus_1, execSeq_M_eq_minus_M, execSeq_M_eq_not_M, execSeq_D_eq_M_minus_D, execSeq_M_eq_0, execSeq_M_eq_minus_1, execSeq_A_eq_D_plus_A, execSeq_D_eq_D_minus_A, execSeq_D_eq_M_plus_1, execSeq_A_eq_D, execSeq_A_eq_D_minus_A, execSeq_nil, Nat.zero_mod, Nat.reduceMod,
    store_ne _ _ _ _ e3, store_ne _ _ _ _ e4, store_same, hsp, e1, if_false,
    Nat.add_assoc] at h
  exact ⟨_, h, rfl, by simp only [store_ne _ _ _ _ e2, store_same]⟩

/-- The code of a binary command, whatever the computation of its last instruction. -/
theorem binary_then (p : Program) {n : Nat} {st : State} {a d pc : Nat} {ram : Nat → Nat}
    (h1 : runN p n st = some ⟨a, d, pc, ram⟩) (comp : Comp) (s : Nat)
    (hc : CodeAt p.rom pc [Instr.A "SP", Instr.C ⟨true, false, true⟩ Comp.mMinus1 Jump.null,
      Instr.C ⟨false, true, false⟩ Comp.m Jump.null,
      Instr.C ⟨true, false, false⟩ Comp.aMinus1 Jump.null,
      Instr.C ⟨false, false, true⟩ comp Jump.null])
    (hsp : ram 0 = s) (hs0 : 3 ≤ s) (hs1 : s ≤ 32768) :
    ∃ st1, runN p (n + 5) st = some st1 ∧ st1.pc = pc + 5 ∧ st1.ram 0 = s - 1 := by
  obtain ⟨c1, c2⟩ := codeAt_split 4 hc (by simp)
  simp only [List.take_succ_cons, List.take_zero, List.drop_succ_cons, List.drop_zero] at c1 c2
  have h := runN_then_seq p h1 _ c1 (by simp [noJump])
  have e1 : ¬ (s = 0) := by omega
  have e2 : ¬ (s - 1 = 0) := by omega
  simp (disch := omega) only [List.length_cons, List.length_nil, Nat.zero_add, Nat.reduceAdd,
    execSeq_A _ _ _ _ _ _ _ _ (resolve_SP p), execSeq_D_eq_A, execSeq_A_eq_M, execSeq_M_eq_D, execSeq_M_eq_M_plus_1, execSeq_AM_eq_M_minus_1, execSeq_D_eq_M, execSeq_A_eq_A_minus_1, execSeq_M_eq_D_plus_M, execSeq_M_eq_M_minus_D, execSeq_M_eq_D_and_M, execSeq_M_eq_D_or_M, execSeq_A_eq_M_minus_1, execSeq_M_eq_minus_M, execSeq_M_eq_not_M, execSeq_D_eq_M_minus_D, execSeq_M_eq_0, execSeq_M_eq_minus_1, execSeq_A_eq_D_plus_A, execSeq_D_eq_D_minus_A, execSeq_D_eq_M_plus_1, execSeq_A_eq_D, execSeq_A_eq_D_minus_A, execSeq_nil,
    Nat.zero_mod, hsp, e1, e2, if_false, Nat.add_assoc] at h
  have h5 := runN_then p h (codeAt_head c2)
  rw [execInstr_C] at h5
  simp only [jumps, Bool.false_eq_true, if_false, if_true, Nat.add_assoc, Nat.reduceAdd] at h5
  have e3 : (0 : Nat) ≠ (s - 1 - 1) % 32768 := by omega
  exact ⟨_, h5, rfl, by simp only [store_ne _ _ _ _ e3, store_same]⟩

/-- The code of a unary command, whatever the computation of its last instruction. -/
theorem unary_then (p : Program) {n : Nat} {st : State} {a d pc : Nat} {ram : Nat → Nat}
    (h1 : runN p n st = some ⟨a, d, pc, ram⟩) (comp : Comp) (s : Nat)
    (hc : CodeAt p.rom pc [Instr.A "SP", Instr.C ⟨true, false, false⟩ Comp.mMinus1 Jump.null,
      Instr.C ⟨false, false, true⟩ comp Jump.null])
    (hsp : ram 0 = s) (hs0 : 2 ≤ s) (hs1 : s ≤ 32768) :
    ∃ st1, runN p (n + 3) st = some st1 ∧ st1.pc = pc + 3 ∧ st1.ram 0 = s := by
  obtain ⟨c1, c2⟩ := codeAt_split 2 hc (by simp)
  simp only [List.take_succ_cons, List.take_zero, List.drop_succ_cons, List.drop_zero] at c1 c2
  have h := runN_then_seq p h1 _ c1 (by simp [noJump])
  have e1 : ¬ (s = 0) := by omega
  simp (disch := omega) only [List.length_cons, List.length_nil, Nat.zero_add, Nat.reduceAdd,
    execSeq_A _ _ _ _ _ _ _ _ (resolve_SP p), execSeq_D_eq_A, execSeq_A_eq_M, execSeq_M_eq_D, execSeq_M_eq_M_plus_1, execSeq_AM_eq_M_minus_1, execSeq_D_eq_M, execSeq_A_eq_A_minus_1, execSeq_M_eq_D_plus_M, execSeq_M_eq_M_minus_D, execSeq_M_eq_D_and_M, execSeq_M_eq_D_or_M, execSeq_A_eq_M_minus_1, execSeq_M_eq_minus_M, execSeq_M_eq_not_M, execSeq_D_eq_M_minus_D, execSeq_M_eq_0, execSeq_M_eq_minus_1, execSeq_A_eq_D_plus_A, execSeq_D_eq_D_minus_A, execSeq_D_eq_M_plus_1, execSeq_A_eq_D, execSeq_A_eq_D_minus_A, execSeq_nil,
    Nat.zero_mod, hsp, e1, if_false, Nat.add_assoc] at h
  have h3 := runN_then p h (codeAt_head c2)
  rw [execInstr_C] at h3
  simp only [jumps, Bool.false_eq_true, if_false, if_true, Nat.add_assoc, Nat.reduceAdd] at h3
  have e3 : (0 : Nat) ≠ (s - 1) % 32768 := by omega
  exact ⟨_, h3, rfl, by simp only [store_ne _ _ _ _ e3, hsp]⟩

end Hack
end VMTranslator
namespace VMTranslator
open CommandType
namespace Hack

/-- The code of a comparison placed anywhere in ROM, whatever its jump condition: both paths
end at the end of the code with the stack pointer one lower. -/
theorem compare_then (p : Program) {n : Nat} {st : State} {a d pc : Nat} {ram : Nat → Nat}
    (h1 : runN p n st = some ⟨a, d, pc, ram⟩) (j : Jump) (lt le : String) (s : Nat)
    (hlt : p.resolve lt = some (pc + 12)) (hle : p.resolve le = some (pc + 15))
    (hc : CodeAt p.rom pc [Instr.A "SP", Instr.C ⟨true, false, true⟩ Comp.mMinus1 Jump.null,
      Instr.C ⟨false, true, false⟩ Comp.m Jump.null,
      Instr.C ⟨true, false, false⟩ Comp.aMinus1 Jump.null,
      Instr.C ⟨false, true, false⟩ Comp.mMinusD Jump.null, Instr.A lt,
      Instr.C ⟨false, false, false⟩ Comp.d j,
      Instr.A "SP", Instr.C ⟨true, false, false⟩ Comp.mMinus1 Jump.null,
      Instr.C ⟨false, false, true⟩ Comp.zero Jump.null, Instr.A le,
      Instr.C ⟨false, false, false⟩ Comp.zero Jump.JMP,
      Instr.A "SP", Instr.C ⟨true, false, false⟩ Comp.mMinus1 Jump.null,
      Instr.C ⟨false, false, true⟩ Comp.negOne Jump.null])
    (hsp : ram 0 = s) (hs0 : 3 ≤ s) (hs1 : s ≤ 32768) :
    ∃ m st1, runN p (n + m) st = some st1 ∧ st1.pc = pc + 15 ∧ st1.ram 0 = s - 1 := by
  obtain ⟨c1, r1⟩ := codeAt_split 6 hc (by simp)
  simp only [List.take_succ_cons, List.take_zero, List.drop_succ_cons, List.drop_zero] at c1 r1
  obtain ⟨c2, r2⟩ := codeAt_split 1 r1 (by simp)
  simp only [List.take_succ_cons, List.take_zero, List.drop_succ_cons, List.drop_zero] at c2 r2
  obtain ⟨c3, r3⟩ := codeAt_split 4 r2 (by simp)
  simp only [List.take_succ_cons, List.take_zero, List.drop_succ_cons, List.drop_zero] at c3 r3
  obtain ⟨c4, c5⟩ := codeAt_split 1 r3 (by simp)
  simp only [List.take_succ_cons, List.take_zero, List.drop_succ_cons, List.drop_zero] at c4 c5
  simp only [Nat.add_assoc, Nat.reduceAdd] at r1 r2 r3 c2 c3 c4 c5
  have e1 : ¬ (s = 0) := by omega
  have e2 : ¬ (s - 1 = 0) := by omega
  have e3 : (0 : Nat) ≠ (s - 1 - 1) % 32768 := by omega
  have h6 := runN_then_seq p h1 _ c1 (by simp [noJump])
  simp (disch := omega) only [List.length_cons, List.length_nil, Nat.zero_add, Nat.reduceAdd,
    execSeq_A _ _ _ _ _ _ _ _ (resolve_SP p), execSeq_A _ _ _ _ _ _ _ _ hlt,
    execSeq_D_eq_A, execSeq_A_eq_M, execSeq_M_eq_D, execSeq_M_eq_M_plus_1, execSeq_AM_eq_M_minus_1, execSeq_D_eq_M, execSeq_A_eq_A_minus_1, execSeq_M_eq_D_plus_M, execSeq_M_eq_M_minus_D, execSeq_M_eq_D_and_M, execSeq_M_eq_D_or_M, execSeq_A_eq_M_minus_1, execSeq_M_eq_minus_M, execSeq_M_eq_not_M, execSeq_D_eq_M_minus_D, execSeq_M_eq_0, execSeq_M_eq_minus_1, execSeq_A_eq_D_plus_A, execSeq_D_eq_D_minus_A, execSeq_D_eq_M_plus_1, execSeq_A_eq_D, execSeq_A_eq_D_minus_A, execSeq_nil, Nat.zero_mod, hsp, e1, e2, if_false, Nat.add_assoc] at h6
  have h7 := runN_then p h6 (codeAt_head c2)
  rw [execInstr_C] at h7
  simp only [compute, Bool.false_eq_true, if_false, Nat.add_assoc, Nat.reduceAdd] at h7
  generalize hjv : jumps j _ = jv at h7
  cases jv with
  | true =>
    simp only [if_true] at h7
    have h10 := runN_then_seq p h7 _ c5 (by simp [noJump])
    simp (disch := omega) only [List.length_cons, List.length_nil, Nat.zero_add, Nat.reduceAdd,
      execSeq_A _ _ _ _ _ _ _ _ (resolve_SP p), execSeq_D_eq_A, execSeq_A_eq_M, execSeq_M_eq_D, execSeq_M_eq_M_plus_1, execSeq_AM_eq_M_minus_1, execSeq_D_eq_M, execSeq_A_eq_A_minus_1, execSeq_M_eq_D_plus_M, execSeq_M_eq_M_minus_D, execSeq_M_eq_D_and_M, execSeq_M_eq_D_or_M, execSeq_A_eq_M_minus_1, execSeq_M_eq_minus_M, execSeq_M_eq_not_M, execSeq_D_eq_M_minus_D, execSeq_M_eq_0, execSeq_M_eq_minus_1, execSeq_A_eq_D_plus_A, execSeq_D_eq_D_minus_A, execSeq_D_eq_M_plus_1, execSeq_A_eq_D, execSeq_A_eq_D_minus_A, execSeq_nil, Nat.zero_mod,
      store_same, e2, if_false, Nat.add_assoc] at h10
    exact ⟨10, _, h10, rfl, by simp only [store_ne _ _ _ _ e3, store_same]⟩
  | false =>
    simp only [Bool.false_eq_true, if_false] at h7
    have h11 := runN_then_seq p h7 _ c3 (by simp [noJump])
    simp (disch := omega) only [List.length_cons, List.length_nil, Nat.zero_add, Nat.reduceAdd,
      execSeq_A _ _ _ _ _ _ _ _ (resolve_SP p), execSeq_A _ _ _ _ _ _ _ _ hle,
      execSeq_D_eq_A, execSeq_A_eq_M, execSeq_M_eq_D, execSeq_M_eq_M_plus_1, execSeq_AM_eq_M_minus_1, execSeq_D_eq_M, execSeq_A_eq_A_minus_1, execSeq_M_eq_D_plus_M, execSeq_M_eq_M_minus_D, execSeq_M_eq_D_and_M, execSeq_M_eq_D_or_M, execSeq_A_eq_M_minus_1, execSeq_M_eq_minus_M, execSeq_M_eq_not_M, execSeq_D_eq_M_minus_D, execSeq_M_eq_0, execSeq_M_eq_minus_1, execSeq_A_eq_D_plus_A, execSeq_D_eq_D_minus_A, execSeq_D_eq_M_plus_1, execSeq_A_eq_D, execSeq_A_eq_D_minus_A, execSeq_nil, Nat.zero_mod, store_same, e2, if_false, Nat.add_assoc] at h11
    have h12 := runN_then p h11 (codeAt_head c4)
    rw [execInstr_C] at h12
    simp only [compute, jumps, Bool.false_eq_true, if_false, if_true] at h12
    exact ⟨12, _, h12, rfl, by simp only [store_ne _ _ _ _ e3, store_same]⟩

end Hack
end VMTranslator
namespace VMTranslator
open CommandType
namespace Hack

/-- Stack-pointer effect of the code of an arithmetic command placed anywhere in ROM. -/
theorem arithmetic_sp (p : Program) (cmd : String) (w : CodeWriter) (st : State) (s : Nat)
    (hcmd : cmd ∈ ["add", "sub", "neg", "eq", "gt", "lt", "and", "or", "not"])
    (hcode : CodeAt p.rom st.pc
      (romOf ((emitted (StackCommand.arithmetic cmd).write w).map parseLine)))
    (hTE : cmd = "eq" ∨ cmd = "gt" ∨ cmd = "lt" →
      p.resolve ("COMP_" ++ decimal w.labelCounter ++ "_TRUE") = some (st.pc + 12) ∧
      p.resolve ("COMP_" ++ decimal w.labelCounter ++ "_END") = some (st.pc + 15))
    (hsp : st.ram 0 = s) (hs0 : 1 + operandCount (StackCommand.arithmetic cmd) ≤ s)
    (hs1 : s ≤ 32768) :
    ∃ n st1, runN p n st = some st1 ∧
      st1.pc = st.pc +
        (romOf ((emitted (StackCommand.arithmetic cmd).write w).map parseLine)).length ∧
      (st1.ram 0 : Int) = s + declaredDelta (StackCommand.arithmetic cmd) := by
  obtain ⟨a0, d0, pc0, ram⟩ := st
  simp only [] at hsp hcode hTE ⊢
  have h0 : runN p 0 ⟨a0, d0, pc0, ram⟩ = some ⟨a0, d0, pc0, ram⟩ := rfl
  generalize hr : romOf ((emitted (StackCommand.arithmetic cmd).write w).map parseLine) = rom
    at hcode ⊢
  simp only [List.mem_cons, List.mem_singleton, List.not_mem_nil, or_false] at hcmd
  rcases hcmd with rfl | rfl | rfl | rfl | rfl | rfl | rfl | rfl | rfl
  · -- add
    simp only [emitted, StackCommand.write, writeArithmetic, binaryOp, unaryOp, compareOp, getJumpCondition, writePushPop, push, pop, resolveSegmentAddress, segmentMap, CodeWriter.emit, parseLine_at, parseLine_at_append, parseLine_comment, List.map, List.drop_left, List.append_assoc, List.cons_append, List.nil_append, String.reduceAppend, String.reduceEq, if_true, if_false, mk_SP, mk_LCL, mk_ARG, mk_THIS, mk_THAT, mk_R13, romOf, or_false, or_true, false_or, reduceCtorEq, parseLine_label_true, parseLine_label_end, parseLine_D_eq_A, parseLine_A_eq_M, parseLine_M_eq_D, parseLine_M_eq_M_plus_1, parseLine_AM_eq_M_minus_1, parseLine_D_eq_M, parseLine_A_eq_A_minus_1, parseLine_M_eq_D_plus_M, parseLine_M_eq_M_minus_D, parseLine_M_eq_D_and_M, parseLine_M_eq_D_or_M, parseLine_A_eq_M_minus_1, parseLine_M_eq_minus_M, parseLine_M_eq_not_M, parseLine_D_eq_M_minus_D, parseLine_D_JEQ, parseLine_D_JGT, parseLine_D_JLT, parseLine_M_eq_0, parseLine_0_JMP, parseLine_M_eq_minus_1, parseLine_A_eq_D_plus_A, parseLine_D_eq_D_minus_A, parseLine_D_eq_M_plus_1, parseLine_A_eq_D, parseLine_A_eq_D_minus_A, parseLine_D_JNE] at hr
    subst hr
    simp only [operandCount, declaredDelta, String.reduceEq, or_self, if_false] at hs0 ⊢
    obtain ⟨st1, hrun, hpc, hsp1⟩ := binary_then p h0 _ s hcode hsp (by omega) hs1
    refine ⟨_, st1, hrun, by rw [hpc]; rfl, ?_⟩
    rw [hsp1]; omega
  · -- sub
    simp only [emitted, StackCommand.write, writeArithmetic, binaryOp, unaryOp, compareOp, getJumpCondition, writePushPop, push, pop, resolveSegmentAddress, segmentMap, CodeWriter.emit, parseLine_at, parseLine_at_append, parseLine_comment, List.map, List.drop_left, List.append_assoc, List.cons_append, List.nil_append, String.reduceAppend, String.reduceEq, if_true, if_false, mk_SP, mk_LCL, mk_ARG, mk_THIS, mk_THAT, mk_R13, romOf, or_false, or_true, false_or, reduceCtorEq, parseLine_label_true, parseLine_label_end, parseLine_D_eq_A, parseLine_A_eq_M, parseLine_M_eq_D, parseLine_M_eq_M_plus_1, parseLine_AM_eq_M_minus_1, parseLine_D_eq_M, parseLine_A_eq_A_minus_1, parseLine_M_eq_D_plus_M, parseLine_M_eq_M_minus_D, parseLine_M_eq_D_and_M, parseLine_M_eq_D_or_M, parseLine_A_eq_M_minus_1, parseLine_M_eq_minus_M, parseLine_M_eq_not_M, parseLine_D_eq_M_minus_D, parseLine_D_JEQ, parseLine_D_JGT, parseLine_D_JLT, parseLine_M_eq_0, parseLine_0_JMP, parseLine_M_eq_minus_1, parseLine_A_eq_D_plus_A, parseLine_D_eq_D_minus_A, parseLine_D_eq_M_plus_1, parseLine_A_eq_D, parseLine_A_eq_D_minus_A, parseLine_D_JNE] at hr
    subst hr
    simp only [operandCount, declaredDelta, String.reduceEq, or_self, if_false] at hs0 ⊢
    obtain ⟨st1, hrun, hpc, hsp1⟩ := binary_then p h0 _ s hcode hsp (by omega) hs1
    refine ⟨_, st1, hrun, by rw [hpc]; rfl, ?_⟩
    rw [hsp1]; omega
  · -- neg
    simp only [emitted, StackCommand.write, writeArithmetic, binaryOp, unaryOp, compareOp, getJumpCondition, writePushPop, push, pop, resolveSegmentAddress, segmentMap, CodeWriter.emit, parseLine_at, parseLine_at_append, parseLine_comment, List.map, List.drop_left, List.append_assoc, List.cons_append, List.nil_append, String.reduceAppend, String.reduceEq, if_true, if_false, mk_SP, mk_LCL, mk_ARG, mk_THIS, mk_THAT, mk_R13, romOf, or_false, or_true, false_or, reduceCtorEq, parseLine_label_true, parseLine_label_end, parseLine_D_eq_A, parseLine_A_eq_M, parseLine_M_eq_D, parseLine_M_eq_M_plus_1, parseLine_AM_eq_M_minus_1, parseLine_D_eq_M, parseLine_A_eq_A_minus_1, parseLine_M_eq_D_plus_M, parseLine_M_eq_M_minus_D, parseLine_M_eq_D_and_M, parseLine_M_eq_D_or_M, parseLine_A_eq_M_minus_1, parseLine_M_eq_minus_M, parseLine_M_eq_not_M, parseLine_D_eq_M_minus_D, parseLine_D_JEQ, parseLine_D_JGT, parseLine_D_JLT, parseLine_M_eq_0, parseLine_0_JMP, parseLine_M_eq_minus_1, parseLine_A_eq_D_plus_A, parseLine_D_eq_D_minus_A, parseLine_D_eq_M_plus_1, parseLine_A_eq_D, parseLine_A_eq_D_minus_A, parseLine_D_JNE] at hr
    subst hr
    simp only [operandCount, declaredDelta, String.reduceEq, or_true, true_or, if_true] at hs0 ⊢
    obtain ⟨st1, hrun, hpc, hsp1⟩ := unary_then p h0 _ s hcode hsp (by omega) hs1
    refine ⟨_, st1, hrun, by rw [hpc]; rfl, ?_⟩
    rw [hsp1]; omega
  · -- eq
    simp only [emitted, StackCommand.write, writeArithmetic, binaryOp, unaryOp, compareOp, getJumpCondition, writePushPop, push, pop, resolveSegmentAddress, segmentMap, CodeWriter.emit, parseLine_at, parseLine_at_append, parseLine_comment, List.map, List.drop_left, List.append_assoc, List.cons_append, List.nil_append, String.reduceAppend, String.reduceEq, if_true, if_false, mk_SP, mk_LCL, mk_ARG, mk_THIS, mk_THAT, mk_R13, romOf, or_false, or_true, false_or, reduceCtorEq, parseLine_label_true, parseLine_label_end, parseLine_D_eq_A, parseLine_A_eq_M, parseLine_M_eq_D, parseLine_M_eq_M_plus_1, parseLine_AM_eq_M_minus_1, parseLine_D_eq_M, parseLine_A_eq_A_minus_1, parseLine_M_eq_D_plus_M, parseLine_M_eq_M_minus_D, parseLine_M_eq_D_and_M, parseLine_M_eq_D_or_M, parseLine_A_eq_M_minus_1, parseLine_M_eq_minus_M, parseLine_M_eq_not_M, parseLine_D_eq_M_minus_D, parseLine_D_JEQ, parseLine_D_JGT, parseLine_D_JLT, parseLine_M_eq_0, parseLine_0_JMP, parseLine_M_eq_minus_1, parseLine_A_eq_D_plus_A, parseLine_D_eq_D_minus_A, parseLine_D_eq_M_plus_1, parseLine_A_eq_D, parseLine_A_eq_D_minus_A, parseLine_D_JNE] at hr
    subst hr
    simp only [operandCount, declaredDelta, String.reduceEq, or_self, if_false] at hs0 ⊢
    obtain ⟨hT, hE⟩ := hTE (by simp)
    obtain ⟨m, st1, hrun, hpc, hsp1⟩ := compare_then p h0 _ _ _ s hT hE hcode hsp (by omega) hs1
    refine ⟨_, st1, hrun, by rw [hpc]; rfl, ?_⟩
    rw [hsp1]; omega
  · -- gt
    simp only [emitted, StackCommand.write, writeArithmetic, binaryOp, unaryOp, compareOp, getJumpCondition, writePushPop, push, pop, resolveSegmentAddress, segmentMap, CodeWriter.emit, parseLine_at, parseLine_at_append, parseLine_comment, List.map, List.drop_left, List.append_assoc, List.cons_append, List.nil_append, String.reduceAppend, String.reduceEq, if_true, if_false, mk_SP, mk_LCL, mk_ARG, mk_THIS, mk_THAT, mk_R13, romOf, or_false, or_true, false_or, reduceCtorEq, parseLine_label_true, parseLine_label_end, parseLine_D_eq_A, parseLine_A_eq_M, parseLine_M_eq_D, parseLine_M_eq_M_plus_1, parseLine_AM_eq_M_minus_1, parseLine_D_eq_M, parseLine_A_eq_A_minus_1, parseLine_M_eq_D_plus_M, parseLine_M_eq_M_minus_D, parseLine_M_eq_D_and_M, parseLine_M_eq_D_or_M, parseLine_A_eq_M_minus_1, parseLine_M_eq_minus_M, parseLine_M_eq_not_M, parseLine_D_eq_M_minus_D, parseLine_D_JEQ, parseLine_D_JGT, parseLine_D_JLT, parseLine_M_eq_0, parseLine_0_JMP, parseLine_M_eq_minus_1, parseLine_A_eq_D_plus_A, parseLine_D_eq_D_minus_A, parseLine_D_eq_M_plus_1, parseLine_A_eq_D, parseLine_A_eq_D_minus_A, parseLine_D_JNE] at hr
    subst hr
    simp only [operandCount, declaredDelta, String.reduceEq, or_self, if_false] at hs0 ⊢
    obtain ⟨hT, hE⟩ := hTE (by simp)
    obtain ⟨m, st1, hrun, hpc, hsp1⟩ := compare_then p h0 _ _ _ s hT hE hcode hsp (by omega) hs1
    refine ⟨_, st1, hrun, by rw [hpc]; rfl, ?_⟩
    rw [hsp1]; omega
  · -- lt
    simp only [emitted, StackCommand.write, writeArithmetic, binaryOp, unaryOp, compareOp, getJumpCondition, writePushPop, push, pop, resolveSegmentAddress, segmentMap, CodeWriter.emit, parseLine_at, parseLine_at_append, parseLine_comment, List.map, List.drop_left, List.append_assoc, List.cons_append, List.nil_append, String.reduceAppend, String.reduceEq, if_true, if_false, mk_SP, mk_LCL, mk_ARG, mk_THIS, mk_THAT, mk_R13, romOf, or_false, or_true, false_or, reduceCtorEq, parseLine_label_true, parseLine_label_end, parseLine_D_eq_A, parseLine_A_eq_M, parseLine_M_eq_D, parseLine_M_eq_M_plus_1, parseLine_AM_eq_M_minus_1, parseLine_D_eq_M, parseLine_A_eq_A_minus_1, parseLine_M_eq_D_plus_M, parseLine_M_eq_M_minus_D, parseLine_M_eq_D_and_M, parseLine_M_eq_D_or_M, parseLine_A_eq_M_minus_1, parseLine_M_eq_minus_M, parseLine_M_eq_not_M, parseLine_D_eq_M_minus_D, parseLine_D_JEQ, parseLine_D_JGT, parseLine_D_JLT, parseLine_M_eq_0, parseLine_0_JMP, parseLine_M_eq_minus_1, parseLine_A_eq_D_plus_A, parseLine_D_eq_D_minus_A, parseLine_D_eq_M_plus_1, parseLine_A_eq_D, parseLine_A_eq_D_minus_A, parseLine_D_JNE] at hr
    subst hr
    simp only [operandCount, declaredDelta, String.reduceEq, or_self, if_false] at hs0 ⊢
    obtain ⟨hT, hE⟩ := hTE (by simp)
    obtain ⟨m, st1, hrun, hpc, hsp1⟩ := compare_then p h0 _ _ _ s hT hE hcode hsp (by omega) hs1
    refine ⟨_, st1, hrun, by rw [hpc]; rfl, ?_⟩
    rw [hsp1]; omega
  · -- and
    simp only [emitted, StackCommand.write, writeArithmetic, binaryOp, unaryOp, compareOp, getJumpCondition, writePushPop, push, pop, resolveSegmentAddress, segmentMap, CodeWriter.emit, parseLine_at, parseLine_at_append, parseLine_comment, List.map, List.drop_left, List.append_assoc, List.cons_append, List.nil_append, String.reduceAppend, String.reduceEq, if_true, if_false, mk_SP, mk_LCL, mk_ARG, mk_THIS, mk_THAT, mk_R13, romOf, or_false, or_true, false_or, reduceCtorEq, parseLine_label_true, parseLine_label_end, parseLine_D_eq_A, parseLine_A_eq_M, parseLine_M_eq_D, parseLine_M_eq_M_plus_1, parseLine_AM_eq_M_minus_1, parseLine_D_eq_M, parseLine_A_eq_A_minus_1, parseLine_M_eq_D_plus_M, parseLine_M_eq_M_minus_D, parseLine_M_eq_D_and_M, parseLine_M_eq_D_or_M, parseLine_A_eq_M_minus_1, parseLine_M_eq_minus_M, parseLine_M_eq_not_M, parseLine_D_eq_M_minus_D, parseLine_D_JEQ, parseLine_D_JGT, parseLine_D_JLT, parseLine_M_eq_0, parseLine_0_JMP, parseLine_M_eq_minus_1, parseLine_A_eq_D_plus_A, parseLine_D_eq_D_minus_A, parseLine_D_eq_M_plus_1, parseLine_A_eq_D, parseLine_A_eq_D_minus_A, parseLine_D_JNE] at hr
    subst hr
    simp only [operandCount, declaredDelta, String.reduceEq, or_self, if_false] at hs0 ⊢
    obtain ⟨st1, hrun, hpc, hsp1⟩ := binary_then p h0 _ s hcode hsp (by omega) hs1
    refine ⟨_, st1, hrun, by rw [hpc]; rfl, ?_⟩
    rw [hsp1]; omega
  · -- or
    simp only [emitted, StackCommand.write, writeArithmetic, binaryOp, unaryOp, compareOp, getJumpCondition, writePushPop, push, pop, resolveSegmentAddress, segmentMap, CodeWriter.emit, parseLine_at, parseLine_at_append, parseLine_comment, List.map, List.drop_left, List.append_assoc, List.cons_append, List.nil_append, String.reduceAppend, String.reduceEq, if_true, if_false, mk_SP, mk_LCL, mk_ARG, mk_THIS, mk_THAT, mk_R13, romOf, or_false, or_true, false_or, reduceCtorEq, parseLine_label_true, parseLine_label_end, parseLine_D_eq_A, parseLine_A_eq_M, parseLine_M_eq_D, parseLine_M_eq_M_plus_1, parseLine_AM_eq_M_minus_1, parseLine_D_eq_M, parseLine_A_eq_A_minus_1, parseLine_M_eq_D_plus_M, parseLine_M_eq_M_minus_D, parseLine_M_eq_D_and_M, parseLine_M_eq_D_or_M, parseLine_A_eq_M_minus_1, parseLine_M_eq_minus_M, parseLine_M_eq_not_M, parseLine_D_eq_M_minus_D, parseLine_D_JEQ, parseLine_D_JGT, parseLine_D_JLT, parseLine_M_eq_0, parseLine_0_JMP, parseLine_M_eq_minus_1, parseLine_A_eq_D_plus_A, parseLine_D_eq_D_minus_A, parseLine_D_eq_M_plus_1, parseLine_A_eq_D, parseLine_A_eq_D_minus_A, parseLine_D_JNE] at hr
    subst hr
    simp only [operandCount, declaredDelta, String.reduceEq, or_self, if_false] at hs0 ⊢
    obtain ⟨st1, hrun, hpc, hsp1⟩ := binary_then p h0 _ s hcode hsp (by omega) hs1
    refine ⟨_, st1, hrun, by rw [hpc]; rfl, ?_⟩
    rw [hsp1]; omega
  · -- not
    simp only [emitted, StackCommand.write, writeArithmetic, binaryOp, unaryOp, compareOp, getJumpCondition, writePushPop, push, pop, resolveSegmentAddress, segmentMap, CodeWriter.emit, parseLine_at, parseLine_at_append, parseLine_comment, List.map, List.drop_left, List.append_assoc, List.cons_append, List.nil_append, String.reduceAppend, String.reduceEq, if_true, if_false, mk_SP, mk_LCL, mk_ARG, mk_THIS, mk_THAT, mk_R13, romOf, or_false, or_true, false_or, reduceCtorEq, parseLine_label_true, parseLine_label_end, parseLine_D_eq_A, parseLine_A_eq_M, parseLine_M_eq_D, parseLine_M_eq_M_plus_1, parseLine_AM_eq_M_minus_1, parseLine_D_eq_M, parseLine_A_eq_A_minus_1, parseLine_M_eq_D_plus_M, parseLine_M_eq_M_minus_D, parseLine_M_eq_D_and_M, parseLine_M_eq_D_or_M, parseLine_A_eq_M_minus_1, parseLine_M_eq_minus_M, parseLine_M_eq_not_M, parseLine_D_eq_M_minus_D, parseLine_D_JEQ, parseLine_D_JGT, parseLine_D_JLT, parseLine_M_eq_0, parseLine_0_JMP, parseLine_M_eq_minus_1, parseLine_A_eq_D_plus_A, parseLine_D_eq_D_minus_A, parseLine_D_eq_M_plus_1, parseLine_A_eq_D, parseLine_A_eq_D_minus_A, parseLine_D_JNE] at hr
    subst hr
    simp only [operandCount, declaredDelta, String.reduceEq, or_true, true_or, if_true] at hs0 ⊢
    obtain ⟨st1, hrun, hpc, hsp1⟩ := unary_then p h0 _ s hcode hsp (by omega) hs1
    refine ⟨_, st1, hrun, by rw [hpc]; rfl, ?_⟩
    rw [hsp1]; omega

end Hack
end VMTranslator
namespace VMTranslator
open CommandType
namespace Hack

/-- Stack-pointer effect of the code of a push placed anywhere in ROM. -/
theorem push_sp (p : Program) (seg : String) (i : Nat) (w : CodeWriter) (st : State) (s : Nat)
    (hseg : seg ∈ ["constant", "local", "argument", "this", "that", "temp", "pointer", "static"])
    (hi : i ≤ 32767)
    (hcode : CodeAt p.rom st.pc
      (romOf ((emitted (StackCommand.push seg i).write w).map parseLine)))
    (hsp : st.ram 0 = s) (hs0 : 0 < s) (hs1 : s < 32768) :
    ∃ n st1, runN p n st = some st1 ∧
      st1.pc = st.pc + (romOf ((emitted (StackCommand.push seg i).write w).map parseLine)).length ∧
      st1.ram 0 = s + 1 := by
  obtain ⟨a0, d0, pc0, ram⟩ := st
  simp only [] at hsp hcode ⊢
  have h0 : runN p 0 ⟨a0, d0, pc0, ram⟩ = some ⟨a0, d0, pc0, ram⟩ := rfl
  have hI := resolve_decimal p i (by omega)
  generalize hr : romOf ((emitted (StackCommand.push seg i).write w).map parseLine) = rom
    at hcode ⊢
  simp only [List.mem_cons, List.mem_singleton, List.not_mem_nil, or_false] at hseg
  rcases hseg with rfl | rfl | rfl | rfl | rfl | rfl | rfl | rfl
  · -- constant
    simp only [emitted, StackCommand.write, writeArithmetic, binaryOp, unaryOp, compareOp, getJumpCondition, writePushPop, push, pop, resolveSegmentAddress, segmentMap, CodeWriter.emit, parseLine_at, parseLine_at_append, parseLine_comment, List.map, List.drop_left, List.append_assoc, List.cons_append, List.nil_append, String.reduceAppend, String.reduceEq, if_true, if_false, mk_SP, mk_LCL, mk_ARG, mk_THIS, mk_THAT, mk_R13, romOf, or_false, or_true, false_or, reduceCtorEq, parseLine_label_true, parseLine_label_end, parseLine_D_eq_A, parseLine_A_eq_M, parseLine_M_eq_D, parseLine_M_eq_M_plus_1, parseLine_AM_eq_M_minus_1, parseLine_D_eq_M, parseLine_A_eq_A_minus_1, parseLine_M_eq_D_plus_M, parseLine_M_eq_M_minus_D, parseLine_M_eq_D_and_M, parseLine_M_eq_D_or_M, parseLine_A_eq_M_minus_1, parseLine_M_eq_minus_M, parseLine_M_eq_not_M, parseLine_D_eq_M_minus_D, parseLine_D_JEQ, parseLine_D_JGT, parseLine_D_JLT, parseLine_M_eq_0, parseLine_0_JMP, parseLine_M_eq_minus_1, parseLine_A_eq_D_plus_A, parseLine_D_eq_D_minus_A, parseLine_D_eq_M_plus_1, parseLine_A_eq_D, parseLine_A_eq_D_minus_A, parseLine_D_JNE] at hr
    subst hr
    obtain ⟨c1, c2⟩ := codeAt_split 2 hcode (by simp)
    simp only [List.take_succ_cons, List.take_zero, List.drop_succ_cons, List.drop_zero] at c1 c2
    obtain ⟨a1, d1, h1⟩ := runN_then_pure p h0 _ c1
      (by
        intro x hx
        simp only [List.mem_cons, List.mem_singleton, List.not_mem_nil, or_false] at hx
        rcases hx with rfl | rfl
        all_goals first
          | exact Or.inr ⟨_, _, rfl, rfl⟩
          | exact Or.inl ⟨_, _, rfl, hI⟩)
    have h2 := pushTail_then p h1 s c2 hsp hs0 hs1
    exact ⟨_, _, h2, rfl, by simp only [store_same]⟩
  · -- local
    simp only [emitted, StackCommand.write, writeArithmetic, binaryOp, unaryOp, compareOp, getJumpCondition, writePushPop, push, pop, resolveSegmentAddress, segmentMap, CodeWriter.emit, parseLine_at, parseLine_at_append, parseLine_comment, List.map, List.drop_left, List.append_assoc, List.cons_append, List.nil_append, String.reduceAppend, String.reduceEq, if_true, if_false, mk_SP, mk_LCL, mk_ARG, mk_THIS, mk_THAT, mk_R13, romOf, or_false, or_true, false_or, reduceCtorEq, parseLine_label_true, parseLine_label_end, parseLine_D_eq_A, parseLine_A_eq_M, parseLine_M_eq_D, parseLine_M_eq_M_plus_1, parseLine_AM_eq_M_minus_1, parseLine_D_eq_M, parseLine_A_eq_A_minus_1, parseLine_M_eq_D_plus_M, parseLine_M_eq_M_minus_D, parseLine_M_eq_D_and_M, parseLine_M_eq_D_or_M, parseLine_A_eq_M_minus_1, parseLine_M_eq_minus_M, parseLine_M_eq_not_M, parseLine_D_eq_M_minus_D, parseLine_D_JEQ, parseLine_D_JGT, parseLine_D_JLT, parseLine_M_eq_0, parseLine_0_JMP, parseLine_M_eq_minus_1, parseLine_A_eq_D_plus_A, parseLine_D_eq_D_minus_A, parseLine_D_eq_M_plus_1, parseLine_A_eq_D, parseLine_A_eq_D_minus_A, parseLine_D_JNE] at hr
    subst hr
    obtain ⟨c1, c2⟩ := codeAt_split 5 hcode (by simp)
    simp only [List.take_succ_cons, List.take_zero, List.drop_succ_cons, List.drop_zero] at c1 c2
    obtain ⟨a1, d1, h1⟩ := runN_then_pure p h0 _ c1
      (by
        intro x hx
        simp only [List.mem_cons, List.mem_singleton, List.not_mem_nil, or_false] at hx
        rcases hx with rfl | rfl | rfl | rfl | rfl
        all_goals first
          | exact Or.inr ⟨_, _, rfl, rfl⟩
          | exact Or.inl ⟨_, _, rfl, hI⟩
          | exact Or.inl ⟨_, _, rfl, resolve_LCL p⟩)
    have h2 := pushTail_then p h1 s c2 hsp hs0 hs1
    exact ⟨_, _, h2, rfl, by simp only [store_same]⟩
  · -- argument
    simp only [emitted, StackCommand.write, writeArithmetic, binaryOp, unaryOp, compareOp, getJumpCondition, writePushPop, push, pop, resolveSegmentAddress, segmentMap, CodeWriter.emit, parseLine_at, parseLine_at_append, parseLine_comment, List.map, List.drop_left, List.append_assoc, List.cons_append, List.nil_append, String.reduceAppend, String.reduceEq, if_true, if_false, mk_SP, mk_LCL, mk_ARG, mk_THIS, mk_THAT, mk_R13, romOf, or_false, or_true, false_or, reduceCtorEq, parseLine_label_true, parseLine_label_end, parseLine_D_eq_A, parseLine_A_eq_M, parseLine_M_eq_D, parseLine_M_eq_M_plus_1, parseLine_AM_eq_M_minus_1, parseLine_D_eq_M, parseLine_A_eq_A_minus_1, parseLine_M_eq_D_plus_M, parseLine_M_eq_M_minus_D, parseLine_M_eq_D_and_M, parseLine_M_eq_D_or_M, parseLine_A_eq_M_minus_1, parseLine_M_eq_minus_M, parseLine_M_eq_not_M, parseLine_D_eq_M_minus_D, parseLine_D_JEQ, parseLine_D_JGT, parseLine_D_JLT, parseLine_M_eq_0, parseLine_0_JMP, parseLine_M_eq_minus_1, parseLine_A_eq_D_plus_A, parseLine_D_eq_D_minus_A, parseLine_D_eq_M_plus_1, parseLine_A_eq_D, parseLine_A_eq_D_minus_A, parseLine_D_JNE] at hr
    subst hr
    obtain ⟨c1, c2⟩ := codeAt_split 5 hcode (by simp)
    simp only [List.take_succ_cons, List.take_zero, List.drop_succ_cons, List.drop_zero] at c1 c2
    obtain ⟨a1, d1, h1⟩ := runN_then_pure p h0 _ c1
      (by
        intro x hx
        simp only [List.mem_cons, List.mem_singleton, List.not_mem_nil, or_false] at hx
        rcases hx with rfl | rfl | rfl | rfl | rfl
        all_goals first
          | exact Or.inr ⟨_, _, rfl, rfl⟩
          | exact Or.inl ⟨_, _, rfl, hI⟩
          | exact Or.inl ⟨_, _, rfl, resolve_ARG p⟩)
    have h2 := pushTail_then p h1 s c2 hsp hs0 hs1
    exact ⟨_, _, h2, rfl, by simp only [store_same]⟩
  · -- this
    simp only [emitted, StackCommand.write, writeArithmetic, binaryOp, unaryOp, compareOp, getJumpCondition, writePushPop, push, pop, resolveSegmentAddress, segmentMap, CodeWriter.emit, parseLine_at, parseLine_at_append, parseLine_comment, List.map, List.drop_left, List.append_assoc, List.cons_append, List.nil_append, String.reduceAppend, String.reduceEq, if_true, if_false, mk_SP, mk_LCL, mk_ARG, mk_THIS, mk_THAT, mk_R13, romOf, or_false, or_true, false_or, reduceCtorEq, parseLine_label_true, parseLine_label_end, parseLine_D_eq_A, parseLine_A_eq_M, parseLine_M_eq_D, parseLine_M_eq_M_plus_1, parseLine_AM_eq_M_minus_1, parseLine_D_eq_M, parseLine_A_eq_A_minus_1, parseLine_M_eq_D_plus_M, parseLine_M_eq_M_minus_D, parseLine_M_eq_D_and_M, parseLine_M_eq_D_or_M, parseLine_A_eq_M_minus_1, parseLine_M_eq_minus_M, parseLine_M_eq_not_M, parseLine_D_eq_M_minus_D, parseLine_D_JEQ, parseLine_D_JGT, parseLine_D_JLT, parseLine_M_eq_0, parseLine_0_JMP, parseLine_M_eq_minus_1, parseLine_A_eq_D_plus_A, parseLine_D_eq_D_minus_A, parseLine_D_eq_M_plus_1, parseLine_A_eq_D, parseLine_A_eq_D_minus_A, parseLine_D_JNE] at hr
    subst hr
    obtain ⟨c1, c2⟩ := codeAt_split 5 hcode (by simp)
    simp only [List.take_succ_cons, List.take_zero, List.drop_succ_cons, List.drop_zero] at c1 c2
    obtain ⟨a1, d1, h1⟩ := runN_then_pure p h0 _ c1
      (by
        intro x hx
        simp only [List.mem_cons, List.mem_singleton, List.not_mem_nil, or_false] at hx
        rcases hx with rfl | rfl | rfl | rfl | rfl
        all_goals first
          | exact Or.inr ⟨_, _, rfl, rfl⟩
          | exact Or.inl ⟨_, _, rfl, hI⟩
          | exact Or.inl ⟨_, _, rfl, resolve_THIS p⟩)
    have h2 := pushTail_then p h1 s c2 hsp hs0 hs1
    exact ⟨_, _, h2, rfl, by simp only [store_same]⟩
  · -- that
    simp only [emitted, StackCommand.write, writeArithmetic, binaryOp, unaryOp, compareOp, getJumpCondition, writePushPop, push, pop, resolveSegmentAddress, segmentMap, CodeWriter.emit, parseLine_at, parseLine_at_append, parseLine_comment, List.map, List.drop_left, List.append_assoc, List.cons_append, List.nil_append, String.reduceAppend, String.reduceEq, if_true, if_false, mk_SP, mk_LCL, mk_ARG, mk_THIS, mk_THAT, mk_R13, romOf, or_false, or_true, false_or, reduceCtorEq, parseLine_label_true, parseLine_label_end, parseLine_D_eq_A, parseLine_A_eq_M, parseLine_M_eq_D, parseLine_M_eq_M_plus_1, parseLine_AM_eq_M_minus_1, parseLine_D_eq_M, parseLine_A_eq_A_minus_1, parseLine_M_eq_D_plus_M, parseLine_M_eq_M_minus_D, parseLine_M_eq_D_and_M, parseLine_M_eq_D_or_M, parseLine_A_eq_M_minus_1, parseLine_M_eq_minus_M, parseLine_M_eq_not_M, parseLine_D_eq_M_minus_D, parseLine_D_JEQ, parseLine_D_JGT, parseLine_D_JLT, parseLine_M_eq_0, parseLine_0_JMP, parseLine_M_eq_minus_1, parseLine_A_eq_D_plus_A, parseLine_D_eq_D_minus_A, parseLine_D_eq_M_plus_1, parseLine_A_eq_D, parseLine_A_eq_D_minus_A, parseLine_D_JNE] at hr
    subst hr
    obtain ⟨c1, c2⟩ := codeAt_split 5 hcode (by simp)
    simp only [List.take_succ_cons, List.take_zero, List.drop_succ_cons, List.drop_zero] at c1 c2
    obtain ⟨a1, d1, h1⟩ := runN_then_pure p h0 _ c1
      (by
        intro x hx
        simp only [List.mem_cons, List.mem_singleton, List.not_mem_nil, or_false] at hx
        rcases hx with rfl | rfl | rfl | rfl | rfl
        all_goals first
          | exact Or.inr ⟨_, _, rfl, rfl⟩
          | exact Or.inl ⟨_, _, rfl, hI⟩
          | exact Or.inl ⟨_, _, rfl, resolve_THAT p⟩)
    have h2 := pushTail_then p h1 s c2 hsp hs0 hs1
    exact ⟨_, _, h2, rfl, by simp only [store_same]⟩
  · -- temp
    simp only [emitted, StackCommand.write, writeArithmetic, binaryOp, unaryOp, compareOp, getJumpCondition, writePushPop, push, pop, resolveSegmentAddress, segmentMap, CodeWriter.emit, parseLine_at, parseLine_at_append, parseLine_comment, List.map, List.drop_left, List.append_assoc, List.cons_append, List.nil_append, String.reduceAppend, String.reduceEq, if_true, if_false, mk_SP, mk_LCL, mk_ARG, mk_THIS, mk_THAT, mk_R13, romOf, or_false, or_true, false_or, reduceCtorEq, parseLine_label_true, parseLine_label_end, parseLine_D_eq_A, parseLine_A_eq_M, parseLine_M_eq_D, parseLine_M_eq_M_plus_1, parseLine_AM_eq_M_minus_1, parseLine_D_eq_M, parseLine_A_eq_A_minus_1, parseLine_M_eq_D_plus_M, parseLine_M_eq_M_minus_D, parseLine_M_eq_D_and_M, parseLine_M_eq_D_or_M, parseLine_A_eq_M_minus_1, parseLine_M_eq_minus_M, parseLine_M_eq_not_M, parseLine_D_eq_M_minus_D, parseLine_D_JEQ, parseLine_D_JGT, parseLine_D_JLT, parseLine_M_eq_0, parseLine_0_JMP, parseLine_M_eq_minus_1, parseLine_A_eq_D_plus_A, parseLine_D_eq_D_minus_A, parseLine_D_eq_M_plus_1, parseLine_A_eq_D, parseLine_A_eq_D_minus_A, parseLine_D_JNE] at hr
    subst hr
    obtain ⟨c1, c2⟩ := codeAt_split 5 hcode (by simp)
    simp only [List.take_succ_cons, List.take_zero, List.drop_succ_cons, List.drop_zero] at c1 c2
    obtain ⟨a1, d1, h1⟩ := runN_then_pure p h0 _ c1
      (by
        intro x hx
        simp only [List.mem_cons, List.mem_singleton, List.not_mem_nil, or_false] at hx
        rcases hx with rfl | rfl | rfl | rfl | rfl
        all_goals first
          | exact Or.inr ⟨_, _, rfl, rfl⟩
          | exact Or.inl ⟨_, _, rfl, hI⟩
          | exact Or.inl ⟨_, _, rfl, resolve_5 p⟩)
    have h2 := pushTail_then p h1 s c2 hsp hs0 hs1
    exact ⟨_, _, h2, rfl, by simp only [store_same]⟩
  · -- pointer
    have hS : p.resolve (if (i : Int) = 0 then "THIS" else "THAT") =
        some (if (i : Int) = 0 then 3 else 4) := by split_ifs <;> rfl
    simp only [emitted, StackCommand.write, writeArithmetic, binaryOp, unaryOp, compareOp, getJumpCondition, writePushPop, push, pop, resolveSegmentAddress, segmentMap, CodeWriter.emit, parseLine_at, parseLine_at_append, parseLine_comment, List.map, List.drop_left, List.append_assoc, List.cons_append, List.nil_append, String.reduceAppend, String.reduceEq, if_true, if_false, mk_SP, mk_LCL, mk_ARG, mk_THIS, mk_THAT, mk_R13, romOf, or_false, or_true, false_or, reduceCtorEq, parseLine_label_true, parseLine_label_end, parseLine_D_eq_A, parseLine_A_eq_M, parseLine_M_eq_D, parseLine_M_eq_M_plus_1, parseLine_AM_eq_M_minus_1, parseLine_D_eq_M, parseLine_A_eq_A_minus_1, parseLine_M_eq_D_plus_M, parseLine_M_eq_M_minus_D, parseLine_M_eq_D_and_M, parseLine_M_eq_D_or_M, parseLine_A_eq_M_minus_1, parseLine_M_eq_minus_M, parseLine_M_eq_not_M, parseLine_D_eq_M_minus_D, parseLine_D_JEQ, parseLine_D_JGT, parseLine_D_JLT, parseLine_M_eq_0, parseLine_0_JMP, parseLine_M_eq_minus_1, parseLine_A_eq_D_plus_A, parseLine_D_eq_D_minus_A, parseLine_D_eq_M_plus_1, parseLine_A_eq_D, parseLine_A_eq_D_minus_A, parseLine_D_JNE] at hr
    subst hr
    obtain ⟨c1, c2⟩ := codeAt_split 2 hcode (by simp)
    simp only [List.take_succ_cons, List.take_zero, List.drop_succ_cons, List.drop_zero] at c1 c2
    obtain ⟨a1, d1, h1⟩ := runN_then_pure p h0 _ c1
      (by
        intro x hx
        simp only [List.mem_cons, List.mem_singleton, List.not_mem_nil, or_false] at hx
        rcases hx with rfl | rfl
        all_goals first
          | exact Or.inr ⟨_, _, rfl, rfl⟩
          | exact Or.inl ⟨_, _, rfl, hS⟩)
    have h2 := pushTail_then p h1 s c2 hsp hs0 hs1
    exact ⟨_, _, h2, rfl, by simp only [store_same]⟩
  · -- static
    obtain ⟨v, hS⟩ := resolve_some p (w.filename ++ ("." ++ decimal (i : Int)))
      (isNumeral_false _ '.' (by simp) (by decide))
    simp only [String.append_assoc, emitted, StackCommand.write, writeArithmetic, binaryOp, unaryOp, compareOp, getJumpCondition, writePushPop, push, pop, resolveSegmentAddress, segmentMap, CodeWriter.emit, parseLine_at, parseLine_at_append, parseLine_comment, List.map, List.drop_left, List.append_assoc, List.cons_append, List.nil_append, String.reduceAppend, String.reduceEq, if_true, if_false, mk_SP, mk_LCL, mk_ARG, mk_THIS, mk_THAT, mk_R13, romOf, or_false, or_true, false_or, reduceCtorEq, parseLine_label_true, parseLine_label_end, parseLine_D_eq_A, parseLine_A_eq_M, parseLine_M_eq_D, parseLine_M_eq_M_plus_1, parseLine_AM_eq_M_minus_1, parseLine_D_eq_M, parseLine_A_eq_A_minus_1, parseLine_M_eq_D_plus_M, parseLine_M_eq_M_minus_D, parseLine_M_eq_D_and_M, parseLine_M_eq_D_or_M, parseLine_A_eq_M_minus_1, parseLine_M_eq_minus_M, parseLine_M_eq_not_M, parseLine_D_eq_M_minus_D, parseLine_D_JEQ, parseLine_D_JGT, parseLine_D_JLT, parseLine_M_eq_0, parseLine_0_JMP, parseLine_M_eq_minus_1, parseLine_A_eq_D_plus_A, parseLine_D_eq_D_minus_A, parseLine_D_eq_M_plus_1, parseLine_A_eq_D, parseLine_A_eq_D_minus_A, parseLine_D_JNE] at hr
    subst hr
    obtain ⟨c1, c2⟩ := codeAt_split 2 hcode (by simp)
    simp only [List.take_succ_cons, List.take_zero, List.drop_succ_cons, List.drop_zero] at c1 c2
    obtain ⟨a1, d1, h1⟩ := runN_then_pure p h0 _ c1
      (by
        intro x hx
        simp only [List.mem_cons, List.mem_singleton, List.not_mem_nil, or_false] at hx
        rcases hx with rfl | rfl
        all_goals first
          | exact Or.inr ⟨_, _, rfl, rfl⟩
          | exact Or.inl ⟨_, _, rfl, hS⟩)
    have h2 := pushTail_then p h1 s c2 hsp hs0 hs1
    exact ⟨_, _, h2, rfl, by simp only [store_same]⟩

/-- Stack-pointer effect of the code of a pop placed anywhere in ROM: the stack pointer goes down
by one unless the cell the pop stores into is the cell of `SP` itself. -/
theorem pop_sp (p : Program) (seg : String) (i : Nat) (w : CodeWriter) (st : State) (s : Nat)
    (hseg : seg ∈ ["local", "argument", "this", "that", "temp", "pointer", "static"])
    (hi : i ≤ 32767)
    (hcode : CodeAt p.rom st.pc
      (romOf ((emitted (StackCommand.pop seg i).write w).map parseLine)))
    (hsp : st.ram 0 = s) (hs0 : 0 < s) (hpop : popAddress p w st.ram seg i ≠ 0) :
    ∃ n st1, runN p n st = some st1 ∧
      st1.pc = st.pc + (romOf ((emitted (StackCommand.pop seg i).write w).map parseLine)).length ∧
      st1.ram 0 = s - 1 := by
  obtain ⟨a0, d0, pc0, ram⟩ := st
  simp only [] at hsp hcode hpop ⊢
  have h0 : runN p 0 ⟨a0, d0, pc0, ram⟩ = some ⟨a0, d0, pc0, ram⟩ := rfl
  have hI := resolve_decimal p i (by omega)
  generalize hr : romOf ((emitted (StackCommand.pop seg i).write w).map parseLine) = rom
    at hcode ⊢
  simp only [List.mem_cons, List.mem_singleton, List.not_mem_nil, or_false] at hseg
  rcases hseg with rfl | rfl | rfl | rfl | rfl | rfl | rfl
  · -- local
    simp only [emitted, StackCommand.write, writeArithmetic, binaryOp, unaryOp, compareOp, getJumpCondition, writePushPop, push, pop, resolveSegmentAddress, segmentMap, CodeWriter.emit, parseLine_at, parseLine_at_append, parseLine_comment, List.map, List.drop_left, List.append_assoc, List.cons_append, List.nil_append, String.reduceAppend, String.reduceEq, if_true, if_false, mk_SP, mk_LCL, mk_ARG, mk_THIS, mk_THAT, mk_R13, romOf, or_false, or_true, false_or, reduceCtorEq, parseLine_label_true, parseLine_label_end, parseLine_D_eq_A, parseLine_A_eq_M, parseLine_M_eq_D, parseLine_M_eq_M_plus_1, parseLine_AM_eq_M_minus_1, parseLine_D_eq_M, parseLine_A_eq_A_minus_1, parseLine_M_eq_D_plus_M, parseLine_M_eq_M_minus_D, parseLine_M_eq_D_and_M, parseLine_M_eq_D_or_M, parseLine_A_eq_M_minus_1, parseLine_M_eq_minus_M, parseLine_M_eq_not_M, parseLine_D_eq_M_minus_D, parseLine_D_JEQ, parseLine_D_JGT, parseLine_D_JLT, parseLine_M_eq_0, parseLine_0_JMP, parseLine_M_eq_minus_1, parseLine_A_eq_D_plus_A, parseLine_D_eq_D_minus_A, parseLine_D_eq_M_plus_1, parseLine_A_eq_D, parseLine_A_eq_D_minus_A, parseLine_D_JNE] at hr
    subst hr
    simp only [popAddress, segmentTableAddress, String.reduceEq, if_true, if_false,
      Int.toNat_ofNat] at hpop
    obtain ⟨st1, hrun, hpc, hsp1⟩ := popIndirect_then p h0 "LCL" _ 1 i s (resolve_LCL p)
      (by decide) hI hcode hsp hs0 hpop
    exact ⟨_, st1, hrun, by rw [hpc]; rfl, hsp1⟩
  · -- argument
    simp only [emitted, StackCommand.write, writeArithmetic, binaryOp, unaryOp, compareOp, getJumpCondition, writePushPop, push, pop, resolveSegmentAddress, segmentMap, CodeWriter.emit, parseLine_at, parseLine_at_append, parseLine_comment, List.map, List.drop_left, List.append_assoc, List.cons_append, List.nil_append, String.reduceAppend, String.reduceEq, if_true, if_false, mk_SP, mk_LCL, mk_ARG, mk_THIS, mk_THAT, mk_R13, romOf, or_false, or_true, false_or, reduceCtorEq, parseLine_label_true, parseLine_label_end, parseLine_D_eq_A, parseLine_A_eq_M, parseLine_M_eq_D, parseLine_M_eq_M_plus_1, parseLine_AM_eq_M_minus_1, parseLine_D_eq_M, parseLine_A_eq_A_minus_1, parseLine_M_eq_D_plus_M, parseLine_M_eq_M_minus_D, parseLine_M_eq_D_and_M, parseLine_M_eq_D_or_M, parseLine_A_eq_M_minus_1, parseLine_M_eq_minus_M, parseLine_M_eq_not_M, parseLine_D_eq_M_minus_D, parseLine_D_JEQ, parseLine_D_JGT, parseLine_D_JLT, parseLine_M_eq_0, parseLine_0_JMP, parseLine_M_eq_minus_1, parseLine_A_eq_D_plus_A, parseLine_D_eq_D_minus_A, parseLine_D_eq_M_plus_1, parseLine_A_eq_D, parseLine_A_eq_D_minus_A, parseLine_D_JNE] at hr
    subst hr
    simp only [popAddress, segmentTableAddress, String.reduceEq, if_true, if_false,
      Int.toNat_ofNat] at hpop
    obtain ⟨st1, hrun, hpc, hsp1⟩ := popIndirect_then p h0 "ARG" _ 2 i s (resolve_ARG p)
      (by decide) hI hcode hsp hs0 hpop
    exact ⟨_, st1, hrun, by rw [hpc]; rfl, hsp1⟩
  · -- this
    simp only [emitted, StackCommand.write, writeArithmetic, binaryOp, unaryOp, compareOp, getJumpCondition, writePushPop, push, pop, resolveSegmentAddress, segmentMap, CodeWriter.emit, parseLine_at, parseLine_at_append, parseLine_comment, List.map, List.drop_left, List.append_assoc, List.cons_append, List.nil_append, String.reduceAppend, String.reduceEq, if_true, if_false, mk_SP, mk_LCL, mk_ARG, mk_THIS, mk_THAT, mk_R13, romOf, or_false, or_true, false_or, reduceCtorEq, parseLine_label_true, parseLine_label_end, parseLine_D_eq_A, parseLine_A_eq_M, parseLine_M_eq_D, parseLine_M_eq_M_plus_1, parseLine_AM_eq_M_minus_1, parseLine_D_eq_M, parseLine_A_eq_A_minus_1, parseLine_M_eq_D_plus_M, parseLine_M_eq_M_minus_D, parseLine_M_eq_D_and_M, parseLine_M_eq_D_or_M, parseLine_A_eq_M_minus_1, parseLine_M_eq_minus_M, parseLine_M_eq_not_M, parseLine_D_eq_M_minus_D, parseLine_D_JEQ, parseLine_D_JGT, parseLine_D_JLT, parseLine_M_eq_0, parseLine_0_JMP, parseLine_M_eq_minus_1, parseLine_A_eq_D_plus_A, parseLine_D_eq_D_minus_A, parseLine_D_eq_M_plus_1, parseLine_A_eq_D, parseLine_A_eq_D_minus_A, parseLine_D_JNE] at hr
    subst hr
    simp only [popAddress, segmentTableAddress, String.reduceEq, if_true, if_false,
      Int.toNat_ofNat] at hpop
    obtain ⟨st1, hrun, hpc, hsp1⟩ := popIndirect_then p h0 "THIS" _ 3 i s (resolve_THIS p)
      (by decide) hI hcode hsp hs0 hpop
    exact ⟨_, st1, hrun, by rw [hpc]; rfl, hsp1⟩
  · -- that
    simp only [emitted, StackCommand.write, writeArithmetic, binaryOp, unaryOp, compareOp, getJumpCondition, writePushPop, push, pop, resolveSegmentAddress, segmentMap, CodeWriter.emit, parseLine_at, parseLine_at_append, parseLine_comment, List.map, List.drop_left, List.append_assoc, List.cons_append, List.nil_append, String.reduceAppend, String.reduceEq, if_true, if_false, mk_SP, mk_LCL, mk_ARG, mk_THIS, mk_THAT, mk_R13, romOf, or_false, or_true, false_or, reduceCtorEq, parseLine_label_true, parseLine_label_end, parseLine_D_eq_A, parseLine_A_eq_M, parseLine_M_eq_D, parseLine_M_eq_M_plus_1, parseLine_AM_eq_M_minus_1, parseLine_D_eq_M, parseLine_A_eq_A_minus_1, parseLine_M_eq_D_plus_M, parseLine_M_eq_M_minus_D, parseLine_M_eq_D_and_M, parseLine_M_eq_D_or_M, parseLine_A_eq_M_minus_1, parseLine_M_eq_minus_M, parseLine_M_eq_not_M, parseLine_D_eq_M_minus_D, parseLine_D_JEQ, parseLine_D_JGT, parseLine_D_JLT, parseLine_M_eq_0, parseLine_0_JMP, parseLine_M_eq_minus_1, parseLine_A_eq_D_plus_A, parseLine_D_eq_D_minus_A, parseLine_D_eq_M_plus_1, parseLine_A_eq_D, parseLine_A_eq_D_minus_A, parseLine_D_JNE] at hr
    subst hr
    simp only [popAddress, segmentTableAddress, String.reduceEq, if_true, if_false,
      Int.toNat_ofNat] at hpop
    obtain ⟨st1, hrun, hpc, hsp1⟩ := popIndirect_then p h0 "THAT" _ 4 i s (resolve_THAT p)
      (by decide) hI hcode hsp hs0 hpop
    exact ⟨_, st1, hrun, by rw [hpc]; rfl, hsp1⟩
  · -- temp
    simp only [emitted, StackCommand.write, writeArithmetic, binaryOp, unaryOp, compareOp, getJumpCondition, writePushPop, push, pop, resolveSegmentAddress, segmentMap, CodeWriter.emit, parseLine_at, parseLine_at_append, parseLine_comment, List.map, List.drop_left, List.append_assoc, List.cons_append, List.nil_append, String.reduceAppend, String.reduceEq, if_true, if_false, mk_SP, mk_LCL, mk_ARG, mk_THIS, mk_THAT, mk_R13, romOf, or_false, or_true, false_or, reduceCtorEq, parseLine_label_true, parseLine_label_end, parseLine_D_eq_A, parseLine_A_eq_M, parseLine_M_eq_D, parseLine_M_eq_M_plus_1, parseLine_AM_eq_M_minus_1, parseLine_D_eq_M, parseLine_A_eq_A_minus_1, parseLine_M_eq_D_plus_M, parseLine_M_eq_M_minus_D, parseLine_M_eq_D_and_M, parseLine_M_eq_D_or_M, parseLine_A_eq_M_minus_1, parseLine_M_eq_minus_M, parseLine_M_eq_not_M, parseLine_D_eq_M_minus_D, parseLine_D_JEQ, parseLine_D_JGT, parseLine_D_JLT, parseLine_M_eq_0, parseLine_0_JMP, parseLine_M_eq_minus_1, parseLine_A_eq_D_plus_A, parseLine_D_eq_D_minus_A, parseLine_D_eq_M_plus_1, parseLine_A_eq_D, parseLine_A_eq_D_minus_A, parseLine_D_JNE] at hr
    subst hr
    simp only [popAddress, segmentTableAddress, String.reduceEq, if_true, if_false,
      Int.toNat_ofNat] at hpop
    obtain ⟨st1, hrun, hpc, hsp1⟩ := popFixed_then p h0 "5" _ 5 i s (resolve_5 p)
      hI hcode hsp hs0 hpop
    exact ⟨_, st1, hrun, by rw [hpc]; rfl, hsp1⟩
  · -- pointer
    by_cases hz : (i : Int) = 0
    · simp only [hz, emitted, StackCommand.write, writeArithmetic, binaryOp, unaryOp, compareOp, getJumpCondition, writePushPop, push, pop, resolveSegmentAddress, segmentMap, CodeWriter.emit, parseLine_at, parseLine_at_append, parseLine_comment, List.map, List.drop_left, List.append_assoc, List.cons_append, List.nil_append, String.reduceAppend, String.reduceEq, if_true, if_false, mk_SP, mk_LCL, mk_ARG, mk_THIS, mk_THAT, mk_R13, romOf, or_false, or_true, false_or, reduceCtorEq, parseLine_label_true, parseLine_label_end, parseLine_D_eq_A, parseLine_A_eq_M, parseLine_M_eq_D, parseLine_M_eq_M_plus_1, parseLine_AM_eq_M_minus_1, parseLine_D_eq_M, parseLine_A_eq_A_minus_1, parseLine_M_eq_D_plus_M, parseLine_M_eq_M_minus_D, parseLine_M_eq_D_and_M, parseLine_M_eq_D_or_M, parseLine_A_eq_M_minus_1, parseLine_M_eq_minus_M, parseLine_M_eq_not_M, parseLine_D_eq_M_minus_D, parseLine_D_JEQ, parseLine_D_JGT, parseLine_D_JLT, parseLine_M_eq_0, parseLine_0_JMP, parseLine_M_eq_minus_1, parseLine_A_eq_D_plus_A, parseLine_D_eq_D_minus_A, parseLine_D_eq_M_plus_1, parseLine_A_eq_D, parseLine_A_eq_D_minus_A, parseLine_D_JNE] at hr
      subst hr
      obtain ⟨st1, hrun, hpc, hsp1⟩ := popDirect_then p h0 "THIS" 3 s (resolve_THIS p)
        (by decide) hcode hsp hs0
      exact ⟨_, st1, hrun, by rw [hpc]; rfl, hsp1⟩
    · simp only [hz, emitted, StackCommand.write, writeArithmetic, binaryOp, unaryOp, compareOp, getJumpCondition, writePushPop, push, pop, resolveSegmentAddress, segmentMap, CodeWriter.emit, parseLine_at, parseLine_at_append, parseLine_comment, List.map, List.drop_left, List.append_assoc, List.cons_append, List.nil_append, String.reduceAppend, String.reduceEq, if_true, if_false, mk_SP, mk_LCL, mk_ARG, mk_THIS, mk_THAT, mk_R13, romOf, or_false, or_true, false_or, reduceCtorEq, parseLine_label_true, parseLine_label_end, parseLine_D_eq_A, parseLine_A_eq_M, parseLine_M_eq_D, parseLine_M_eq_M_plus_1, parseLine_AM_eq_M_minus_1, parseLine_D_eq_M, parseLine_A_eq_A_minus_1, parseLine_M_eq_D_plus_M, parseLine_M_eq_M_minus_D, parseLine_M_eq_D_and_M, parseLine_M_eq_D_or_M, parseLine_A_eq_M_minus_1, parseLine_M_eq_minus_M, parseLine_M_eq_not_M, parseLine_D_eq_M_minus_D, parseLine_D_JEQ, parseLine_D_JGT, parseLine_D_JLT, parseLine_M_eq_0, parseLine_0_JMP, parseLine_M_eq_minus_1, parseLine_A_eq_D_plus_A, parseLine_D_eq_D_minus_A, parseLine_D_eq_M_plus_1, parseLine_A_eq_D, parseLine_A_eq_D_minus_A, parseLine_D_JNE] at hr
      subst hr
      obtain ⟨st1, hrun, hpc, hsp1⟩ := popDirect_then p h0 "THAT" 4 s (resolve_THAT p)
        (by decide) hcode hsp hs0
      exact ⟨_, st1, hrun, by rw [hpc]; rfl, hsp1⟩
  · -- static
    simp only [String.append_assoc, emitted, StackCommand.write, writeArithmetic, binaryOp, unaryOp, compareOp, getJumpCondition, writePushPop, push, pop, resolveSegmentAddress, segmentMap, CodeWriter.emit, parseLine_at, parseLine_at_append, parseLine_comment, List.map, List.drop_left, List.append_assoc, List.cons_append, List.nil_append, String.reduceAppend, String.reduceEq, if_true, if_false, mk_SP, mk_LCL, mk_ARG, mk_THIS, mk_THAT, mk_R13, romOf, or_false, or_true, false_or, reduceCtorEq, parseLine_label_true, parseLine_label_end, parseLine_D_eq_A, parseLine_A_eq_M, parseLine_M_eq_D, parseLine_M_eq_M_plus_1, parseLine_AM_eq_M_minus_1, parseLine_D_eq_M, parseLine_A_eq_A_minus_1, parseLine_M_eq_D_plus_M, parseLine_M_eq_M_minus_D, parseLine_M_eq_D_and_M, parseLine_M_eq_D_or_M, parseLine_A_eq_M_minus_1, parseLine_M_eq_minus_M, parseLine_M_eq_not_M, parseLine_D_eq_M_minus_D, parseLine_D_JEQ, parseLine_D_JGT, parseLine_D_JLT, parseLine_M_eq_0, parseLine_0_JMP, parseLine_M_eq_minus_1, parseLine_A_eq_D_plus_A, parseLine_D_eq_D_minus_A, parseLine_D_eq_M_plus_1, parseLine_A_eq_D, parseLine_A_eq_D_minus_A, parseLine_D_JNE] at hr
    subst hr
    simp only [popAddress, if_true, String.append_assoc] at hpop
    cases hres : p.resolve (w.filename ++ ("." ++ decimal (i : Int))) with
    | none => rw [hres] at hpop; exact absurd rfl hpop
    | some v =>
      rw [hres] at hpop
      obtain ⟨st1, hrun, hpc, hsp1⟩ := popDirect_then p h0 _ v s hres hpop hcode hsp hs0
      exact ⟨_, st1, hrun, by rw [hpc]; rfl, hsp1⟩

end Hack
end VMTranslator
namespace VMTranslator
open CommandType
namespace Hack

theorem labelTable_fst (ls : List Line) : ∀ pc : Nat,
    (labelTable ls pc).map Prod.fst = (labelTable ls 0).map Prod.fst := by
  induction ls with
  | nil => intro pc; rfl
  | cons l ls ih =>
    intro pc
    cases l with
    | comment => simp only [labelTable]; exact ih pc
    | label n => simp only [labelTable, List.map_cons]; rw [ih pc]
    | instr i => simp only [labelTable]; rw [ih (pc + 1), ih (0 + 1)]

theorem lookup_append_none {l1 l2 : List (String × Nat)} {k : String}
    (h : l1.lookup k = none) : (l1 ++ l2).lookup k = l2.lookup k := by
  induction l1 with
  | nil => rfl
  | cons kv l1 ih =>
    obtain ⟨k1, v1⟩ := kv
    simp only [List.cons_append, List.lookup] at h ⊢
    cases hb : k == k1 with
    | true => rw [hb] at h; exact absurd h (by simp)
    | false => rw [hb] at h; exact ih h

end Hack

theorem labelDefs_append (a b : List String) : labelDefs (a ++ b) = labelDefs a ++ labelDefs b := by
  simp only [labelDefs, List.map_append, Hack.labelTable_append]
  rw [Hack.labelTable_fst _ (0 + _)]

namespace Hack

/-- The labels defined in the code of a stack instruction: none, except the two labels of a
comparison, which advances the label counter. -/
theorem stack_labels (c : StackCommand) (w : CodeWriter) (pc : Nat)
    (hwf : c.wellFormed = true) :
    (labelTable ((emitted c.write w).map parseLine) pc = [] ∧
      (c.write w).labelCounter = w.labelCounter ∧
      ¬ ∃ cmd, c = StackCommand.arithmetic cmd ∧ (cmd = "eq" ∨ cmd = "gt" ∨ cmd = "lt")) ∨
    (labelTable ((emitted c.write w).map parseLine) pc =
        [("COMP_" ++ decimal w.labelCounter ++ "_TRUE", pc + 12),
          ("COMP_" ++ decimal w.labelCounter ++ "_END", pc + 15)] ∧
      (c.write w).labelCounter = w.labelCounter + 1) := by
  cases c with
  | arithmetic cmd =>
    simp only [StackCommand.wellFormed, decide_eq_true_eq, List.mem_cons, List.mem_singleton,
      List.not_mem_nil, or_false] at hwf
    rcases hwf with rfl | rfl | rfl | rfl | rfl | rfl | rfl | rfl | rfl
    · -- add
      refine Or.inl ⟨?_, rfl, ?_⟩
      · simp only [emitted, StackCommand.write, writeArithmetic, binaryOp, unaryOp, compareOp, getJumpCondition, CodeWriter.emit, List.drop_left, List.append_assoc, List.cons_append, List.nil_append, String.reduceAppend, String.reduceEq, if_true, if_false, or_false, or_true, false_or, reduceCtorEq, List.map_cons, List.map_nil, parseLine_at, parseLine_at_append, parseLine_comment, parseLine_label_true, parseLine_label_end, parseLine_D_eq_A, parseLine_A_eq_M, parseLine_M_eq_D, parseLine_M_eq_M_plus_1, parseLine_AM_eq_M_minus_1, parseLine_D_eq_M, parseLine_A_eq_A_minus_1, parseLine_M_eq_D_plus_M, parseLine_M_eq_M_minus_D, parseLine_M_eq_D_and_M, parseLine_M_eq_D_or_M, parseLine_A_eq_M_minus_1, parseLine_M_eq_minus_M, parseLine_M_eq_not_M, parseLine_D_eq_M_minus_D, parseLine_D_JEQ, parseLine_D_JGT, parseLine_D_JLT, parseLine_M_eq_0, parseLine_0_JMP, parseLine_M_eq_minus_1, parseLine_A_eq_D_plus_A, parseLine_D_eq_D_minus_A, parseLine_D_eq_M_plus_1, parseLine_A_eq_D, parseLine_A_eq_D_minus_A, parseLine_D_JNE]
        simp only [labelTable]
      · rintro ⟨cmd, h, h1⟩
        injection h with h
        subst h
        simp at h1
    · -- sub
      refine Or.inl ⟨?_, rfl, ?_⟩
      · simp only [emitted, StackCommand.write, writeArithmetic, binaryOp, unaryOp, compareOp, getJumpCondition, CodeWriter.emit, List.drop_left, List.append_assoc, List.cons_append, List.nil_append, String.reduceAppend, String.reduceEq, if_true, if_false, or_false, or_true, false_or, reduceCtorEq, List.map_cons, List.map_nil, parseLine_at, parseLine_at_append, parseLine_comment, parseLine_label_true, parseLine_label_end, parseLine_D_eq_A, parseLine_A_eq_M, parseLine_M_eq_D, parseLine_M_eq_M_plus_1, parseLine_AM_eq_M_minus_1, parseLine_D_eq_M, parseLine_A_eq_A_minus_1, parseLine_M_eq_D_plus_M, parseLine_M_eq_M_minus_D, parseLine_M_eq_D_and_M, parseLine_M_eq_D_or_M, parseLine_A_eq_M_minus_1, parseLine_M_eq_minus_M, parseLine_M_eq_not_M, parseLine_D_eq_M_minus_D, parseLine_D_JEQ, parseLine_D_JGT, parseLine_D_JLT, parseLine_M_eq_0, parseLine_0_JMP, parseLine_M_eq_minus_1, parseLine_A_eq_D_plus_A, parseLine_D_eq_D_minus_A, parseLine_D_eq_M_plus_1, parseLine_A_eq_D, parseLine_A_eq_D_minus_A, parseLine_D_JNE]
        simp only [labelTable]
      · rintro ⟨cmd, h, h1⟩
        injection h with h
        subst h
        simp at h1
    · -- neg
      refine Or.inl ⟨?_, rfl, ?_⟩
      · simp only [emitted, StackCommand.write, writeArithmetic, binaryOp, unaryOp, compareOp, getJumpCondition, CodeWriter.emit, List.drop_left, List.append_assoc, List.cons_append, List.nil_append, String.reduceAppend, String.reduceEq, if_true, if_false, or_false, or_true, false_or, reduceCtorEq, List.map_cons, List.map_nil, parseLine_at, parseLine_at_append, parseLine_comment, parseLine_label_true, parseLine_label_end, parseLine_D_eq_A, parseLine_A_eq_M, parseLine_M_eq_D, parseLine_M_eq_M_plus_1, parseLine_AM_eq_M_minus_1, parseLine_D_eq_M, parseLine_A_eq_A_minus_1, parseLine_M_eq_D_plus_M, parseLine_M_eq_M_minus_D, parseLine_M_eq_D_and_M, parseLine_M_eq_D_or_M, parseLine_A_eq_M_minus_1, parseLine_M_eq_minus_M, parseLine_M_eq_not_M, parseLine_D_eq_M_minus_D, parseLine_D_JEQ, parseLine_D_JGT, parseLine_D_JLT, parseLine_M_eq_0, parseLine_0_JMP, parseLine_M_eq_minus_1, parseLine_A_eq_D_plus_A, parseLine_D_eq_D_minus_A, parseLine_D_eq_M_plus_1, parseLine_A_eq_D, parseLine_A_eq_D_minus_A, parseLine_D_JNE]
        simp only [labelTable]
      · rintro ⟨cmd, h, h1⟩
        injection h with h
        subst h
        simp at h1
    · -- eq
      refine Or.inr ⟨?_, rfl⟩
      simp only [emitted, StackCommand.write, writeArithmetic, binaryOp, unaryOp, compareOp, getJumpCondition, CodeWriter.emit, List.drop_left, List.append_assoc, List.cons_append, List.nil_append, String.reduceAppend, String.reduceEq, if_true, if_false, or_false, or_true, false_or, reduceCtorEq, List.map_cons, List.map_nil, parseLine_at, parseLine_at_append, parseLine_comment, parseLine_label_true, parseLine_label_end, parseLine_D_eq_A, parseLine_A_eq_M, parseLine_M_eq_D, parseLine_M_eq_M_plus_1, parseLine_AM_eq_M_minus_1, parseLine_D_eq_M, parseLine_A_eq_A_minus_1, parseLine_M_eq_D_plus_M, parseLine_M_eq_M_minus_D, parseLine_M_eq_D_and_M, parseLine_M_eq_D_or_M, parseLine_A_eq_M_minus_1, parseLine_M_eq_minus_M, parseLine_M_eq_not_M, parseLine_D_eq_M_minus_D, parseLine_D_JEQ, parseLine_D_JGT, parseLine_D_JLT, parseLine_M_eq_0, parseLine_0_JMP, parseLine_M_eq_minus_1, parseLine_A_eq_D_plus_A, parseLine_D_eq_D_minus_A, parseLine_D_eq_M_plus_1, parseLine_A_eq_D, parseLine_A_eq_D_minus_A, parseLine_D_JNE]
      simp only [labelTable, Nat.add_assoc, Nat.reduceAdd]
    · -- gt
      refine Or.inr ⟨?_, rfl⟩
      simp only [emitted, StackCommand.write, writeArithmetic, binaryOp, unaryOp, compareOp, getJumpCondition, CodeWriter.emit, List.drop_left, List.append_assoc, List.cons_append, List.nil_append, String.reduceAppend, String.reduceEq, if_true, if_false, or_false, or_true, false_or, reduceCtorEq, List.map_cons, List.map_nil, parseLine_at, parseLine_at_append, parseLine_comment, parseLine_label_true, parseLine_label_end, parseLine_D_eq_A, parseLine_A_eq_M, parseLine_M_eq_D, parseLine_M_eq_M_plus_1, parseLine_AM_eq_M_minus_1, parseLine_D_eq_M, parseLine_A_eq_A_minus_1, parseLine_M_eq_D_plus_M, parseLine_M_eq_M_minus_D, parseLine_M_eq_D_and_M, parseLine_M_eq_D_or_M, parseLine_A_eq_M_minus_1, parseLine_M_eq_minus_M, parseLine_M_eq_not_M, parseLine_D_eq_M_minus_D, parseLine_D_JEQ, parseLine_D_JGT, parseLine_D_JLT, parseLine_M_eq_0, parseLine_0_JMP, parseLine_M_eq_minus_1, parseLine_A_eq_D_plus_A, parseLine_D_eq_D_minus_A, parseLine_D_eq_M_plus_1, parseLine_A_eq_D, parseLine_A_eq_D_minus_A, parseLine_D_JNE]
      simp only [labelTable, Nat.add_assoc, Nat.reduceAdd]
    · -- lt
      refine Or.inr ⟨?_, rfl⟩
      simp only [emitted, StackCommand.write, writeArithmetic, binaryOp, unaryOp, compareOp, getJumpCondition, CodeWriter.emit, List.drop_left, List.append_assoc, List.cons_append, List.nil_append, String.reduceAppend, String.reduceEq, if_true, if_false, or_false, or_true, false_or, reduceCtorEq, List.map_cons, List.map_nil, parseLine_at, parseLine_at_append, parseLine_comment, parseLine_label_true, parseLine_label_end, parseLine_D_eq_A, parseLine_A_eq_M, parseLine_M_eq_D, parseLine_M_eq_M_plus_1, parseLine_AM_eq_M_minus_1, parseLine_D_eq_M, parseLine_A_eq_A_minus_1, parseLine_M_eq_D_plus_M, parseLine_M_eq_M_minus_D, parseLine_M_eq_D_and_M, parseLine_M_eq_D_or_M, parseLine_A_eq_M_minus_1, parseLine_M_eq_minus_M, parseLine_M_eq_not_M, parseLine_D_eq_M_minus_D, parseLine_D_JEQ, parseLine_D_JGT, parseLine_D_JLT, parseLine_M_eq_0, parseLine_0_JMP, parseLine_M_eq_minus_1, parseLine_A_eq_D_plus_A, parseLine_D_eq_D_minus_A, parseLine_D_eq_M_plus_1, parseLine_A_eq_D, parseLine_A_eq_D_minus_A, parseLine_D_JNE]
      simp only [labelTable, Nat.add_assoc, Nat.reduceAdd]
    · -- and
      refine Or.inl ⟨?_, rfl, ?_⟩
      · simp only [emitted, StackCommand.write, writeArithmetic, binaryOp, unaryOp, compareOp, getJumpCondition, CodeWriter.emit, List.drop_left, List.append_assoc, List.cons_append, List.nil_append, String.reduceAppend, String.reduceEq, if_true, if_false, or_false, or_true, false_or, reduceCtorEq, List.map_cons, List.map_nil, parseLine_at, parseLine_at_append, parseLine_comment, parseLine_label_true, parseLine_label_end, parseLine_D_eq_A, parseLine_A_eq_M, parseLine_M_eq_D, parseLine_M_eq_M_plus_1, parseLine_AM_eq_M_minus_1, parseLine_D_eq_M, parseLine_A_eq_A_minus_1, parseLine_M_eq_D_plus_M, parseLine_M_eq_M_minus_D, parseLine_M_eq_D_and_M, parseLine_M_eq_D_or_M, parseLine_A_eq_M_minus_1, parseLine_M_eq_minus_M, parseLine_M_eq_not_M, parseLine_D_eq_M_minus_D, parseLine_D_JEQ, parseLine_D_JGT, parseLine_D_JLT, parseLine_M_eq_0, parseLine_0_JMP, parseLine_M_eq_minus_1, parseLine_A_eq_D_plus_A, parseLine_D_eq_D_minus_A, parseLine_D_eq_M_plus_1, parseLine_A_eq_D, parseLine_A_eq_D_minus_A, parseLine_D_JNE]
        simp only [labelTable]
      · rintro ⟨cmd, h, h1⟩
        injection h with h
        subst h
        simp at h1
    · -- or
      refine Or.inl ⟨?_, rfl, ?_⟩
      · simp only [emitted, StackCommand.write, writeArithmetic, binaryOp, unaryOp, compareOp, getJumpCondition, CodeWriter.emit, List.drop_left, List.append_assoc, List.cons_append, List.nil_append, String.reduceAppend, String.reduceEq, if_true, if_false, or_false, or_true, false_or, reduceCtorEq, List.map_cons, List.map_nil, parseLine_at, parseLine_at_append, parseLine_comment, parseLine_label_true, parseLine_label_end, parseLine_D_eq_A, parseLine_A_eq_M, parseLine_M_eq_D, parseLine_M_eq_M_plus_1, parseLine_AM_eq_M_minus_1, parseLine_D_eq_M, parseLine_A_eq_A_minus_1, parseLine_M_eq_D_plus_M, parseLine_M_eq_M_minus_D, parseLine_M_eq_D_and_M, parseLine_M_eq_D_or_M, parseLine_A_eq_M_minus_1, parseLine_M_eq_minus_M, parseLine_M_eq_not_M, parseLine_D_eq_M_minus_D, parseLine_D_JEQ, parseLine_D_JGT, parseLine_D_JLT, parseLine_M_eq_0, parseLine_0_JMP, parseLine_M_eq_minus_1, parseLine_A_eq_D_plus_A, parseLine_D_eq_D_minus_A, parseLine_D_eq_M_plus_1, parseLine_A_eq_D, parseLine_A_eq_D_minus_A, parseLine_D_JNE]
        simp only [labelTable]
      · rintro ⟨cmd, h, h1⟩
        injection h with h
        subst h
        simp at h1
    · -- not
      refine Or.inl ⟨?_, rfl, ?_⟩
      · simp only [emitted, StackCommand.write, writeArithmetic, binaryOp, unaryOp, compareOp, getJumpCondition, CodeWriter.emit, List.drop_left, List.append_assoc, List.cons_append, List.nil_append, String.reduceAppend, String.reduceEq, if_true, if_false, or_false, or_true, false_or, reduceCtorEq, List.map_cons, List.map_nil, parseLine_at, parseLine_at_append, parseLine_comment, parseLine_label_true, parseLine_label_end, parseLine_D_eq_A, parseLine_A_eq_M, parseLine_M_eq_D, parseLine_M_eq_M_plus_1, parseLine_AM_eq_M_minus_1, parseLine_D_eq_M, parseLine_A_eq_A_minus_1, parseLine_M_eq_D_plus_M, parseLine_M_eq_M_minus_D, parseLine_M_eq_D_and_M, parseLine_M_eq_D_or_M, parseLine_A_eq_M_minus_1, parseLine_M_eq_minus_M, parseLine_M_eq_not_M, parseLine_D_eq_M_minus_D, parseLine_D_JEQ, parseLine_D_JGT, parseLine_D_JLT, parseLine_M_eq_0, parseLine_0_JMP, parseLine_M_eq_minus_1, parseLine_A_eq_D_plus_A, parseLine_D_eq_D_minus_A, parseLine_D_eq_M_plus_1, parseLine_A_eq_D, parseLine_A_eq_D_minus_A, parseLine_D_JNE]
        simp only [labelTable]
      · rintro ⟨cmd, h, h1⟩
        injection h with h
        subst h
        simp at h1
  | push seg i =>
    simp only [StackCommand.wellFormed, Bool.and_eq_true, decide_eq_true_eq, List.mem_cons,
      List.mem_singleton, List.not_mem_nil, or_false] at hwf
    obtain ⟨⟨hseg, _⟩, _⟩ := hwf
    refine Or.inl ⟨?_, ?_, ?_⟩
    · rcases hseg with rfl | rfl | rfl | rfl | rfl | rfl | rfl | rfl
      all_goals
        simp only [emitted, StackCommand.write, writeArithmetic, binaryOp, unaryOp, compareOp, getJumpCondition, writePushPop, push, pop, resolveSegmentAddress, segmentMap, CodeWriter.emit, List.drop_left, List.append_assoc, List.cons_append, List.nil_append, String.append_assoc, String.reduceEq, if_true, if_false, or_false, or_true, false_or, reduceCtorEq, List.map_cons, List.map_nil, parseLine_at, parseLine_comment, apply_ite parseLine, parseLine_label_r1, parseLine_label_r3, parseLine_D_eq_A, parseLine_A_eq_M, parseLine_M_eq_D, parseLine_M_eq_M_plus_1, parseLine_AM_eq_M_minus_1, parseLine_D_eq_M, parseLine_A_eq_A_minus_1, parseLine_M_eq_D_plus_M, parseLine_M_eq_M_minus_D, parseLine_M_eq_D_and_M, parseLine_M_eq_D_or_M, parseLine_A_eq_M_minus_1, parseLine_M_eq_minus_M, parseLine_M_eq_not_M, parseLine_D_eq_M_minus_D, parseLine_D_JEQ, parseLine_D_JGT, parseLine_D_JLT, parseLine_M_eq_0, parseLine_0_JMP, parseLine_M_eq_minus_1, parseLine_A_eq_D_plus_A, parseLine_D_eq_D_minus_A, parseLine_D_eq_M_plus_1, parseLine_A_eq_D, parseLine_A_eq_D_minus_A, parseLine_D_JNE]
        try split_ifs
        all_goals simp only [labelTable]
    · exact (push_fields _ _ _).2.2
    · rintro ⟨cmd, h, _⟩
      exact StackCommand.noConfusion h
  | pop seg i =>
    simp only [StackCommand.wellFormed, Bool.and_eq_true, decide_eq_true_eq, List.mem_cons,
      List.mem_singleton, List.not_mem_nil, or_false] at hwf
    obtain ⟨⟨hseg, _⟩, _⟩ := hwf
    refine Or.inl ⟨?_, ?_, ?_⟩
    · rcases hseg with rfl | rfl | rfl | rfl | rfl | rfl | rfl
      all_goals
        simp only [emitted, StackCommand.write, writeArithmetic, binaryOp, unaryOp, compareOp, getJumpCondition, writePushPop, push, pop, resolveSegmentAddress, segmentMap, CodeWriter.emit, List.drop_left, List.append_assoc, List.cons_append, List.nil_append, String.append_assoc, String.reduceEq, if_true, if_false, or_false, or_true, false_or, reduceCtorEq, List.map_cons, List.map_nil, parseLine_at, parseLine_comment, apply_ite parseLine, parseLine_label_r1, parseLine_label_r3, parseLine_D_eq_A, parseLine_A_eq_M, parseLine_M_eq_D, parseLine_M_eq_M_plus_1, parseLine_AM_eq_M_minus_1, parseLine_D_eq_M, parseLine_A_eq_A_minus_1, parseLine_M_eq_D_plus_M, parseLine_M_eq_M_minus_D, parseLine_M_eq_D_and_M, parseLine_M_eq_D_or_M, parseLine_A_eq_M_minus_1, parseLine_M_eq_minus_M, parseLine_M_eq_not_M, parseLine_D_eq_M_minus_D, parseLine_D_JEQ, parseLine_D_JGT, parseLine_D_JLT, parseLine_M_eq_0, parseLine_0_JMP, parseLine_M_eq_minus_1, parseLine_A_eq_D_plus_A, parseLine_D_eq_D_minus_A, parseLine_D_eq_M_plus_1, parseLine_A_eq_D, parseLine_A_eq_D_minus_A, parseLine_D_JNE]
        try split_ifs
        all_goals simp only [labelTable]
    · exact pop_fields _ _ _
    · rintro ⟨cmd, h, _⟩
      exact StackCommand.noConfusion h

end Hack
end VMTranslator
namespace VMTranslator
open CommandType
namespace Hack

/-- The step of one stack instruction inside a program: the stack pointer moves by the declared
delta, unless the instruction is a pop that stores into the cell of `SP`. -/
theorem stack_step (p : Program) (base : Nat) (hbase : 0 < base) (c : StackCommand)
    (w : CodeWriter) (st : State) (s : Nat) (lpre lpost : List (String × Nat))
    (hwf : c.wellFormed = true)
    (hcode : CodeAt p.rom st.pc (romOf ((emitted c.write w).map parseLine)))
    (hlab : p.labels = lpre ++ (labelTable ((emitted c.write w).map parseLine) st.pc ++ lpost))
    (hold : ∀ kv ∈ lpre, ∃ m, m < w.labelCounter ∧ Indexed kv.1 m)
    (hsp : st.ram 0 = s) (hlow : (base : Int) + operandCount c ≤ s)
    (hhigh : (s : Int) + growth c ≤ 32768) :
    (∃ n st1, runN p n st = some st1 ∧
        st1.pc = st.pc + (romOf ((emitted c.write w).map parseLine)).length ∧
        (st1.ram 0 : Int) = s + declaredDelta c) ∨
    (∃ seg i, c = StackCommand.pop seg i ∧ popAddress p w st.ram seg i = 0) := by
  cases c with
  | arithmetic cmd =>
    left
    have hcmd : cmd ∈ ["add", "sub", "neg", "eq", "gt", "lt", "and", "or", "not"] := by
      simpa only [StackCommand.wellFormed, decide_eq_true_eq] using hwf
    have hTE : cmd = "eq" ∨ cmd = "gt" ∨ cmd = "lt" →
        p.resolve ("COMP_" ++ decimal w.labelCounter ++ "_TRUE") = some (st.pc + 12) ∧
        p.resolve ("COMP_" ++ decimal w.labelCounter ++ "_END") = some (st.pc + 15) := by
      intro hc
      rcases stack_labels (StackCommand.arithmetic cmd) w st.pc hwf with ⟨_, _, hno⟩ | ⟨ht, _⟩
      · exact absurd ⟨cmd, rfl, hc⟩ hno
      · rw [ht] at hlab
        have hpre : ∀ l : String, Indexed l w.labelCounter → lpre.lookup l = none := by
          intro l hl
          apply lookup_eq_none
          intro kv hkv e
          obtain ⟨m, hm, hi⟩ := hold kv hkv
          rw [e] at hi
          have := indexed_inj hi hl
          omega
        constructor
        · refine resolve_label p _ _ '_' (by simp) (by decide) ?_
          rw [hlab, lookup_append_none (hpre _ (Or.inl rfl))]
          exact lookup_cons_same _ _ _
        · refine resolve_label p _ _ '_' (by simp) (by decide) ?_
          rw [hlab, lookup_append_none (hpre _ (Or.inr (Or.inl rfl)))]
          simp only [List.cons_append, List.lookup, end_ne_true]
          exact lookup_cons_same _ _ _
    have hop : operandCount (StackCommand.arithmetic cmd) ≤ 2 := by
      simp only [operandCount]; split_ifs <;> omega
    exact arithmetic_sp p cmd w st s hcmd hcode hTE hsp (by omega)
      (by simp only [growth] at hhigh; omega)
  | push seg i =>
    left
    simp only [StackCommand.wellFormed, Bool.and_eq_true, decide_eq_true_eq] at hwf
    obtain ⟨⟨hseg, hi0⟩, hi1⟩ := hwf
    obtain ⟨n, rfl⟩ := Int.eq_ofNat_of_zero_le hi0
    simp only [operandCount, growth] at hlow hhigh
    obtain ⟨k, st1, hrun, hpc, hsp1⟩ := push_sp p seg n w st s hseg (by omega) hcode hsp
      (by omega) (by omega)
    refine ⟨k, st1, hrun, hpc, ?_⟩
    rw [hsp1]
    simp only [declaredDelta]
    omega
  | pop seg i =>
    by_cases h0 : popAddress p w st.ram seg i = 0
    · exact Or.inr ⟨seg, i, rfl, h0⟩
    · left
      simp only [StackCommand.wellFormed, Bool.and_eq_true, decide_eq_true_eq] at hwf
      obtain ⟨⟨hseg, hi0⟩, hi1⟩ := hwf
      obtain ⟨n, rfl⟩ := Int.eq_ofNat_of_zero_le hi0
      simp only [operandCount, growth] at hlow hhigh
      obtain ⟨k, st1, hrun, hpc, hsp1⟩ := pop_sp p seg n w st s hseg (by omega) hcode hsp
        (by omega) h0
      refine ⟨k, st1, hrun, hpc, ?_⟩
      rw [hsp1]
      simp only [declaredDelta]
      omega

end Hack
end VMTranslator
namespace VMTranslator
open CommandType
namespace Hack

/-- A straight-line sequence of stack instructions inside a program: either the run reaches the end
of the code with the stack pointer displaced by the sum of the declared deltas, or it reaches a
pop whose target cell is the cell of `SP`. -/
theorem stack_run (p : Program) (base : Nat) (hbase : 0 < base) :
    ∀ (cmds : List StackCommand) (w : CodeWriter) (st : State) (s : Nat)
      (preT postT : List String),
      p = assemble (preT ++ (emitted (writeAll cmds) w ++ postT)) →
      (∀ l ∈ labelDefs preT, ∃ m, m < w.labelCounter ∧ Indexed l m) →
      (∀ c ∈ cmds, c.wellFormed = true) →
      stackFits base cmds s = true →
      st.pc = (romOf (preT.map parseLine)).length →
      st.ram 0 = s →
      (∃ n st1, runN p n st = some st1 ∧
          st1.pc = st.pc + (romOf ((emitted (writeAll cmds) w).map parseLine)).length ∧
          (st1.ram 0 : Int) = s + (cmds.map declaredDelta).sum) ∨
      (∃ pre seg i post n st1, cmds = pre ++ StackCommand.pop seg i :: post ∧
          runN p n st = some st1 ∧
          st1.pc = st.pc + (romOf ((emitted (writeAll pre) w).map parseLine)).length ∧
          popAddress p (writeAll pre w) st1.ram seg i = 0) := by
  intro cmds
  induction cmds with
  | nil =>
    intro w st s preT postT _ _ _ _ _ hsp
    left
    refine ⟨0, st, rfl, ?_, ?_⟩
    · rw [emitted_writeAll_nil]; rfl
    · simp [hsp]
  | cons c cs ih =>
    intro w st s preT postT hp hold hwf hfits hpc hsp
    have hwfc := hwf c (List.mem_cons_self _ _)
    simp only [stackFits, Bool.and_eq_true, decide_eq_true_eq] at hfits
    obtain ⟨⟨hlow, hhigh⟩, hrest⟩ := hfits
    rw [emitted_writeAll_cons] at hp
    have hrom : p.rom = romOf (preT.map parseLine) ++
        (romOf ((emitted c.write w).map parseLine) ++
          romOf ((emitted (writeAll cs) (c.write w) ++ postT).map parseLine)) := by
      rw [hp]
      simp only [assemble, List.map_append, romOf_append, List.append_assoc]
    have hlab : p.labels = labelTable (preT.map parseLine) 0 ++
        (labelTable ((emitted c.write w).map parseLine) st.pc ++
          labelTable ((emitted (writeAll cs) (c.write w) ++ postT).map parseLine)
            (st.pc + (romOf ((emitted c.write w).map parseLine)).length)) := by
      rw [hp, hpc]
      simp only [assemble, List.map_append, labelTable_append, romOf_append, List.append_assoc,
        Nat.zero_add]
    have hcode : CodeAt p.rom st.pc (romOf ((emitted c.write w).map parseLine)) :=
      ⟨_, _, by rw [hrom, List.append_assoc], hpc.symm⟩
    have holdkv : ∀ kv ∈ labelTable (preT.map parseLine) 0,
        ∃ m, m < w.labelCounter ∧ Indexed kv.1 m := by
      intro kv hkv
      exact hold kv.1 (List.mem_map_of_mem Prod.fst hkv)
    rcases stack_step p base hbase c w st s _ _ hwfc hcode hlab holdkv hsp hlow hhigh with
      ⟨n1, st1, hrun1, hpc1, hsp1⟩ | ⟨seg, i, rfl, h0⟩
    · have hinv : ∀ l ∈ labelDefs (preT ++ emitted c.write w),
          ∃ m, m < (c.write w).labelCounter ∧ Indexed l m := by
        intro l hl
        rw [labelDefs_append] at hl
        rcases stack_labels c w 0 hwfc with ⟨ht, hcnt, _⟩ | ⟨ht, hcnt⟩
        · rcases List.mem_append.1 hl with h1 | h1
          · obtain ⟨m, hm, hi⟩ := hold l h1
            exact ⟨m, by rw [hcnt]; exact hm, hi⟩
          · simp only [labelDefs, ht, List.map_nil, List.not_mem_nil] at h1
        · rcases List.mem_append.1 hl with h1 | h1
          · obtain ⟨m, hm, hi⟩ := hold l h1
            exact ⟨m, by rw [hcnt]; omega, hi⟩
          · simp only [labelDefs, ht, List.map_cons, List.map_nil, List.mem_cons,
              List.mem_singleton, List.not_mem_nil, or_false] at h1
            rcases h1 with rfl | rfl
            · exact ⟨w.labelCounter, by rw [hcnt]; omega, Or.inl rfl⟩
            · exact ⟨w.labelCounter, by rw [hcnt]; omega, Or.inr (Or.inl rfl)⟩
      have hfits1 : stackFits base cs ((st1.ram 0 : Nat) : Int) = true := by
        rw [hsp1]; exact hrest
      have hpc1' : st1.pc = (romOf ((preT ++ emitted c.write w).map parseLine)).length := by
        rw [hpc1, hpc, List.map_append, romOf_append, List.length_append]
      rcases ih (c.write w) st1 (st1.ram 0) (preT ++ emitted c.write w) postT
          (by rw [hp]; simp only [List.append_assoc]) hinv
          (fun c' hc' => hwf c' (List.mem_cons_of_mem _ hc')) hfits1 hpc1' rfl with
        ⟨n2, st2, hrun2, hpc2, hsp2⟩ | ⟨pre, seg, i, post, n2, st2, hcs, hrun2, hpc2, h0⟩
      · left
        refine ⟨n1 + n2, st2, runN_trans hrun1 hrun2, ?_, ?_⟩
        · rw [hpc2, hpc1, emitted_writeAll_cons, List.map_append, romOf_append,
            List.length_append, Nat.add_assoc]
        · rw [hsp2, hsp1, List.map_cons, List.sum_cons]
          omega
      · right
        refine ⟨c :: pre, seg, i, post, n1 + n2, st2, by rw [hcs]; rfl,
          runN_trans hrun1 hrun2, ?_, h0⟩
        rw [hpc2, hpc1, emitted_writeAll_cons, List.map_append, romOf_append,
          List.length_append, Nat.add_assoc]
    · right
      exact ⟨[], seg, i, cs, 0, st, rfl, rfl, by rw [emitted_writeAll_nil]; rfl, h0⟩

end Hack
end VMTranslator
namespace VMTranslator
open CommandType
namespace Hack

/-- C11, as stated, fails: the stack pointer is itself a RAM cell (address 0) that a pop can
address.  The well-formed sequence `push constant 0; pop pointer 0; push constant 5; pop this 0`,
run from `SP = 256` with two operands to spare at every step, sets `THIS` to 0 and then pops 5
into `RAM[0]`: the machine ends with `SP = 5`, a displacement of `-251`, while the declared deltas
sum to 0. -/
theorem C11_pop_overwrites_sp_counterexample :
    (∀ c ∈ [StackCommand.push "constant" 0, StackCommand.pop "pointer" 0,
      StackCommand.push "constant" 5, StackCommand.pop "this" 0], c.wellFormed = true) ∧
    stackFits 256 [StackCommand.push "constant" 0, StackCommand.pop "pointer" 0,
      StackCommand.push "constant" 5, StackCommand.pop "this" 0] 256 = true ∧
    (runN (assemble (emitted (writeAll [StackCommand.push "constant" 0,
        StackCommand.pop "pointer" 0, StackCommand.push "constant" 5,
        StackCommand.pop "this" 0]) CodeWriter.init)) 32
      ⟨0, 0, 0, fun k => if k = 0 then 256 else if k = 1 then 300 else if k = 2 then 400
        else if k = 3 then 3000 else if k = 4 then 3010 else 0⟩).map
        (fun st => (st.pc, st.ram 0)) = some (32, 5) ∧
    (assemble (emitted (writeAll [StackCommand.push "constant" 0,
        StackCommand.pop "pointer" 0, StackCommand.push "constant" 5,
        StackCommand.pop "this" 0]) CodeWriter.init)).rom.length = 32 ∧
    ([StackCommand.push "constant" 0, StackCommand.pop "pointer" 0,
      StackCommand.push "constant" 5, StackCommand.pop "this" 0].map declaredDelta).sum = 0 := by
  refine ⟨by decide, by decide, by rfl, by rfl, by decide⟩

/-- C11, amended: for every straight-line sequence of well-formed stack instructions (the nine
arithmetic commands, push from the eight segments, pop to the seven segments other than
`constant`, indices in `0..32767`), assembled on its own and run from its first instruction with
stack pointer `s`, if every instruction finds its operands on the stack (which begins at
`base >= 1` and stays within the RAM) and no pop of the sequence stores into the cell of `SP`
(its effective address, when the machine reaches it, is not 0), then the machine reaches the end
of the code and the displacement of the stack pointer equals the sum of the declared deltas. -/
theorem C11_stack_depth_accounting (cmds : List StackCommand) (w : CodeWriter) (st : State)
    (base s : Nat) (hwf : ∀ c ∈ cmds, c.wellFormed = true) (hbase : 0 < base)
    (hfits : stackFits base cmds s = true) (hpc : st.pc = 0) (hsp : st.ram 0 = s)
    (hpop : ∀ (pre : List StackCommand) (seg : String) (i : Int) (post : List StackCommand)
      (n : Nat) (st1 : State), cmds = pre ++ StackCommand.pop seg i :: post →
      runN (assemble (emitted (writeAll cmds) w)) n st = some st1 →
      st1.pc = (romOf ((emitted (writeAll pre) w).map parseLine)).length →
      popAddress (assemble (emitted (writeAll cmds) w)) (writeAll pre w) st1.ram seg i ≠ 0) :
    ∃ n st1, runN (assemble (emitted (writeAll cmds) w)) n st = some st1 ∧
      st1.pc = (assemble (emitted (writeAll cmds) w)).rom.length ∧
      (st1.ram 0 : Int) - s = (cmds.map declaredDelta).sum := by
  rcases stack_run (assemble (emitted (writeAll cmds) w)) base hbase cmds w st s [] []
      (by simp) (fun l hl => absurd hl (by simp [labelDefs, labelTable])) hwf hfits
      (by rw [hpc]; rfl) hsp with
    ⟨n, st1, hrun, hpc1, hsp1⟩ | ⟨pre, seg, i, post, n, st1, hcs, hrun, hpc1, h0⟩
  · refine ⟨n, st1, hrun, ?_, by rw [hsp1]; omega⟩
    rw [hpc1, hpc, Nat.zero_add]
    rfl
  · exact absurd h0 (hpop pre seg i post n st1 hcs hrun (by rw [hpc1, hpc, Nat.zero_add]))

theorem C11_stack_depth_accounting_witness :
    (∀ c ∈ [StackCommand.push "constant" 7, StackCommand.push "constant" 8,
      StackCommand.arithmetic "lt", StackCommand.arithmetic "neg",
      StackCommand.pop "pointer" 1, StackCommand.push "static" 3], c.wellFormed = true) ∧
    stackFits 256 [StackCommand.push "constant" 7, StackCommand.push "constant" 8,
      StackCommand.arithmetic "lt", StackCommand.arithmetic "neg",
      StackCommand.pop "pointer" 1, StackCommand.push "static" 3] 256 = true ∧
    ∃ n st1, runN (assemble (emitted (writeAll [StackCommand.push "constant" 7,
        StackCommand.push "constant" 8, StackCommand.arithmetic "lt",
        StackCommand.arithmetic "neg", StackCommand.pop "pointer" 1,
        StackCommand.push "static" 3]) CodeWriter.init)) n
        ⟨0, 0, 0, fun k => if k = 0 then 256 else 0⟩ = some st1 ∧
      st1.pc = 44 ∧ (st1.ram 0 : Int) - 256 = 1 := by
  have hwf : ∀ c ∈ [StackCommand.push "constant" 7, StackCommand.push "constant" 8,
      StackCommand.arithmetic "lt", StackCommand.arithmetic "neg",
      StackCommand.pop "pointer" 1, StackCommand.push "static" 3], c.wellFormed = true := by
    decide
  obtain ⟨n, st1, hrun, hpc, hsp⟩ :=
    C11_stack_depth_accounting [StackCommand.push "constant" 7, StackCommand.push "constant" 8,
      StackCommand.arithmetic "lt", StackCommand.arithmetic "neg",
      StackCommand.pop "pointer" 1, StackCommand.push "static" 3] CodeWriter.init
      ⟨0, 0, 0, fun k => if k = 0 then 256 else 0⟩ 256 256 hwf (by decide) (by decide) rfl rfl
      (by
        intro pre seg i post n st1 hcs _ _
        have hmem : StackCommand.pop seg i ∈ [StackCommand.push "constant" 7,
            StackCommand.push "constant" 8, StackCommand.arithmetic "lt",
            StackCommand.arithmetic "neg", StackCommand.pop "pointer" 1,
            StackCommand.push "static" 3] := by
          rw [hcs]; simp
        simp only [List.mem_cons, List.mem_singleton, List.not_mem_nil, or_false,
          reduceCtorEq, false_or, StackCommand.pop.injEq] at hmem
        obtain ⟨rfl, rfl⟩ := hmem
        simp [popAddress, segmentTableAddress])
  exact ⟨hwf, by decide, n, st1, hrun, hpc, hsp⟩

end Hack
end VMTranslator
namespace VMTranslator
open CommandType
namespace Hack

theorem writeIf_rom (L : String) (w : CodeWriter) :
    romOf ((emitted (writeIf L) w).map parseLine) =
      [Instr.A "SP", Instr.C ⟨true, false, true⟩ Comp.mMinus1 Jump.null,
        Instr.C ⟨false, true, false⟩ Comp.m Jump.null,
        Instr.A (if w.currentFunction = "" then L else w.currentFunction ++ "$" ++ L),
        Instr.C ⟨false, false, false⟩ Comp.d Jump.JNE] := by
  by_cases hc : w.currentFunction = ""
  · simp only [emitted, writeIf, hc, if_true, CodeWriter.emit, List.append_assoc, List.drop_left,
      List.cons_append, List.nil_append, List.map, parseLine_comment, parseLine_at, romOf, mk_SP,
      parseLine_D_eq_A, parseLine_A_eq_M, parseLine_M_eq_D, parseLine_M_eq_M_plus_1, parseLine_AM_eq_M_minus_1, parseLine_D_eq_M, parseLine_A_eq_A_minus_1, parseLine_M_eq_D_plus_M, parseLine_M_eq_M_minus_D, parseLine_M_eq_D_and_M, parseLine_M_eq_D_or_M, parseLine_A_eq_M_minus_1, parseLine_M_eq_minus_M, parseLine_M_eq_not_M, parseLine_D_eq_M_minus_D, parseLine_D_JEQ, parseLine_D_JGT, parseLine_D_JLT, parseLine_M_eq_0, parseLine_0_JMP, parseLine_M_eq_minus_1, parseLine_A_eq_D_plus_A, parseLine_D_eq_D_minus_A, parseLine_D_eq_M_plus_1, parseLine_A_eq_D, parseLine_A_eq_D_minus_A, parseLine_D_JNE]
  · simp only [emitted, writeIf, hc, if_false, CodeWriter.emit, List.append_assoc, List.drop_left,
      List.cons_append, List.nil_append, List.map, parseLine_comment, parseLine_at, romOf, mk_SP,
      String.append_assoc, parseLine_D_eq_A, parseLine_A_eq_M, parseLine_M_eq_D, parseLine_M_eq_M_plus_1, parseLine_AM_eq_M_minus_1, parseLine_D_eq_M, parseLine_A_eq_A_minus_1, parseLine_M_eq_D_plus_M, parseLine_M_eq_M_minus_D, parseLine_M_eq_D_and_M, parseLine_M_eq_D_or_M, parseLine_A_eq_M_minus_1, parseLine_M_eq_minus_M, parseLine_M_eq_not_M, parseLine_D_eq_M_minus_D, parseLine_D_JEQ, parseLine_D_JGT, parseLine_D_JLT, parseLine_M_eq_0, parseLine_0_JMP, parseLine_M_eq_minus_1, parseLine_A_eq_D_plus_A, parseLine_D_eq_D_minus_A, parseLine_D_eq_M_plus_1, parseLine_A_eq_D, parseLine_A_eq_D_minus_A, parseLine_D_JNE]

theorem toSigned_eq_zero (v : Nat) (hv : v < 65536) : toSigned v = 0 ↔ v = 0 := by
  simp only [toSigned]
  split_ifs <;> omega

/-- C12: the code emitted by `writeIf` for `if-goto L`, placed anywhere in a program whose label
table maps the scoped target of `L` (`currentFunction$L`, or `L` at global scope, the name that
`writeLabel` defines) to the ROM address `target`, and started with stack pointer `s` and the
16-bit value `v` on top of the stack, runs its five instructions, leaves `SP = s - 1` and every
other RAM cell unchanged, and continues at `target` when `v` is non-zero and at the instruction
that follows the emitted code when `v = 0`.  The top of the stack is a RAM cell other than `SP`
(`2 <= s <= 32768`), and the target is a name the assembler treats as a label. -/
theorem C12_conditional_branch (p : Program) (L : String) (w : CodeWriter) (st : State)
    (s v target : Nat)
    (hcode : CodeAt p.rom st.pc (romOf ((emitted (writeIf L) w).map parseLine)))
    (hsym : isUserSymbol
      (if w.currentFunction = "" then L else w.currentFunction ++ "$" ++ L) = true)
    (hlab : p.labels.lookup
      (if w.currentFunction = "" then L else w.currentFunction ++ "$" ++ L) = some target)
    (hsp : st.ram 0 = s) (hs0 : 2 ≤ s) (hs1 : s ≤ 32768) (hv : st.ram (s - 1) = v)
    (hv16 : v < 65536) :
    labelDefs (emitted (writeLabel L) w) =
      [if w.currentFunction = "" then L else w.currentFunction ++ "$" ++ L] ∧
    ∃ st1, runN p 5 st = some st1 ∧ st1.ram 0 = s - 1 ∧
      st1.pc = (if v = 0 then st.pc + 5 else target) ∧
      (∀ k, k ≠ 0 → st1.ram k = st.ram k) := by
  constructor
  · by_cases hc : w.currentFunction = ""
    · simp only [labelDefs, emitted, writeLabel, hc, if_true, CodeWriter.emit, List.append_assoc,
        List.drop_left, List.cons_append, List.nil_append, List.map, parseLine_comment,
        parseLine_label, labelTable]
    · simp only [labelDefs, emitted, writeLabel, hc, if_false, CodeWriter.emit,
        List.append_assoc, List.drop_left, List.cons_append, List.nil_append, List.map,
        parseLine_comment, String.append_assoc, parseLine_label_r3, labelTable]
  · rw [writeIf_rom] at hcode
    have hres := resolve_user p _ target hsym hlab
    obtain ⟨a0, d0, pc0, ram⟩ := st
    simp only [] at hsp hv hcode ⊢
    obtain ⟨c1, c2⟩ := codeAt_split 4 hcode (by simp)
    simp only [List.take_succ_cons, List.take_zero, List.drop_succ_cons, List.drop_zero] at c1 c2
    have h0 : runN p 0 ⟨a0, d0, pc0, ram⟩ = some ⟨a0, d0, pc0, ram⟩ := rfl
    have h4 := runN_then_seq p h0 _ c1 (by simp [noJump])
    have e1 : ¬ (s = 0) := by omega
    have e2 : ¬ (s - 1 = 0) := by omega
    simp (disch := omega) only [List.length_cons, List.length_nil, Nat.zero_add, Nat.reduceAdd,
      execSeq_A _ _ _ _ _ _ _ _ (resolve_SP p), execSeq_A _ _ _ _ _ _ _ _ hres,
      execSeq_D_eq_A, execSeq_A_eq_M, execSeq_M_eq_D, execSeq_M_eq_M_plus_1, execSeq_AM_eq_M_minus_1, execSeq_D_eq_M, execSeq_A_eq_A_minus_1, execSeq_M_eq_D_plus_M, execSeq_M_eq_M_minus_D, execSeq_M_eq_D_and_M, execSeq_M_eq_D_or_M, execSeq_A_eq_M_minus_1, execSeq_M_eq_minus_M, execSeq_M_eq_not_M, execSeq_D_eq_M_minus_D, execSeq_M_eq_0, execSeq_M_eq_minus_1, execSeq_A_eq_D_plus_A, execSeq_D_eq_D_minus_A, execSeq_D_eq_M_plus_1, execSeq_A_eq_D, execSeq_A_eq_D_minus_A, execSeq_nil,
      Nat.zero_mod, hsp, e1, if_false, store_same, store_ne, Nat.mod_eq_of_lt, hv, ne_eq, e2,
      not_false_eq_true] at h4
    have h5 := runN_then p h4 (codeAt_head c2)
    rw [execInstr_C] at h5
    simp only [compute, jumps, Bool.false_eq_true, if_false, Nat.reduceAdd, Nat.add_assoc,
      decide_eq_true_eq, ne_eq, toSigned_eq_zero v hv16, ite_not] at h5
    refine ⟨_, h5, ?_, rfl, ?_⟩
    · simp (disch := omega) only [store_same]
    · intro k hk
      simp (disch := omega) only [store_ne, ne_eq, hk, not_false_eq_true]

end Hack
end VMTranslator
namespace VMTranslator
open CommandType
namespace Hack

theorem C12_conditional_branch_witness :
    isUserSymbol "Foo.f$LOOP" = true ∧
    (assemble (emitted (fun w0 => writeIf "LOOP" (writeLabel "LOOP" w0))
      ⟨[], "Foo.f", "Foo", 0⟩)).labels.lookup "Foo.f$LOOP" = some 0 ∧
    2 ≤ 257 ∧ 257 ≤ 32768 ∧ 7 < 65536 ∧
    (∃ st1, runN (assemble (emitted (fun w0 => writeIf "LOOP" (writeLabel "LOOP" w0))
        ⟨[], "Foo.f", "Foo", 0⟩)) 5
        ⟨0, 0, 0, fun k => if k = 0 then 257 else if k = 256 then 7 else 0⟩ = some st1 ∧
      st1.ram 0 = 256 ∧ st1.pc = 0) ∧
    (∃ st1, runN (assemble (emitted (fun w0 => writeIf "LOOP" (writeLabel "LOOP" w0))
        ⟨[], "Foo.f", "Foo", 0⟩)) 5
        ⟨0, 0, 0, fun k => if k = 0 then 257 else 0⟩ = some st1 ∧
      st1.ram 0 = 256 ∧ st1.pc = 5) := by
  have hcode : CodeAt (assemble (emitted (fun w0 => writeIf "LOOP" (writeLabel "LOOP" w0))
      ⟨[], "Foo.f", "Foo", 0⟩)).rom 0
      (romOf ((emitted (writeIf "LOOP") (writeLabel "LOOP" ⟨[], "Foo.f", "Foo", 0⟩)).map
        parseLine)) := ⟨[], [], by rfl, rfl⟩
  obtain ⟨_, st1, hrun1, hsp1, hpc1, _⟩ :=
    C12_conditional_branch _ "LOOP" (writeLabel "LOOP" ⟨[], "Foo.f", "Foo", 0⟩)
      ⟨0, 0, 0, fun k => if k = 0 then 257 else if k = 256 then 7 else 0⟩ 257 7 0
      hcode (by rfl) (by rfl) rfl (by decide) (by decide) rfl (by decide)
  obtain ⟨_, st2, hrun2, hsp2, hpc2, _⟩ :=
    C12_conditional_branch _ "LOOP" (writeLabel "LOOP" ⟨[], "Foo.f", "Foo", 0⟩)
      ⟨0, 0, 0, fun k => if k = 0 then 257 else 0⟩ 257 0 0
      hcode (by rfl) (by rfl) rfl (by decide) (by decide) rfl (by decide)
  exact ⟨by rfl, by rfl, by decide, by decide, by decide, ⟨st1, hrun1, hsp1, hpc1⟩,
    ⟨st2, hrun2, hsp2, hpc2⟩⟩

end Hack
end VMTranslator
namespace VMTranslator
open CommandType

/-- The fields of the writer after `writeFunction`. -/
theorem writeFunction_fields (f : String) (n : Int) (w : CodeWriter) :
    (writeFunction f n w).currentFunction = f ∧
    (writeFunction f n w).labelCounter = w.labelCounter ∧
    (writeFunction f n w).filename = w.filename := by
  have hfields : ∀ (k : Nat) (w0 : CodeWriter),
      ((push "constant" 0)^[k] w0).currentFunction = w0.currentFunction ∧
      ((push "constant" 0)^[k] w0).filename = w0.filename := by
    intro k
    induction k with
    | zero => intro w0; exact ⟨rfl, rfl⟩
    | succ k ih =>
      intro w0
      rw [Function.iterate_succ_apply, (ih _).1, (ih _).2, (Hack.push_fields _ _ _).1,
        (Hack.push_fields _ _ _).2.1]
      exact ⟨rfl, rfl⟩
  refine ⟨?_, ?_, ?_⟩
  · simp only [writeFunction, (hfields _ _).1]
    rfl
  · simp only [writeFunction, iterate_push_fields]
    rfl
  · simp only [writeFunction, (hfields _ _).2]
    rfl

/-- C13: for every name `f` and count `n`, `writeFunction` appends to the output the comment line,
then the entry label `(f)`, then exactly `max(n, 0)` copies of the seven lines that
`push constant 0` emits, and nothing else; the current function name becomes `f`, and the label
counter and the module name keep their values. -/
theorem C13_function_definition (f : String) (n : Int) (w : CodeWriter) :
    (writeFunction f n w).output =
      w.output ++ ["// function " ++ f ++ " " ++ decimal n, "(" ++ f ++ ")"] ++
        (List.replicate n.toNat (emitted (push "constant" 0) w)).flatten ∧
    (∀ w0 : CodeWriter,
      emitted (push "constant" 0) w0 = ["@0", "D=A", "@SP", "A=M", "M=D", "@SP", "M=M+1"]) ∧
    (n.toNat : Int) = max n 0 ∧
    (writeFunction f n w).currentFunction = f ∧
    (writeFunction f n w).labelCounter = w.labelCounter ∧
    (writeFunction f n w).filename = w.filename := by
  have hp : ∀ w0 : CodeWriter,
      emitted (push "constant" 0) w0 = ["@0", "D=A", "@SP", "A=M", "M=D", "@SP", "M=M+1"] := by
    intro w0
    simp only [emitted, Hack.push_constant_output, List.drop_left]
    rfl
  refine ⟨?_, hp, ?_, (writeFunction_fields f n w).1, (writeFunction_fields f n w).2.1,
    (writeFunction_fields f n w).2.2⟩
  · rw [hp]
    simp only [writeFunction, Hack.iterate_push_output, Hack.emit_output, List.append_assoc]
    rfl
  · rw [Int.toNat_eq_max]

end VMTranslator
namespace VMTranslator
open CommandType

theorem pop_currentFunction (seg : String) (i : Int) (w : CodeWriter) :
    (pop seg i w).currentFunction = w.currentFunction := by
  simp only [pop, resolveSegmentAddress]
  split_ifs <;> rfl

theorem writeArithmetic_currentFunction (cmd : String) (w : CodeWriter) :
    (writeArithmetic cmd w).currentFunction = w.currentFunction := by
  simp only [writeArithmetic, binaryOp, unaryOp, compareOp]
  split_ifs <;> rfl

theorem writePushPop_currentFunction (t : CommandType) (seg : String) (i : Int) (w : CodeWriter) :
    (writePushPop t seg i w).currentFunction = w.currentFunction := by
  simp only [writePushPop]
  split_ifs
  · rw [(Hack.push_fields _ _ _).1]; rfl
  · rw [pop_currentFunction]; rfl

/-- The only command that changes the current function name is `function`. -/
theorem dispatch_currentFunction (tokens : List String) (w w1 : CodeWriter)
    (h : dispatch tokens w = some w1) (hf : commandType tokens ≠ C_FUNCTION) :
    w1.currentFunction = w.currentFunction := by
  unfold dispatch at h
  cases hct : commandType tokens <;> simp only [hct] at h
  case C_FUNCTION => exact absurd hct hf
  case C_ARITHMETIC =>
    simp only [Option.some.injEq] at h
    rw [← h, writeArithmetic_currentFunction]
  case C_PUSH =>
    cases ha : arg2 tokens <;> simp only [ha, Option.some.injEq, reduceCtorEq] at h
    rw [← h, writePushPop_currentFunction]
  case C_POP =>
    cases ha : arg2 tokens <;> simp only [ha, Option.some.injEq, reduceCtorEq] at h
    rw [← h, writePushPop_currentFunction]
  case C_LABEL =>
    simp only [Option.some.injEq] at h
    rw [← h]
    simp only [writeLabel]; split_ifs <;> rfl
  case C_GOTO =>
    simp only [Option.some.injEq] at h
    rw [← h]
    simp only [writeGoto]; split_ifs <;> rfl
  case C_IF =>
    simp only [Option.some.injEq] at h
    rw [← h]
    simp only [writeIf]; split_ifs <;> rfl
  case C_RETURN =>
    simp only [Option.some.injEq] at h
    rw [← h]
    rfl
  case C_CALL =>
    cases ha : arg2 tokens <;> simp only [ha, Option.some.injEq, reduceCtorEq] at h
    rw [← h]
    rfl
  case C_ERROR =>
    simp only [Option.some.injEq] at h
    rw [← h]

theorem translateLines_currentFunction (lines : List String) : ∀ (w w1 : CodeWriter),
    translateLines lines w = some w1 →
    (∀ line ∈ lines, commandType (split (cleanLine line)) ≠ C_FUNCTION) →
    w1.currentFunction = w.currentFunction := by
  induction lines with
  | nil =>
    intro w w1 h _
    simp only [translateLines, Option.some.injEq] at h
    rw [h]
  | cons line rest ih =>
    intro w w1 h hl
    simp only [translateLines] at h
    cases hs : translateLine line w with
    | none => simp [hs] at h
    | some w2 =>
      simp only [hs] at h
      rw [ih w2 w1 h (fun l hlm => hl l (List.mem_cons_of_mem _ hlm))]
      unfold translateLine at hs
      by_cases hc : cleanLine line = []
      · simp only [hc, if_true, Option.some.injEq] at hs
        rw [hs]
      · simp only [hc, if_false] at hs
        exact dispatch_currentFunction _ _ _ hs (hl line (List.mem_cons_self _ _))

/-- C14, as stated, fails: `writeReturn` does not touch the current function name.  After
`function f 0` and its `return`, the name is still `f`, and a following `label L` is emitted as
`(f$L)`, not as `(L)`. -/
theorem C14_scope_not_closed_counterexample :
    (translate [("Main.vm", ["function f 0", "return", "label L"])]).map
        (fun w => (w.currentFunction, w.output.getLast?)) = some ("f", some "(f$L)") ∧
    (writeReturn (writeFunction "f" 0 CodeWriter.init)).currentFunction = "f" := by
  constructor
  · rfl
  · rfl

/-- C14, amended: the function scope opened by `function f n` is not closed by `return`; it lasts
until the next `function` command.  After `function f n` (with `f` non-empty) and any lines that
contain no `function` command, `return` included, the current function name is still `f`, and a
`label`, `goto` or `if-goto` translated then is emitted with the scoped name `f$label`. -/
theorem C14_function_scope_after_return (f L : String) (n : Int) (w w1 : CodeWriter)
    (lines : List String) (hf : f ≠ "")
    (hlines : ∀ line ∈ lines, commandType (split (cleanLine line)) ≠ C_FUNCTION)
    (h : translateLines lines (writeFunction f n w) = some w1) :
    (∀ w0 : CodeWriter, (writeReturn w0).currentFunction = w0.currentFunction) ∧
    w1.currentFunction = f ∧
    emitted (writeLabel L) w1 = ["// label " ++ L, "(" ++ f ++ "$" ++ L ++ ")"] ∧
    emitted (writeGoto L) w1 = ["// goto " ++ L, "@" ++ f ++ "$" ++ L, "0;JMP"] ∧
    emitted (writeIf L) w1 =
      ["// if-goto " ++ L, "@SP", "AM=M-1", "D=M", "@" ++ f ++ "$" ++ L, "D;JNE"] := by
  have hcf : w1.currentFunction = f := by
    rw [translateLines_currentFunction lines _ w1 h hlines]
    exact (writeFunction_fields f n w).1
  refine ⟨fun _ => rfl, hcf, ?_, ?_, ?_⟩
  · simp only [emitted, writeLabel, hcf, hf, if_false, Hack.emit_output, List.append_assoc,
      List.drop_left]
    rfl
  · simp only [emitted, writeGoto, hcf, hf, if_false, Hack.emit_output, List.append_assoc,
      List.drop_left]
    rfl
  · simp only [emitted, writeIf, hcf, hf, if_false, Hack.emit_output, List.append_assoc,
      List.drop_left]
    rfl

theorem C14_function_scope_after_return_witness :
    "f" ≠ "" ∧
    (∀ line ∈ ["push constant 1", "return"], commandType (split (cleanLine line)) ≠ C_FUNCTION) ∧
    ∃ w1, translateLines ["push constant 1", "return"] (writeFunction "f" 0 CodeWriter.init) =
        some w1 ∧
      w1.currentFunction = "f" ∧
      emitted (writeLabel "L") w1 = ["// label L", "(f$L)"] := by
  have hl : ∀ line ∈ ["push constant 1", "return"],
      commandType (split (cleanLine line)) ≠ C_FUNCTION := by decide
  have hw : ∃ w1, translateLines ["push constant 1", "return"]
      (writeFunction "f" 0 CodeWriter.init) = some w1 := ⟨_, rfl⟩
  obtain ⟨w1, h1⟩ := hw
  have h := C14_function_scope_after_return "f" "L" 0 CodeWriter.init w1
    ["push constant 1", "return"] (by decide) hl h1
  exact ⟨by decide, hl, w1, h1, h.2.1, h.2.2.1⟩

end VMTranslator
namespace VMTranslator
open CommandType

/-- The stem of a path whose last component is `m.vm`, with `m` not empty and without `/`, is
`m`. -/
theorem stem_chars (pre m : List Char) (hpre : pre = [] ∨ ∃ d, pre = d ++ ['/'])
    (hs : '/' ∉ m) (hne : m ≠ []) :
    stem (String.mk (pre ++ m ++ ['.', 'v', 'm'])) = String.mk m := by
  have hcomp : (((pre ++ m ++ ['.', 'v', 'm']).reverse.takeWhile fun c => c ≠ '/').reverse) =
      m ++ ['.', 'v', 'm'] := by
    have h1 : (pre ++ m ++ ['.', 'v', 'm']).reverse = (['m', 'v', '.'] ++ m.reverse) ++ pre.reverse := by
      simp
    rw [h1, List.takeWhile_append_of_pos]
    · have h2 : (pre.reverse.takeWhile fun c => decide (c ≠ '/')) = [] := by
        rcases hpre with h | ⟨d, h⟩
        · rw [h]; rfl
        · rw [h]; simp
      rw [h2]
      simp
    · intro c hc
      simp only [List.mem_append, List.mem_cons, List.mem_singleton, List.not_mem_nil, or_false,
        List.mem_reverse] at hc
      rcases hc with (rfl | rfl | rfl) | hc
      · decide
      · decide
      · decide
      · simp only [ne_eq, decide_not, Bool.not_eq_true', decide_eq_false_iff_not]
        intro e
        exact hs (e ▸ hc)
  have hext : ((m ++ ['.', 'v', 'm']).reverse.takeWhile fun c => c ≠ '.') = ['m', 'v'] := by
    simp
  have hlen : 0 < m.length := List.length_pos.2 hne
  unfold stem
  simp only [hcomp, hext]
  have e1 : ¬ (m ++ ['.', 'v', 'm'] = ['.']) := by
    intro e
    have := congrArg List.length e
    simp at this
  have e2 : ¬ (m ++ ['.', 'v', 'm'] = ['.', '.']) := by
    intro e
    have := congrArg List.length e
    simp at this
  have e3 : ¬ ((['m', 'v'] : List Char).length = (m ++ ['.', 'v', 'm']).length) := by
    simp
  have e4 : ¬ ((['m', 'v'] : List Char).length + 1 = (m ++ ['.', 'v', 'm']).length) := by
    simp only [List.length_append, List.length_cons, List.length_nil]
    omega
  simp only [e1, e2, e3, e4, or_self, if_false]
  congr 1
  simp

/-- The module name of a file `m.vm`, alone or in a directory: the stem of the path is `m`. -/
theorem stem_vm (dir m : String) (hs : '/' ∉ m.data) (hne : m ≠ "") :
    stem (dir ++ "/" ++ m ++ ".vm") = m ∧ stem (m ++ ".vm") = m := by
  have hne1 : m.data ≠ [] := fun e => hne (String.ext e)
  constructor
  · have := stem_chars (dir.data ++ ['/']) m.data (Or.inr ⟨_, rfl⟩) hs hne1
    have e : dir ++ "/" ++ m ++ ".vm" = String.mk (dir.data ++ ['/'] ++ m.data ++ ['.', 'v', 'm']) := by
      apply String.ext
      simp only [String.data_append]
    rw [e, this]
  · have := stem_chars [] m.data (Or.inl rfl) hs hne1
    have e : m ++ ".vm" = String.mk ([] ++ m.data ++ ['.', 'v', 'm']) := by
      apply String.ext
      simp only [String.data_append]
      rfl
    rw [e, this]

end VMTranslator
namespace VMTranslator
open CommandType

theorem pop_filename (seg : String) (i : Int) (w : CodeWriter) :
    (pop seg i w).filename = w.filename := by
  simp only [pop, resolveSegmentAddress]
  split_ifs <;> rfl

theorem writeArithmetic_filename (cmd : String) (w : CodeWriter) :
    (writeArithmetic cmd w).filename = w.filename := by
  simp only [writeArithmetic, binaryOp, unaryOp, compareOp]
  split_ifs <;> rfl

theorem writePushPop_filename (t : CommandType) (seg : String) (i : Int) (w : CodeWriter) :
    (writePushPop t seg i w).filename = w.filename := by
  simp only [writePushPop]
  split_ifs
  · rw [(Hack.push_fields _ _ _).2.1]; rfl
  · rw [pop_filename]; rfl

/-- No command changes the name of the current module. -/
theorem dispatch_filename (tokens : List String) (w w1 : CodeWriter)
    (h : dispatch tokens w = some w1) : w1.filename = w.filename := by
  unfold dispatch at h
  cases hct : commandType tokens <;> simp only [hct] at h
  case C_FUNCTION =>
    cases ha : arg2 tokens <;> simp only [ha, Option.some.injEq, reduceCtorEq] at h
    rw [← h, (writeFunction_fields _ _ _).2.2]
  case C_ARITHMETIC =>
    simp only [Option.some.injEq] at h
    rw [← h, writeArithmetic_filename]
  case C_PUSH =>
    cases ha : arg2 tokens <;> simp only [ha, Option.some.injEq, reduceCtorEq] at h
    rw [← h, writePushPop_filename]
  case C_POP =>
    cases ha : arg2 tokens <;> simp only [ha, Option.some.injEq, reduceCtorEq] at h
    rw [← h, writePushPop_filename]
  case C_LABEL =>
    simp only [Option.some.injEq] at h
    rw [← h]
    simp only [writeLabel]; split_ifs <;> rfl
  case C_GOTO =>
    simp only [Option.some.injEq] at h
    rw [← h]
    simp only [writeGoto]; split_ifs <;> rfl
  case C_IF =>
    simp only [Option.some.injEq] at h
    rw [← h]
    simp only [writeIf]; split_ifs <;> rfl
  case C_RETURN =>
    simp only [Option.some.injEq] at h
    rw [← h]
    rfl
  case C_CALL =>
    cases ha : arg2 tokens <;> simp only [ha, Option.some.injEq, reduceCtorEq] at h
    rw [← h]
    rfl
  case C_ERROR =>
    simp only [Option.some.injEq] at h
    rw [← h]

theorem translateLine_filename (line : String) (w w1 : CodeWriter)
    (h : translateLine line w = some w1) : w1.filename = w.filename := by
  unfold translateLine at h
  by_cases hc : cleanLine line = []
  · simp only [hc, if_true, Option.some.injEq] at h
    rw [h]
  · simp only [hc, if_false] at h
    exact dispatch_filename _ _ _ h

/-- The name of the current module does not change while the lines of a module are translated. -/
theorem translateLines_filename (lines : List String) : ∀ (w w1 : CodeWriter),
    translateLines lines w = some w1 → w1.filename = w.filename := by
  induction lines with
  | nil =>
    intro w w1 h
    simp only [translateLines, Option.some.injEq] at h
    rw [h]
  | cons line rest ih =>
    intro w w1 h
    simp only [translateLines] at h
    cases hs : translateLine line w with
    | none => simp [hs] at h
    | some w2 =>
      simp only [hs] at h
      rw [ih w2 w1 h, translateLine_filename line w w2 hs]

/-- A run over the lines of a module passes through the writer states before and after each of
its lines. -/
theorem translateLines_split (before : List String) (line : String) (after : List String) :
    ∀ (w w1 : CodeWriter), translateLines (before ++ line :: after) w = some w1 →
    ∃ wa wb, translateLines before w = some wa ∧ translateLine line wa = some wb ∧
      translateLines after wb = some w1 := by
  induction before with
  | nil =>
    intro w w1 h
    simp only [List.nil_append, translateLines] at h
    cases hs : translateLine line w with
    | none => simp [hs] at h
    | some w2 =>
      simp only [hs] at h
      exact ⟨w, w2, rfl, hs, h⟩
  | cons l rest ih =>
    intro w w1 h
    simp only [List.cons_append, translateLines] at h
    cases hs : translateLine l w with
    | none => simp [hs] at h
    | some w2 =>
      simp only [hs] at h
      obtain ⟨wa, wb, h1, h2, h3⟩ := ih w2 w1 h
      exact ⟨wa, wb, by simp only [translateLines, hs, h1], h2, h3⟩

/-- A run over the modules passes through the writer states before and after each module, and
the lines of a module are translated after `setFileName` with the path of the module. -/
theorem translateFiles_split (pre : List (String × List String)) (file : String × List String)
    (post : List (String × List String)) :
    ∀ (w w1 : CodeWriter), translateFiles (pre ++ file :: post) w = some w1 →
    ∃ w0 w2, translateFiles pre w = some w0 ∧
      translateLines file.2 (setFileName file.1 w0) = some w2 ∧
      translateFiles post w2 = some w1 := by
  induction pre with
  | nil =>
    intro w w1 h
    simp only [List.nil_append, translateFiles] at h
    cases hs : translateLines file.2 (setFileName file.1 w) with
    | none => simp [hs] at h
    | some w2 =>
      simp only [hs] at h
      exact ⟨w, w2, rfl, hs, h⟩
  | cons f rest ih =>
    intro w w1 h
    simp only [List.cons_append, translateFiles] at h
    cases hs : translateLines f.2 (setFileName f.1 w) with
    | none => simp [hs] at h
    | some w2 =>
      simp only [hs] at h
      obtain ⟨w0, w3, h1, h2, h3⟩ := ih w2 w1 h
      exact ⟨w0, w3, by simp only [translateFiles, hs, h1], h2, h3⟩

/-- The code of `push static i` and `pop static i` in terms of the current module name. -/
theorem static_code (w : CodeWriter) (i : Int) :
    (writePushPop C_PUSH "static" i w).output = w.output ++
      ["// push static " ++ decimal i, "@" ++ w.filename ++ "." ++ decimal i, "D=M",
        "@SP", "A=M", "M=D", "@SP", "M=M+1"] ∧
    (writePushPop C_POP "static" i w).output = w.output ++
      ["// pop static " ++ decimal i, "@SP", "AM=M-1", "D=M",
        "@" ++ w.filename ++ "." ++ decimal i, "M=D"] := by
  constructor
  · simp [writePushPop, push, CodeWriter.emit, String.append_assoc]
  · simp [writePushPop, pop, CodeWriter.emit, String.append_assoc]

/-- A line whose tokens are `push static t` or `pop static t`, with `t` read as `i` by
`std::stoi`, is translated by `writePushPop` with the segment `static` and the index `i`. -/
theorem translateLine_static (line t : String) (more : List String) (i : Int) (w : CodeWriter)
    (hi : stoi t = StoiResult.value i) :
    (split (cleanLine line) = "push" :: "static" :: t :: more →
      translateLine line w = some (writePushPop C_PUSH "static" i w)) ∧
    (split (cleanLine line) = "pop" :: "static" :: t :: more →
      translateLine line w = some (writePushPop C_POP "static" i w)) := by
  constructor
  · intro hsp
    have hc : cleanLine line ≠ [] := by
      intro e
      rw [e] at hsp
      exact absurd hsp (by simp [split, splitAux])
    simp only [translateLine, hc, if_false, hsp, dispatch, commandType, if_true, arg2, hi, arg1,
      reduceCtorEq]
  · intro hsp
    have hc : cleanLine line ≠ [] := by
      intro e
      rw [e] at hsp
      exact absurd hsp (by simp [split, splitAux])
    simp only [translateLine, hc, if_false, hsp, dispatch, commandType, String.reduceEq, if_true,
      arg2, hi, arg1, reduceCtorEq]

/-- The static variables of a module in the loop of `main`: when a run over the modules reaches a line
`push static t` or `pop static t` of the module at `path`, the code it appends names the symbol
`stem path + "." + decimal i`, where `i` is the value `std::stoi` reads from `t`. -/
theorem translateFiles_static (files : List (String × List String)) (w wEnd : CodeWriter)
    (h : translateFiles files w = some wEnd)
    (pre : List (String × List String)) (path : String) (before : List String) (line : String)
    (after : List String) (post : List (String × List String))
    (hfiles : files = pre ++ (path, before ++ line :: after) :: post) :
    ∃ wa wb, wa.filename = stem path ∧ translateLine line wa = some wb ∧
      (∃ l, wa.output = w.output ++ l) ∧ (∃ l, wEnd.output = wb.output ++ l) ∧
      ∀ (t : String) (more : List String) (i : Int), stoi t = StoiResult.value i →
        (split (cleanLine line) = "push" :: "static" :: t :: more →
          wb.output = wa.output ++
            ["// push static " ++ decimal i, "@" ++ stem path ++ "." ++ decimal i, "D=M",
              "@SP", "A=M", "M=D", "@SP", "M=M+1"]) ∧
        (split (cleanLine line) = "pop" :: "static" :: t :: more →
          wb.output = wa.output ++
            ["// pop static " ++ decimal i, "@SP", "AM=M-1", "D=M",
              "@" ++ stem path ++ "." ++ decimal i, "M=D"]) := by
  subst hfiles
  obtain ⟨w0, w2, h0, h1, h2⟩ := translateFiles_split pre _ post w wEnd h
  obtain ⟨wa, wb, ha, hb, hc⟩ := translateLines_split before line after _ w2 h1
  have hfn : wa.filename = stem path := by
    rw [translateLines_filename before _ wa ha]
    rfl
  obtain ⟨l0, hl0⟩ := translateFiles_appends pre w w0 h0
  obtain ⟨l1, hl1⟩ := translateLines_appends before _ wa ha
  obtain ⟨l2, hl2⟩ := translateLines_appends after wb w2 hc
  obtain ⟨l3, hl3⟩ := translateFiles_appends post w2 wEnd h2
  refine ⟨wa, wb, hfn, hb, ⟨l0 ++ l1, ?_⟩, ⟨l2 ++ l3, ?_⟩, ?_⟩
  · have e : (setFileName (path, before ++ line :: after).1 w0).output = w0.output := rfl
    rw [hl1, e, hl0, List.append_assoc]
  · rw [hl3, hl2, List.append_assoc]
  · intro t more i hi
    obtain ⟨hpush, hpop⟩ := translateLine_static line t more i wa hi
    constructor
    · intro hsp
      have e := hpush hsp
      rw [hb, Option.some.injEq] at e
      rw [e, (static_code wa i).1, hfn]
    · intro hsp
      have e := hpop hsp
      rw [hb, Option.some.injEq] at e
      rw [e, (static_code wa i).2, hfn]

end VMTranslator
namespace VMTranslator
open CommandType
namespace Hack

/-- The symbols collected by the loop of `Program.variables`: those it started with and the variables
among the operands of the A-instructions. -/
theorem mem_variables_fold (p : Program) (sym : String) (rom : List Instr) :
    ∀ vars : List String,
    sym ∈ rom.foldl
        (fun vars i =>
          match i with
          | Instr.A s => if p.isVariable s && !vars.contains s then vars ++ [s] else vars
          | _ => vars)
        vars ↔
      sym ∈ vars ∨ (Instr.A sym ∈ rom ∧ p.isVariable sym = true) := by
  induction rom with
  | nil => intro vars; simp
  | cons i rest ih =>
    intro vars
    rw [List.foldl_cons, ih]
    cases i with
    | A s =>
      by_cases hv : p.isVariable s = true
      · by_cases hc : vars.contains s = true
        · simp only [hv, hc, Bool.not_true, Bool.and_false, Bool.false_eq_true, if_false,
            List.mem_cons, Instr.A.injEq]
          constructor
          · rintro (h | ⟨h1, h2⟩)
            · exact Or.inl h
            · exact Or.inr ⟨Or.inr h1, h2⟩
          · rintro (h | ⟨h1 | h1, h2⟩)
            · exact Or.inl h
            · left
              rw [h1]
              simpa using hc
            · exact Or.inr ⟨h1, h2⟩
        · simp only [hv, hc, Bool.not_false, Bool.and_true, if_true, List.mem_append,
            List.mem_singleton, List.mem_cons, Instr.A.injEq, List.not_mem_nil, or_false]
          constructor
          · rintro ((h | h) | ⟨h1, h2⟩)
            · exact Or.inl h
            · exact Or.inr ⟨Or.inl h, by rw [h]; exact hv⟩
            · exact Or.inr ⟨Or.inr h1, h2⟩
          · rintro (h | ⟨h1 | h1, h2⟩)
            · exact Or.inl (Or.inl h)
            · exact Or.inl (Or.inr h1)
            · exact Or.inr ⟨h1, h2⟩
      · simp only [hv, Bool.false_and, Bool.false_eq_true, if_false, List.mem_cons,
          Instr.A.injEq]
        constructor
        · rintro (h | ⟨h1, h2⟩)
          · exact Or.inl h
          · exact Or.inr ⟨Or.inr h1, h2⟩
        · rintro (h | ⟨h1 | h1, h2⟩)
          · exact Or.inl h
          · rw [h1] at h2
            exact absurd h2 hv
          · exact Or.inr ⟨h1, h2⟩
    | C d c j => simp
    | invalid => simp

/-- The variables of a program are the variables among the operands of its A-instructions. -/
theorem mem_variables (p : Program) (sym : String) :
    sym ∈ p.variables ↔ Instr.A sym ∈ p.rom ∧ p.isVariable sym = true := by
  have h := mem_variables_fold p sym p.rom []
  simp only [List.not_mem_nil, false_or] at h
  exact h

/-- A variable is given the RAM address 16 plus its rank among the variables. -/
theorem resolve_variable (p : Program) (sym : String) (h : p.isVariable sym = true) :
    p.resolve sym = some (16 + p.variables.indexOf sym) := by
  simp only [Program.isVariable, Bool.and_eq_true, Bool.not_eq_true',
    Option.isNone_iff_eq_none] at h
  unfold Program.resolve
  rw [h.1.1, h.1.2, h.2]
  rfl

/-- The symbol of a static variable is a variable of a program unless the program defines it as a
label. -/
theorem static_isVariable (p : Program) (m : String) (i : Int)
    (hl : p.labels.lookup (m ++ "." ++ decimal i) = none) :
    p.isVariable (m ++ "." ++ decimal i) = true := by
  have hmem : '.' ∈ (m ++ "." ++ decimal i).data := by
    simp only [String.data_append, List.mem_append]
    exact Or.inl (Or.inr (by decide))
  simp only [Program.isVariable, isNumeral_false _ '.' hmem (by decide),
    predefined_lookup_none _ '.' hmem ⟨by decide, by decide⟩, hl]
  rfl

/-- Two distinct variables that a program uses are given distinct RAM cells, from address 16 on, as
long as the variables fit into the RAM. -/
theorem variable_cells (p : Program) (s1 s2 : String) (hne : s1 ≠ s2)
    (h1 : p.isVariable s1 = true) (h2 : p.isVariable s2 = true)
    (hr1 : Instr.A s1 ∈ p.rom) (hr2 : Instr.A s2 ∈ p.rom) (hfit : p.variables.length ≤ 32752) :
    ∃ a1 a2, p.resolve s1 = some a1 ∧ p.resolve s2 = some a2 ∧
      16 ≤ a1 ∧ a1 < 32768 ∧ 16 ≤ a2 ∧ a2 < 32768 ∧ a1 ≠ a2 := by
  have hm1 : s1 ∈ p.variables := (mem_variables p s1).2 ⟨hr1, h1⟩
  have hm2 : s2 ∈ p.variables := (mem_variables p s2).2 ⟨hr2, h2⟩
  have hi1 := List.indexOf_lt_length.2 hm1
  have hi2 := List.indexOf_lt_length.2 hm2
  refine ⟨_, _, resolve_variable p s1 h1, resolve_variable p s2 h2, by omega, by omega, by omega,
    by omega, ?_⟩
  intro e
  have e1 : p.variables.indexOf s1 = p.variables.indexOf s2 := by omega
  exact hne ((List.indexOf_inj hm1 hm2).1 e1)

end Hack
end VMTranslator
namespace VMTranslator
open CommandType
namespace Hack

/-- The code of `pop static i` followed by that of `push static i`, placed anywhere in ROM, with the
symbol assembled to the RAM address `a`: the pop stores the top of the stack into the cell `a`, and
the push reads the same cell, so the value is back on the stack; no other cell changes. -/
theorem static_round_trip (p : Program) (sym : String) (a s : Nat) (st : State)
    (hres : p.resolve sym = some a) (ha0 : 16 ≤ a) (ha1 : a < 32768)
    (hcode : CodeAt p.rom st.pc
      [Instr.A "SP", Instr.C ⟨true, false, true⟩ Comp.mMinus1 Jump.null,
        Instr.C ⟨false, true, false⟩ Comp.m Jump.null, Instr.A sym,
        Instr.C ⟨false, false, true⟩ Comp.d Jump.null,
        Instr.A sym, Instr.C ⟨false, true, false⟩ Comp.m Jump.null, Instr.A "SP",
        Instr.C ⟨true, false, false⟩ Comp.m Jump.null,
        Instr.C ⟨false, false, true⟩ Comp.d Jump.null, Instr.A "SP",
        Instr.C ⟨false, false, true⟩ Comp.mPlus1 Jump.null])
    (hsp : st.ram 0 = s) (hs0 : 2 ≤ s) (hs1 : s ≤ 32768) :
    ∃ st5 st12, runN p 5 st = some st5 ∧ st5.pc = st.pc + 5 ∧ st5.ram 0 = s - 1 ∧
      st5.ram a = st.ram (s - 1) ∧
      runN p 12 st = some st12 ∧ st12.pc = st.pc + 12 ∧ st12.ram 0 = s ∧
      st12.ram a = st.ram (s - 1) ∧ st12.ram (s - 1) = st.ram (s - 1) ∧
      ∀ k, k ≠ 0 → k ≠ a → k ≠ s - 1 → st12.ram k = st.ram k := by
  obtain ⟨a0, d0, pc0, ram⟩ := st
  simp only [] at hsp hcode ⊢
  have h0 : runN p 0 ⟨a0, d0, pc0, ram⟩ = some ⟨a0, d0, pc0, ram⟩ := rfl
  obtain ⟨c1, c2⟩ := codeAt_split 5 hcode (by simp)
  simp only [List.take_succ_cons, List.take_zero, List.drop_succ_cons, List.drop_zero] at c1 c2
  have h5 := runN_then_seq p h0 _ c1 (by simp [noJump])
  have e1 : ¬ (s = 0) := by omega
  have e2 : (0 : Nat) ≠ s - 1 := by omega
  have e3 : s - 1 ≠ 0 := by omega
  have e4 : (0 : Nat) ≠ a := by omega
  have e5 : a ≠ 0 := by omega
  have e6 : s - 1 + 1 = s := by omega
  simp (disch := omega) only [List.length_cons, List.length_nil, Nat.zero_add, Nat.reduceAdd,
    execSeq_A _ _ _ _ _ _ _ _ (resolve_SP p), execSeq_A _ _ _ _ _ _ _ _ hres,
    execSeq_D_eq_A, execSeq_A_eq_M, execSeq_M_eq_D, execSeq_M_eq_M_plus_1, execSeq_AM_eq_M_minus_1, execSeq_D_eq_M, execSeq_A_eq_A_minus_1, execSeq_M_eq_D_plus_M, execSeq_M_eq_M_minus_D, execSeq_M_eq_D_and_M, execSeq_M_eq_D_or_M, execSeq_A_eq_M_minus_1, execSeq_M_eq_minus_M, execSeq_M_eq_not_M, execSeq_D_eq_M_minus_D, execSeq_M_eq_0, execSeq_M_eq_minus_1, execSeq_A_eq_D_plus_A, execSeq_D_eq_D_minus_A, execSeq_D_eq_M_plus_1, execSeq_A_eq_D, execSeq_A_eq_D_minus_A, execSeq_nil, Nat.zero_mod, hsp, e1, if_false, Nat.mod_eq_of_lt,
    store_same, store_ne _ _ _ _ e3, store_ne _ _ _ _ e5] at h5
  have h12 := runN_then_seq p h5 _ c2 (by simp [noJump])
  simp (disch := omega) only [List.length_cons, List.length_nil, Nat.zero_add, Nat.reduceAdd,
    execSeq_A _ _ _ _ _ _ _ _ (resolve_SP p), execSeq_A _ _ _ _ _ _ _ _ hres,
    execSeq_D_eq_A, execSeq_A_eq_M, execSeq_M_eq_D, execSeq_M_eq_M_plus_1, execSeq_AM_eq_M_minus_1, execSeq_D_eq_M, execSeq_A_eq_A_minus_1, execSeq_M_eq_D_plus_M, execSeq_M_eq_M_minus_D, execSeq_M_eq_D_and_M, execSeq_M_eq_D_or_M, execSeq_A_eq_M_minus_1, execSeq_M_eq_minus_M, execSeq_M_eq_not_M, execSeq_D_eq_M_minus_D, execSeq_M_eq_0, execSeq_M_eq_minus_1, execSeq_A_eq_D_plus_A, execSeq_D_eq_D_minus_A, execSeq_D_eq_M_plus_1, execSeq_A_eq_D, execSeq_A_eq_D_minus_A, execSeq_nil, Nat.zero_mod, hsp, e1, if_false, Nat.mod_eq_of_lt,
    store_same, store_ne _ _ _ _ e2, store_ne _ _ _ _ e4, e6] at h12
  refine ⟨_, _, h5, rfl, ?_, ?_, h12, rfl, ?_, ?_, ?_, ?_⟩
  · simp only [store_ne _ _ _ _ e4, store_same]
  · simp only [store_same]
  · simp only [store_same]
  · show store (store (store (store ram 0 (s - 1)) a (ram (s - 1))) (s - 1) (ram (s - 1))) 0 s a =
      ram (s - 1)
    rw [store_ne _ _ _ _ e5]
    by_cases hk : a = s - 1
    · rw [hk, store_same]
    · rw [store_ne _ _ _ _ hk, store_same]
  · simp only [store_ne _ _ _ _ e3, store_same]
  · intro k hk0 hka hks
    simp only [store, hk0, hka, hks, if_false]

end Hack
end VMTranslator
namespace VMTranslator
open CommandType
namespace Hack

/-- The instructions of the code of `pop static i` followed by the code of `push static i`: both
A-instructions on the static variable carry the symbol `filename.i`. -/
theorem static_rom (w : CodeWriter) (i : Int) :
    romOf ((emitted (writePushPop C_POP "static" i) w ++
        emitted (writePushPop C_PUSH "static" i) (writePushPop C_POP "static" i w)).map
          parseLine) =
      [Instr.A "SP", Instr.C ⟨true, false, true⟩ Comp.mMinus1 Jump.null,
        Instr.C ⟨false, true, false⟩ Comp.m Jump.null,
        Instr.A (w.filename ++ "." ++ decimal i),
        Instr.C ⟨false, false, true⟩ Comp.d Jump.null,
        Instr.A (w.filename ++ "." ++ decimal i),
        Instr.C ⟨false, true, false⟩ Comp.m Jump.null, Instr.A "SP",
        Instr.C ⟨true, false, false⟩ Comp.m Jump.null,
        Instr.C ⟨false, false, true⟩ Comp.d Jump.null, Instr.A "SP",
        Instr.C ⟨false, false, true⟩ Comp.mPlus1 Jump.null] := by
  have e1 : emitted (writePushPop C_POP "static" i) w =
      ["// pop static " ++ decimal i, "@SP", "AM=M-1", "D=M",
        "@" ++ w.filename ++ "." ++ decimal i, "M=D"] := by
    unfold emitted
    rw [(static_code w i).2, List.drop_left]
  have e2 : emitted (writePushPop C_PUSH "static" i) (writePushPop C_POP "static" i w) =
      ["// push static " ++ decimal i, "@" ++ w.filename ++ "." ++ decimal i, "D=M",
        "@SP", "A=M", "M=D", "@SP", "M=M+1"] := by
    unfold emitted
    rw [(static_code _ i).1, List.drop_left, writePushPop_filename]
  rw [e1, e2]
  simp only [String.append_assoc, parseLine_at, parseLine_comment, List.cons_append,
    List.nil_append, List.map_cons, List.map_nil, mk_SP, parseLine_D_eq_A, parseLine_A_eq_M, parseLine_M_eq_D, parseLine_M_eq_M_plus_1, parseLine_AM_eq_M_minus_1, parseLine_D_eq_M, parseLine_A_eq_A_minus_1, parseLine_M_eq_D_plus_M, parseLine_M_eq_M_minus_D, parseLine_M_eq_D_and_M, parseLine_M_eq_D_or_M, parseLine_A_eq_M_minus_1, parseLine_M_eq_minus_M, parseLine_M_eq_not_M, parseLine_D_eq_M_minus_D, parseLine_D_JEQ, parseLine_D_JGT, parseLine_D_JLT, parseLine_M_eq_0, parseLine_0_JMP, parseLine_M_eq_minus_1, parseLine_A_eq_D_plus_A, parseLine_D_eq_D_minus_A, parseLine_D_eq_M_plus_1, parseLine_A_eq_D, parseLine_A_eq_D_minus_A, parseLine_D_JNE]
  simp only [romOf]

end Hack
end VMTranslator
namespace VMTranslator
open CommandType

/-- C7: static naming.  While `m` is the current module name, `push static i` and `pop static i`
both reference the symbol `m + "." + decimal(i)`, and the map from (module name, index) to the
symbol is injective: two distinct module names never share a symbol, whatever the indices.
The current module name is set by `setFileName` to the stem of the path of the module (`m` for a
file `m.vm`, alone or in a directory), and it is the name in force for every line of that module in
the loop of `main`: a line `push static t` or `pop static t` of the module at `path` is translated
with the symbol `stem path + "." + decimal i`.  In an assembled program that uses the symbols of
two different (module, index) pairs and defines neither of them as a label, the two symbols are
variables with different RAM cells (from address 16 on, as long as the variables fit into the
RAM); the code of `pop static i` stores the top of the stack into the cell of its symbol and the
code of `push static i` reads it from the same cell, and no other cell changes. -/
theorem C7_static_naming (m1 m2 : String) (i1 i2 : Int) (hm : m1 ≠ m2) :
    (∀ (w : CodeWriter) (i : Int),
      emitted (writePushPop C_PUSH "static" i) w =
        ["// push static " ++ decimal i, "@" ++ w.filename ++ "." ++ decimal i, "D=M",
          "@SP", "A=M", "M=D", "@SP", "M=M+1"] ∧
      emitted (writePushPop C_POP "static" i) w =
        ["// pop static " ++ decimal i, "@SP", "AM=M-1", "D=M",
          "@" ++ w.filename ++ "." ++ decimal i, "M=D"] ∧
      Hack.parseLine ("@" ++ w.filename ++ "." ++ decimal i) =
        Hack.Line.instr (Hack.Instr.A (w.filename ++ "." ++ decimal i))) ∧
    (∀ (a b : String) (i j : Int), a ++ "." ++ decimal i = b ++ "." ++ decimal j → a = b ∧ i = j) ∧
    m1 ++ "." ++ decimal i1 ≠ m2 ++ "." ++ decimal i2 ∧
    (∀ (path : String) (w : CodeWriter) (i : Int),
      (setFileName path w).filename = stem path ∧
      emitted (writePushPop C_PUSH "static" i) (setFileName path w) =
        ["// push static " ++ decimal i, "@" ++ stem path ++ "." ++ decimal i, "D=M",
          "@SP", "A=M", "M=D", "@SP", "M=M+1"] ∧
      emitted (writePushPop C_POP "static" i) (setFileName path w) =
        ["// pop static " ++ decimal i, "@SP", "AM=M-1", "D=M",
          "@" ++ stem path ++ "." ++ decimal i, "M=D"]) ∧
    (∀ dir m : String, '/' ∉ m.data → m ≠ "" →
      stem (dir ++ "/" ++ m ++ ".vm") = m ∧ stem (m ++ ".vm") = m) ∧
    (∀ (files : List (String × List String)) (w wEnd : CodeWriter),
      translateFiles files w = some wEnd →
      ∀ (pre : List (String × List String)) (path : String) (before : List String)
        (line : String) (after : List String) (post : List (String × List String)),
      files = pre ++ (path, before ++ line :: after) :: post →
      ∃ wa wb, wa.filename = stem path ∧ translateLine line wa = some wb ∧
        (∃ l, wa.output = w.output ++ l) ∧ (∃ l, wEnd.output = wb.output ++ l) ∧
        ∀ (t : String) (more : List String) (i : Int), stoi t = StoiResult.value i →
          (split (cleanLine line) = "push" :: "static" :: t :: more →
            wb.output = wa.output ++
              ["// push static " ++ decimal i, "@" ++ stem path ++ "." ++ decimal i, "D=M",
                "@SP", "A=M", "M=D", "@SP", "M=M+1"]) ∧
          (split (cleanLine line) = "pop" :: "static" :: t :: more →
            wb.output = wa.output ++
              ["// pop static " ++ decimal i, "@SP", "AM=M-1", "D=M",
                "@" ++ stem path ++ "." ++ decimal i, "M=D"])) ∧
    (∀ (p : Hack.Program) (a b : String) (i j : Int), a ≠ b ∨ i ≠ j →
      p.labels.lookup (a ++ "." ++ decimal i) = none →
      p.labels.lookup (b ++ "." ++ decimal j) = none →
      Hack.Instr.A (a ++ "." ++ decimal i) ∈ p.rom →
      Hack.Instr.A (b ++ "." ++ decimal j) ∈ p.rom →
      p.variables.length ≤ 32752 →
      ∃ a1 a2, p.resolve (a ++ "." ++ decimal i) = some a1 ∧
        p.resolve (b ++ "." ++ decimal j) = some a2 ∧
        16 ≤ a1 ∧ a1 < 32768 ∧ 16 ≤ a2 ∧ a2 < 32768 ∧ a1 ≠ a2) ∧
    (∀ (w : CodeWriter) (i : Int) (p : Hack.Program) (st : Hack.State) (a s : Nat),
      p.resolve (w.filename ++ "." ++ decimal i) = some a → 16 ≤ a → a < 32768 →
      Hack.CodeAt p.rom st.pc
        (Hack.romOf ((emitted (writePushPop C_POP "static" i) w ++
          emitted (writePushPop C_PUSH "static" i) (writePushPop C_POP "static" i w)).map
            Hack.parseLine)) →
      st.ram 0 = s → 2 ≤ s → s ≤ 32768 →
      ∃ st5 st12, Hack.runN p 5 st = some st5 ∧ st5.pc = st.pc + 5 ∧ st5.ram 0 = s - 1 ∧
        st5.ram a = st.ram (s - 1) ∧
        Hack.runN p 12 st = some st12 ∧ st12.pc = st.pc + 12 ∧ st12.ram 0 = s ∧
        st12.ram a = st.ram (s - 1) ∧ st12.ram (s - 1) = st.ram (s - 1) ∧
        ∀ k, k ≠ 0 → k ≠ a → k ≠ s - 1 → st12.ram k = st.ram k) := by
  have hemit : ∀ (w : CodeWriter) (i : Int),
      emitted (writePushPop C_PUSH "static" i) w =
        ["// push static " ++ decimal i, "@" ++ w.filename ++ "." ++ decimal i, "D=M",
          "@SP", "A=M", "M=D", "@SP", "M=M+1"] ∧
      emitted (writePushPop C_POP "static" i) w =
        ["// pop static " ++ decimal i, "@SP", "AM=M-1", "D=M",
          "@" ++ w.filename ++ "." ++ decimal i, "M=D"] := by
    intro w i
    unfold emitted
    rw [(static_code w i).1, (static_code w i).2, List.drop_left, List.drop_left]
    exact ⟨rfl, rfl⟩
  have hne : m1 ++ "." ++ decimal i1 ≠ m2 ++ "." ++ decimal i2 :=
    fun h => hm (static_symbol_inj h).1
  refine ⟨?_, fun a b i j h => static_symbol_inj h, hne, ?_, ?_, ?_, ?_, ?_⟩
  · intro w i
    refine ⟨(hemit w i).1, (hemit w i).2, ?_⟩
    rw [String.append_assoc, String.append_assoc, Hack.parseLine_at, String.append_assoc]
  · intro path w i
    exact ⟨rfl, (hemit (setFileName path w) i).1, (hemit (setFileName path w) i).2⟩
  · intro dir m hs hne1
    exact stem_vm dir m hs hne1
  · intro files w wEnd h pre path before line after post hfiles
    exact translateFiles_static files w wEnd h pre path before line after post hfiles
  · intro p a b i j hab hl1 hl2 hr1 hr2 hfit
    have hsym : a ++ "." ++ decimal i ≠ b ++ "." ++ decimal j := by
      intro e
      obtain ⟨e1, e2⟩ := static_symbol_inj e
      rcases hab with h | h
      · exact h e1
      · exact h e2
    exact Hack.variable_cells p _ _ hsym (Hack.static_isVariable p a i hl1)
      (Hack.static_isVariable p b j hl2) hr1 hr2 hfit
  · intro w i p st a s hres ha0 ha1 hcode hsp hs0 hs1
    rw [Hack.static_rom] at hcode
    exact Hack.static_round_trip p _ a s st hres ha0 ha1 hcode hsp hs0 hs1

set_option maxRecDepth 100000 in
theorem C7_static_naming_witness :
    ("Foo" : String) ≠ "Bar" ∧ "Foo" ++ "." ++ decimal 3 ≠ "Bar" ++ "." ++ decimal 3 ∧
    emitted (writePushPop C_POP "static" 3) ⟨[], "", "Foo", 0⟩ =
      ["// pop static 3", "@SP", "AM=M-1", "D=M", "@Foo.3", "M=D"] ∧
    stem "dir/Foo.vm" = "Foo" ∧
    (translateFiles [("dir/Foo.vm", ["push constant 7", "pop static 3"]),
        ("Bar.vm", ["push static 3"])] CodeWriter.init).map
      (fun w => (addressOperands w.output, (Hack.assemble w.output).resolve "Foo.3",
        (Hack.assemble w.output).resolve "Bar.3")) =
      some (["7", "SP", "SP", "SP", "Foo.3", "Bar.3", "SP", "SP"], some 16, some 17) :=
  ⟨by decide, (C7_static_naming "Foo" "Bar" 3 3 (by decide)).2.2.1, by rfl, by rfl, by rfl⟩

end VMTranslator
namespace VMTranslator
open CommandType
namespace Hack

/-- C15: whenever the bootstrap is emitted, the output of the run starts with it, before the code
of any module.  It is the comment line, the four instructions that set `SP` to 256 and exactly
the lines `writeCall` emits for `call Sys.init 0` from a fresh writer (global scope, counter 0),
listed below; the modules are then translated from a writer whose label counter is 1 and whose
current function name is empty.  On the machine, started at ROM address 0, the prologue runs 51
instructions and leaves `SP = 261`, `LCL = 261`, `ARG = 256 = SP - 5`, the address of the label
`$ret.0` (ROM address 51) in `RAM[256]`, the previous `LCL`, `ARG`, `THIS`, `THAT` in
`RAM[257..260]`, and the program counter at the address of `Sys.init`. -/
theorem C15_bootstrap_content (vmFiles : List (String × List String)) (w1 : CodeWriter)
    (st : State) (hs : hasSysInit vmFiles = true) (h : translate vmFiles = some w1)
    (hpc : st.pc = 0) :
    (∃ rest, w1.output =
      ["// Bootstrap initialization", "@256", "D=A", "@SP", "M=D"] ++
        emitted (writeCall "Sys.init" 0) CodeWriter.init ++ rest) ∧
    emitted (writeCall "Sys.init" 0) CodeWriter.init =
      ["// call Sys.init 0", "@$ret.0", "D=A", "@SP", "A=M", "M=D", "@SP", "M=M+1",
        "@LCL", "D=M", "@SP", "A=M", "M=D", "@SP", "M=M+1",
        "@ARG", "D=M", "@SP", "A=M", "M=D", "@SP", "M=M+1",
        "@THIS", "D=M", "@SP", "A=M", "M=D", "@SP", "M=M+1",
        "@THAT", "D=M", "@SP", "A=M", "M=D", "@SP", "M=M+1",
        "@SP", "D=M", "@5", "D=D-A", "@ARG", "M=D",
        "@SP", "D=M", "@LCL", "M=D", "@Sys.init", "0;JMP", "($ret.0)"] ∧
    translateFiles vmFiles (writeInit CodeWriter.init) = some w1 ∧
    (writeInit CodeWriter.init).labelCounter = 1 ∧
    (writeInit CodeWriter.init).currentFunction = "" ∧
    (assemble w1.output).labels.lookup "$ret.0" = some 51 ∧
    ∃ st1, runN (assemble w1.output) 51 st = some st1 ∧
      (assemble w1.output).resolve "Sys.init" = some st1.pc ∧
      (∀ a, (assemble w1.output).labels.lookup "Sys.init" = some a → st1.pc = a) ∧
      st1.ram 0 = 261 ∧ st1.ram 1 = 261 ∧ st1.ram 2 = 256 ∧ st1.ram 256 = 51 ∧
      st1.ram 257 = st.ram 1 ∧ st1.ram 258 = st.ram 2 ∧ st1.ram 259 = st.ram 3 ∧
      st1.ram 260 = st.ram 4 := by
  have h1 : translateFiles vmFiles (writeInit CodeWriter.init) = some w1 := by
    unfold translate at h
    simpa only [hs, if_true] using h
  obtain ⟨rest, hrest⟩ := translateFiles_appends _ _ _ h1
  have hboot : (writeInit CodeWriter.init).output =
      ["// Bootstrap initialization", "@256", "D=A", "@SP", "M=D"] ++
        emitted (writeCall "Sys.init" 0) CodeWriter.init := by rfl
  rw [hboot] at hrest
  refine ⟨⟨rest, hrest⟩, by rfl, h1, rfl, rfl, ?_⟩
  generalize hp : assemble w1.output = p
  have hrom : p.rom = [Instr.A "256", Instr.C ⟨false, true, false⟩ Comp.a Jump.null,
      Instr.A "SP", Instr.C ⟨false, false, true⟩ Comp.d Jump.null] ++
      (romOf ((emitted (writeCall "Sys.init" ((0 : Nat) : Int)) CodeWriter.init).map parseLine) ++
        romOf (rest.map parseLine)) := by
    rw [← hp, hrest]
    simp only [assemble, List.map_append, romOf_append, List.append_assoc]
    rfl
  have hlab : p.labels = ("$ret.0", 51) :: labelTable (rest.map parseLine) 51 := by
    rw [← hp, hrest]
    simp only [assemble, List.map_append, labelTable_append, writeCall_labels,
      writeCall_rom_length]
    rfl
  clear hp
  have hret : p.resolve (CodeWriter.init.currentFunction ++ "$ret." ++
      decimal CodeWriter.init.labelCounter) = some 51 :=
    resolve_label p _ 51 '$' (by decide) (by decide) (by rw [hlab]; rfl)
  obtain ⟨fa, hfa⟩ := resolve_some p "Sys.init" (by rfl)
  have hcode : CodeAt p.rom 0 p.rom := by simpa using codeAt_zero p.rom []
  nth_rewrite 2 [hrom] at hcode
  have hc1 := codeAt_left hcode
  have hc2 := codeAt_left (codeAt_right hcode)
  simp only [List.length_cons, List.length_nil, Nat.zero_add, Nat.reduceAdd] at hc2
  obtain ⟨a0, d0, pc0, ram⟩ := st
  simp only [] at hpc
  subst hpc
  have h0 : runN p 0 ⟨a0, d0, 0, ram⟩ = some ⟨a0, d0, 0, ram⟩ := rfl
  have h4 := runN_then_seq p h0 _ hc1 (by simp [noJump])
  have h256 : p.resolve "256" = some 256 := resolve_decimal p 256 (by decide)
  simp (disch := omega) only [List.length_cons, List.length_nil, Nat.zero_add, Nat.reduceAdd,
    execSeq_A _ _ _ _ _ _ _ _ (resolve_SP p), execSeq_A _ _ _ _ _ _ _ _ h256,
    execSeq_D_eq_A, execSeq_A_eq_M, execSeq_M_eq_D, execSeq_M_eq_M_plus_1, execSeq_AM_eq_M_minus_1, execSeq_D_eq_M, execSeq_A_eq_A_minus_1, execSeq_M_eq_D_plus_M, execSeq_M_eq_M_minus_D, execSeq_M_eq_D_and_M, execSeq_M_eq_D_or_M, execSeq_A_eq_M_minus_1, execSeq_M_eq_minus_M, execSeq_M_eq_not_M, execSeq_D_eq_M_minus_D, execSeq_M_eq_0, execSeq_M_eq_minus_1, execSeq_A_eq_D_plus_A, execSeq_D_eq_D_minus_A, execSeq_D_eq_M_plus_1, execSeq_A_eq_D, execSeq_A_eq_D_minus_A, execSeq_nil, Nat.zero_mod] at h4
  obtain ⟨st1, hrun, hpc1, r0, r1, r2, _, _, rs, rs1, rs2, rs3, rs4, _⟩ :=
    call_exec p "Sys.init" 0 256 fa 51 CodeWriter.init ⟨0, 256, 4, store ram 0 256⟩
      hc2 hret hfa (by decide) (store_same ram 0 256) (by decide) (by decide) (by decide)
  refine ⟨by rw [hlab]; rfl, st1, runN_trans h4 hrun, by rw [hpc1]; exact hfa, ?_, r0, r1, r2,
    rs, ?_, ?_, ?_, ?_⟩
  · intro a ha
    have := resolve_user p "Sys.init" a (by rfl) ha
    rw [hfa] at this
    rw [hpc1]
    exact Option.some.inj this
  · rw [rs1]; simp (disch := omega) only [store_ne]
  · rw [rs2]; simp (disch := omega) only [store_ne]
  · rw [rs3]; simp (disch := omega) only [store_ne]
  · rw [rs4]; simp (disch := omega) only [store_ne]

end Hack
end VMTranslator
namespace VMTranslator
open CommandType
namespace Hack

theorem C15_bootstrap_content_witness :
    hasSysInit [("Sys.vm", ["function Sys.init 0", "push constant 1", "return"])] = true ∧
    ∃ w1, translate [("Sys.vm", ["function Sys.init 0", "push constant 1", "return"])] =
        some w1 ∧
      w1.output.take 6 = ["// Bootstrap initialization", "@256", "D=A", "@SP", "M=D",
        "// call Sys.init 0"] ∧
      ∃ st1, runN (assemble w1.output) 51
          ⟨0, 0, 0, fun k => if k = 1 then 11 else if k = 2 then 22 else 0⟩ = some st1 ∧
        st1.pc = 51 ∧ st1.ram 0 = 261 ∧ st1.ram 1 = 261 ∧ st1.ram 2 = 256 ∧
        st1.ram 257 = 11 ∧ st1.ram 258 = 22 := by
  have h1 : translate [("Sys.vm", ["function Sys.init 0", "push constant 1", "return"])] =
      some (writeReturn (writePushPop C_PUSH "constant" 1 (writeFunction "Sys.init" 0
        (setFileName "Sys.vm" (writeInit CodeWriter.init))))) := by rfl
  obtain ⟨_, _, _, _, _, _, st1, hrun, _, hpc, r0, r1, r2, _, r257, r258, _, _⟩ :=
    C15_bootstrap_content _ _ ⟨0, 0, 0, fun k => if k = 1 then 11 else if k = 2 then 22 else 0⟩
      (by rfl) h1 rfl
  exact ⟨by rfl, _, h1, by rfl, st1, hrun, hpc 51 (by rfl), r0, r1, r2, r257, r258⟩

end Hack
end VMTranslator
namespace VMTranslator
open CommandType

theorem synthesizes_eq_usesCounter (tokens : List String) :
    synthesizes tokens = usesCounter tokens := by
  cases tokens with
  | nil => rfl
  | cons cmd rest =>
    simp only [synthesizes, usesCounter, commandType, arg1, isArithmetic, List.headD_cons]
    by_cases h1 : cmd = "push"
    · subst h1; rfl
    by_cases h2 : cmd = "pop"
    · subst h2; rfl
    by_cases h3 : cmd = "label"
    · subst h3; rfl
    by_cases h4 : cmd = "goto"
    · subst h4; rfl
    by_cases h5 : cmd = "if-goto"
    · subst h5; rfl
    by_cases h6 : cmd = "function"
    · subst h6; rfl
    by_cases h7 : cmd = "call"
    · subst h7; rfl
    by_cases h8 : cmd = "return"
    · subst h8; rfl
    by_cases a1 : cmd = "add"
    · subst a1; rfl
    by_cases a2 : cmd = "sub"
    · subst a2; rfl
    by_cases a3 : cmd = "neg"
    · subst a3; rfl
    by_cases a4 : cmd = "eq"
    · subst a4; rfl
    by_cases a5 : cmd = "gt"
    · subst a5; rfl
    by_cases a6 : cmd = "lt"
    · subst a6; rfl
    by_cases a7 : cmd = "and"
    · subst a7; rfl
    by_cases a8 : cmd = "or"
    · subst a8; rfl
    by_cases a9 : cmd = "not"
    · subst a9; rfl
    simp [h1, h2, h3, h4, h5, h6, h7, h8, a1, a2, a3, a4, a5, a6, a7, a8, a9]

end VMTranslator
namespace VMTranslator
open CommandType

/-- One command advances the label counter by one when it is a comparison or a call, and leaves
it unchanged otherwise. -/
theorem dispatch_counter (tokens : List String) (w w1 : CodeWriter)
    (h : dispatch tokens w = some w1) :
    w1.labelCounter = w.labelCounter + (if usesCounter tokens = true then 1 else 0) := by
  rw [← synthesizes_eq_usesCounter]
  unfold dispatch at h
  cases hct : commandType tokens <;> simp only [hct] at h
  case C_ARITHMETIC =>
    simp only [Option.some.injEq] at h
    subst h
    by_cases hb : arg1 tokens = "add" ∨ arg1 tokens = "sub" ∨ arg1 tokens = "and" ∨
        arg1 tokens = "or"
    · have hs : synthesizes tokens = false := by
        simp only [synthesizes, hct]
        rcases hb with hb | hb | hb | hb <;> simp [hb]
      have hlc : (writeArithmetic (arg1 tokens) w).labelCounter = w.labelCounter := by
        simp only [writeArithmetic, hb, if_true, binaryOp_fields]
        rfl
      simp [hs, hlc]
    · by_cases hu : arg1 tokens = "neg" ∨ arg1 tokens = "not"
      · have hs : synthesizes tokens = false := by
          simp only [synthesizes, hct]
          rcases hu with hu | hu <;> simp [hu]
        have hlc : (writeArithmetic (arg1 tokens) w).labelCounter = w.labelCounter := by
          simp only [writeArithmetic, hb, hu, if_true, if_false, unaryOp_fields]
          rfl
        simp [hs, hlc]
      · have hs : synthesizes tokens = true := by
          simp only [not_or] at hb hu
          simp [synthesizes, hct, hb, hu]
        obtain ⟨_, hlc⟩ := compareOp_labelDefs (arg1 tokens) w hb hu
        simp [hs, hlc]
  case C_PUSH =>
    cases ha : arg2 tokens <;> simp only [ha, Option.some.injEq, reduceCtorEq] at h
    rename_i i
    subst h
    have hs : synthesizes tokens = false := by simp [synthesizes, hct]
    have hlc : (writePushPop C_PUSH (arg1 tokens) i w).labelCounter = w.labelCounter := by
      simp only [writePushPop, if_true, (Hack.push_fields _ _ _).2.2]
      rfl
    simp [hs, hlc]
  case C_POP =>
    cases ha : arg2 tokens <;> simp only [ha, Option.some.injEq, reduceCtorEq] at h
    rename_i i
    subst h
    have hs : synthesizes tokens = false := by simp [synthesizes, hct]
    have hlc : (writePushPop C_POP (arg1 tokens) i w).labelCounter = w.labelCounter := by
      simp only [writePushPop, reduceCtorEq, if_false, pop_fields]
      rfl
    simp [hs, hlc]
  case C_LABEL =>
    simp only [Option.some.injEq] at h
    subst h
    have hs : synthesizes tokens = false := by simp [synthesizes, hct]
    have hlc : (writeLabel (arg1 tokens) w).labelCounter = w.labelCounter := by
      simp only [writeLabel]; split_ifs <;> rfl
    simp [hs, hlc]
  case C_GOTO =>
    simp only [Option.some.injEq] at h
    subst h
    have hs : synthesizes tokens = false := by simp [synthesizes, hct]
    have hlc : (writeGoto (arg1 tokens) w).labelCounter = w.labelCounter := by
      simp only [writeGoto]; split_ifs <;> rfl
    simp [hs, hlc]
  case C_IF =>
    simp only [Option.some.injEq] at h
    subst h
    have hs : synthesizes tokens = false := by simp [synthesizes, hct]
    have hlc : (writeIf (arg1 tokens) w).labelCounter = w.labelCounter := by
      simp only [writeIf]; split_ifs <;> rfl
    simp [hs, hlc]
  case C_FUNCTION =>
    cases ha : arg2 tokens <;> simp only [ha, Option.some.injEq, reduceCtorEq] at h
    rename_i i
    subst h
    have hs : synthesizes tokens = false := by simp [synthesizes, hct]
    simp [hs, (writeFunction_fields (arg1 tokens) i w).2.1]
  case C_RETURN =>
    simp only [Option.some.injEq] at h
    subst h
    have hs : synthesizes tokens = false := by simp [synthesizes, hct]
    have hlc : (writeReturn w).labelCounter = w.labelCounter := rfl
    simp [hs, hlc]
  case C_CALL =>
    cases ha : arg2 tokens <;> simp only [ha, Option.some.injEq, reduceCtorEq] at h
    rename_i i
    subst h
    have hs : synthesizes tokens = true := by simp [synthesizes, hct]
    have hlc : (writeCall (arg1 tokens) i w).labelCounter = w.labelCounter + 1 := rfl
    simp [hs, hlc]
  case C_ERROR =>
    simp only [Option.some.injEq] at h
    subst h
    have hs : synthesizes tokens = false := by simp [synthesizes, hct]
    simp [hs]

theorem translateLine_counter (line : String) (w w1 : CodeWriter)
    (h : translateLine line w = some w1) :
    w1.labelCounter =
      w.labelCounter + (if usesCounter (split (cleanLine line)) = true then 1 else 0) := by
  unfold translateLine at h
  by_cases hc : cleanLine line = []
  · simp only [hc, if_true, Option.some.injEq] at h
    subst h
    simp [hc, split, splitAux, usesCounter]
  · simp only [hc, if_false] at h
    exact dispatch_counter _ _ _ h

theorem translateLines_counter (lines : List String) : ∀ (w w1 : CodeWriter),
    translateLines lines w = some w1 →
    w1.labelCounter =
      w.labelCounter + (lines.countP fun line => usesCounter (split (cleanLine line))) := by
  induction lines with
  | nil =>
    intro w w1 h
    simp only [translateLines, Option.some.injEq] at h
    simp [h]
  | cons line rest ih =>
    intro w w1 h
    simp only [translateLines] at h
    cases hs : translateLine line w with
    | none => simp [hs] at h
    | some w2 =>
      simp only [hs] at h
      rw [ih w2 w1 h, translateLine_counter line w w2 hs, List.countP_cons]
      split_ifs
      · simp only [Nat.cast_add, Nat.cast_one]; omega
      · simp only [add_zero]

theorem translateFiles_counter (files : List (String × List String)) : ∀ (w w1 : CodeWriter),
    translateFiles files w = some w1 →
    w1.labelCounter = w.labelCounter + countCounterUses files := by
  induction files with
  | nil =>
    intro w w1 h
    simp only [translateFiles, Option.some.injEq] at h
    simp [h, countCounterUses]
  | cons file rest ih =>
    intro w w1 h
    simp only [translateFiles] at h
    cases hs : translateLines file.2 (setFileName file.1 w) with
    | none => simp [hs] at h
    | some w2 =>
      simp only [hs] at h
      rw [ih w2 w1 h, translateLines_counter file.2 _ w2 hs]
      have hw : (setFileName file.1 w).labelCounter = w.labelCounter := rfl
      rw [hw]
      simp only [countCounterUses, List.map_cons, List.sum_cons, Nat.cast_add]
      omega

end VMTranslator
namespace VMTranslator
open CommandType

/-- The labels synthesized for the lines of one module are fresh, and each is built from a counter
value below the counter at the start plus the number of comparison and call instructions among
the lines. -/
theorem synthLabelsLines_freshBelow (lines : List String) : ∀ w : CodeWriter,
    FreshBetween (synthLabelsLines lines w) w.labelCounter
      (w.labelCounter + (lines.countP fun line => usesCounter (split (cleanLine line)))) := by
  induction lines with
  | nil =>
    intro w
    exact freshBetween_nil _ _
  | cons line rest ih =>
    intro w
    cases hl : translateLine line w with
    | none =>
      simp only [synthLabelsLines, hl]
      exact freshBetween_nil _ _
    | some w1 =>
      obtain ⟨hle, hstep⟩ := translateLine_fresh line w w1 hl
      have hc := translateLine_counter line w w1 hl
      have hrest := ih w1
      simp only [synthLabelsLines, hl]
      have hcount : (w1.labelCounter : Int) +
          (rest.countP fun line => usesCounter (split (cleanLine line))) =
          w.labelCounter +
            ((line :: rest).countP fun line => usesCounter (split (cleanLine line))) := by
        rw [hc, List.countP_cons]
        split_ifs
        · simp only [Nat.cast_add, Nat.cast_one]; omega
        · simp only [add_zero]
      rw [← hcount]
      exact freshBetween_append hstep hrest hle (by omega)

/-- The labels synthesized for the modules are fresh, and each is built from a counter value below the
counter at the start plus the number of comparison and call instructions of the modules. -/
theorem synthLabelsFiles_freshBelow (files : List (String × List String)) : ∀ w : CodeWriter,
    FreshBetween (synthLabelsFiles files w) w.labelCounter
      (w.labelCounter + countCounterUses files) := by
  induction files with
  | nil =>
    intro w
    exact freshBetween_nil _ _
  | cons file rest ih =>
    intro w
    have hlines := synthLabelsLines_freshBelow file.2 (setFileName file.1 w)
    have hw : (setFileName file.1 w).labelCounter = w.labelCounter := rfl
    rw [hw] at hlines
    have hsum : (countCounterUses (file :: rest) : Int) =
        (file.2.countP fun line => usesCounter (split (cleanLine line))) +
          countCounterUses rest := by
      simp only [countCounterUses, List.map_cons, List.sum_cons, Nat.cast_add]
    cases hl : translateLines file.2 (setFileName file.1 w) with
    | none =>
      simp only [synthLabelsFiles, hl]
      exact freshBetween_mono hlines (by rw [hsum]; omega)
    | some w1 =>
      have hw1 := translateLines_counter file.2 _ w1 hl
      rw [hw] at hw1
      have hrest := ih w1
      rw [hw1] at hrest
      simp only [synthLabelsFiles, hl]
      rw [hsum, ← add_assoc]
      exact freshBetween_append hlines hrest (by omega) (by omega)

/-- The labels synthesized in one run are fresh, and each is built from a counter value below the
number of values the run draws. -/
theorem synthLabels_freshBelow (vmFiles : List (String × List String)) :
    FreshBetween (synthLabels vmFiles) 0 (counterDraws vmFiles) := by
  unfold synthLabels counterDraws
  by_cases hs : hasSysInit vmFiles = true
  · simp only [hs, if_true]
    have hf := synthLabelsFiles_freshBelow vmFiles (writeInit CodeWriter.init)
    have hc : (writeInit CodeWriter.init).labelCounter = 1 := rfl
    rw [hc] at hf
    have hb : labelDefs (writeInit CodeWriter.init).output = ["" ++ "$ret." ++ decimal 0] := by
      rfl
    rw [hb]
    have h1 := freshBetween_call "" 0
    simp only [Nat.cast_add, Nat.cast_one]
    exact freshBetween_append h1 hf (by omega) (by omega)
  · simp only [hs, if_false, Bool.false_eq_true]
    have hf := synthLabelsFiles_freshBelow vmFiles CodeWriter.init
    have hc : CodeWriter.init.labelCounter = 0 := rfl
    rw [hc] at hf
    simpa using hf

end VMTranslator
namespace VMTranslator
open CommandType

/-- C8: in one run of the translator, over all modules and including the bootstrap call, that draws
at most `2147483647` values from the label counter (so that no `labelCounter++` overflows the
`int`), the labels defined in the code emitted for comparison instructions (`COMP_n_TRUE`,
`COMP_n_END`) and for call instructions (`currentFunction$ret.n`) are pairwise distinct, whatever
the function names are; each of them is built from a counter value of its own instruction, which
lies in `0 .. 2147483646`, below the number of values drawn. -/
theorem C8_fresh_synthesized_labels (vmFiles : List (String × List String))
    (hfits : counterDraws vmFiles ≤ 2147483647) :
    (synthLabels vmFiles).Nodup ∧
    ∀ l ∈ synthLabels vmFiles, ∃ n : Int,
      0 ≤ n ∧ n < counterDraws vmFiles ∧ n < 2147483647 ∧ Indexed l n := by
  obtain ⟨hnd, hidx⟩ := synthLabels_freshBelow vmFiles
  refine ⟨hnd, fun l hl => ?_⟩
  obtain ⟨n, h0, h1, hn⟩ := hidx l hl
  exact ⟨n, h0, h1, by omega, hn⟩

set_option maxRecDepth 100000 in
theorem C8_fresh_synthesized_labels_witness :
    counterDraws [("M.vm", ["eq", "function Sys.init 0", "call f 0"]), ("N.vm", ["lt"])] = 4 ∧
    synthLabels [("M.vm", ["eq", "function Sys.init 0", "call f 0"]), ("N.vm", ["lt"])] =
      ["$ret.0", "COMP_1_TRUE", "COMP_1_END", "Sys.init$ret.2", "COMP_3_TRUE", "COMP_3_END"] ∧
    (synthLabels [("M.vm", ["eq", "function Sys.init 0", "call f 0"]), ("N.vm", ["lt"])]).Nodup :=
  ⟨by rfl, by rfl,
    (C8_fresh_synthesized_labels
      [("M.vm", ["eq", "function Sys.init 0", "call f 0"]), ("N.vm", ["lt"])] (by decide)).1⟩

end VMTranslator
namespace VMTranslator
open CommandType

/-- C16: the label counter is program-wide and monotonic.  After a run of the translator over any
modules that draws at most `2147483647` values from the counter (so that no `labelCounter++`
overflows the `int`), the counter equals its initial value 0, plus one when the bootstrap call
was emitted, plus the number of comparison (`eq`, `gt`, `lt`) and `call` instructions of all
modules, and it is still an `int`.  The same holds from any writer state for the loop over the
modules, as long as the counter stays within the range of `int`; `setFileName` and every
command that is not a comparison or a call leave the counter unchanged, and no command decreases
it. -/
theorem C16_counter_program_wide (vmFiles : List (String × List String)) (w1 : CodeWriter)
    (h : translate vmFiles = some w1) (hfits : counterDraws vmFiles ≤ 2147483647) :
    w1.labelCounter = (if hasSysInit vmFiles = true then 1 else 0) + countCounterUses vmFiles ∧
    w1.labelCounter = counterDraws vmFiles ∧
    0 ≤ w1.labelCounter ∧ w1.labelCounter ≤ 2147483647 ∧
    (∀ (files : List (String × List String)) (w w2 : CodeWriter),
      -2147483648 ≤ w.labelCounter → w.labelCounter + countCounterUses files ≤ 2147483647 →
      translateFiles files w = some w2 →
        w2.labelCounter = w.labelCounter + countCounterUses files ∧
        w.labelCounter ≤ w2.labelCounter ∧
        -2147483648 ≤ w2.labelCounter ∧ w2.labelCounter ≤ 2147483647) ∧
    (∀ (name : String) (w : CodeWriter), (setFileName name w).labelCounter = w.labelCounter) ∧
    (∀ (tokens : List String) (w w2 : CodeWriter),
      -2147483648 ≤ w.labelCounter →
      w.labelCounter + (if usesCounter tokens = true then 1 else 0) ≤ 2147483647 →
      dispatch tokens w = some w2 →
        w2.labelCounter = w.labelCounter + (if usesCounter tokens = true then 1 else 0) ∧
        w.labelCounter ≤ w2.labelCounter ∧
        -2147483648 ≤ w2.labelCounter ∧ w2.labelCounter ≤ 2147483647) := by
  have hrun : w1.labelCounter =
      (if hasSysInit vmFiles = true then 1 else 0) + countCounterUses vmFiles := by
    unfold translate at h
    by_cases hs : hasSysInit vmFiles = true
    · simp only [hs, if_true] at h ⊢
      rw [translateFiles_counter vmFiles _ w1 h]
      rfl
    · simp only [hs, if_false, Bool.false_eq_true] at h ⊢
      rw [translateFiles_counter vmFiles _ w1 h]
      rfl
  have hdraws : w1.labelCounter = counterDraws vmFiles := by
    rw [hrun]
    unfold counterDraws
    by_cases hs : hasSysInit vmFiles = true <;> simp [hs]
  refine ⟨hrun, hdraws, by rw [hdraws]; omega, by rw [hdraws]; omega, ?_, fun _ _ => rfl, ?_⟩
  · intro files w w2 hlo hhi h2
    have := translateFiles_counter files w w2 h2
    exact ⟨this, by omega, by omega, by omega⟩
  · intro tokens w w2 hlo hhi h2
    have := dispatch_counter tokens w w2 h2
    refine ⟨this, ?_, ?_, by omega⟩
    · rw [this]
      split_ifs <;> omega
    · rw [this]
      split_ifs <;> omega

set_option maxRecDepth 100000 in
theorem C16_counter_program_wide_witness :
    counterDraws [("A.vm", ["push constant 1", "push constant 2", "eq", "call Sys.init 0"]),
        ("Sys.vm", ["function Sys.init 0", "push constant 3", "push constant 4", "lt",
          "return"])] = 4 ∧
    ∃ w1, translate [("A.vm", ["push constant 1", "push constant 2", "eq", "call Sys.init 0"]),
        ("Sys.vm", ["function Sys.init 0", "push constant 3", "push constant 4", "lt",
          "return"])] = some w1 ∧
      w1.labelCounter = 4 := by
  have hw : ∃ w1, translate [("A.vm", ["push constant 1", "push constant 2", "eq",
      "call Sys.init 0"]), ("Sys.vm", ["function Sys.init 0", "push constant 3",
      "push constant 4", "lt", "return"])] = some w1 := ⟨_, rfl⟩
  obtain ⟨w1, h1⟩ := hw
  exact ⟨by rfl, w1, h1, (C16_counter_program_wide _ w1 h1 (by decide)).1⟩

end VMTranslator
namespace VMTranslator
open CommandType

theorem commandType_cons (cmd : String) (rest : List String) :
    commandType (cmd :: rest) = keywordKind cmd := by
  simp only [commandType, keywordKind, isArithmetic]
  by_cases h1 : cmd = "push"
  · subst h1; rfl
  by_cases h2 : cmd = "pop"
  · subst h2; rfl
  by_cases h3 : cmd = "label"
  · subst h3; rfl
  by_cases h4 : cmd = "goto"
  · subst h4; rfl
  by_cases h5 : cmd = "if-goto"
  · subst h5; rfl
  by_cases h6 : cmd = "function"
  · subst h6; rfl
  by_cases h7 : cmd = "call"
  · subst h7; rfl
  by_cases h8 : cmd = "return"
  · subst h8; rfl
  by_cases a1 : cmd = "add"
  · subst a1; rfl
  by_cases a2 : cmd = "sub"
  · subst a2; rfl
  by_cases a3 : cmd = "neg"
  · subst a3; rfl
  by_cases a4 : cmd = "eq"
  · subst a4; rfl
  by_cases a5 : cmd = "gt"
  · subst a5; rfl
  by_cases a6 : cmd = "lt"
  · subst a6; rfl
  by_cases a7 : cmd = "and"
  · subst a7; rfl
  by_cases a8 : cmd = "or"
  · subst a8; rfl
  by_cases a9 : cmd = "not"
  · subst a9; rfl
  have bh1 : (cmd == "push") = false := by simpa using h1
  have bh2 : (cmd == "pop") = false := by simpa using h2
  have bh3 : (cmd == "label") = false := by simpa using h3
  have bh4 : (cmd == "goto") = false := by simpa using h4
  have bh5 : (cmd == "if-goto") = false := by simpa using h5
  have bh6 : (cmd == "function") = false := by simpa using h6
  have bh7 : (cmd == "call") = false := by simpa using h7
  have bh8 : (cmd == "return") = false := by simpa using h8
  have ba1 : (cmd == "add") = false := by simpa using a1
  have ba2 : (cmd == "sub") = false := by simpa using a2
  have ba3 : (cmd == "neg") = false := by simpa using a3
  have ba4 : (cmd == "eq") = false := by simpa using a4
  have ba5 : (cmd == "gt") = false := by simpa using a5
  have ba6 : (cmd == "lt") = false := by simpa using a6
  have ba7 : (cmd == "and") = false := by simpa using a7
  have ba8 : (cmd == "or") = false := by simpa using a8
  have ba9 : (cmd == "not") = false := by simpa using a9
  simp only [List.lookup, bh1, bh2, bh3, bh4, bh5, bh6, bh7, bh8, ba1, ba2, ba3, ba4, ba5, ba6, ba7, ba8, ba9, if_false, h1, h2, h3, h4, h5, h6, h7, h8, a1, a2, a3, a4, a5, a6, a7, a8, a9, Bool.or_self, Bool.false_eq_true, decide_False]

/-- C17: `commandType` is determined by the first token alone, by exact (case-sensitive) match
against the keyword table: `push`, `pop`, `label`, `goto`, `if-goto`, `function`, `call`,
`return` give their kinds, the nine arithmetic keywords give `C_ARITHMETIC`, and any other first
token, as well as an empty token list, gives `C_ERROR`, whatever tokens follow; a `C_ERROR`
command is passed over by the driver without an error and without output. -/
theorem C17_instruction_classification (tokens rest restAlt : List String) (first : String)
    (w : CodeWriter) :
    commandType tokens =
      (match tokens.head? with
        | none => C_ERROR
        | some token => keywordKind token) ∧
    commandType (first :: rest) = commandType (first :: restAlt) ∧
    (if commandType tokens = C_ERROR then dispatch tokens w = some w else True) ∧
    commandType ["PUSH", "constant", "1"] = C_ERROR ∧
    commandType ["push", "constant", "1"] = C_PUSH ∧
    commandType ["Add"] = C_ERROR ∧
    commandType ["add", "trailing", "tokens"] = C_ARITHMETIC ∧
    commandType (split (cleanLine "  if-goto\tLOOP   // jump ")) = C_IF ∧
    commandType (split (cleanLine "pushconstant 1")) = C_ERROR := by
  refine ⟨?_, ?_, ?_, by decide, by decide, by decide, by decide, by decide, by decide⟩
  · cases tokens with
    | nil => rfl
    | cons cmd rest => exact commandType_cons cmd rest
  · rw [commandType_cons, commandType_cons]
  · split_ifs with h
    simp only [dispatch, h]

end VMTranslator
namespace VMTranslator
open CommandType

/-! ## Synthesized names against the names of the program -/

/-- Two texts `a ++ "$" ++ x` and `b ++ "$" ++ y` whose heads contain no `$` are equal only if both
parts are. -/
theorem append_dollar_inj : ∀ (a b x y : List Char), '$' ∉ a → '$' ∉ b →
    a ++ '$' :: x = b ++ '$' :: y → a = b ∧ x = y
  | [], [], x, y, _, _, h => by
    simp only [List.nil_append, List.cons.injEq, true_and] at h
    exact ⟨rfl, h⟩
  | [], c :: b, x, y, _, hb, h => by
    simp only [List.nil_append, List.cons_append, List.cons.injEq] at h
    exact absurd (by rw [← h.1]; simp) hb
  | c :: a, [], x, y, ha, _, h => by
    simp only [List.nil_append, List.cons_append, List.cons.injEq] at h
    exact absurd (by rw [h.1]; simp) ha
  | c :: a, d :: b, x, y, ha, hb, h => by
    simp only [List.cons_append, List.cons.injEq] at h
    obtain ⟨e1, e2⟩ := append_dollar_inj a b x y
      (fun hm => ha (List.mem_cons_of_mem _ hm)) (fun hm => hb (List.mem_cons_of_mem _ hm)) h.2
    exact ⟨by rw [h.1, e1], e2⟩

theorem dollar_not_mem_decimal (i : Int) : '$' ∉ (decimal i).data := by
  intro h
  rcases decimal_chars i '$' h with h1 | h1
  · exact absurd h1 (by decide)
  · exact absurd h1 (by decide)

theorem isPlainName_iff (l : String) :
    isPlainName l = true ↔
      '$' ∉ l.data ∧ ¬ "COMP_".data <+: l.data ∧ ¬ "ret.".data <+: l.data := by
  have h1 : ∀ p : List Char, p.isPrefixOf l.data = false ↔ ¬ p <+: l.data := by
    intro p
    rw [← List.isPrefixOf_iff_prefix, Bool.not_eq_true]
  simp only [isPlainName, Bool.and_eq_true, Bool.not_eq_true', h1, and_assoc]
  simp

/-- A name of the program and a synthesized name are never the same name. -/
theorem shapes_disjoint (l : String) (hu : UserShaped l) (hs : SynthShaped l) : False := by
  have hcomp : ∀ (n : Int) (sfx : String), '$' ∉ sfx.data →
      '$' ∉ ("COMP_" ++ decimal n ++ sfx).data := by
    intro n sfx hsfx hm
    simp only [String.data_append, List.mem_append] at hm
    rcases hm with (hm | hm) | hm
    · exact absurd hm (by decide)
    · exact dollar_not_mem_decimal n hm
    · exact hsfx hm
  have hpre : ∀ (n : Int) (sfx : String), "COMP_".data <+: ("COMP_" ++ decimal n ++ sfx).data := by
    intro n sfx
    simp only [String.data_append, List.append_assoc]
    exact List.prefix_append _ _
  have hret : ∀ (cf : String) (n : Int), '$' ∈ (cf ++ "$ret." ++ decimal n).data := by
    intro cf n
    simp only [String.data_append, List.mem_append]
    exact Or.inl (Or.inr (by decide))
  rcases hu with hp | ⟨cf, L, hcf, hL, rfl⟩
  · rw [isPlainName_iff] at hp
    rcases hs with ⟨n, rfl | rfl⟩ | ⟨cf', n, _, rfl⟩
    · exact hp.2.1 (hpre n "_TRUE")
    · exact hp.2.1 (hpre n "_END")
    · exact hp.1 (hret cf' n)
  · have hin : '$' ∈ (cf ++ "$" ++ L).data := by
      simp only [String.data_append, List.mem_append]
      exact Or.inl (Or.inr (by decide))
    rcases hs with ⟨n, h | h⟩ | ⟨cf', n, hcf', h⟩
    · rw [h] at hin
      exact hcomp n "_TRUE" (by decide) hin
    · rw [h] at hin
      exact hcomp n "_END" (by decide) hin
    · have h1 := congrArg String.data h
      have e1 : (cf ++ "$" ++ L).data = cf.data ++ '$' :: L.data := by simp
      have e2 : (cf' ++ "$ret." ++ decimal n).data =
          cf'.data ++ '$' :: ("ret.".data ++ (decimal n).data) := by simp
      rw [e1, e2] at h1
      obtain ⟨_, hl⟩ := append_dollar_inj _ _ _ _ hcf hcf' h1
      rw [isPlainName_iff] at hL
      exact hL.2.2 (by rw [hl]; exact List.prefix_append _ _)

end VMTranslator
namespace VMTranslator
open CommandType

theorem labelDefs_writeLabel (L : String) (w : CodeWriter) :
    labelDefs ((writeLabel L w).output.drop w.output.length) =
      [if w.currentFunction = "" then L else w.currentFunction ++ "$" ++ L] := by
  by_cases hc : w.currentFunction = ""
  · simp only [labelDefs, writeLabel, hc, if_true, CodeWriter.emit, List.append_assoc,
      List.drop_left, List.cons_append, List.nil_append, List.map, Hack.parseLine_comment,
      Hack.parseLine_label, Hack.labelTable]
  · simp only [labelDefs, writeLabel, hc, if_false, CodeWriter.emit, List.append_assoc,
      List.drop_left, List.cons_append, List.nil_append, List.map, Hack.parseLine_comment,
      String.append_assoc, Hack.parseLine_label_r3, Hack.labelTable]

theorem labelDefs_writeFunction (f : String) (n : Int) (w : CodeWriter) :
    labelDefs ((writeFunction f n w).output.drop w.output.length) = [f] := by
  have h : (writeFunction f n w).output = w.output ++
      (["// function " ++ (f ++ (" " ++ decimal n)), "(" ++ (f ++ ")")] ++
        (List.replicate n.toNat ["@0", "D=A", "@SP", "A=M", "M=D", "@SP", "M=M+1"]).flatten) := by
    simp only [writeFunction, Hack.iterate_push_output, Hack.emit_output, List.append_assoc,
      String.append_assoc]
    rfl
  rw [h, List.drop_left]
  simp only [labelDefs, List.map_append, Hack.labelTable_append, Hack.replicate_push_labels,
    List.append_nil]
  simp only [List.map_cons, List.map_nil, Hack.parseLine_comment, Hack.parseLine_label_r1]
  simp only [Hack.labelTable, List.map_cons, List.map_nil]

/-- One command: the names it defines have the form of their kind, and the current function
name stays free of `$`. -/
theorem dispatch_shapes (tokens : List String) (w w1 : CodeWriter)
    (h : dispatch tokens w = some w1) (hcf : '$' ∉ w.currentFunction.data)
    (hplain : (!definesLabel tokens || isPlainName (arg1 tokens)) = true) :
    '$' ∉ w1.currentFunction.data ∧
    (∀ l ∈ (if definesLabel tokens = true then labelDefs (w1.output.drop w.output.length)
        else []), UserShaped l) ∧
    (∀ l ∈ (if synthesizes tokens = true then labelDefs (w1.output.drop w.output.length)
        else []), SynthShaped l) := by
  by_cases hfn : commandType tokens = C_FUNCTION
  · have hd : definesLabel tokens = true := by simp [definesLabel, hfn]
    have hsy : synthesizes tokens = false := by simp [synthesizes, hfn]
    rw [hd] at hplain
    simp only [Bool.not_true, Bool.false_or] at hplain
    unfold dispatch at h
    simp only [hfn] at h
    cases ha : arg2 tokens <;> simp only [ha, Option.some.injEq, reduceCtorEq] at h
    rename_i i
    subst h
    rw [hd, hsy, labelDefs_writeFunction, (writeFunction_fields _ _ _).1]
    refine ⟨((isPlainName_iff _).1 hplain).1, ?_, ?_⟩
    · intro l hl
      simp only [if_true, List.mem_singleton] at hl
      rw [hl]
      exact Or.inl hplain
    · intro l hl
      simp at hl
  · have hcf1 : w1.currentFunction = w.currentFunction :=
      dispatch_currentFunction tokens w w1 h hfn
    rw [hcf1]
    refine ⟨hcf, ?_, ?_⟩
    · by_cases hlb : commandType tokens = C_LABEL
      · have hd : definesLabel tokens = true := by simp [definesLabel, hlb]
        rw [hd] at hplain
        simp only [Bool.not_true, Bool.false_or] at hplain
        unfold dispatch at h
        simp only [hlb, Option.some.injEq] at h
        subst h
        rw [hd, labelDefs_writeLabel]
        intro l hl
        simp only [if_true, List.mem_singleton] at hl
        rw [hl]
        by_cases hc : w.currentFunction = ""
        · simp only [hc, if_true]
          exact Or.inl hplain
        · simp only [hc, if_false]
          exact Or.inr ⟨_, _, hcf, hplain, rfl⟩
      · have hd : definesLabel tokens = false := by simp [definesLabel, hlb, hfn]
        rw [hd]
        intro l hl
        simp at hl
    · by_cases hsy : synthesizes tokens = true
      · rw [hsy]
        simp only [if_true]
        have hfr := (dispatch_fresh tokens w w1 h).2.2
        rw [hsy] at hfr
        simp only [if_true] at hfr
        intro l hl
        obtain ⟨n, _, _, hn⟩ := hfr l hl
        rcases hn with hn | hn | ⟨cf, hn⟩
        · exact Or.inl ⟨n, Or.inl hn⟩
        · exact Or.inl ⟨n, Or.inr hn⟩
        · have hkind : commandType tokens = C_CALL ∨ commandType tokens = C_ARITHMETIC := by
            simp only [synthesizes, Bool.or_eq_true, Bool.and_eq_true, decide_eq_true_eq] at hsy
            rcases hsy with h1 | h1
            · exact Or.inl h1
            · exact Or.inr h1.1
          unfold dispatch at h
          rcases hkind with hct | hct
          · simp only [hct] at h
            cases ha : arg2 tokens <;> simp only [ha, Option.some.injEq, reduceCtorEq] at h
            rename_i i
            subst h
            rw [(writeCall_labelDefs _ _ _).1] at hl
            simp only [List.mem_singleton] at hl
            exact Or.inr ⟨_, _, hcf, hl⟩
          · simp only [hct, Option.some.injEq] at h
            subst h
            have hb : ¬ (arg1 tokens = "add" ∨ arg1 tokens = "sub" ∨ arg1 tokens = "and" ∨
                arg1 tokens = "or") := by
              intro hb
              simp only [synthesizes, hct] at hsy
              rcases hb with hb | hb | hb | hb <;> simp [hb] at hsy
            have hu : ¬ (arg1 tokens = "neg" ∨ arg1 tokens = "not") := by
              intro hu
              simp only [synthesizes, hct] at hsy
              rcases hu with hu | hu <;> simp [hu] at hsy
            rw [(compareOp_labelDefs _ _ hb hu).1] at hl
            simp only [List.mem_cons, List.mem_singleton, List.not_mem_nil, or_false] at hl
            rcases hl with hl | hl
            · exact Or.inl ⟨_, Or.inl hl⟩
            · exact Or.inl ⟨_, Or.inr hl⟩
      · simp only [hsy, if_false, Bool.false_eq_true]
        intro l hl
        simp at hl

end VMTranslator
namespace VMTranslator
open CommandType

/-! ## All labels of the output -/

theorem labelDefs_nil : labelDefs [] = [] := rfl

theorem labelDefs_writePushPop (t : CommandType) (seg : String) (i : Int) (w : CodeWriter) :
    labelDefs ((writePushPop t seg i w).output.drop w.output.length) = [] := by
  simp only [labelDefs, writePushPop, push, pop, resolveSegmentAddress]
  split_ifs
  all_goals
    simp only [CodeWriter.emit, List.drop_left, List.append_assoc, List.cons_append,
      List.nil_append, String.append_assoc, List.map_cons, List.map_nil, Hack.parseLine_at,
      Hack.parseLine_comment, Hack.parseLine_D_eq_A, Hack.parseLine_A_eq_M, Hack.parseLine_M_eq_D, Hack.parseLine_M_eq_M_plus_1, Hack.parseLine_AM_eq_M_minus_1, Hack.parseLine_D_eq_M, Hack.parseLine_A_eq_A_minus_1, Hack.parseLine_M_eq_D_plus_M, Hack.parseLine_M_eq_M_minus_D, Hack.parseLine_M_eq_D_and_M, Hack.parseLine_M_eq_D_or_M, Hack.parseLine_A_eq_M_minus_1, Hack.parseLine_M_eq_minus_M, Hack.parseLine_M_eq_not_M, Hack.parseLine_D_eq_M_minus_D, Hack.parseLine_D_JEQ, Hack.parseLine_D_JGT, Hack.parseLine_D_JLT, Hack.parseLine_M_eq_0, Hack.parseLine_0_JMP, Hack.parseLine_M_eq_minus_1, Hack.parseLine_A_eq_D_plus_A, Hack.parseLine_D_eq_D_minus_A, Hack.parseLine_D_eq_M_plus_1, Hack.parseLine_A_eq_D, Hack.parseLine_A_eq_D_minus_A, Hack.parseLine_D_JNE]
    simp only [Hack.labelTable, List.map_nil]

theorem labelDefs_writeGoto (L : String) (w : CodeWriter) :
    labelDefs ((writeGoto L w).output.drop w.output.length) = [] := by
  simp only [labelDefs, writeGoto]
  split_ifs
  all_goals
    simp only [CodeWriter.emit, List.drop_left, List.append_assoc, List.cons_append,
      List.nil_append, String.append_assoc, List.map_cons, List.map_nil, Hack.parseLine_at,
      Hack.parseLine_comment, Hack.parseLine_D_eq_A, Hack.parseLine_A_eq_M, Hack.parseLine_M_eq_D, Hack.parseLine_M_eq_M_plus_1, Hack.parseLine_AM_eq_M_minus_1, Hack.parseLine_D_eq_M, Hack.parseLine_A_eq_A_minus_1, Hack.parseLine_M_eq_D_plus_M, Hack.parseLine_M_eq_M_minus_D, Hack.parseLine_M_eq_D_and_M, Hack.parseLine_M_eq_D_or_M, Hack.parseLine_A_eq_M_minus_1, Hack.parseLine_M_eq_minus_M, Hack.parseLine_M_eq_not_M, Hack.parseLine_D_eq_M_minus_D, Hack.parseLine_D_JEQ, Hack.parseLine_D_JGT, Hack.parseLine_D_JLT, Hack.parseLine_M_eq_0, Hack.parseLine_0_JMP, Hack.parseLine_M_eq_minus_1, Hack.parseLine_A_eq_D_plus_A, Hack.parseLine_D_eq_D_minus_A, Hack.parseLine_D_eq_M_plus_1, Hack.parseLine_A_eq_D, Hack.parseLine_A_eq_D_minus_A, Hack.parseLine_D_JNE]
    simp only [Hack.labelTable, List.map_nil]

theorem labelDefs_writeIf (L : String) (w : CodeWriter) :
    labelDefs ((writeIf L w).output.drop w.output.length) = [] := by
  simp only [labelDefs, writeIf]
  split_ifs
  all_goals
    simp only [CodeWriter.emit, List.drop_left, List.append_assoc, List.cons_append,
      List.nil_append, String.append_assoc, List.map_cons, List.map_nil, Hack.parseLine_at,
      Hack.parseLine_comment, Hack.parseLine_D_eq_A, Hack.parseLine_A_eq_M, Hack.parseLine_M_eq_D, Hack.parseLine_M_eq_M_plus_1, Hack.parseLine_AM_eq_M_minus_1, Hack.parseLine_D_eq_M, Hack.parseLine_A_eq_A_minus_1, Hack.parseLine_M_eq_D_plus_M, Hack.parseLine_M_eq_M_minus_D, Hack.parseLine_M_eq_D_and_M, Hack.parseLine_M_eq_D_or_M, Hack.parseLine_A_eq_M_minus_1, Hack.parseLine_M_eq_minus_M, Hack.parseLine_M_eq_not_M, Hack.parseLine_D_eq_M_minus_D, Hack.parseLine_D_JEQ, Hack.parseLine_D_JGT, Hack.parseLine_D_JLT, Hack.parseLine_M_eq_0, Hack.parseLine_0_JMP, Hack.parseLine_M_eq_minus_1, Hack.parseLine_A_eq_D_plus_A, Hack.parseLine_D_eq_D_minus_A, Hack.parseLine_D_eq_M_plus_1, Hack.parseLine_A_eq_D, Hack.parseLine_A_eq_D_minus_A, Hack.parseLine_D_JNE]
    simp only [Hack.labelTable, List.map_nil]

theorem labelDefs_writeReturn (w : CodeWriter) :
    labelDefs ((writeReturn w).output.drop w.output.length) = [] := by
  have h := Hack.writeReturn_labels w 0
  simp only [emitted] at h
  simp only [labelDefs, h, List.map_nil]

theorem labelDefs_plainArithmetic (cmd : String) (w : CodeWriter)
    (h : (cmd = "add" ∨ cmd = "sub" ∨ cmd = "and" ∨ cmd = "or") ∨ cmd = "neg" ∨ cmd = "not") :
    labelDefs ((writeArithmetic cmd w).output.drop w.output.length) = [] := by
  have hwf : (StackCommand.arithmetic cmd).wellFormed = true := by
    simp only [StackCommand.wellFormed, decide_eq_true_eq, List.mem_cons, List.mem_singleton,
      List.not_mem_nil, or_false]
    tauto
  rcases Hack.stack_labels (StackCommand.arithmetic cmd) w 0 hwf with ⟨ht, _, _⟩ | ⟨_, hc⟩
  · simp only [emitted, StackCommand.write] at ht
    simp only [labelDefs, ht, List.map_nil]
  · exfalso
    have hlc : (writeArithmetic cmd w).labelCounter = w.labelCounter := by
      rcases h with hb | hu
      · simp only [writeArithmetic, hb, if_true, binaryOp_fields]; rfl
      · have hnb : ¬ (cmd = "add" ∨ cmd = "sub" ∨ cmd = "and" ∨ cmd = "or") := by
          rcases hu with rfl | rfl <;> decide
        simp only [writeArithmetic, hnb, hu, if_true, if_false, unaryOp_fields]; rfl
    simp only [StackCommand.write] at hc
    omega

/-- The labels defined in the code of one command are those of a `label` or `function` command,
or those synthesized for a comparison or a call; no other command defines a label. -/
theorem dispatch_labelDefs (tokens : List String) (w w1 : CodeWriter)
    (h : dispatch tokens w = some w1) :
    labelDefs (w1.output.drop w.output.length) =
      (if definesLabel tokens = true then labelDefs (w1.output.drop w.output.length) else []) ++
      (if synthesizes tokens = true then labelDefs (w1.output.drop w.output.length) else []) := by
  unfold dispatch at h
  cases hct : commandType tokens <;> simp only [hct] at h
  case C_ARITHMETIC =>
    simp only [Option.some.injEq] at h
    subst h
    have hd : definesLabel tokens = false := by simp [definesLabel, hct]
    by_cases hs : synthesizes tokens = true
    · simp [hd, hs]
    · have hbu : (arg1 tokens = "add" ∨ arg1 tokens = "sub" ∨ arg1 tokens = "and" ∨
          arg1 tokens = "or") ∨ arg1 tokens = "neg" ∨ arg1 tokens = "not" := by
        simp only [synthesizes, hct, reduceCtorEq, decide_False, Bool.false_or, decide_True,
          Bool.true_and, Bool.not_eq_true', Bool.or_eq_false_iff, decide_eq_false_iff_not,
          not_and, Bool.not_eq_true, Bool.not_eq_false', Bool.or_eq_true,
          decide_eq_true_eq] at hs
        tauto
      simp [hd, hs, labelDefs_plainArithmetic _ _ hbu]
  case C_PUSH =>
    cases ha : arg2 tokens <;> simp only [ha, Option.some.injEq, reduceCtorEq] at h
    subst h
    simp [labelDefs_writePushPop]
  case C_POP =>
    cases ha : arg2 tokens <;> simp only [ha, Option.some.injEq, reduceCtorEq] at h
    subst h
    simp [labelDefs_writePushPop]
  case C_LABEL =>
    simp only [Option.some.injEq] at h
    subst h
    simp [definesLabel, synthesizes, hct]
  case C_GOTO =>
    simp only [Option.some.injEq] at h
    subst h
    simp [labelDefs_writeGoto]
  case C_IF =>
    simp only [Option.some.injEq] at h
    subst h
    simp [labelDefs_writeIf]
  case C_FUNCTION =>
    cases ha : arg2 tokens <;> simp only [ha, Option.some.injEq, reduceCtorEq] at h
    subst h
    simp [definesLabel, synthesizes, hct]
  case C_RETURN =>
    simp only [Option.some.injEq] at h
    subst h
    simp [labelDefs_writeReturn]
  case C_CALL =>
    cases ha : arg2 tokens <;> simp only [ha, Option.some.injEq, reduceCtorEq] at h
    subst h
    simp [definesLabel, synthesizes, hct]
  case C_ERROR =>
    simp only [Option.some.injEq] at h
    subst h
    simp [labelDefs_nil]

end VMTranslator
namespace VMTranslator
open CommandType

theorem perm_interleave (u1 s1 u2 s2 : List String) :
    ((u1 ++ s1) ++ (u2 ++ s2)).Perm ((u1 ++ u2) ++ (s1 ++ s2)) := by
  rw [List.append_assoc, List.append_assoc]
  apply List.Perm.append_left
  rw [← List.append_assoc, ← List.append_assoc]
  exact List.Perm.append_right _ List.perm_append_comm

theorem translateLine_labelDefs (line : String) (w w1 : CodeWriter)
    (h : translateLine line w = some w1) :
    labelDefs (w1.output.drop w.output.length) =
      (if cleanLine line ≠ [] ∧ definesLabel (split (cleanLine line)) = true then
        labelDefs (w1.output.drop w.output.length) else []) ++
      (if cleanLine line ≠ [] ∧ synthesizes (split (cleanLine line)) = true then
        labelDefs (w1.output.drop w.output.length) else []) := by
  unfold translateLine at h
  by_cases hc : cleanLine line = []
  · simp only [hc, if_true, Option.some.injEq] at h
    subst h
    simp [labelDefs_nil]
  · simp only [hc, if_false] at h
    have := dispatch_labelDefs _ _ _ h
    simpa only [ne_eq, hc, not_false_eq_true, true_and] using this

theorem translateLine_appends (line : String) (w w1 : CodeWriter)
    (h : translateLine line w = some w1) : ∃ l, w1.output = w.output ++ l := by
  unfold translateLine at h
  by_cases hc : cleanLine line = []
  · simp only [hc, if_true, Option.some.injEq] at h
    exact ⟨[], by simp [h]⟩
  · simp only [hc, if_false] at h
    exact dispatch_appends _ _ _ h

/-- The labels defined in the code of the lines of a module are, up to their order, those of the
`label` and `function` commands together with the synthesized ones. -/
theorem translateLines_labelDefs (lines : List String) : ∀ (w w1 : CodeWriter),
    translateLines lines w = some w1 →
    (labelDefs (w1.output.drop w.output.length)).Perm
      (userLabelsLines lines w ++ synthLabelsLines lines w) := by
  induction lines with
  | nil =>
    intro w w1 h
    simp only [translateLines, Option.some.injEq] at h
    subst h
    simp [userLabelsLines, synthLabelsLines, labelDefs_nil]
  | cons line rest ih =>
    intro w w1 h
    simp only [translateLines] at h
    cases hs : translateLine line w with
    | none => simp [hs] at h
    | some w2 =>
      simp only [hs] at h
      obtain ⟨l1, hl1⟩ := translateLine_appends line w w2 hs
      obtain ⟨l2, hl2⟩ := translateLines_appends rest w2 w1 h
      have hsplit : w1.output.drop w.output.length =
          w2.output.drop w.output.length ++ w1.output.drop w2.output.length := by
        rw [hl2, List.drop_left, hl1, List.append_assoc, List.drop_left, List.drop_left]
      rw [hsplit, labelDefs_append, translateLine_labelDefs line w w2 hs]
      simp only [userLabelsLines, synthLabelsLines, hs]
      exact (List.Perm.append_left _ (ih w2 w1 h)).trans (perm_interleave _ _ _ _)

theorem translateFiles_labelDefs (files : List (String × List String)) :
    ∀ (w w1 : CodeWriter), translateFiles files w = some w1 →
    (labelDefs (w1.output.drop w.output.length)).Perm
      (userLabelsFiles files w ++ synthLabelsFiles files w) := by
  induction files with
  | nil =>
    intro w w1 h
    simp only [translateFiles, Option.some.injEq] at h
    subst h
    simp [userLabelsFiles, synthLabelsFiles, labelDefs_nil]
  | cons file rest ih =>
    intro w w1 h
    simp only [translateFiles] at h
    cases hs : translateLines file.2 (setFileName file.1 w) with
    | none => simp [hs] at h
    | some w2 =>
      simp only [hs] at h
      obtain ⟨l1, hl1⟩ := translateLines_appends file.2 _ w2 hs
      obtain ⟨l2, hl2⟩ := translateFiles_appends rest w2 w1 h
      have hw : (setFileName file.1 w).output = w.output := rfl
      rw [hw] at hl1
      have hsplit : w1.output.drop w.output.length =
          w2.output.drop w.output.length ++ w1.output.drop w2.output.length := by
        rw [hl2, List.drop_left, hl1, List.append_assoc, List.drop_left, List.drop_left]
      have h1 := translateLines_labelDefs file.2 _ w2 hs
      rw [hw] at h1
      rw [hsplit, labelDefs_append]
      simp only [userLabelsFiles, synthLabelsFiles, hs]
      exact (List.Perm.append h1 (ih w2 w1 h)).trans (perm_interleave _ _ _ _)

/-- All labels defined in the output of a run are, up to their order, the synthesized labels
together with those of the `label` and `function` commands. -/
theorem translate_labelDefs (vmFiles : List (String × List String)) (w1 : CodeWriter)
    (h : translate vmFiles = some w1) :
    (labelDefs w1.output).Perm (synthLabels vmFiles ++ userLabels vmFiles) := by
  unfold translate at h
  unfold synthLabels userLabels
  by_cases hs : hasSysInit vmFiles = true
  · simp only [hs, if_true] at h ⊢
    obtain ⟨l, hl⟩ := translateFiles_appends vmFiles _ w1 h
    have h1 := translateFiles_labelDefs vmFiles _ w1 h
    have hsplit : w1.output = (writeInit CodeWriter.init).output ++
        w1.output.drop (writeInit CodeWriter.init).output.length := by
      rw [hl, List.drop_left]
    rw [hsplit, labelDefs_append, List.append_assoc]
    exact List.Perm.append_left _ (h1.trans List.perm_append_comm)
  · simp only [hs, if_false, Bool.false_eq_true] at h ⊢
    have h1 := translateFiles_labelDefs vmFiles _ w1 h
    have h0 : CodeWriter.init.output.length = 0 := rfl
    rw [h0, List.drop_zero] at h1
    exact h1.trans List.perm_append_comm

end VMTranslator
namespace VMTranslator
open CommandType

theorem translateLine_shapes (line : String) (w w1 : CodeWriter)
    (h : translateLine line w = some w1) (hcf : '$' ∉ w.currentFunction.data)
    (hplain : (!definesLabel (split (cleanLine line)) ||
      isPlainName (arg1 (split (cleanLine line)))) = true) :
    '$' ∉ w1.currentFunction.data ∧
    (∀ l ∈ (if cleanLine line ≠ [] ∧ definesLabel (split (cleanLine line)) = true then
        labelDefs (w1.output.drop w.output.length) else []), UserShaped l) ∧
    (∀ l ∈ (if cleanLine line ≠ [] ∧ synthesizes (split (cleanLine line)) = true then
        labelDefs (w1.output.drop w.output.length) else []), SynthShaped l) := by
  unfold translateLine at h
  by_cases hc : cleanLine line = []
  · simp only [hc, if_true, Option.some.injEq] at h
    subst h
    simp only [hc, ne_eq, not_true_eq_false, false_and, if_false, List.not_mem_nil,
      false_implies, implies_true, and_true]
    exact hcf
  · simp only [hc, if_false] at h
    have := dispatch_shapes _ _ _ h hcf hplain
    simpa only [ne_eq, hc, not_false_eq_true, true_and] using this

theorem userLabelsLines_shapes (lines : List String) : ∀ w : CodeWriter,
    '$' ∉ w.currentFunction.data →
    (∀ line ∈ lines, (!definesLabel (split (cleanLine line)) ||
      isPlainName (arg1 (split (cleanLine line)))) = true) →
    (∀ l ∈ userLabelsLines lines w, UserShaped l) ∧
    (∀ l ∈ synthLabelsLines lines w, SynthShaped l) ∧
    (∀ w1, translateLines lines w = some w1 → '$' ∉ w1.currentFunction.data) := by
  induction lines with
  | nil =>
    intro w hcf _
    refine ⟨fun l hl => absurd hl (List.not_mem_nil _),
      fun l hl => absurd hl (List.not_mem_nil _), ?_⟩
    intro w1 h
    simp only [translateLines, Option.some.injEq] at h
    rw [← h]
    exact hcf
  | cons line rest ih =>
    intro w hcf hpl
    cases hl : translateLine line w with
    | none =>
      refine ⟨?_, ?_, ?_⟩
      · simp only [userLabelsLines, hl]
        exact fun l hl => absurd hl (List.not_mem_nil _)
      · simp only [synthLabelsLines, hl]
        exact fun l hl => absurd hl (List.not_mem_nil _)
      · intro w1 h
        simp [translateLines, hl] at h
    | some w2 =>
      obtain ⟨hcf2, hu, hs⟩ :=
        translateLine_shapes line w w2 hl hcf (hpl line (List.mem_cons_self _ _))
      obtain ⟨ihu, ihs, ihc⟩ := ih w2 hcf2 (fun l hlm => hpl l (List.mem_cons_of_mem _ hlm))
      refine ⟨?_, ?_, ?_⟩
      · simp only [userLabelsLines, hl]
        intro l hlm
        rcases List.mem_append.1 hlm with h1 | h1
        · exact hu l h1
        · exact ihu l h1
      · simp only [synthLabelsLines, hl]
        intro l hlm
        rcases List.mem_append.1 hlm with h1 | h1
        · exact hs l h1
        · exact ihs l h1
      · intro w1 h
        simp only [translateLines, hl] at h
        exact ihc w1 h

theorem userLabelsFiles_shapes (files : List (String × List String)) : ∀ w : CodeWriter,
    '$' ∉ w.currentFunction.data → namesArePlain files = true →
    (∀ l ∈ userLabelsFiles files w, UserShaped l) ∧
    (∀ l ∈ synthLabelsFiles files w, SynthShaped l) := by
  induction files with
  | nil =>
    intro w _ _
    exact ⟨fun l hl => absurd hl (List.not_mem_nil _),
      fun l hl => absurd hl (List.not_mem_nil _)⟩
  | cons file rest ih =>
    intro w hcf hpl
    simp only [namesArePlain, List.all_cons, Bool.and_eq_true, List.all_eq_true] at hpl
    obtain ⟨hu, hs, hc⟩ := userLabelsLines_shapes file.2 (setFileName file.1 w) hcf hpl.1
    cases hl : translateLines file.2 (setFileName file.1 w) with
    | none =>
      simp only [userLabelsFiles, synthLabelsFiles, hl]
      exact ⟨hu, hs⟩
    | some w1 =>
      obtain ⟨ihu, ihs⟩ := ih w1 (hc w1 hl)
        (by simp only [namesArePlain, List.all_eq_true]; exact hpl.2)
      simp only [userLabelsFiles, synthLabelsFiles, hl]
      refine ⟨?_, ?_⟩
      · intro l hlm
        rcases List.mem_append.1 hlm with h1 | h1
        · exact hu l h1
        · exact ihu l h1
      · intro l hlm
        rcases List.mem_append.1 hlm with h1 | h1
        · exact hs l h1
        · exact ihs l h1

/-- C18, as stated, fails: nothing keeps the names of the program apart from the synthesized
ones.  A `label COMP_0_TRUE` at global scope followed by `eq` defines `COMP_0_TRUE` twice, and
`label ret.0` inside `f` followed by a call defines `f$ret.0` twice. -/
theorem C18_label_clash_counterexample :
    userLabels [("Main.vm", ["label COMP_0_TRUE", "eq"])] = ["COMP_0_TRUE"] ∧
    synthLabels [("Main.vm", ["label COMP_0_TRUE", "eq"])] = ["COMP_0_TRUE", "COMP_0_END"] ∧
    (translate [("Main.vm", ["label COMP_0_TRUE", "eq"])]).map (fun w => labelDefs w.output) =
      some ["COMP_0_TRUE", "COMP_0_TRUE", "COMP_0_END"] ∧
    userLabels [("Main.vm", ["function f 0", "label ret.0", "call g 0"])] = ["f", "f$ret.0"] ∧
    synthLabels [("Main.vm", ["function f 0", "label ret.0", "call g 0"])] = ["f$ret.0"] ∧
    (translate [("Main.vm", ["function f 0", "label ret.0", "call g 0"])]).map
      (fun w => labelDefs w.output) = some ["f", "f$ret.0", "f$ret.0"] := by
  refine ⟨by rfl, by rfl, by rfl, by rfl, by rfl, by rfl⟩

end VMTranslator
namespace VMTranslator
open CommandType

/-- C18, amended: in a run in which every `label` and `function` command names a plain name (no
`$`, not beginning with `COMP_` or `ret.`) and which draws at most `2147483647` values from the
label counter (so that no `labelCounter++` overflows the `int`), no label synthesized for a
comparison or for a call's return point equals a name defined by a `label` or `function` command,
and every synthesized label is built from a counter value in `0 .. 2147483646`.  The labels
defined in the output are exactly these two kinds, so every label of the output is defined at most
once as soon as the names that the `label` and `function` commands define are pairwise
distinct. -/
theorem C18_synthesized_apart_from_program_labels (vmFiles : List (String × List String))
    (hplain : namesArePlain vmFiles = true) (hfits : counterDraws vmFiles ≤ 2147483647) :
    (∀ l ∈ synthLabels vmFiles, l ∉ userLabels vmFiles) ∧
    (∀ l ∈ synthLabels vmFiles, ∃ n : Int, 0 ≤ n ∧ n < 2147483647 ∧ Indexed l n) ∧
    ((userLabels vmFiles).Nodup → (synthLabels vmFiles ++ userLabels vmFiles).Nodup) ∧
    (∀ w1, translate vmFiles = some w1 →
      (labelDefs w1.output).Perm (synthLabels vmFiles ++ userLabels vmFiles) ∧
      ((userLabels vmFiles).Nodup → (labelDefs w1.output).Nodup)) := by
  have key : (∀ l ∈ userLabels vmFiles, UserShaped l) ∧
      (∀ l ∈ synthLabels vmFiles, SynthShaped l) := by
    unfold userLabels synthLabels
    by_cases hs : hasSysInit vmFiles = true
    · simp only [hs, if_true]
      obtain ⟨hu, hsy⟩ := userLabelsFiles_shapes vmFiles (writeInit CodeWriter.init)
        (by simp [writeInit, writeCall, pushValue, pushSegment, CodeWriter.emit, CodeWriter.init])
        hplain
      refine ⟨hu, ?_⟩
      intro l hl
      rcases List.mem_append.1 hl with h1 | h1
      · have hb : labelDefs (writeInit CodeWriter.init).output = ["" ++ "$ret." ++ decimal 0] := by
          rfl
        rw [hb, List.mem_singleton] at h1
        exact Or.inr ⟨"", 0, by simp, h1⟩
      · exact hsy l h1
    · simp only [hs, if_false, Bool.false_eq_true]
      exact userLabelsFiles_shapes vmFiles CodeWriter.init (by simp [CodeWriter.init]) hplain
  obtain ⟨hfresh, hidx⟩ := synthLabels_freshBelow vmFiles
  have hdis : ∀ l ∈ synthLabels vmFiles, l ∉ userLabels vmFiles :=
    fun l hl hu => shapes_disjoint l (key.1 l hu) (key.2 l hl)
  have hnd : (userLabels vmFiles).Nodup → (synthLabels vmFiles ++ userLabels vmFiles).Nodup :=
    fun h => List.Nodup.append hfresh h (fun l h1 h2 => hdis l h1 h2)
  refine ⟨hdis, ?_, hnd, fun w1 h1 => ?_⟩
  · intro l hl
    obtain ⟨n, h0, h1, hn⟩ := hidx l hl
    exact ⟨n, h0, by omega, hn⟩
  · have hperm := translate_labelDefs vmFiles w1 h1
    exact ⟨hperm, fun h => (List.Perm.nodup_iff hperm).2 (hnd h)⟩

set_option maxRecDepth 100000 in
theorem C18_synthesized_apart_from_program_labels_witness :
    namesArePlain [("Main.vm", ["function Main.f 0", "label LOOP", "push constant 1",
      "push constant 2", "lt", "if-goto LOOP", "call Main.f 0", "return"])] = true ∧
    counterDraws [("Main.vm", ["function Main.f 0", "label LOOP", "push constant 1",
      "push constant 2", "lt", "if-goto LOOP", "call Main.f 0", "return"])] = 2 ∧
    synthLabels [("Main.vm", ["function Main.f 0", "label LOOP", "push constant 1",
      "push constant 2", "lt", "if-goto LOOP", "call Main.f 0", "return"])] =
        ["COMP_0_TRUE", "COMP_0_END", "Main.f$ret.1"] ∧
    userLabels [("Main.vm", ["function Main.f 0", "label LOOP", "push constant 1",
      "push constant 2", "lt", "if-goto LOOP", "call Main.f 0", "return"])] =
        ["Main.f", "Main.f$LOOP"] ∧
    ∀ l ∈ synthLabels [("Main.vm", ["function Main.f 0", "label LOOP", "push constant 1",
      "push constant 2", "lt", "if-goto LOOP", "call Main.f 0", "return"])],
      l ∉ userLabels [("Main.vm", ["function Main.f 0", "label LOOP", "push constant 1",
        "push constant 2", "lt", "if-goto LOOP", "call Main.f 0", "return"])] :=
  ⟨by rfl, by rfl, by rfl, by rfl,
    (C18_synthesized_apart_from_program_labels [("Main.vm", ["function Main.f 0", "label LOOP",
      "push constant 1", "push constant 2", "lt", "if-goto LOOP", "call Main.f 0", "return"])]
      (by rfl) (by decide)).1⟩

end VMTranslator
namespace VMTranslator
open CommandType

/-! ## Operands of the emitted A-instructions -/

theorem addressOperands_at (x : String) (rest : List String) :
    addressOperands (("@" ++ x) :: rest) = x :: addressOperands rest := by
  simp [addressOperands, List.filterMap_cons]

theorem addressOperands_comment (x : String) (rest : List String) :
    addressOperands (("// " ++ x) :: rest) = addressOperands rest := by
  simp [addressOperands, List.filterMap_cons]

theorem addressOperands_skip (l : String) (rest : List String)
    (h : addressOperands [l] = []) : addressOperands (l :: rest) = addressOperands rest := by
  simp only [addressOperands, List.filterMap_cons, List.filterMap_nil] at h ⊢
  split at h
  · rfl
  · exact absurd h (by simp)

theorem isSymbolChar_of_isDigit (c : Char) (h : c.isDigit = true) : isSymbolChar c = true := by
  simp [isSymbolChar, h]

/-- The symbol of a static variable is a symbol name when the module name is a symbol prefix. -/
theorem isSymbolName_static (file : String) (n : Nat) (h : isSymbolPrefix file = true) :
    isSymbolName (file ++ "." ++ decimal (n : Int)) = true := by
  have hd : (file ++ "." ++ decimal (n : Int)).data = file.data ++ '.' :: natDecimal n := by
    simp [decimal_ofNat]
  have hdig : ∀ c ∈ natDecimal n, isSymbolChar c = true :=
    fun c hc => isSymbolChar_of_isDigit c (natDecimal_isDigit n c hc)
  unfold isSymbolName
  unfold isSymbolPrefix at h
  rw [hd]
  cases hf : file.data with
  | nil =>
    simp only [List.nil_append, List.all_cons, Bool.and_eq_true, List.all_eq_true]
    exact ⟨by decide, by decide, hdig⟩
  | cons c cs =>
    rw [hf] at h
    simp only [List.cons_append, List.all_cons, List.all_append, Bool.and_eq_true,
      List.all_eq_true] at h ⊢
    exact ⟨h.1, ⟨h.2.1, h.2.2, by decide, hdig⟩⟩

theorem static_ne_empty (file : String) (i : Int) : file ++ "." ++ decimal i ≠ "" := by
  intro h
  have := congrArg String.length h
  simp only [String.length_append] at this
  have h1 : (".": String).length = 1 := rfl
  have h2 : ("": String).length = 0 := rfl
  omega

theorem decimal_ne_empty (i : Int) : decimal i ≠ "" := by
  intro h
  exact decimal_data_ne_nil i (by rw [h])

theorem addressOperands_nil : addressOperands [] = [] := rfl

theorem addressOperands_SP (rest : List String) :
    addressOperands ("@SP" :: rest) = "SP" :: addressOperands rest :=
  addressOperands_at "SP" rest

theorem addressOperands_R13 (rest : List String) :
    addressOperands ("@R13" :: rest) = "R13" :: addressOperands rest :=
  addressOperands_at "R13" rest

theorem addressOperands_D_eq_A (rest : List String) :
    addressOperands ("D=A" :: rest) = addressOperands rest := addressOperands_skip _ _ rfl

theorem addressOperands_D_eq_M (rest : List String) :
    addressOperands ("D=M" :: rest) = addressOperands rest := addressOperands_skip _ _ rfl

theorem addressOperands_A_eq_D_plus_A (rest : List String) :
    addressOperands ("A=D+A" :: rest) = addressOperands rest := addressOperands_skip _ _ rfl

theorem addressOperands_A_eq_M (rest : List String) :
    addressOperands ("A=M" :: rest) = addressOperands rest := addressOperands_skip _ _ rfl

theorem addressOperands_M_eq_D (rest : List String) :
    addressOperands ("M=D" :: rest) = addressOperands rest := addressOperands_skip _ _ rfl

theorem addressOperands_M_eq_M_plus_1 (rest : List String) :
    addressOperands ("M=M+1" :: rest) = addressOperands rest := addressOperands_skip _ _ rfl

theorem addressOperands_AM_eq_M_minus_1 (rest : List String) :
    addressOperands ("AM=M-1" :: rest) = addressOperands rest := addressOperands_skip _ _ rfl

/-- The operands that `writePushPop` emits for the eight segments, `pop constant` apart, are among
the predefined symbols it uses, the constants 5 and 3, the index and the static symbol. -/
theorem writePushPop_operands (t : CommandType) (seg : String) (i : Int) (w : CodeWriter)
    (hseg : seg ∈ ["constant", "local", "argument", "this", "that", "temp", "pointer", "static"])
    (hpc : t = C_PUSH ∨ seg ≠ "constant") :
    ∀ op ∈ addressOperands (emitted (writePushPop t seg i) w),
      op ∈ ["SP", "LCL", "ARG", "THIS", "THAT", "R13", "5", "3", decimal i,
        w.filename ++ ("." ++ decimal i)] := by
  simp only [List.mem_cons, List.mem_singleton, List.not_mem_nil, or_false] at hseg
  by_cases ht : t = C_PUSH
  · subst ht
    rcases hseg with rfl | rfl | rfl | rfl | rfl | rfl | rfl | rfl
    all_goals
      simp only [emitted, writePushPop, push, resolveSegmentAddress, segmentMap, CodeWriter.emit,
        List.append_assoc, List.drop_left, List.cons_append, List.nil_append, String.append_assoc,
        if_true, if_false, String.reduceEq, or_false, or_true, false_or, apply_ite (fun s : String => "@" ++ s),
        addressOperands_at, addressOperands_comment, addressOperands_SP, addressOperands_R13,
        addressOperands_D_eq_A, addressOperands_D_eq_M, addressOperands_A_eq_D_plus_A,
        addressOperands_A_eq_M, addressOperands_M_eq_D, addressOperands_M_eq_M_plus_1,
        addressOperands_AM_eq_M_minus_1, addressOperands_nil]
      try split_ifs
      all_goals
        intro op hop
        simp only [addressOperands_at, addressOperands_comment, addressOperands_SP, addressOperands_R13,
          addressOperands_D_eq_A, addressOperands_D_eq_M, addressOperands_A_eq_D_plus_A,
          addressOperands_A_eq_M, addressOperands_M_eq_D, addressOperands_M_eq_M_plus_1,
          addressOperands_AM_eq_M_minus_1, addressOperands_nil, List.mem_cons, List.mem_singleton, List.not_mem_nil, or_false] at hop
        simp only [List.mem_cons, List.mem_singleton, List.not_mem_nil, or_false]
        tauto
  · have hs : seg ≠ "constant" := by
      rcases hpc with h | h
      · exact absurd h ht
      · exact h
    rcases hseg with rfl | rfl | rfl | rfl | rfl | rfl | rfl | rfl
    · exact absurd rfl hs
    all_goals
      simp only [emitted, writePushPop, ht, pop, resolveSegmentAddress, segmentMap, CodeWriter.emit,
        List.append_assoc, List.drop_left, List.cons_append, List.nil_append, String.append_assoc,
        if_true, if_false, String.reduceEq, or_false, or_true, false_or, apply_ite (fun s : String => "@" ++ s),
        addressOperands_at, addressOperands_comment, addressOperands_SP, addressOperands_R13,
        addressOperands_D_eq_A, addressOperands_D_eq_M, addressOperands_A_eq_D_plus_A,
        addressOperands_A_eq_M, addressOperands_M_eq_D, addressOperands_M_eq_M_plus_1,
        addressOperands_AM_eq_M_minus_1, addressOperands_nil]
      try split_ifs
      all_goals
        intro op hop
        simp only [addressOperands_at, addressOperands_comment, addressOperands_SP, addressOperands_R13,
          addressOperands_D_eq_A, addressOperands_D_eq_M, addressOperands_A_eq_D_plus_A,
          addressOperands_A_eq_M, addressOperands_M_eq_D, addressOperands_M_eq_M_plus_1,
          addressOperands_AM_eq_M_minus_1, addressOperands_nil, List.mem_cons, List.mem_singleton, List.not_mem_nil, or_false] at hop
        simp only [List.mem_cons, List.mem_singleton, List.not_mem_nil, or_false]
        tauto

end VMTranslator
namespace VMTranslator
open CommandType

/-- C19, as stated, fails for `pop constant`: `pop` hands the segment to `resolveSegmentAddress`,
whose table has no entry for `constant`, so the first A-instruction emitted is `@` with an empty
operand. -/
theorem C19_pop_constant_counterexample :
    emitted (writePushPop C_POP "constant" 7) CodeWriter.init =
      ["// pop constant 7", "@", "D=M", "@7", "A=D+A", "D=A", "@R13", "M=D", "@SP", "AM=M-1",
        "D=M", "@R13", "A=M", "M=D"] ∧
    addressOperands (emitted (writePushPop C_POP "constant" 7) CodeWriter.init) =
      ["", "7", "R13", "SP", "R13"] ∧
    Hack.isNumeral "" = false ∧ isSymbolName "" = false := by
  refine ⟨by rfl, by rfl, by rfl, by rfl⟩

/-- C19, amended: for each of the eight segment names and every index `i >= 0`, every line
beginning with `@` that `writePushPop` emits for `push`, and for `pop` on the seven segments
other than `constant`, has a non-empty operand; the operand is a non-negative decimal number or a
symbol name of the Hack assembly language whenever the current module name is made of symbol
characters and does not begin with a digit (the static symbol is `filename.i`). -/
theorem C19_address_operands (t : CommandType) (seg : String) (i : Int) (w : CodeWriter)
    (hseg : seg ∈ ["constant", "local", "argument", "this", "that", "temp", "pointer", "static"])
    (hi : 0 ≤ i) (hpc : t = C_PUSH ∨ (t = C_POP ∧ seg ≠ "constant")) :
    (∀ op ∈ addressOperands (emitted (writePushPop t seg i) w), op ≠ "") ∧
    (isSymbolPrefix w.filename = true →
      ∀ op ∈ addressOperands (emitted (writePushPop t seg i) w),
        Hack.isNumeral op = true ∨ isSymbolName op = true) := by
  obtain ⟨n, rfl⟩ := Int.eq_ofNat_of_zero_le hi
  have hsub := writePushPop_operands t seg (n : Int) w hseg
    (by rcases hpc with h | h
        · exact Or.inl h
        · exact Or.inr h.2)
  have hstat : w.filename ++ ("." ++ decimal (n : Int)) = w.filename ++ "." ++ decimal (n : Int) :=
    (String.append_assoc _ _ _).symm
  constructor
  · intro op hop
    have := hsub op hop
    simp only [List.mem_cons, List.mem_singleton, List.not_mem_nil, or_false] at this
    rcases this with rfl | rfl | rfl | rfl | rfl | rfl | rfl | rfl | rfl | rfl
    all_goals first
      | decide
      | exact decimal_ne_empty _
      | (rw [hstat]; exact static_ne_empty _ _)
  · intro hfile op hop
    have := hsub op hop
    simp only [List.mem_cons, List.mem_singleton, List.not_mem_nil, or_false] at this
    rcases this with rfl | rfl | rfl | rfl | rfl | rfl | rfl | rfl | rfl | rfl
    all_goals first
      | exact Or.inr (by rfl)
      | exact Or.inl (by rfl)
      | exact Or.inl (Hack.isNumeral_decimal n)
      | (rw [hstat]; exact Or.inr (isSymbolName_static _ n hfile))

theorem C19_address_operands_witness :
    "static" ∈ ["constant", "local", "argument", "this", "that", "temp", "pointer", "static"] ∧
    (0 : Int) ≤ 3 ∧ isSymbolPrefix "Main" = true ∧
    addressOperands (emitted (writePushPop C_POP "static" 3) ⟨[], "", "Main", 0⟩) =
      ["SP", "Main.3"] ∧
    ∀ op ∈ addressOperands (emitted (writePushPop C_POP "static" 3) ⟨[], "", "Main", 0⟩),
      op ≠ "" ∧ (Hack.isNumeral op = true ∨ isSymbolName op = true) := by
  have h := C19_address_operands C_POP "static" 3 ⟨[], "", "Main", 0⟩ (by decide) (by decide)
    (Or.inr ⟨rfl, by decide⟩)
  exact ⟨by decide, by decide, by rfl, by rfl, fun op hop => ⟨h.1 op hop, h.2 (by rfl) op hop⟩⟩

end VMTranslator
namespace VMTranslator
open CommandType

/-- C20: a line whose first token is `push`, `pop`, `function` or `call` and that has fewer than
three tokens is not rejected: `arg2` yields `-1` without an error and the driver translates the
line with index or count `-1` (and with the empty string as segment or name when the second token
is missing as well).  So `push constant` emits `@-1`, and `function f` emits the entry
label and no local initialisation. -/
theorem C20_missing_integer_operand (line first : String) (w : CodeWriter)
    (hfirst : (split (cleanLine line)).head? = some first)
    (hkey : first ∈ ["push", "pop", "function", "call"])
    (hlen : (split (cleanLine line)).length < 3) :
    arg2 (split (cleanLine line)) = StoiResult.value (-1) ∧
    translateLine line w =
      some
        (if first = "push" then writePushPop C_PUSH (arg1 (split (cleanLine line))) (-1) w
         else if first = "pop" then writePushPop C_POP (arg1 (split (cleanLine line))) (-1) w
         else if first = "function" then writeFunction (arg1 (split (cleanLine line))) (-1) w
         else writeCall (arg1 (split (cleanLine line))) (-1) w) ∧
    (translateLine "push constant" CodeWriter.init).map (fun w1 => w1.output) =
      some ["// push constant -1", "@-1", "D=A", "@SP", "A=M", "M=D", "@SP", "M=M+1"] ∧
    (translateLine "function f" CodeWriter.init).map (fun w1 => w1.output) =
      some ["// function f -1", "(f)"] := by
  have harg : arg2 (split (cleanLine line)) = StoiResult.value (-1) := by
    generalize split (cleanLine line) = tokens at hlen
    match tokens, hlen with
    | [], _ => rfl
    | [_], _ => rfl
    | [_, _], _ => rfl
    | _ :: _ :: _ :: _, h => exact absurd h (by simp only [List.length_cons]; omega)
  have hne : cleanLine line ≠ [] := by
    intro h
    rw [h] at hfirst
    simp [split, splitAux] at hfirst
  refine ⟨harg, ?_, by rfl, by rfl⟩
  simp only [translateLine, hne, if_false]
  obtain ⟨rest, hrest⟩ : ∃ rest, split (cleanLine line) = first :: rest := by
    cases hs : split (cleanLine line) with
    | nil => rw [hs] at hfirst; simp at hfirst
    | cons a rest =>
      rw [hs] at hfirst
      simp only [List.head?_cons, Option.some.injEq] at hfirst
      exact ⟨rest, by rw [hfirst]⟩
  have hct := commandType_cons first rest
  rw [← hrest] at hct
  simp only [List.mem_cons, List.mem_singleton, List.not_mem_nil, or_false] at hkey
  rcases hkey with rfl | rfl | rfl | rfl
  · have hk : keywordKind "push" = C_PUSH := by rfl
    simp only [dispatch, hct, hk, harg, if_true]
  · have hk : keywordKind "pop" = C_POP := by rfl
    simp only [dispatch, hct, hk, harg, if_true, String.reduceEq, if_false]
  · have hk : keywordKind "function" = C_FUNCTION := by rfl
    simp only [dispatch, hct, hk, harg, if_true, String.reduceEq, if_false]
  · have hk : keywordKind "call" = C_CALL := by rfl
    simp only [dispatch, hct, hk, harg, if_true, String.reduceEq, if_false]

theorem C20_missing_integer_operand_witness :
    (split (cleanLine "pop local  // no index")).head? = some "pop" ∧
    "pop" ∈ ["push", "pop", "function", "call"] ∧
    (split (cleanLine "pop local  // no index")).length < 3 ∧
    arg2 (split (cleanLine "pop local  // no index")) = StoiResult.value (-1) ∧
    translateLine "pop local  // no index" CodeWriter.init =
      some (writePushPop C_POP "local" (-1) CodeWriter.init) := by
  have h := C20_missing_integer_operand "pop local  // no index" "pop" CodeWriter.init
    (by decide) (by decide) (by decide)
  exact ⟨by decide, by decide, by decide, h.1, h.2.1⟩

end VMTranslator
